import Mathlib

/-!
# Oxygen netcore `ConnectionManager`: connection table, receive pipeline, packet queues

Shallow embedding of
`Oxygen/oxygenengine/source/oxygen_netcore/network/ConnectionManager.cpp`.

Conventions of the embedding.

* `uint16` / `uint64` values are natural numbers; every place where the C++ code
  truncates to 16 bits carries an explicit `% 65536`.  `size_t` arithmetic on
  vector sizes is done in `Nat`: a vector of pointers has fewer than `2 ^ 61`
  elements, so `size * 2` and `size * 3` never wrap.
* A `NetConnection*` is a handle (a natural number); the connection objects live
  in a heap `Nat → NetConnection` next to the manager, because `addConnection`
  writes the connection's local id and the rehash reads it back through the
  pointer.
* `std::unordered_map<K, V*>` is an association list; `std::vector<NetConnection*>`
  is a `List (Option Nat)` (`none` is `nullptr`); `std::deque` is a `List`.
* The socket is the list of results its next `receiveNonBlocking` calls will
  give; once the list is used up the socket reports "no data".
-/

/-! ## Data model -/

/-- The fields of a `NetConnection` that `ConnectionManager.cpp` reads or writes:
`mLocalConnectionID`, the value of `getRemoteConnectionID()` and the value of
`getSenderKey()`. -/
structure NetConnection where
  mLocalConnectionID : Nat
  mRemoteConnectionID : Nat
  mSenderKey : Nat
deriving DecidableEq, Repr

/-- The heap of connection objects, addressed by handle. -/
abbrev ConnectionHeap := Nat → NetConnection

/-- Association-list model of `std::unordered_map<key, NetConnection*>`. -/
abbrev UnorderedMap := List (Nat × Nat)

namespace UnorderedMap

/-- Model of `find`: the value stored under `k`, `none` for `end()`. -/
def find : UnorderedMap → Nat → Option Nat
  | [], _ => none
  | (k', v) :: rest, k => if k' = k then some v else find rest k

/-- Model of `erase(k)`. -/
def erase : UnorderedMap → Nat → UnorderedMap
  | [], _ => []
  | (k', v) :: rest, k => if k' = k then erase rest k else (k', v) :: erase rest k

/-- Model of `map[k] = v`: insert or overwrite. -/
def assign (m : UnorderedMap) (k v : Nat) : UnorderedMap :=
  (k, v) :: erase m k

/-- Model of `size()`. -/
def size (m : UnorderedMap) : Nat := m.length

/-- The keys of the map, in storage order. -/
def keys (m : UnorderedMap) : List Nat := m.map Prod.fst

end UnorderedMap

/-- A pooled `ReceivedPacket`.  `mDump` is `true` once `initializeWithDump` has set
the dump pointer to the manager's `mToBeReturned` list (the only dump the manager
ever passes). -/
structure ReceivedPacket where
  mContent : List Nat
  mLowLevelSignature : Nat
  mSenderAddress : Nat
  mConnection : Option Nat
  mReferenceCounter : Nat
  mDump : Bool
deriving DecidableEq, Repr

/-- A `ReceivedPacket` as the pool first creates it. -/
def ReceivedPacket.blank : ReceivedPacket :=
  { mContent := [], mLowLevelSignature := 0, mSenderAddress := 0, mConnection := none,
    mReferenceCounter := 0, mDump := false }

/-- Modelled from the spec: the object pool `mReceivedPacketPool` (its class is not
part of the sources at hand).  "`rent() -> handle` (never fails by design, grows
backing storage as needed)", "returns to free list"; "the pool does not zero memory
on lease".  `mObjects` is the backing storage, addressed by handle, `mNumObjects`
the number of objects created so far, `mFree` the free list. -/
structure ObjectPool where
  mObjects : Nat → ReceivedPacket
  mNumObjects : Nat
  mFree : List Nat

namespace ObjectPool

/-- Modelled from the spec: `rentObject()` hands out a free object when there is
one (its fields keep their old values) and otherwise creates one more object. -/
def rentObject (p : ObjectPool) : Nat × ObjectPool :=
  match p.mFree with
  | h :: rest => (h, { p with mFree := rest })
  | [] => (p.mNumObjects, { p with mNumObjects := p.mNumObjects + 1 })

/-- Modelled from the spec: `returnObject(obj)` puts the object back on the free
list. -/
def returnObject (p : ObjectPool) (h : Nat) : ObjectPool :=
  { p with mFree := h :: p.mFree }

/-- Number of objects currently rented out. -/
def rentedCount (p : ObjectPool) : Nat := p.mNumObjects - p.mFree.length

/-- Overwrite the object behind handle `h`. -/
def write (p : ObjectPool) (h : Nat) (obj : ReceivedPacket) : ObjectPool :=
  { p with mObjects := fun x => if x = h then obj else p.mObjects x }

end ObjectPool

/-- The member `mReceivedPackets`: worker queue, synced queue and the list of
packets to be returned to the pool (`mToBeReturned.mPackets`). -/
structure ReceivedPackets where
  mWorkerQueue : List Nat
  mSyncedQueue : List Nat
  mToBeReturned : List Nat
deriving DecidableEq, Repr

/-- The state of a `ConnectionManager` (the socket and the listener are external). -/
structure ConnectionManager where
  mActiveConnections : UnorderedMap
  mActiveConnectionsLookup : List (Option Nat)
  mBitmaskForActiveConnectionsLookup : Nat
  mConnectionsBySender : UnorderedMap
  mReceivedPackets : ReceivedPackets
  mReceivedPacketPool : ObjectPool

/-- A manager together with the connection objects it points to. -/
structure System where
  manager : ConnectionManager
  connections : ConnectionHeap

namespace ConnectionManager

/-! ## Connection table -/

/-- The constructor: empty maps, a lookup array of 8 null entries, bitmask 7. -/
def fresh : ConnectionManager :=
  { mActiveConnections := []
    mActiveConnectionsLookup := List.replicate 8 none
    mBitmaskForActiveConnectionsLookup := (8 - 1) % 65536
    mConnectionsBySender := []
    mReceivedPackets := { mWorkerQueue := [], mSyncedQueue := [], mToBeReturned := [] }
    mReceivedPacketPool :=
      { mObjects := fun _ => ReceivedPacket.blank, mNumObjects := 0, mFree := [] } }

/-- Model of `std::vector::resize(n)` on a vector of pointers. -/
def resize (l : List (Option Nat)) (n : Nat) : List (Option Nat) :=
  (l ++ List.replicate (n - l.length) none).take n

/-- Read `mActiveConnectionsLookup[i]`. -/
def slot (l : List (Option Nat)) (i : Nat) : Option Nat := l.getD i none

/-- The lookup `mActiveConnectionsLookup[localConnectionID & mBitmaskForActiveConnectionsLookup]`
(the index is a `uint16`). -/
def lookupConnection (m : ConnectionManager) (localConnectionID : Nat) : Option Nat :=
  slot m.mActiveConnectionsLookup
    ((localConnectionID &&& m.mBitmaskForActiveConnectionsLookup) % 65536)

/-- The loop "move all entries whose index does not fit any more" of
`getFreeLocalConnectionID`: `n` iterations are left, `k` is the loop counter. -/
def rehash (conns : ConnectionHeap) (mask : Nat) : Nat → Nat → List (Option Nat) → List (Option Nat)
  | 0, _, l => l
  | n + 1, k, l =>
    match slot l k with
    | none => rehash conns mask n (k + 1) l
    | some foundConnection =>
      let newIndex := ((conns foundConnection).mLocalConnectionID &&& mask) % 65536
      if newIndex ≠ k then
        rehash conns mask n (k + 1) ((l.set newIndex (some foundConnection)).set k none)
      else
        rehash conns mask n (k + 1) l

/-- The test "not filled by more than 75%" at the head of
`getFreeLocalConnectionID`: whether the call takes its resize branch in state `m`. -/
def grows (m : ConnectionManager) : Prop :=
  m.mActiveConnections.size + 1 ≥ m.mActiveConnectionsLookup.length * 3 / 4

instance (m : ConnectionManager) : Decidable (grows m) := by
  unfold grows; infer_instance

/-- The resize branch of `getFreeLocalConnectionID`, taken or not. -/
def growLookup (m : ConnectionManager) (conns : ConnectionHeap) : ConnectionManager :=
  if grows m then
    let oldSize := m.mActiveConnectionsLookup.length
    let newSize := max (m.mActiveConnectionsLookup.length * 2) 32
    let resized := resize m.mActiveConnectionsLookup newSize
    let mask := (resized.length - 1) % 65536
    { m with
      mActiveConnectionsLookup := rehash conns mask oldSize 0 resized
      mBitmaskForActiveConnectionsLookup := mask }
  else m

/-- The probing loop of `getFreeLocalConnectionID`: `n` tries are left. -/
def probe (l : List (Option Nat)) (mask : Nat) : Nat → Nat → Nat
  | 0, _ => 0
  | n + 1, localConnectionID =>
    if localConnectionID ≠ 0 ∧ slot l ((localConnectionID &&& mask) % 65536) = none then
      localConnectionID
    else
      probe l mask n ((localConnectionID + 1) % 65536)

/-- The random start candidate `(rand() & 0xff) + ((rand() & 0xff) << 8)` as a
`uint16`; `r1`, `r2` are the two values returned by `rand()`. -/
def candidate (r1 r2 : Nat) : Nat :=
  ((r1 &&& 0xff) + ((r2 &&& 0xff) <<< 8)) % 65536

/-- `getFreeLocalConnectionID`: the id returned and the manager afterwards. -/
def getFreeLocalConnectionID (m : ConnectionManager) (conns : ConnectionHeap) (r1 r2 : Nat) :
    Nat × ConnectionManager :=
  let m1 := growLookup m conns
  (probe m1.mActiveConnectionsLookup m1.mBitmaskForActiveConnectionsLookup
      m1.mActiveConnectionsLookup.length (candidate r1 r2), m1)

/-- Write the field `mLocalConnectionID` of the connection object `c`. -/
def setLocalConnectionID (conns : ConnectionHeap) (c id : Nat) : ConnectionHeap :=
  fun x => if x = c then { conns x with mLocalConnectionID := id } else conns x

/-- `addConnection(connection)`; `r1`, `r2` are the values of the two `rand()` calls. -/
def addConnection (s : System) (c r1 r2 : Nat) : System :=
  let (localConnectionID, m1) := getFreeLocalConnectionID s.manager s.connections r1 r2
  if localConnectionID = 0 then
    { manager := m1, connections := s.connections }
  else
    { manager :=
        { m1 with
          mActiveConnections := m1.mActiveConnections.assign localConnectionID c
          mActiveConnectionsLookup :=
            m1.mActiveConnectionsLookup.set
              ((localConnectionID &&& m1.mBitmaskForActiveConnectionsLookup) % 65536) (some c)
          mConnectionsBySender :=
            m1.mConnectionsBySender.assign (s.connections c).mSenderKey c }
      connections := setLocalConnectionID s.connections c localConnectionID }

/-- `removeConnection(connection)`. -/
def removeConnection (s : System) (c : Nat) : System :=
  let id := (s.connections c).mLocalConnectionID
  { manager :=
      { s.manager with
        mActiveConnections := s.manager.mActiveConnections.erase id
        mActiveConnectionsLookup :=
          s.manager.mActiveConnectionsLookup.set
            ((id &&& s.manager.mBitmaskForActiveConnectionsLookup) % 65536) none
        mConnectionsBySender :=
          s.manager.mConnectionsBySender.erase (s.connections c).mSenderKey }
    connections := s.connections }

/-- `findConnectionTo(senderKey)`. -/
def findConnectionTo (m : ConnectionManager) (senderKey : Nat) : Option Nat :=
  m.mConnectionsBySender.find senderKey

/-- A connection is active when the exact map `mActiveConnections` holds it. -/
def isActive (m : ConnectionManager) (c : Nat) : Prop :=
  ∃ id, m.mActiveConnections.find id = some c

/-- Executable form of `isActive`. -/
def isActiveB (m : ConnectionManager) (c : Nat) : Bool :=
  m.mActiveConnections.any (fun e => e.2 == c)

/-- One call on the connection table. -/
inductive TableCall where
  | add (c r1 r2 : Nat)
  | remove (c : Nat)
deriving DecidableEq, Repr

/-- Perform one call. -/
def step (s : System) : TableCall → System
  | .add c r1 r2 => addConnection s c r1 r2
  | .remove c => removeConnection s c

/-- Perform a sequence of calls, first call first. -/
def run (s : System) : List TableCall → System
  | [] => s
  | call :: rest => run (step s call) rest

/-- The calling discipline: `addConnection` only for a connection that is not
active, `removeConnection` only for an active one. -/
def disciplined (s : System) : List TableCall → Bool
  | [] => true
  | .add c r1 r2 :: rest =>
    !isActiveB s.manager c && disciplined (addConnection s c r1 r2) rest
  | .remove c :: rest =>
    isActiveB s.manager c && disciplined (removeConnection s c) rest

/-- The weaker discipline that only restricts `removeConnection`. -/
def removesActive (s : System) : List TableCall → Bool
  | [] => true
  | .add c r1 r2 :: rest => removesActive (addConnection s c r1 r2) rest
  | .remove c :: rest =>
    isActiveB s.manager c && removesActive (removeConnection s c) rest

/-- Number of non-null entries of the lookup array. -/
def occupied (l : List (Option Nat)) : Nat := l.countP (fun e => e.isSome)

/-- A freshly constructed manager with arbitrary connection objects around it. -/
def start (conns : ConnectionHeap) : System :=
  { manager := fresh, connections := conns }

/-! ## Receive pipeline -/

/-- The reserved low-level signatures `lowlevel::StartConnectionPacket::SIGNATURE`,
`lowlevel::AcceptConnectionPacket::SIGNATURE` and `lowlevel::ErrorPacket::SIGNATURE`.
Their values are declared outside the file at hand, so they are parameters. -/
structure Signatures where
  startConnection : Nat
  acceptConnection : Nat
  error : Nat
deriving DecidableEq, Repr

/-- Byte order of the serializer (the code uses host order). -/
inductive ByteOrder where
  | littleEndian
  | bigEndian
deriving DecidableEq, Repr

/-- Modelled from the spec: `VectorBinarySerializer::read<uint16>()` at read position
`pos` ("all integers fixed-width, byte order must be consistent"); a byte is taken
modulo 256. -/
def read16 (order : ByteOrder) (buffer : List Nat) (pos : Nat) : Nat :=
  match order with
  | .littleEndian => buffer.getD pos 0 % 256 + 256 * (buffer.getD (pos + 1) 0 % 256)
  | .bigEndian => 256 * (buffer.getD pos 0 % 256) + buffer.getD (pos + 1) 0 % 256

/-- `UDPSocket::ReceiveResult`: the datagram and its sender. -/
structure ReceiveResult where
  mBuffer : List Nat
  mSenderAddress : Nat
deriving DecidableEq, Repr

/-- One `receiveNonBlocking` call as the manager sees it: the returned flag, the
receive result, and the outcome of the `DEBUG`-only test
`mReceivingPacketLoss > 0.0f && randomf() < mReceivingPacketLoss` for this
datagram (`false` in a build without `DEBUG` and whenever the loss setting is 0). -/
structure ReceiveAttempt where
  success : Bool
  received : ReceiveResult
  simulatedLoss : Bool
deriving DecidableEq, Repr

/-- The socket: the results of its coming `receiveNonBlocking` calls. -/
abbrev Socket := List ReceiveAttempt

/-- `mSocket.receiveNonBlocking(received)`; an exhausted list is a socket without
data (success, empty buffer). -/
def receiveNonBlocking : Socket → ReceiveAttempt × Socket
  | [] => ({ success := true, received := { mBuffer := [], mSenderAddress := 0 },
             simulatedLoss := false }, [])
  | a :: rest => (a, rest)

/-- The block "store for later evaluation": rent a packet, overwrite its four
fields, append it to the worker queue. -/
def storeReceivedPacket (m : ConnectionManager) (received : ReceiveResult)
    (lowLevelSignature : Nat) (connection : Option Nat) : ConnectionManager :=
  let (h, pool) := m.mReceivedPacketPool.rentObject
  { m with
    mReceivedPacketPool :=
      pool.write h
        { pool.mObjects h with
          mContent := received.mBuffer
          mLowLevelSignature := lowLevelSignature
          mSenderAddress := received.mSenderAddress
          mConnection := connection }
    mReceivedPackets :=
      { m.mReceivedPackets with mWorkerQueue := m.mReceivedPackets.mWorkerQueue ++ [h] } }

/-- Lines 66 to 130: signature check and routing of a datagram that passed the size
and loss tests. -/
def dispatchReceived (sig : Signatures) (order : ByteOrder) (conns : ConnectionHeap)
    (m : ConnectionManager) (received : ReceiveResult) : ConnectionManager :=
  let lowLevelSignature := read16 order received.mBuffer 0
  if lowLevelSignature = sig.startConnection then
    storeReceivedPacket m received lowLevelSignature none
  else
    let remoteConnectionID := read16 order received.mBuffer 2
    let localConnectionID := read16 order received.mBuffer 4
    if localConnectionID = 0 then
      m
    else
      match lookupConnection m localConnectionID with
      | none => m
      | some connection =>
        if (conns connection).mRemoteConnectionID ≠ remoteConnectionID ∧
            lowLevelSignature ≠ sig.acceptConnection then
          m
        else
          storeReceivedPacket m received lowLevelSignature (some connection)

/-- What one loop iteration of `updateReceivePackets` does with a received datagram
(lines 56 to 130): the two `continue` statements leave the manager as it is. -/
def processDatagram (sig : Signatures) (order : ByteOrder) (conns : ConnectionHeap)
    (m : ConnectionManager) (a : ReceiveAttempt) : ConnectionManager :=
  if a.received.mBuffer.length < 6 then m
  else if a.simulatedLoss then m
  else dispatchReceived sig order conns m a.received

/-- The `for` loop of `updateReceivePackets`: `n` iterations are left, `runs` is the
loop counter.  The result is the returned flag, the manager and the socket. -/
def updateReceivePacketsLoop (sig : Signatures) (order : ByteOrder) (conns : ConnectionHeap) :
    Nat → Nat → ConnectionManager → Socket → Bool × ConnectionManager × Socket
  | 0, _, m, socket => (true, m, socket)
  | n + 1, runs, m, socket =>
    let (a, socket1) := receiveNonBlocking socket
    if a.success = false then (false, m, socket1)
    else if a.received.mBuffer.isEmpty then (decide (runs > 0), m, socket1)
    else updateReceivePacketsLoop sig order conns n (runs + 1)
      (processDatagram sig order conns m a) socket1

/-- `updateReceivePackets()`. -/
def updateReceivePackets (sig : Signatures) (order : ByteOrder) (conns : ConnectionHeap)
    (m : ConnectionManager) (socket : Socket) : Bool × ConnectionManager × Socket :=
  updateReceivePacketsLoop sig order conns 10 0 m socket

/-! ## Packet queues -/

/-- The `while` loop of `syncPacketQueues` on (worker queue, synced queue). -/
def syncLoop : List Nat → List Nat → List Nat × List Nat
  | [], synced => ([], synced)
  | front :: worker, synced => syncLoop worker (synced ++ [front])

/-- `syncPacketQueues()`. -/
def syncPacketQueues (m : ConnectionManager) : ConnectionManager :=
  let queues := syncLoop m.mReceivedPackets.mWorkerQueue m.mReceivedPackets.mSyncedQueue
  { m with
    mReceivedPackets :=
      { mWorkerQueue := queues.1, mSyncedQueue := queues.2, mToBeReturned := [] }
    mReceivedPacketPool :=
      m.mReceivedPackets.mToBeReturned.foldl ObjectPool.returnObject m.mReceivedPacketPool }

/-- Modelled from the spec: `ReceivedPacket::initializeWithDump(&mReceivedPackets.mToBeReturned)`,
whose body is outside the file at hand.  "On return it arms the packet's reference
count to 1 and records it as owned until the caller releases it"; the comment at the
call says the same: set the dump, start with a reference count of 1. -/
def initializeWithDump (p : ReceivedPacket) : ReceivedPacket :=
  { p with mReferenceCounter := 1, mDump := true }

/-- `getNextReceivedPacket()`: the returned pointer and the manager afterwards. -/
def getNextReceivedPacket (m : ConnectionManager) : Option Nat × ConnectionManager :=
  match m.mReceivedPackets.mSyncedQueue with
  | [] => (none, m)
  | receivedPacket :: rest =>
    (some receivedPacket,
      { m with
        mReceivedPackets := { m.mReceivedPackets with mSyncedQueue := rest }
        mReceivedPacketPool :=
          m.mReceivedPacketPool.write receivedPacket
            (initializeWithDump (m.mReceivedPacketPool.mObjects receivedPacket)) })

/-- One call on the queue side of the manager; a `receive` call comes with what the
socket delivers during it. -/
inductive QueueCall where
  | receive (socket : Socket)
  | sync
  | getNext
deriving DecidableEq, Repr

/-- What an observer of the queue calls records: the packets accepted by
`updateReceivePackets` (those it appended to the worker queue) and the packets
returned by `getNextReceivedPacket`, both in order of occurrence. -/
structure QueueTrace where
  accepted : List Nat
  returned : List Nat
deriving DecidableEq, Repr

/-- Perform one queue call and extend the trace. -/
def queueStep (sig : Signatures) (order : ByteOrder) (conns : ConnectionHeap)
    (st : ConnectionManager × QueueTrace) : QueueCall → ConnectionManager × QueueTrace
  | .receive socket =>
    let m1 := (updateReceivePackets sig order conns st.1 socket).2.1
    (m1, { st.2 with
      accepted := st.2.accepted ++
        m1.mReceivedPackets.mWorkerQueue.drop st.1.mReceivedPackets.mWorkerQueue.length })
  | .sync => (syncPacketQueues st.1, st.2)
  | .getNext =>
    match getNextReceivedPacket st.1 with
    | (none, m1) => (m1, st.2)
    | (some p, m1) => (m1, { st.2 with returned := st.2.returned ++ [p] })

/-- Perform a sequence of queue calls, first call first. -/
def runQueue (sig : Signatures) (order : ByteOrder) (conns : ConnectionHeap)
    (st : ConnectionManager × QueueTrace) : List QueueCall → ConnectionManager × QueueTrace
  | [] => st
  | call :: rest => runQueue sig order conns (queueStep sig order conns st call) rest

/-! ## Release of received packets -/

/-- A receive attempt that yields a datagram: the call succeeded and the buffer is
not empty. -/
def isDatagram (a : ReceiveAttempt) : Bool :=
  a.success && !a.received.mBuffer.isEmpty

/-- A receive attempt on a socket that has no more data: the call succeeded and the
buffer is empty. -/
def isNoData (a : ReceiveAttempt) : Bool :=
  a.success && a.received.mBuffer.isEmpty

/-- Modelled from the spec: the release of a received packet by its consumer (the
class `ReceivedPacket` is outside the file at hand).  The reference count is
"decremented on each release"; when it reaches zero the packet is placed on the
"pending return" list it was given as its dump, which "holds packets the consumer
has released but whose pool slot has not yet been reclaimed". -/
def releasePacket (m : ConnectionManager) (p : Nat) : ConnectionManager :=
  let obj := m.mReceivedPacketPool.mObjects p
  let count := obj.mReferenceCounter - 1
  let pool := m.mReceivedPacketPool.write p { obj with mReferenceCounter := count }
  if count = 0 ∧ obj.mDump = true then
    { m with
      mReceivedPacketPool := pool
      mReceivedPackets :=
        { m.mReceivedPackets with
          mToBeReturned := m.mReceivedPackets.mToBeReturned ++ [p] } }
  else
    { m with mReceivedPacketPool := pool }

/-- One cycle of the consumer: `updateReceivePackets`, `syncPacketQueues`,
`getNextReceivedPacket`, release of the packet it returned (if any),
`syncPacketQueues`. -/
def packetCycle (sig : Signatures) (order : ByteOrder) (conns : ConnectionHeap)
    (m : ConnectionManager) (socket : Socket) : ConnectionManager :=
  let m2 := syncPacketQueues (updateReceivePackets sig order conns m socket).2.1
  match getNextReceivedPacket m2 with
  | (none, m3) => syncPacketQueues m3
  | (some p, m3) => syncPacketQueues (releasePacket m3 p)

/-- Repeat the cycle, once for each socket behaviour of the list. -/
def runCycles (sig : Signatures) (order : ByteOrder) (conns : ConnectionHeap) :
    ConnectionManager → List Socket → ConnectionManager
  | m, [] => m
  | m, socket :: rest =>
    runCycles sig order conns (packetCycle sig order conns m socket) rest

/-- Every `updateReceivePackets` call of the repeated cycle accepts at most one
packet, the one the cycle then reads and releases. -/
def oneAtATime (sig : Signatures) (order : ByteOrder) (conns : ConnectionHeap) :
    ConnectionManager → List Socket → Bool
  | _, [] => true
  | m, socket :: rest =>
    decide ((updateReceivePackets sig order conns m socket).2.1.mReceivedPackets.mWorkerQueue.length
        ≤ m.mReceivedPackets.mWorkerQueue.length + 1) &&
      oneAtATime sig order conns (packetCycle sig order conns m socket) rest

/-! ## Send path -/

/-- A `lowlevel::PacketBase` as `sendConnectionlessLowLevelPacket` sees it: the value
of `getSignature()` and the bytes that `serializePacket` writes for a given protocol
version. -/
structure PacketBase where
  signature : Nat
  body : Nat → List Nat

/-- The two bytes of a `uint16` in the serializer's byte order. -/
def bytes16 (order : ByteOrder) (value : Nat) : List Nat :=
  match order with
  | .littleEndian => [value % 256, value / 256 % 256]
  | .bigEndian => [value / 256 % 256, value % 256]

/-- Modelled from the spec: `VectorBinarySerializer::write(uint16)` in write mode
appends the two bytes of the value to the buffer ("all integers fixed-width, byte
order must be consistent"). -/
def write16 (order : ByteOrder) (buffer : List Nat) (value : Nat) : List Nat :=
  buffer ++ bytes16 order value

/-- Modelled from the spec: `lowLevelPacket.serializePacket(serializer, version)`
writes "the packet's own body via its own serialization routine" behind what the
buffer already holds. -/
def serializePacket (p : PacketBase) (buffer : List Nat) (version : Nat) : List Nat :=
  buffer ++ p.body version

/-- `sendPacketData(data, remoteAddress)`.  `sendData` is the socket's send
primitive, `simulatedLoss` the outcome of the `DEBUG`-only test
`mSendingPacketLoss > 0.0f && randomf() < mSendingPacketLoss` (`false` in a build
without `DEBUG`). -/
def sendPacketData (sendData : List Nat → Nat → Bool) (simulatedLoss : Bool)
    (data : List Nat) (remoteAddress : Nat) : Bool :=
  if simulatedLoss then true else sendData data remoteAddress

/-- The buffer that `sendConnectionlessLowLevelPacket` builds in its static
`sendBuffer`, whose content from the previous call is `stale`; `minVersion` is
`lowlevel::PacketBase::LOWLEVEL_PROTOCOL_VERSIONS.mMinimum`. -/
def connectionlessBuffer (order : ByteOrder) (minVersion : Nat) (stale : List Nat)
    (lowLevelPacket : PacketBase) (localConnectionID remoteConnectionID : Nat) : List Nat :=
  let sendBuffer := stale.take 0
  let sendBuffer := write16 order sendBuffer lowLevelPacket.signature
  let sendBuffer := write16 order sendBuffer localConnectionID
  let sendBuffer := write16 order sendBuffer remoteConnectionID
  serializePacket lowLevelPacket sendBuffer minVersion

/-- `sendConnectionlessLowLevelPacket(lowLevelPacket, remoteAddress, localConnectionID,
remoteConnectionID)`. -/
def sendConnectionlessLowLevelPacket (order : ByteOrder) (minVersion : Nat)
    (sendData : List Nat → Nat → Bool) (simulatedLoss : Bool) (stale : List Nat)
    (lowLevelPacket : PacketBase) (remoteAddress localConnectionID remoteConnectionID : Nat) :
    Bool :=
  sendPacketData sendData simulatedLoss
    (connectionlessBuffer order minVersion stale lowLevelPacket localConnectionID
      remoteConnectionID)
    remoteAddress

/-! ## Sender keys -/

/-- The sender keys of the active connections, one for each entry of
`mActiveConnections`. -/
def activeSenderKeys (s : System) : List Nat :=
  s.manager.mActiveConnections.map (fun e => (s.connections e.2).mSenderKey)

/-- The active connections have pairwise distinct sender keys after every call of the
sequence. -/
def distinctKeysAlong (s : System) : List TableCall → Bool
  | [] => true
  | call :: rest =>
    decide (activeSenderKeys (step s call)).Nodup && distinctKeysAlong (step s call) rest

/-! ## Exhausting the id space -/

/-- The calls `addConnection` for the connections `k + 1`, ..., `k + n`, where the two
`rand()` values of each call make the connection's own handle the start candidate. -/
def addsFrom : Nat → Nat → List TableCall
  | _, 0 => []
  | k, n + 1 => .add (k + 1) ((k + 1) % 256) ((k + 1) / 256) :: addsFrom (k + 1) n

/-- The registration of 65535 connections, one for every valid local id. -/
def saturatingCalls : List TableCall := addsFrom 0 65535

/-! ## The socket with its send side -/

/-- The socket `mSocket` as both of its primitives see it: `pending` holds the results
of the coming `receiveNonBlocking` calls, `sent` the datagrams handed to `sendData` so
far (data and remote address), oldest first. -/
structure UDPSocket where
  pending : Socket
  sent : List (List Nat × Nat)

/-- `sendPacketData(data, remoteAddress)` on the recorded socket; `delivered` is the flag
that `mSocket.sendData` returns.  A datagram hit by the simulated sending loss is not
handed to the socket. -/
def sendPacketDataOn (socket : UDPSocket) (simulatedLoss delivered : Bool)
    (data : List Nat) (remoteAddress : Nat) : Bool × UDPSocket :=
  if simulatedLoss then (true, socket)
  else (delivered, { socket with sent := socket.sent ++ [(data, remoteAddress)] })

/-- `updateReceivePackets()` on the recorded socket.  The body of the function reaches
`mSocket` through `receiveNonBlocking` alone: the places where a reply could be sent
are comments (lines 103 to 108 and 115 to 116). -/
def updateReceivePacketsOn (sig : Signatures) (order : ByteOrder) (conns : ConnectionHeap)
    (m : ConnectionManager) (socket : UDPSocket) : Bool × ConnectionManager × UDPSocket :=
  let result := updateReceivePackets sig order conns m socket.pending
  (result.1, result.2.1, { socket with pending := result.2.2 })

/-! ## Calls on the table and on the queues together -/

/-- One call on the manager: the calls on the connection table and the calls on the
packet queues; a `receive` call comes with what the socket delivers during it. -/
inductive ManagerCall where
  | add (c r1 r2 : Nat)
  | remove (c : Nat)
  | receive (socket : Socket)
  | sync
  | getNext
deriving DecidableEq, Repr

/-- What an observer of the manager calls records: the connections that a successful
`addConnection` registered and the packets that `getNextReceivedPacket` returned, both
in order of occurrence. -/
structure ManagerTrace where
  registered : List Nat
  returned : List Nat
deriving DecidableEq, Repr

/-- Perform one manager call and extend the trace. -/
def managerStep (sig : Signatures) (order : ByteOrder) (st : System × ManagerTrace) :
    ManagerCall → System × ManagerTrace
  | .add c r1 r2 =>
    (addConnection st.1 c r1 r2,
      if (getFreeLocalConnectionID st.1.manager st.1.connections r1 r2).1 = 0 then st.2
      else { st.2 with registered := st.2.registered ++ [c] })
  | .remove c => (removeConnection st.1 c, st.2)
  | .receive socket =>
    ({ st.1 with
        manager := (updateReceivePackets sig order st.1.connections st.1.manager socket).2.1 },
      st.2)
  | .sync => ({ st.1 with manager := syncPacketQueues st.1.manager }, st.2)
  | .getNext =>
    match getNextReceivedPacket st.1.manager with
    | (none, m1) => ({ st.1 with manager := m1 }, st.2)
    | (some p, m1) =>
      ({ st.1 with manager := m1 }, { st.2 with returned := st.2.returned ++ [p] })

/-- Perform a sequence of manager calls, first call first. -/
def runManager (sig : Signatures) (order : ByteOrder) (st : System × ManagerTrace) :
    List ManagerCall → System × ManagerTrace
  | [] => st
  | call :: rest => runManager sig order (managerStep sig order st call) rest

/-- The owning connection `mConnection` of the pooled packet `p`. -/
def owner (m : ConnectionManager) (p : Nat) : Option Nat :=
  (m.mReceivedPacketPool.mObjects p).mConnection

/-! ## Definitions used in the proofs -/

/-- The slot the rehash computes for connection `c` under bitmask `mask`. -/
def target (conns : ConnectionHeap) (mask c : Nat) : Nat :=
  ((conns c).mLocalConnectionID &&& mask) % 65536

/-- Loop invariant of the rehash after `k` iterations: entries below `k` sit at their
target, entries from `k` on are where the resized array `l1` had them. -/
def RehashInv (t : Nat → Nat) (l1 : List (Option Nat)) (k : Nat) (l : List (Option Nat)) :
    Prop :=
  l.length = l1.length ∧ occupied l = occupied l1 ∧
  ∀ j c, slot l j = some c ↔ ∃ i, slot l1 i = some c ∧ ((i < k ∧ j = t c) ∨ (k ≤ i ∧ j = i))

/-- The invariant of the connection table: the array size is a power of two, the
bitmask belongs to it, and the array and the exact map describe the same set of
connections, each at the slot of its own local id. -/
structure TableInv (s : System) : Prop where
  size_pow : ∃ e, 3 ≤ e ∧ s.manager.mActiveConnectionsLookup.length = 2 ^ e
  mask_eq : s.manager.mBitmaskForActiveConnectionsLookup =
    (s.manager.mActiveConnectionsLookup.length - 1) % 65536
  nodup : s.manager.mActiveConnections.keys.Nodup
  entry : ∀ k c, s.manager.mActiveConnections.find k = some c →
    (s.connections c).mLocalConnectionID = k ∧ k ≠ 0 ∧ k < 65536
  slot_iff : ∀ i c, slot s.manager.mActiveConnectionsLookup i = some c ↔
    (s.manager.mActiveConnections.find (s.connections c).mLocalConnectionID = some c ∧
      i = target s.connections s.manager.mBitmaskForActiveConnectionsLookup c)
  count : occupied s.manager.mActiveConnectionsLookup = s.manager.mActiveConnections.size
  load : s.manager.mActiveConnections.size * 4 ≤ s.manager.mActiveConnectionsLookup.length * 3

/-- One accepted datagram: the arguments of a `storeReceivedPacket` step. -/
structure Accepted where
  received : ReceiveResult
  signature : Nat
  connection : Option Nat

/-- Perform the `storeReceivedPacket` steps of a list of accepted datagrams in order. -/
def storeAll : ConnectionManager → List Accepted → ConnectionManager
  | m, [] => m
  | m, item :: rest =>
    storeAll (storeReceivedPacket m item.received item.signature item.connection) rest

/-- The sender map describes the active connections: it maps `k` to `c` exactly when
`c` is active and has sender key `k`. -/
def SenderInv (s : System) : Prop :=
  ∀ k c, s.manager.mConnectionsBySender.find k = some c ↔
    (isActive s.manager c ∧ (s.connections c).mSenderKey = k)

/-- The shape of the lookup array: its size is a power of two, at least 8, and the
bitmask belongs to it.  It holds after any sequence of calls. -/
def Shape (m : ConnectionManager) : Prop :=
  ∃ e, 3 ≤ e ∧ m.mActiveConnectionsLookup.length = 2 ^ e ∧
    m.mBitmaskForActiveConnectionsLookup = (2 ^ e - 1) % 65536

/-- The connections `1`, ..., `k` are registered, each under its own handle as local
id, and no others. -/
def FirstIds (k : Nat) (s : System) : Prop :=
  TableInv s ∧ s.manager.mActiveConnections.size = k ∧
    ∀ i, s.manager.mActiveConnections.find i = if 1 ≤ i ∧ i ≤ k then some i else none

/-- The value that the probing loop of `getFreeLocalConnectionID` tests in its try
number `i` (counted from 0) when it starts at `c`: the candidate is incremented as a
`uint16`; the bitmask is applied to the index only. -/
def probeValue (c i : Nat) : Nat := (c + i) % 65536

/-- The test of the probing loop on a value `v`: `v` is not 0 and its masked slot of
the lookup array is empty. -/
def qualifies (m : ConnectionManager) (v : Nat) : Prop :=
  v ≠ 0 ∧ lookupConnection m v = none

/-- The ids that the `addConnection` calls of a sequence obtain from
`getFreeLocalConnectionID`, in call order (0 for a call that fails). -/
def assignedIds (s : System) : List TableCall → List Nat
  | [] => []
  | .add c r1 r2 :: rest =>
    (getFreeLocalConnectionID s.manager s.connections r1 r2).1 ::
      assignedIds (addConnection s c r1 r2) rest
  | .remove c :: rest => assignedIds (removeConnection s c) rest

/-- The calls `addConnection(c)` for a list of connections, each with the two `rand()`
values its call draws. -/
def registrations (adds : List (Nat × Nat × Nat)) : List TableCall :=
  adds.map (fun t => TableCall.add t.1 t.2.1 t.2.2)

/-- The free list of the pool is in order: it names no object twice and only objects
that the pool has created. -/
def PoolWF (p : ObjectPool) : Prop :=
  p.mFree.Nodup ∧ ∀ h ∈ p.mFree, h < p.mNumObjects

/-- The pooled object `obj` holds the datagram of the receive attempt `a` as a packet
for the table state `m`: the complete buffer, the first 16-bit field as signature, the
sender address, and as connection the entry of the lookup array that the
local-connection-id field selects (null for the start-connection signature). -/
def carries (sig : Signatures) (order : ByteOrder) (m : ConnectionManager)
    (obj : ReceivedPacket) (a : ReceiveAttempt) : Prop :=
  obj.mContent = a.received.mBuffer ∧
  obj.mLowLevelSignature = read16 order a.received.mBuffer 0 ∧
  obj.mSenderAddress = a.received.mSenderAddress ∧
  obj.mConnection =
    (if read16 order a.received.mBuffer 0 = sig.startConnection then none
     else lookupConnection m (read16 order a.received.mBuffer 4))

/-- Invariant of the manager calls from construction: the lookup array holds registered
connections only, nothing has been returned to the pool, and every packet in a queue or
handed out exists and is owned by nobody or by a registered connection. -/
def OwnersInv (st : System × ManagerTrace) : Prop :=
  (∀ i c, slot st.1.manager.mActiveConnectionsLookup i = some c → c ∈ st.2.registered) ∧
  st.1.manager.mReceivedPacketPool.mFree = [] ∧
  st.1.manager.mReceivedPackets.mToBeReturned = [] ∧
  ∀ p, p ∈ st.1.manager.mReceivedPackets.mWorkerQueue ++
      st.1.manager.mReceivedPackets.mSyncedQueue ++ st.2.returned →
    p < st.1.manager.mReceivedPacketPool.mNumObjects ∧
    (owner st.1.manager p = none ∨ ∃ c, c ∈ st.2.registered ∧ owner st.1.manager p = some c)

/-! ## Concrete inputs -/

/-- Connection objects that have never been registered: all fields 0. -/
def idleConnections : ConnectionHeap :=
  fun _ => { mLocalConnectionID := 0, mRemoteConnectionID := 0, mSenderKey := 0 }

/-- Three registrations and one removal. -/
def sampleCalls : List TableCall :=
  [.add 1 1 0, .add 2 9 0, .remove 1, .add 3 1 0]

/-- Five registrations: the next `getFreeLocalConnectionID` grows the array. -/
def fiveAdds : List TableCall :=
  [.add 1 1 0, .add 2 2 0, .add 3 3 0, .add 4 4 0, .add 5 5 0]

/-- A call sequence that registers connections 1 and 2 twice each, removes them
once, lets the array grow and then fills it up; `removeConnection` is only ever
applied to an active connection. -/
def occupancyCalls : List TableCall :=
  [.add 1 1 0, .add 1 2 0, .remove 1, .add 2 3 0, .add 2 4 0, .remove 2,
   .add 3 5 0, .add 4 6 0, .add 5 7 0, .add 6 8 0, .add 7 1 0, .add 8 3 0,
   .add 9 9 0, .add 10 10 0, .add 11 11 0, .add 12 12 0, .add 13 13 0, .add 14 14 0,
   .add 15 15 0, .add 16 16 0, .add 17 17 0, .add 18 18 0, .add 19 19 0, .add 20 20 0,
   .add 21 21 0, .add 22 22 0, .add 23 23 0, .add 24 24 0]

/-- Sample values for the three reserved signatures. -/
def sampleSignatures : Signatures :=
  { startConnection := 0x87a1, acceptConnection := 0x1b22, error := 0xf584 }

/-- A manager with one registered connection: handle 1, local id 5, remote id 0,
in the 8-slot array. -/
def oneConnection : System := run (start idleConnections) [.add 1 5 0]

/-- A 6-byte datagram (little endian) with signature 4, remote connection id 0 and
local connection id 13; 13 and 5 share the slot `13 & 7 = 5`. -/
def aliasedDatagram : ReceiveAttempt :=
  { success := true
    received := { mBuffer := [4, 0, 0, 0, 13, 0], mSenderAddress := 77 }
    simulatedLoss := false }

/-- A 6-byte datagram (little endian) with signature 4, remote connection id 0 and
local connection id 5, hit by the simulated receive loss of a `DEBUG` build. -/
def lostDatagram : ReceiveAttempt :=
  { success := true
    received := { mBuffer := [4, 0, 0, 0, 5, 0], mSenderAddress := 77 }
    simulatedLoss := true }

/-- The same datagram without simulated loss. -/
def matchingDatagram : ReceiveAttempt :=
  { success := true
    received := { mBuffer := [4, 0, 0, 0, 5, 0], mSenderAddress := 77 }
    simulatedLoss := false }

/-- A datagram addressed to local connection id 6, which no slot holds. -/
def strayDatagram : ReceiveAttempt :=
  { success := true
    received := { mBuffer := [4, 0, 0, 0, 6, 0], mSenderAddress := 77 }
    simulatedLoss := false }

/-- A 4-byte datagram. -/
def shortDatagram : ReceiveAttempt :=
  { success := true
    received := { mBuffer := [9, 9, 9, 9], mSenderAddress := 77 }
    simulatedLoss := false }

/-- A 10-byte datagram (little endian) with the start-connection signature of
`sampleSignatures`. -/
def startDatagram : ReceiveAttempt :=
  { success := true
    received := { mBuffer := [0xa1, 0x87, 1, 2, 3, 4, 5, 6, 7, 8], mSenderAddress := 77 }
    simulatedLoss := false }

/-- A sequence of queue calls: two receive calls, syncs and reads in between. -/
def sampleQueueCalls : List QueueCall :=
  [.receive [startDatagram, shortDatagram], .getNext, .sync, .receive [matchingDatagram],
   .getNext, .getNext, .sync, .getNext]

/-- The start-connection datagram hit by the simulated receive loss of a `DEBUG`
build. -/
def lostStartDatagram : ReceiveAttempt :=
  { success := true
    received := { mBuffer := [0xa1, 0x87, 1, 2, 3, 4, 5, 6, 7, 8], mSenderAddress := 77 }
    simulatedLoss := true }

/-- A receive attempt on a socket without data. -/
def noDataAttempt : ReceiveAttempt :=
  { success := true, received := { mBuffer := [], mSenderAddress := 0 }, simulatedLoss := false }

/-- Three consumer cycles: a handshake datagram, a datagram that is dropped, a
datagram for the registered connection. -/
def sampleCycles : List Socket :=
  [[startDatagram], [shortDatagram], [matchingDatagram]]

/-- Connection objects with pairwise distinct sender keys: connection `c` has sender
key `100 + c`. -/
def keyedConnections : ConnectionHeap :=
  fun c => { mLocalConnectionID := 0, mRemoteConnectionID := 0, mSenderKey := 100 + c }

/-- A 6-byte datagram (little endian) with the error signature of `sampleSignatures`,
remote connection id 7 and local connection id 0. -/
def zeroIdErrorDatagram : ReceiveAttempt :=
  { success := true
    received := { mBuffer := [0x84, 0xf5, 7, 0, 0, 0], mSenderAddress := 77 }
    simulatedLoss := false }

/-- A receive attempt for which the socket reports failure. -/
def failedAttempt : ReceiveAttempt :=
  { success := false, received := { mBuffer := [], mSenderAddress := 0 }, simulatedLoss := false }

/-- Five connections with the `rand()` values of their registration. -/
def fiveConnections : List (Nat × Nat × Nat) :=
  [(1, 1, 0), (2, 2, 0), (3, 3, 0), (4, 4, 0), (5, 5, 0)]

/-- One registration whose start candidate is 8: the connection gets local id 8 and
slot `8 & 7 = 0` of the 8-slot array. -/
def slotZeroCalls : List TableCall := [.add 1 8 0]


/-- Connection 1 is registered twice (ids 1 and 2) and removed once, which leaves its
first entry (key 1, slot 1) behind while the connection object keeps the id 2; then
connections 2 to 5 are registered, connection 2 under the id 2.  `removeConnection` is
only applied to an active connection. -/
def staleCalls : List TableCall :=
  [.add 1 1 0, .add 1 2 0, .remove 1, .add 2 2 0, .add 3 3 0, .add 4 4 0, .add 5 5 0]

/-- The first four calls of `staleCalls`. -/
def staleRemoveCalls : List TableCall :=
  [.add 1 1 0, .add 1 2 0, .remove 1, .add 2 2 0]

/-- Two registrations, the first under the id 8 (slot 0 of the 8-slot array), and
`removeConnection` of connection 7, which was never registered and has the id 0. -/
def strayRemoveTwo : List TableCall :=
  [.add 1 8 0, .add 2 2 0, .remove 7]

/-- Five registrations, the first under the id 8 (slot 0 of the 8-slot array), and
`removeConnection` of connection 7, which was never registered and has the id 0.
`addConnection` is only applied to connections that are not active. -/
def strayRemoveCalls : List TableCall :=
  [.add 1 8 0, .add 2 2 0, .add 3 3 0, .add 4 4 0, .add 5 5 0, .remove 7]

/-- Five registrations under the ids 9, 10, 3, 12 and 21: in the 8-slot array they
take the slots 1 to 5, in the 32-slot array the slots 9, 10, 3, 12 and 21. -/
def movingAdds : List TableCall :=
  [.add 1 9 0, .add 2 10 0, .add 3 3 0, .add 4 12 0, .add 5 21 0]

/-- The manager of `oneConnection` after a receive call that accepted a handshake
packet and a packet for connection 1: both wait in the worker queue. -/
def waitingPackets : ConnectionManager :=
  (updateReceivePackets sampleSignatures .littleEndian oneConnection.connections
    oneConnection.manager [startDatagram, matchingDatagram]).2.1

/-- The manager `waitingPackets` after `syncPacketQueues`, `getNextReceivedPacket` and
the release of the packet returned: packet 0 is on the to-be-returned list, packet 1
waits in the synced queue. -/
def releasedPacket : ConnectionManager :=
  releasePacket (getNextReceivedPacket (syncPacketQueues waitingPackets)).2 0

/-- Cycles whose receive call finds two handshake datagrams on the socket, `n` of
them. -/
def twoPacketCycles (n : Nat) : List Socket :=
  List.replicate n [startDatagram, startDatagram]

/-- Two registrations of connections with the same sender key (0 for both). -/
def sameKeyCalls : List TableCall := [.add 1 1 0, .add 2 2 0]

/-- Connection 1 is registered under id 5, a datagram for it is received, and the
connection is removed while the packet waits in the worker queue. -/
def orphaningCalls : List ManagerCall :=
  [.add 1 5 0, .receive [matchingDatagram], .remove 1]

/-- A longer sequence of manager calls with a handshake packet and a packet for
connection 1 that pass through both queues. -/
def sampleManagerCalls : List ManagerCall :=
  [.add 1 5 0, .receive [startDatagram, matchingDatagram], .sync, .getNext, .remove 1,
   .getNext, .add 2 6 0]

end ConnectionManager

/-! ## `UpdateCheck`: the client's update query

Shallow embedding of `Oxygen/soncthrickles/source/sonic3air/client/UpdateCheck.cpp`.
The clock `mGameClient.getCurrentTimestamp()` is read by `startUpdateCheck` and by
`performUpdate`; each of these calls comes with the value the clock gives during it, in
milliseconds.  Timestamps are `uint64` values, as `currentTimestamp` is in
`ConnectionManager::updateConnections`: a clock value is a natural number below
`2 ^ 64`, and the sum in `startUpdateCheck` is taken modulo `2 ^ 64`. -/

namespace UpdateCheck

/-- The values of `UpdateCheck::State` that the file names. -/
inductive State where
  | INACTIVE
  | READY_TO_START
  | SEND_QUERY
  | WAITING_FOR_RESPONSE
  | HAS_RESPONSE
  | FAILED
deriving DecidableEq, Repr

/-- The fields of `network::AppUpdateCheckRequest::Query` that `performUpdate` fills. -/
structure Query where
  mAppName : String
  mPlatform : String
  mReleaseChannel : String
  mInstalledAppVersion : Nat
  mInstalledContentVersion : Nat
deriving DecidableEq, Repr

/-- What the build fixes: the result of `getPlatformName()` and `BUILD_NUMBER`. -/
structure Build where
  platformName : String
  buildNumber : Nat
deriving DecidableEq, Repr

end UpdateCheck

/-- The state of an `UpdateCheck`: `mState`, `mLastUpdateCheckTimestamp` and the query
stored in `mAppUpdateCheckRequest` (none before the first query). -/
structure UpdateCheck where
  mState : UpdateCheck.State
  mLastUpdateCheckTimestamp : Nat
  mQuery : Option UpdateCheck.Query
deriving DecidableEq, Repr

namespace UpdateCheck

/-- A query handed to `sendRequest`, with the clock value of the call that sent it. -/
structure SentQuery where
  timestamp : Nat
  query : Query
deriving DecidableEq, Repr

/-- One entry of `request.mResponse.mFeatures`: the identifier and the result of
`mVersions.contains(v)` for each `v`. -/
structure Feature where
  mIdentifier : String
  mVersions : Nat → Bool

/-- `startUpdateCheck()`; `now` is the value of `getCurrentTimestamp()`.  The sum
`mLastUpdateCheckTimestamp + 60 * 1000` is an `uint64` sum. -/
def startUpdateCheck (u : UpdateCheck) (now : Nat) : UpdateCheck :=
  if u.mState ≠ State.READY_TO_START then u
  else if now < (u.mLastUpdateCheckTimestamp + 60 * 1000) % 2 ^ 64 then u
  else { u with mState := State.SEND_QUERY }

/-- `performUpdate()`: the state afterwards and the queries handed to `sendRequest`
during the call.  `now` is the value of `getCurrentTimestamp()`, `hasResponse` and
`hasError` are the results of the request's methods of these names. -/
def performUpdate (build : Build) (u : UpdateCheck) (now : Nat) (hasResponse hasError : Bool) :
    UpdateCheck × List SentQuery :=
  if u.mState = State.INACTIVE then (u, [])
  else
    match u.mState with
    | State.SEND_QUERY =>
      let query : Query :=
        { mAppName := "sonic3air"
          mPlatform := build.platformName
          mReleaseChannel := "test"
          mInstalledAppVersion := build.buildNumber
          mInstalledContentVersion := build.buildNumber }
      ({ mState := State.WAITING_FOR_RESPONSE
         mLastUpdateCheckTimestamp := now
         mQuery := some query },
        [{ timestamp := now, query := query }])
    | State.WAITING_FOR_RESPONSE =>
      if hasResponse then
        if hasError then ({ u with mState := State.FAILED }, [])
        else ({ u with mState := State.HAS_RESPONSE }, [])
      else (u, [])
    | _ => (u, [])

/-- The loop of `evaluateServerFeaturesResponse` over the features: whether one of them
is `app-update-check` in a version range that contains 1. -/
def supportsUpdate (features : List Feature) : Bool :=
  features.foldl
    (fun supports feature =>
      if feature.mIdentifier = "app-update-check" ∧ feature.mVersions 1 = true then true
      else supports)
    false

/-- `evaluateServerFeaturesResponse(request)`. -/
def evaluateServerFeaturesResponse (u : UpdateCheck) (features : List Feature) : UpdateCheck :=
  if supportsUpdate features then
    if u.mState = State.INACTIVE then { u with mState := State.READY_TO_START } else u
  else { u with mState := State.INACTIVE }

/-- One call on the update check. -/
inductive Call where
  | startUpdateCheck (now : Nat)
  | performUpdate (now : Nat) (hasResponse hasError : Bool)
  | evaluateServerFeaturesResponse (features : List Feature)

/-- Perform one call: the state afterwards and the queries sent during the call. -/
def step (build : Build) (u : UpdateCheck) : Call → UpdateCheck × List SentQuery
  | .startUpdateCheck now => (startUpdateCheck u now, [])
  | .performUpdate now hasResponse hasError => performUpdate build u now hasResponse hasError
  | .evaluateServerFeaturesResponse features => (evaluateServerFeaturesResponse u features, [])

/-- Perform a sequence of calls, first call first: the final state and all queries sent,
in order. -/
def run (build : Build) (u : UpdateCheck) : List Call → UpdateCheck × List SentQuery
  | [] => (u, [])
  | call :: rest =>
    ((run build (step build u call).1 rest).1,
      (step build u call).2 ++ (run build (step build u call).1 rest).2)

/-- The clock values of the calls that read the clock, in call order. -/
def timestamps : List Call → List Nat
  | [] => []
  | .startUpdateCheck now :: rest => now :: timestamps rest
  | .performUpdate now _ _ :: rest => now :: timestamps rest
  | .evaluateServerFeaturesResponse _ :: rest => timestamps rest


/-- The invariant of the update check between calls: the queries sent so far are
60000 ms apart, the latest one is recorded in `mLastUpdateCheckTimestamp`, no clock
value from now on is below `lo`, and a pending `SEND_QUERY` was granted at least
60000 ms after the latest query. -/
def Spaced (u : UpdateCheck) (sent : List SentQuery) (lo : Nat) : Prop :=
  (sent.map (fun q => q.timestamp)).Chain' (fun a b => a + 60000 ≤ b) ∧
  ∀ q, sent.getLast? = some q →
    u.mLastUpdateCheckTimestamp = q.timestamp ∧ q.timestamp ≤ lo ∧
    (u.mState = State.SEND_QUERY → q.timestamp + 60000 ≤ lo)


/-- An update check as the constructor leaves it: inactive, no query sent yet. -/
def idle : UpdateCheck :=
  { mState := State.INACTIVE, mLastUpdateCheckTimestamp := 0, mQuery := none }

/-- A sample build. -/
def sampleBuild : Build := { platformName := "linux", buildNumber := 22091000 }

/-- A feature list of a server that supports the update check. -/
def supporting : List Feature :=
  [{ mIdentifier := "channels", mVersions := fun v => decide (v = 1) },
   { mIdentifier := "app-update-check", mVersions := fun v => decide (1 ≤ v ∧ v ≤ 2) }]

/-- Two update checks at the end of the `uint64` range: the first query is sent at
`2 ^ 64 - 616`, the second check is started one millisecond later. -/
def wrappingUpdateCalls : List Call :=
  [.evaluateServerFeaturesResponse supporting, .startUpdateCheck 18446744073709551000,
   .performUpdate 18446744073709551000 false false,
   .evaluateServerFeaturesResponse [], .evaluateServerFeaturesResponse supporting,
   .startUpdateCheck 18446744073709551001, .performUpdate 18446744073709551001 false false]

/-- Two update checks, the second one attempted too early at first. -/
def sampleUpdateCalls : List Call :=
  [.evaluateServerFeaturesResponse supporting, .startUpdateCheck 70000,
   .performUpdate 70010 false false, .performUpdate 70500 true false,
   .evaluateServerFeaturesResponse [], .evaluateServerFeaturesResponse supporting,
   .startUpdateCheck 100000, .performUpdate 100010 false false,
   .startUpdateCheck 130010, .performUpdate 130020 false false]

end UpdateCheck

/-! ## `FastStringStream` and `stringformat`

Shallow embedding of the class `FastStringStream` and of `lemon::functions::stringformat`
in `Oxygen/lemonscript/source/lemon/runtime/StandardLibrary.cpp`.

* A `char` is its code, a natural number below 256; a string is the list of its
  characters.
* `mBuffer` is a function of the position.  The positions from `0x100` on lie behind the
  array `char mBuffer[0x100]`: the class has no bounds check, and a write to such a
  position is a write past the array.
* `int64` and `int` values are integers; where the C++ arithmetic can leave the range
  the result is taken modulo `2 ^ 64` or `2 ^ 32` (`wrap64`, `wrap32`).  `/` and `%` on
  signed values round towards zero (`Int.tdiv`, `Int.tmod`).
-/

/-- The state of a `FastStringStream`. -/
structure FastStringStream where
  mBuffer : Nat → Nat
  mLength : Nat

namespace FastStringStream

/-- The value of an `int64` computation, taken modulo `2 ^ 64`. -/
def wrap64 (x : Int) : Int := (x + 2 ^ 63) % 2 ^ 64 - 2 ^ 63

/-- The value of an `int` computation, taken modulo `2 ^ 32`. -/
def wrap32 (x : Int) : Int := (x + 2 ^ 31) % 2 ^ 32 - 2 ^ 31

/-- The conversion of an integer value to `char`, as the code of the character. -/
def toChar (x : Int) : Nat := (x % 256).toNat

/-- `clear()`. -/
def clear (s : FastStringStream) : FastStringStream :=
  { s with mLength := 0 }

/-- `addChar(ch)`. -/
def addChar (s : FastStringStream) (ch : Nat) : FastStringStream :=
  { mBuffer := fun i => if i = s.mLength then ch else s.mBuffer i
    mLength := s.mLength + 1 }

/-- `addString(str, length)` with `str` holding `length` characters: the `memcpy` and
the addition to `mLength`. -/
def addString (s : FastStringStream) (str : List Nat) : FastStringStream :=
  { mBuffer := fun i =>
      if s.mLength ≤ i ∧ i < s.mLength + str.length then str.getD (i - s.mLength) 0
      else s.mBuffer i
    mLength := s.mLength + str.length }

/-- The `while` loop of `addDecimal`: `left` is `19 - numDigits`, so the loop test
`numDigits < 19` is `left ≠ 0`; the result is `digitMax` after the loop. -/
def decimalDigitMax (value minDigits : Int) : Nat → Int → Int
  | 0, digitMax => digitMax
  | left + 1, digitMax =>
    if digitMax ≤ value ∨ ((19 : Int) - (left + 1 : Nat)) < minDigits then
      decimalDigitMax value minDigits left (wrap64 (digitMax * 10))
    else digitMax

/-- The `for` loop of `addDecimal`, with `fuel` iterations at most; 19 are enough for
every `int64` value of `digitBase`. -/
def decimalLoop (value : Int) : Nat → Int → FastStringStream → FastStringStream
  | 0, _, s => s
  | fuel + 1, digitBase, s =>
    if digitBase > 0 then
      decimalLoop value fuel (digitBase.tdiv 10)
        (addChar s (toChar (48 + (value.tdiv digitBase).tmod 10)))
    else s

/-- `addDecimal(value, minDigits)`. -/
def addDecimal (s : FastStringStream) (value minDigits : Int) : FastStringStream :=
  if value < 0 then
    decimalLoop (wrap64 (-value)) 19
      ((decimalDigitMax (wrap64 (-value)) minDigits 18 10).tdiv 10) (addChar s 45)
  else if value = 0 then addChar s 48
  else
    decimalLoop value 19 ((decimalDigitMax value minDigits 18 10).tdiv 10) s

/-- The `while` loop of `addBinary`: `left` is `64 - shift`; the result is `shift` after
the loop. -/
def binaryShift (value : Nat) (minDigits : Int) : Nat → Nat → Nat
  | 0, shift => shift
  | left + 1, shift =>
    if value >>> shift ≠ 0 ∨ (shift : Int) < minDigits then
      binaryShift value minDigits left (shift + 1)
    else shift

/-- The `for` loop of `addBinary`: `count` is `shift + 1`, the number of iterations
left. -/
def binaryLoop (value : Nat) : Nat → FastStringStream → FastStringStream
  | 0, s => s
  | shift + 1, s =>
    binaryLoop value shift (addChar s (if (value >>> shift) &&& 0x01 = 0 then 48 else 49))

/-- `addBinary(value, minDigits)`. -/
def addBinary (s : FastStringStream) (value : Nat) (minDigits : Int) : FastStringStream :=
  binaryLoop value (binaryShift value minDigits 63 1) s

/-- The `while` loop of `addHex`: `left` is `(64 - shift) / 4`; the result is `shift`
after the loop.  `minDigits * 4` is an `int` product. -/
def hexShift (value : Nat) (minDigits : Int) : Nat → Nat → Nat
  | 0, shift => shift
  | left + 1, shift =>
    if value >>> shift ≠ 0 ∨ (shift : Int) < wrap32 (minDigits * 4) then
      hexShift value minDigits left (shift + 4)
    else shift

/-- The character for `hexValue` in the `for` loop of `addHex`. -/
def hexChar (hexValue : Nat) : Nat :=
  if hexValue ≤ 9 then 48 + hexValue else 97 + (hexValue - 10)

/-- The `for` loop of `addHex`: `count` is `shift / 4 + 1`, the number of iterations
left. -/
def hexLoop (value : Nat) : Nat → FastStringStream → FastStringStream
  | 0, s => s
  | k + 1, s => hexLoop value k (addChar s (hexChar ((value >>> (4 * k)) &&& 0x0f)))

/-- `addHex(value, minDigits)`. -/
def addHex (s : FastStringStream) (value : Nat) (minDigits : Int) : FastStringStream :=
  hexLoop value (hexShift value minDigits 15 4 / 4) s

/-- `getStdString()`: the first `mLength` characters of the buffer. -/
def getStdString (s : FastStringStream) : List Nat :=
  (List.range s.mLength).map s.mBuffer

/-- One call of `stringformat` on its stream `result`. -/
inductive StreamCall where
  | addChar (ch : Nat)
  | addString (str : List Nat)
  | addDecimal (value minDigits : Int)
  | addBinary (value : Nat) (minDigits : Int)
  | addHex (value : Nat) (minDigits : Int)
deriving DecidableEq, Repr

/-- Perform one call on the stream. -/
def perform (s : FastStringStream) : StreamCall → FastStringStream
  | .addChar ch => addChar s ch
  | .addString str => addString s str
  | .addDecimal value minDigits => addDecimal s value minDigits
  | .addBinary value minDigits => addBinary s value minDigits
  | .addHex value minDigits => addHex s value minDigits

end FastStringStream

namespace lemon.functions

open FastStringStream

/-- Whether `ch` is one of the number output characters `d`, `b`, `x`. -/
def isNumberOutputCharacter (ch : Nat) : Bool :=
  ch = 100 || ch = 98 || ch = 120

/-- The call on `result` for the number output character `ch`; `arg` is `args[0]`, an
`uint64` that `addDecimal` takes as `int64`. -/
def numberCall (ch arg : Nat) (minDigits : Int) : StreamCall :=
  if ch = 100 then .addDecimal (wrap64 arg) minDigits
  else if ch = 98 then .addBinary arg minDigits
  else .addHex arg minDigits

/-- The branches on the characters behind a `%` when at least two characters are left
(`rest` starts with the `%`): the calls on `result`, `charsRead`, and whether the branch
takes an argument (`++args; --argv`).  `resolve` is `runtime->resolveStringByKey`. -/
def formatSpecifier (resolve : Nat → Option (List Nat)) (rest : List Nat) (args : List Nat) :
    List StreamCall × Nat × Bool :=
  if rest.getD 1 0 = 37 then ([.addChar 37], 1, false)
  else if rest.getD 1 0 = 115 then
    ([.addString ((resolve (args.getD 0 0)).getD [60, 63, 62])], 1, true)
  else if isNumberOutputCharacter (rest.getD 1 0) then
    ([numberCall (rest.getD 1 0) (args.getD 0 0) 0], 1, true)
  else if rest.length ≥ 4 ∧ rest.getD 1 0 = 48 ∧ (49 ≤ rest.getD 2 0 ∧ rest.getD 2 0 ≤ 57) ∧
      isNumberOutputCharacter (rest.getD 3 0) then
    ([numberCall (rest.getD 3 0) (args.getD 0 0) ((rest.getD 2 0 : Int) - 48)], 3, true)
  else if rest.length ≥ 5 ∧ rest.getD 1 0 = 48 ∧ (49 ≤ rest.getD 2 0 ∧ rest.getD 2 0 ≤ 57) ∧
      (48 ≤ rest.getD 3 0 ∧ rest.getD 3 0 ≤ 57) ∧
      isNumberOutputCharacter (rest.getD 4 0) then
    ([numberCall (rest.getD 4 0) (args.getD 0 0)
        (((rest.getD 2 0 : Int) - 48) * 10 + ((rest.getD 3 0 : Int) - 48))], 4, true)
  else ([.addChar 37], 0, false)

/-- One iteration of the `for` loop of `stringformat` with `fmt` the characters from
`fmtPtr` to `fmtEnd` (not empty): the calls on `result` and, unless the iteration ends
with `break`, the characters behind the new `fmtPtr` (`fmtPtr += charsRead` and the
loop's `++fmtPtr`) with the new `argv` and `args`. -/
def formatIteration (resolve : Nat → Option (List Nat)) (fmt : List Nat) (argv : Int)
    (args : List Nat) : List StreamCall × Option (List Nat × Int × List Nat) :=
  if argv ≤ 0 then ([.addString fmt], none)
  else
    let literal := fmt.takeWhile (fun ch => ch ≠ 37)
    let rest := fmt.dropWhile (fun ch => ch ≠ 37)
    let copied : List StreamCall := if literal ≠ [] then [.addString literal] else []
    if rest = [] then (copied, none)
    else if rest.length ≥ 2 then
      let specifier := formatSpecifier resolve rest args
      (copied ++ specifier.1,
        some (rest.drop (specifier.2.1 + 1),
          if specifier.2.2 then argv - 1 else argv,
          if specifier.2.2 then args.drop 1 else args))
    else
      (copied ++ [.addChar 37], some (rest.drop (0 + 1), argv, args))

/-- The `for` loop of `stringformat`, with `fuel` iterations at most: the calls on
`result` in order.  Every iteration moves `fmtPtr` forward, so as many iterations as the
format string has characters are enough. -/
def stringformatLoop (resolve : Nat → Option (List Nat)) :
    Nat → List Nat → Int → List Nat → List StreamCall
  | 0, _, _, _ => []
  | fuel + 1, fmt, argv, args =>
    if fmt = [] then []
    else
      match formatIteration resolve fmt argv args with
      | (calls, none) => calls
      | (calls, some (fmt1, argv1, args1)) =>
        calls ++ stringformatLoop resolve fuel fmt1 argv1 args1

/-- The calls that `stringformat(format, argv, args)` makes on `result` after its
`clear()`. -/
def stringformatCalls (resolve : Nat → Option (List Nat)) (format : List Nat) (argv : Int)
    (args : List Nat) : List StreamCall :=
  stringformatLoop resolve format.length format argv args

/-- The stream `result` at the end of `stringformat(format, argv, args)`; `stale` is
the static stream as the previous call left it. -/
def stringformat (resolve : Nat → Option (List Nat)) (stale : FastStringStream)
    (format : List Nat) (argv : Int) (args : List Nat) : FastStringStream :=
  (stringformatCalls resolve format argv args).foldl perform (clear stale)

end lemon.functions

namespace FastStringStream

/-- The value of a hexadecimal digit character, `0` to `9` or `a` to `f`. -/
def hexDigitValue (ch : Nat) : Nat :=
  if 48 ≤ ch ∧ ch ≤ 57 then ch - 48 else ch - 87

/-- A lowercase hexadecimal digit character. -/
def isLowerHexDigit (ch : Nat) : Prop :=
  (48 ≤ ch ∧ ch ≤ 57) ∨ (97 ≤ ch ∧ ch ≤ 102)

/-- The base-16 value of a text of hexadecimal digits, most significant digit first. -/
def hexValue (text : List Nat) : Nat :=
  text.foldl (fun acc ch => 16 * acc + hexDigitValue ch) 0

/-- The number of significant hexadecimal digits of a value (0 for the value 0). -/
def significantHexDigits (value : Nat) : Nat := (Nat.digits 16 value).length

/-- The largest number of characters that one call on the stream appends. -/
def maxAppended : StreamCall → Nat
  | .addChar _ => 1
  | .addString str => str.length
  | .addDecimal _ _ => 20
  | .addBinary _ _ => 64
  | .addHex _ _ => 16


/-- A stream that has not been used: all characters 0, length 0. -/
def unused : FastStringStream := { mBuffer := fun _ => 0, mLength := 0 }

/-- The characters `%02d`. -/
def twoDigitFormat : List Nat := [37, 48, 50, 100]

/-- The characters `%019d`. -/
def nineteenDigitFormat : List Nat := [37, 48, 49, 57, 100]

/-- The characters `id %04x, %d%% of %s`. -/
def mixedFormat : List Nat :=
  [105, 100, 32, 37, 48, 52, 120, 44, 32, 37, 100, 37, 37, 32, 111, 102, 32, 37, 115]

/-- A format string of 257 characters `a`. -/
def longFormat : List Nat := List.replicate 257 97

/-- A string table that knows no key. -/
def noStrings : Nat → Option (List Nat) := fun _ => none

end FastStringStream

/-! ## `StringLookup`

Shallow embedding of `Oxygen/lemonscript/source/lemon/program/StoredString.cpp`.

* A string is the list of its characters; a hash is an `uint64`, a natural number.
* `mTable[k]` is the list of the entries chained through `mNext`, first entry first;
  the entry pool is not modelled, the entries sit in the lists.
* `HASH_TABLE_SIZE` and `HASH_TABLE_BITMASK` are declared outside the file at hand and
  are parameters, as is the byte format of `VectorBinarySerializer`.
* `mNumEntries` counts in the natural numbers (a process cannot hold `2 ^ 64` entries);
  `serialize` converts it to `uint32`, which is modelled as the value modulo `2 ^ 32`.
-/

/-- A `StoredString`: the string and its hash. -/
structure StoredString where
  mString : List Nat
  mHash : Nat
deriving DecidableEq, Repr

/-- The constants `HASH_TABLE_SIZE` and `HASH_TABLE_BITMASK` of `StringLookup`. -/
structure TableConstants where
  HASH_TABLE_SIZE : Nat
  HASH_TABLE_BITMASK : Nat
deriving DecidableEq, Repr

/-- The format of `VectorBinarySerializer` for the three types that
`StringLookup::serialize` reads and writes: the bytes written for a value, and the value
read from the head of the data together with the data behind it. -/
structure SerializerFormat where
  write32 : Nat → List Nat
  read32 : List Nat → Nat × List Nat
  write64 : Nat → List Nat
  read64 : List Nat → Nat × List Nat
  writeString : List Nat → List Nat
  readString : List Nat → List Nat × List Nat

/-- The state of a `StringLookup`. -/
structure StringLookup where
  mTable : Nat → List StoredString
  mNumEntries : Nat

namespace StringLookup

/-- A lookup without entries, as constructed or after `clear()`. -/
def empty : StringLookup := { mTable := fun _ => [], mNumEntries := 0 }

/-- The walk along a chain that both lookup functions do: the first entry with the
given hash, if there is one. -/
def chainFind : List StoredString → Nat → Option StoredString
  | [], _ => none
  | entry :: next, hash => if entry.mHash = hash then some entry else chainFind next hash

/-- `getStringByHash(hash)`; `none` is the null pointer. -/
def getStringByHash (c : TableConstants) (l : StringLookup) (hash : Nat) : Option StoredString :=
  chainFind (l.mTable (hash &&& c.HASH_TABLE_BITMASK)) hash

/-- `getOrAddString(str, hash)`: the entry returned and the lookup afterwards.  A new
entry is linked behind the last entry of its chain. -/
def getOrAddString (c : TableConstants) (l : StringLookup) (str : List Nat) (hash : Nat) :
    StoredString × StringLookup :=
  match chainFind (l.mTable (hash &&& c.HASH_TABLE_BITMASK)) hash with
  | some entry => (entry, l)
  | none =>
    ({ mString := str, mHash := hash },
      { mTable := fun k =>
          if k = hash &&& c.HASH_TABLE_BITMASK then
            l.mTable k ++ [{ mString := str, mHash := hash }]
          else l.mTable k
        mNumEntries := l.mNumEntries + 1 })

/-- The reading loop of `serialize`: `count` entries are left to read. -/
def readEntries (f : SerializerFormat) (c : TableConstants) :
    Nat → StringLookup → List Nat → StringLookup × List Nat
  | 0, l, data => (l, data)
  | count + 1, l, data =>
    let (hash, data1) := f.read64 data
    let (str, data2) := f.readString data1
    readEntries f c count (getOrAddString c l str hash).2 data2

/-- The inner `while` loop of the writing branch of `serialize` on one chain. -/
def writeChain (f : SerializerFormat) : List StoredString → List Nat → List Nat
  | [], data => data
  | entry :: next, data =>
    writeChain f next (data ++ f.write64 entry.mHash ++ f.writeString entry.mString)

/-- The outer `for` loop of the writing branch of `serialize` over the buckets from `k`
on; `left` buckets are left. -/
def writeTable (f : SerializerFormat) (l : StringLookup) : Nat → Nat → List Nat → List Nat
  | 0, _, data => data
  | left + 1, k, data => writeTable f l left (k + 1) (writeChain f (l.mTable k) data)

/-- `serialize(serializer)`: the lookup and the serializer's data afterwards.  When
writing, `data` is what has been written so far; when reading, `data` is what has not
been read yet. -/
def serialize (f : SerializerFormat) (c : TableConstants) (isReading : Bool)
    (l : StringLookup) (data : List Nat) : StringLookup × List Nat :=
  if isReading then
    let (numberOfEntries, data1) := f.read32 data
    readEntries f c numberOfEntries l data1
  else
    (l, writeTable f l c.HASH_TABLE_SIZE 0 (data ++ f.write32 (l.mNumEntries % 2 ^ 32)))

/-- Perform a sequence of `getOrAddString(str, hash)` calls, first call first. -/
def addAll (c : TableConstants) (l : StringLookup) : List (List Nat × Nat) → StringLookup
  | [] => l
  | call :: rest => addAll c (getOrAddString c l call.1 call.2).2 rest


/-- What a serializer format has to do for a round trip: reading gives back what was
written, and the data behind it, for every `uint32`, every `uint64` and every
string. -/
def Lawful (f : SerializerFormat) : Prop :=
  (∀ v rest, v < 2 ^ 32 → f.read32 (f.write32 v ++ rest) = (v, rest)) ∧
  (∀ v rest, v < 2 ^ 64 → f.read64 (f.write64 v ++ rest) = (v, rest)) ∧
  (∀ str rest, f.readString (f.writeString str ++ rest) = (str, rest))

/-- Every hash has its bucket inside the table. -/
def InRange (c : TableConstants) : Prop :=
  ∀ hash, hash &&& c.HASH_TABLE_BITMASK < c.HASH_TABLE_SIZE

/-- The shape of a lookup that `getOrAddString` calls build: every entry sits in the
chain of its hash, and no chain holds a hash twice. -/
def ChainsInv (c : TableConstants) (l : StringLookup) : Prop :=
  (∀ k e, e ∈ l.mTable k → e.mHash &&& c.HASH_TABLE_BITMASK = k) ∧
  (∀ k, ((l.mTable k).map (fun e => e.mHash)).Nodup)

/-- The entries of the buckets `0` to `HASH_TABLE_SIZE - 1` in the order in which
`serialize` writes them. -/
def entries (c : TableConstants) (l : StringLookup) : List StoredString :=
  (List.range c.HASH_TABLE_SIZE).flatMap l.mTable

/-- The bytes of a list of entries: hash, then string, for each. -/
def encode (f : SerializerFormat) (es : List StoredString) : List Nat :=
  es.flatMap (fun e => f.write64 e.mHash ++ f.writeString e.mString)

/-- The calls `getOrAddString("", h)` for the hashes `h` below `n`. -/
def distinctCalls (n : Nat) : List (List Nat × Nat) :=
  (List.range n).map (fun h => ([], h))


/-- A small table: 4 buckets, bitmask 3. -/
def smallTable : TableConstants := { HASH_TABLE_SIZE := 4, HASH_TABLE_BITMASK := 3 }

/-- A serializer format that writes every integer as one cell and a string as its
length followed by its characters. -/
def cellFormat : SerializerFormat :=
  { write32 := fun v => [v]
    read32 := fun data => (data.headD 0, data.tail)
    write64 := fun v => [v]
    read64 := fun data => (data.headD 0, data.tail)
    writeString := fun str => str.length :: str
    readString := fun data => (data.tail.take (data.headD 0), data.tail.drop (data.headD 0)) }

/-- Four calls: two hashes share bucket 1, and hash 5 is used twice, with different
strings. -/
def sampleStrings : List (List Nat × Nat) :=
  [([97], 5), ([98, 99], 9), ([100], 5), ([], 2)]

end StringLookup

/-! ## Lemmas on the map model -/

namespace UnorderedMap

theorem find_erase (m : UnorderedMap) (k k' : Nat) :
    find (erase m k) k' = if k = k' then none else find m k' := by
  induction m with
  | nil => simp [erase, find]
  | cons e rest ih =>
    obtain ⟨a, v⟩ := e
    by_cases h : a = k
    · subst h
      simp only [erase, if_true, ih, find]
      by_cases h2 : a = k' <;> simp [h2]
    · simp only [erase, h, if_false, find, ih]
      by_cases h2 : a = k'
      · subst h2
        simp [Ne.symm h]
      · simp [h2]

theorem find_assign (m : UnorderedMap) (k v k' : Nat) :
    find (assign m k v) k' = if k = k' then some v else find m k' := by
  unfold assign
  by_cases h : k = k'
  · simp [find, h]
  · simp [find, h, find_erase]

theorem find_none_of_not_mem_keys (m : UnorderedMap) (k : Nat) (h : k ∉ keys m) :
    find m k = none := by
  induction m with
  | nil => rfl
  | cons e rest ih =>
    obtain ⟨a, v⟩ := e
    simp only [keys, List.map_cons, List.mem_cons, not_or] at h
    have h1 : a ≠ k := fun hh => h.1 hh.symm
    simp only [find, h1, if_false]
    exact ih h.2

theorem mem_of_find (m : UnorderedMap) (k v : Nat) (h : find m k = some v) :
    (k, v) ∈ m := by
  induction m with
  | nil => cases h
  | cons e rest ih =>
    obtain ⟨a, w⟩ := e
    by_cases h1 : a = k
    · simp only [find, h1, if_true, Option.some.injEq] at h
      subst h1; subst h
      exact List.mem_cons_self _ _
    · simp only [find, h1, if_false] at h
      exact List.mem_cons_of_mem _ (ih h)

theorem find_of_mem (m : UnorderedMap) (k v : Nat) (hn : (keys m).Nodup) (h : (k, v) ∈ m) :
    find m k = some v := by
  induction m with
  | nil => cases h
  | cons e rest ih =>
    obtain ⟨a, w⟩ := e
    simp only [keys, List.map_cons, List.nodup_cons] at hn
    rcases List.mem_cons.mp h with h1 | h1
    · cases h1
      simp [find]
    · have hk : k ∈ keys rest := List.mem_map.mpr ⟨(k, v), h1, rfl⟩
      have hne : a ≠ k := fun hh => hn.1 (hh ▸ hk)
      simp only [find, hne, if_false]
      exact ih hn.2 h1

theorem keys_erase_subset (m : UnorderedMap) (k x : Nat) (h : x ∈ keys (erase m k)) :
    x ∈ keys m ∧ x ≠ k := by
  induction m with
  | nil => simp [erase, keys] at h
  | cons e rest ih =>
    obtain ⟨a, w⟩ := e
    by_cases h1 : a = k
    · simp only [erase, h1, if_true] at h
      have := ih h
      exact ⟨List.mem_cons_of_mem _ this.1, this.2⟩
    · simp only [erase, h1, if_false, keys, List.map_cons, List.mem_cons] at h
      rcases h with h2 | h2
      · subst h2
        exact ⟨List.mem_cons_self _ _, h1⟩
      · have := ih h2
        exact ⟨List.mem_cons_of_mem _ this.1, this.2⟩

theorem nodup_erase (m : UnorderedMap) (k : Nat) (hn : (keys m).Nodup) :
    (keys (erase m k)).Nodup := by
  induction m with
  | nil => simp [erase, keys]
  | cons e rest ih =>
    obtain ⟨a, w⟩ := e
    simp only [keys, List.map_cons, List.nodup_cons] at hn
    by_cases h1 : a = k
    · simp only [erase, h1, if_true]
      exact ih hn.2
    · simp only [erase, h1, if_false, keys, List.map_cons, List.nodup_cons]
      exact ⟨fun hh => hn.1 (keys_erase_subset rest k a hh).1, ih hn.2⟩

theorem nodup_assign (m : UnorderedMap) (k v : Nat) (hn : (keys m).Nodup) :
    (keys (assign m k v)).Nodup := by
  simp only [assign, keys, List.map_cons, List.nodup_cons]
  exact ⟨fun hh => (keys_erase_subset m k k hh).2 rfl, nodup_erase m k hn⟩

theorem erase_of_find_none (m : UnorderedMap) (k : Nat) (h : find m k = none) :
    erase m k = m := by
  induction m with
  | nil => rfl
  | cons e rest ih =>
    obtain ⟨a, w⟩ := e
    by_cases h1 : a = k
    · simp [find, h1] at h
    · simp only [find, h1, if_false] at h
      simp [erase, h1, ih h]

theorem size_erase (m : UnorderedMap) (k v : Nat) (hn : (keys m).Nodup)
    (h : find m k = some v) : size (erase m k) + 1 = size m := by
  induction m with
  | nil => cases h
  | cons e rest ih =>
    obtain ⟨a, w⟩ := e
    simp only [keys, List.map_cons, List.nodup_cons] at hn
    by_cases h1 : a = k
    · subst h1
      have : find rest a = none := find_none_of_not_mem_keys rest a hn.1
      simp [erase, size, erase_of_find_none rest a this]
    · simp only [find, h1, if_false] at h
      have := ih hn.2 h
      simp only [size] at this
      simp [erase, h1, size, this]

theorem size_erase_le (m : UnorderedMap) (k : Nat) : size (erase m k) ≤ size m := by
  induction m with
  | nil => simp [erase]
  | cons e rest ih =>
    obtain ⟨a, w⟩ := e
    simp only [size] at ih
    by_cases h1 : a = k
    · simp only [erase, h1, if_true, size, List.length_cons]; omega
    · simp only [erase, h1, if_false, size, List.length_cons]; omega

theorem size_assign_of_find_none (m : UnorderedMap) (k v : Nat) (h : find m k = none) :
    size (assign m k v) = size m + 1 := by
  simp [assign, size, erase_of_find_none m k h]

end UnorderedMap

namespace ConnectionManager

/-! ## Lemmas on the lookup array -/

theorem slot_set (l : List (Option Nat)) (i j : Nat) (v : Option Nat) (h : i < l.length) :
    slot (l.set i v) j = if i = j then v else slot l j := by
  unfold slot
  simp only [List.getD_eq_getElem?_getD, List.getElem?_set, h, if_true]
  by_cases hij : i = j <;> simp [hij]

theorem slot_of_length_le (l : List (Option Nat)) (i : Nat) (h : l.length ≤ i) :
    slot l i = none := by
  unfold slot
  simp [List.getD_eq_getElem?_getD, List.getElem?_eq_none h]

theorem lt_length_of_slot (l : List (Option Nat)) (i c : Nat) (h : slot l i = some c) :
    i < l.length := by
  by_contra hh
  rw [slot_of_length_le l i (by omega)] at h
  cases h

theorem length_resize (l : List (Option Nat)) (n : Nat) (h : l.length ≤ n) :
    (resize l n).length = n := by
  simp [resize]; omega

theorem slot_resize (l : List (Option Nat)) (n i : Nat) (h : l.length ≤ n) :
    slot (resize l n) i = slot l i := by
  unfold resize
  rw [List.take_of_length_le (by simp; omega)]
  unfold slot
  simp only [List.getD_eq_getElem?_getD, List.getElem?_append, List.getElem?_replicate]
  by_cases hi : i < l.length
  · simp [hi]
  · simp only [hi, if_false]
    rw [List.getElem?_eq_none (by omega)]
    split <;> rfl

theorem occupied_set_some (l : List (Option Nat)) (i c : Nat) (h : i < l.length)
    (he : slot l i = none) : occupied (l.set i (some c)) = occupied l + 1 := by
  unfold occupied
  rw [List.countP_set _ _ _ _ h]
  have : l[i] = none := by
    unfold slot at he
    simpa [List.getD_eq_getElem?_getD, List.getElem?_eq_getElem h] using he
  simp [this]

theorem occupied_set_none (l : List (Option Nat)) (i c : Nat)
    (he : slot l i = some c) : occupied (l.set i none) + 1 = occupied l := by
  have h := lt_length_of_slot l i c he
  unfold occupied
  rw [List.countP_set _ _ _ _ h]
  have : l[i] = some c := by
    unfold slot at he
    simpa [List.getD_eq_getElem?_getD, List.getElem?_eq_getElem h] using he
  have hpos : 0 < List.countP (fun e => e.isSome) l := by
    apply List.countP_pos_iff.mpr
    exact ⟨l[i], List.getElem_mem h, by simp [this]⟩
  simp [this]
  omega

theorem occupied_resize (l : List (Option Nat)) (n : Nat) (h : l.length ≤ n) :
    occupied (resize l n) = occupied l := by
  unfold resize occupied
  rw [List.take_of_length_le (by simp; omega)]
  simp [List.countP_append, List.countP_replicate]

/-! ## The in-place rehash -/

theorem rehashInv_init (t : Nat → Nat) (l1 : List (Option Nat)) : RehashInv t l1 0 l1 := by
  refine ⟨rfl, rfl, ?_⟩
  intro j c
  constructor
  · intro h
    exact ⟨j, h, Or.inr ⟨Nat.zero_le _, rfl⟩⟩
  · rintro ⟨i, hi, h | h⟩
    · omega
    · rw [h.2]; exact hi

theorem rehash_inv (conns : ConnectionHeap) (mask : Nat) (l1 : List (Option Nat)) (N : Nat)
    (H1 : ∀ i c, slot l1 i = some c →
      i < N ∧ (target conns mask c = i ∨ (N ≤ target conns mask c ∧ target conns mask c < l1.length)))
    (H4 : ∀ i i' c c', slot l1 i = some c → slot l1 i' = some c' →
      target conns mask c = target conns mask c' → i = i')
    (HN : N ≤ l1.length) :
    ∀ n k l, n + k = N → RehashInv (target conns mask) l1 k l →
      RehashInv (target conns mask) l1 N (rehash conns mask n k l) := by
  intro n
  induction n with
  | zero =>
    intro k l hk hinv
    have : k = N := by omega
    subst this
    simpa [rehash] using hinv
  | succ n ih =>
    intro k l hk hinv
    have hkN : k < N := by omega
    obtain ⟨hlen, hocc, hsl⟩ := hinv
    cases hs : slot l k with
    | none =>
      simp only [rehash, hs]
      apply ih (k + 1) l (by omega)
      refine ⟨hlen, hocc, ?_⟩
      intro j c
      rw [hsl j c]
      constructor
      · rintro ⟨i, hi, h | h⟩
        · exact ⟨i, hi, Or.inl ⟨by omega, h.2⟩⟩
        · have hik : i ≠ k := by
            intro hik
            have : slot l i = some c := (hsl i c).mpr ⟨i, hi, Or.inr ⟨h.1, rfl⟩⟩
            rw [hik, hs] at this
            cases this
          exact ⟨i, hi, Or.inr ⟨by omega, h.2⟩⟩
      · rintro ⟨i, hi, h | h⟩
        · have hik : i ≠ k := by
            intro hik
            have : slot l i = some c := (hsl i c).mpr ⟨i, hi, Or.inr ⟨by omega, rfl⟩⟩
            rw [hik, hs] at this
            cases this
          exact ⟨i, hi, Or.inl ⟨by omega, h.2⟩⟩
        · exact ⟨i, hi, Or.inr ⟨by omega, h.2⟩⟩
    | some c0 =>
      have h1k : slot l1 k = some c0 := by
        obtain ⟨i, hi, h | h⟩ := (hsl k c0).mp hs
        · rcases (H1 i c0 hi).2 with h2 | h2
          · omega
          · omega
        · rw [h.2]; exact hi
      by_cases ht : target conns mask c0 = k
      · have e1 : rehash conns mask (n + 1) k l = rehash conns mask n (k + 1) l := by
          simp only [rehash, hs]
          have : ((conns c0).mLocalConnectionID &&& mask) % 65536 = k := ht
          simp [this]
        rw [e1]
        apply ih (k + 1) l (by omega)
        refine ⟨hlen, hocc, ?_⟩
        intro j c
        rw [hsl j c]
        constructor
        · rintro ⟨i, hi, h | h⟩
          · exact ⟨i, hi, Or.inl ⟨by omega, h.2⟩⟩
          · by_cases hik : i = k
            · subst hik
              rw [h1k] at hi
              cases hi
              exact ⟨i, h1k, Or.inl ⟨by omega, by rw [ht]; exact h.2⟩⟩
            · exact ⟨i, hi, Or.inr ⟨by omega, h.2⟩⟩
        · rintro ⟨i, hi, h | h⟩
          · by_cases hik : i = k
            · subst hik
              rw [h1k] at hi
              cases hi
              exact ⟨i, h1k, Or.inr ⟨le_refl _, by rw [h.2, ht]⟩⟩
            · exact ⟨i, hi, Or.inl ⟨by omega, h.2⟩⟩
          · exact ⟨i, hi, Or.inr ⟨by omega, h.2⟩⟩
      · have hrange := (H1 k c0 h1k).2.resolve_left ht
        have e1 : rehash conns mask (n + 1) k l =
            rehash conns mask n (k + 1)
              ((l.set (target conns mask c0) (some c0)).set k none) := by
          simp only [rehash, hs]
          have : ¬ ((conns c0).mLocalConnectionID &&& mask) % 65536 = k := ht
          simp [this, target]
        rw [e1]
        have hempty : slot l (target conns mask c0) = none := by
          cases hq : slot l (target conns mask c0) with
          | none => rfl
          | some c2 =>
            exfalso
            obtain ⟨i, hi, h | h⟩ := (hsl _ c2).mp hq
            · have := H4 i k c2 c0 hi h1k h.2.symm
              omega
            · have := (H1 i c2 hi).1
              omega
        have hb1 : target conns mask c0 < l.length := by omega
        have hb2 : k < (l.set (target conns mask c0) (some c0)).length := by
          simp; omega
        apply ih (k + 1) _ (by omega)
        refine ⟨by simp [hlen], ?_, ?_⟩
        · have o1 := occupied_set_some l _ c0 hb1 hempty
          have hk2 : slot (l.set (target conns mask c0) (some c0)) k = some c0 := by
            rw [slot_set _ _ _ _ hb1, if_neg ht]; exact hs
          have o2 := occupied_set_none _ k c0 hk2
          omega
        · intro j c
          rw [slot_set _ _ _ _ hb2, slot_set _ _ _ _ hb1]
          by_cases hjk : k = j
          · subst hjk
            simp only [if_true]
            constructor
            · intro h; cases h
            · rintro ⟨i, hi, h | h⟩
              · exfalso
                by_cases hik : i = k
                · subst hik
                  rw [h1k] at hi; cases hi
                  exact ht h.2.symm
                · rcases (H1 i c hi).2 with h2 | h2
                  · omega
                  · omega
              · omega
          · simp only [hjk, if_false]
            by_cases hjt : target conns mask c0 = j
            · simp only [hjt, if_true]
              constructor
              · intro h
                cases h
                exact ⟨k, h1k, Or.inl ⟨by omega, hjt.symm⟩⟩
              · rintro ⟨i, hi, h | h⟩
                · have := H4 i k c c0 hi h1k (by rw [← h.2, hjt])
                  subst this
                  rw [h1k] at hi
                  exact hi
                · have := (H1 i c hi).1
                  omega
            · simp only [hjt, if_false]
              rw [hsl j c]
              constructor
              · rintro ⟨i, hi, h | h⟩
                · exact ⟨i, hi, Or.inl ⟨by omega, h.2⟩⟩
                · exact ⟨i, hi, Or.inr ⟨by omega, h.2⟩⟩
              · rintro ⟨i, hi, h | h⟩
                · by_cases hik : i = k
                  · subst hik
                    rw [h1k] at hi; cases hi
                    exact absurd h.2.symm hjt
                  · exact ⟨i, hi, Or.inl ⟨by omega, h.2⟩⟩
                · exact ⟨i, hi, Or.inr ⟨by omega, h.2⟩⟩

/-- What the whole rehash loop achieves. -/
theorem rehash_spec (conns : ConnectionHeap) (mask : Nat) (l1 : List (Option Nat)) (N : Nat)
    (H1 : ∀ i c, slot l1 i = some c →
      i < N ∧ (target conns mask c = i ∨ (N ≤ target conns mask c ∧ target conns mask c < l1.length)))
    (H4 : ∀ i i' c c', slot l1 i = some c → slot l1 i' = some c' →
      target conns mask c = target conns mask c' → i = i')
    (HN : N ≤ l1.length) :
    (rehash conns mask N 0 l1).length = l1.length ∧
    occupied (rehash conns mask N 0 l1) = occupied l1 ∧
    ∀ j c, slot (rehash conns mask N 0 l1) j = some c ↔
      ∃ i, slot l1 i = some c ∧ j = target conns mask c := by
  obtain ⟨h1, h2, h3⟩ :=
    rehash_inv conns mask l1 N H1 H4 HN N 0 l1 (by omega) (rehashInv_init _ l1)
  refine ⟨h1, h2, ?_⟩
  intro j c
  rw [h3 j c]
  constructor
  · rintro ⟨i, hi, h | h⟩
    · exact ⟨i, hi, h.2⟩
    · have := (H1 i c hi).1
      omega
  · rintro ⟨i, hi, h⟩
    exact ⟨i, hi, Or.inl ⟨(H1 i c hi).1, h⟩⟩

/-! ## The table invariant -/

theorem mask_of_pow (e : Nat) : (2 ^ e - 1) % 65536 = 2 ^ (min e 16) - 1 := by
  have hpos : 0 < 2 ^ e := Nat.two_pow_pos _
  by_cases h : e ≤ 16
  · have h1 : 2 ^ e ≤ 2 ^ 16 := Nat.pow_le_pow_right (by norm_num) h
    rw [Nat.min_eq_left h]
    apply Nat.mod_eq_of_lt
    norm_num at h1
    omega
  · have h16 : min e 16 = 16 := Nat.min_eq_right (by omega)
    obtain ⟨d, rfl⟩ : ∃ d, e = 16 + d := ⟨e - 16, by omega⟩
    have hd : 0 < 2 ^ d := Nat.two_pow_pos _
    rw [h16, pow_add]
    norm_num
    omega

theorem target_eq_mod (conns : ConnectionHeap) (e c : Nat) :
    target conns ((2 ^ e - 1) % 65536) c = (conns c).mLocalConnectionID % 2 ^ (min e 16) := by
  unfold target
  rw [mask_of_pow, Nat.and_pow_two_sub_one_eq_mod]
  apply Nat.mod_eq_of_lt
  have h1 : 2 ^ (min e 16) ≤ 2 ^ 16 := Nat.pow_le_pow_right (by norm_num) (Nat.min_le_right _ _)
  have h2 : (conns c).mLocalConnectionID % 2 ^ (min e 16) < 2 ^ (min e 16) :=
    Nat.mod_lt _ (Nat.two_pow_pos _)
  norm_num at h1
  omega

theorem tableInv_start (conns : ConnectionHeap) : TableInv (start conns) where
  size_pow := ⟨3, le_refl _, rfl⟩
  mask_eq := rfl
  nodup := List.nodup_nil
  entry := by intro k c h; cases h
  slot_iff := by
    intro i c
    constructor
    · intro h
      exfalso
      have : slot (List.replicate 8 (none : Option Nat)) i = none := by
        unfold slot
        simp only [List.getD_eq_getElem?_getD, List.getElem?_replicate]
        split <;> rfl
      simp only [start, fresh] at h
      rw [this] at h
      cases h
    · rintro ⟨h, _⟩
      cases h
  count := by simp [start, fresh, occupied, UnorderedMap.size]
  load := by simp [start, fresh, UnorderedMap.size]

theorem isActive_of_isActiveB (m : ConnectionManager) (c : Nat)
    (hn : m.mActiveConnections.keys.Nodup) (h : isActiveB m c = true) : isActive m c := by
  unfold isActiveB at h
  obtain ⟨e, he, hc⟩ := List.any_eq_true.mp h
  obtain ⟨k, v⟩ := e
  have : v = c := by simpa using hc
  subst this
  exact ⟨k, UnorderedMap.find_of_mem _ k v hn he⟩

theorem isActiveB_of_isActive (m : ConnectionManager) (c : Nat) (h : isActive m c) :
    isActiveB m c = true := by
  obtain ⟨k, hk⟩ := h
  unfold isActiveB
  exact List.any_eq_true.mpr ⟨(k, c), UnorderedMap.mem_of_find _ k c hk, by simp⟩

/-- Facts about the two moduli before and after a growth step. -/
theorem mod_growth (x e e' : Nat) (he : e < e') :
    (x % 2 ^ (min e' 16)) % 2 ^ (min e 16) = x % 2 ^ (min e 16) ∧
    (x % 2 ^ (min e' 16) = x % 2 ^ (min e 16) ∨
      (2 ^ e ≤ x % 2 ^ (min e' 16) ∧ x % 2 ^ (min e' 16) < 2 ^ e')) := by
  have hb : min e 16 ≤ min e' 16 := by
    simp only [Nat.le_min, Nat.min_le_right, and_true]
    exact le_trans (Nat.min_le_left _ _) (le_of_lt he)
  have hdvd : 2 ^ (min e 16) ∣ 2 ^ (min e' 16) := pow_dvd_pow 2 hb
  have hmm := Nat.mod_mod_of_dvd x hdvd
  refine ⟨hmm, ?_⟩
  by_cases h16 : 16 ≤ e
  · left
    rw [Nat.min_eq_right h16, Nat.min_eq_right (by omega)]
  · have hmin : min e 16 = e := Nat.min_eq_left (by omega)
    rw [hmin] at hmm ⊢
    by_cases hlt : x % 2 ^ (min e' 16) < 2 ^ e
    · left
      rw [← hmm]
      exact (Nat.mod_eq_of_lt hlt).symm
    · right
      refine ⟨by omega, ?_⟩
      have h1 : x % 2 ^ (min e' 16) < 2 ^ (min e' 16) := Nat.mod_lt _ (Nat.two_pow_pos _)
      have h2 : 2 ^ (min e' 16) ≤ 2 ^ e' := Nat.pow_le_pow_right (by norm_num) (Nat.min_le_left _ _)
      omega

/-- The size after a growth step is again a power of two. -/
theorem newSize_pow (e : Nat) (he : 3 ≤ e) :
    ∃ e', e < e' ∧ max (2 ^ e * 2) 32 = 2 ^ e' := by
  by_cases h3 : e = 3
  · subst h3
    exact ⟨5, by norm_num, by norm_num⟩
  · refine ⟨e + 1, by omega, ?_⟩
    have : 2 ^ 4 ≤ 2 ^ e := Nat.pow_le_pow_right (by norm_num) (by omega)
    rw [pow_succ]
    norm_num at this
    omega

/-- The resize branch keeps the table invariant and leaves room for one more entry. -/
theorem growLookup_inv (s : System) (h : TableInv s) :
    TableInv { manager := growLookup s.manager s.connections, connections := s.connections } ∧
    (growLookup s.manager s.connections).mActiveConnections = s.manager.mActiveConnections ∧
    (s.manager.mActiveConnections.size + 1) * 4 ≤
      (growLookup s.manager s.connections).mActiveConnectionsLookup.length * 3 := by
  obtain ⟨e, he, hlen⟩ := h.size_pow
  have hload := h.load
  by_cases hg : grows s.manager
  · obtain ⟨e', hee', hnew⟩ := newSize_pow e he
    have hpos : 0 < 2 ^ e := Nat.two_pow_pos _
    have hle : s.manager.mActiveConnectionsLookup.length ≤
        max (s.manager.mActiveConnectionsLookup.length * 2) 32 := by omega
    have hrl := length_resize _ _ hle
    have hmask' : ((resize s.manager.mActiveConnectionsLookup
        (max (s.manager.mActiveConnectionsLookup.length * 2) 32)).length - 1) % 65536 =
        (2 ^ e' - 1) % 65536 := by
      rw [hrl, hlen, hnew]
    have hmask : s.manager.mBitmaskForActiveConnectionsLookup = (2 ^ e - 1) % 65536 := by
      rw [h.mask_eq, hlen]
    have H1 : ∀ i c, slot (resize s.manager.mActiveConnectionsLookup
          (max (s.manager.mActiveConnectionsLookup.length * 2) 32)) i = some c →
        i < s.manager.mActiveConnectionsLookup.length ∧
        (target s.connections ((2 ^ e' - 1) % 65536) c = i ∨
          (s.manager.mActiveConnectionsLookup.length ≤ target s.connections ((2 ^ e' - 1) % 65536) c ∧
            target s.connections ((2 ^ e' - 1) % 65536) c <
              (resize s.manager.mActiveConnectionsLookup
                (max (s.manager.mActiveConnectionsLookup.length * 2) 32)).length)) := by
      intro i c hi
      rw [slot_resize _ _ _ hle] at hi
      refine ⟨lt_length_of_slot _ _ _ hi, ?_⟩
      have hit := ((h.slot_iff i c).mp hi).2
      rw [hmask, target_eq_mod] at hit
      rw [target_eq_mod, hrl, hlen, hnew, hit]
      exact (mod_growth _ e e' hee').2
    have H4 : ∀ i i' c c', slot (resize s.manager.mActiveConnectionsLookup
          (max (s.manager.mActiveConnectionsLookup.length * 2) 32)) i = some c →
        slot (resize s.manager.mActiveConnectionsLookup
          (max (s.manager.mActiveConnectionsLookup.length * 2) 32)) i' = some c' →
        target s.connections ((2 ^ e' - 1) % 65536) c =
          target s.connections ((2 ^ e' - 1) % 65536) c' → i = i' := by
      intro i i' c c' hi hi' ht
      rw [slot_resize _ _ _ hle] at hi hi'
      have hit := ((h.slot_iff i c).mp hi).2
      have hit' := ((h.slot_iff i' c').mp hi').2
      rw [hmask, target_eq_mod] at hit hit'
      rw [target_eq_mod, target_eq_mod] at ht
      rw [hit, hit', ← (mod_growth _ e e' hee').1, ht, (mod_growth _ e e' hee').1]
    obtain ⟨r1, r2, r3⟩ := rehash_spec s.connections ((2 ^ e' - 1) % 65536) _
      s.manager.mActiveConnectionsLookup.length H1 H4 (by rw [hrl]; exact hle)
    have hgl : growLookup s.manager s.connections =
        { s.manager with
          mActiveConnectionsLookup := rehash s.connections ((2 ^ e' - 1) % 65536)
            s.manager.mActiveConnectionsLookup.length 0
            (resize s.manager.mActiveConnectionsLookup
              (max (s.manager.mActiveConnectionsLookup.length * 2) 32))
          mBitmaskForActiveConnectionsLookup := (2 ^ e' - 1) % 65536 } := by
      unfold growLookup
      rw [if_pos hg]
      simp only [hmask']
    rw [hgl]
    refine ⟨?_, rfl, ?_⟩
    · refine ⟨⟨e', by omega, ?_⟩, ?_, h.nodup, h.entry, ?_, ?_, ?_⟩
      · show (rehash _ _ _ _ _).length = _
        rw [r1, hrl, hlen, hnew]
      · show (2 ^ e' - 1) % 65536 = ((rehash _ _ _ _ _).length - 1) % 65536
        rw [r1, hrl, hlen, hnew]
      · intro j c
        show slot (rehash _ _ _ _ _) j = some c ↔ _
        rw [r3 j c]
        constructor
        · rintro ⟨i, hi, hj⟩
          rw [slot_resize _ _ _ hle] at hi
          exact ⟨((h.slot_iff i c).mp hi).1, hj⟩
        · rintro ⟨hf, hj⟩
          refine ⟨target s.connections s.manager.mBitmaskForActiveConnectionsLookup c, ?_, hj⟩
          rw [slot_resize _ _ _ hle]
          exact (h.slot_iff _ c).mpr ⟨hf, rfl⟩
      · show occupied (rehash _ _ _ _ _) = _
        rw [r2, occupied_resize _ _ hle]
        exact h.count
      · show s.manager.mActiveConnections.size * 4 ≤ (rehash _ _ _ _ _).length * 3
        rw [r1, hrl]
        omega
    · show (s.manager.mActiveConnections.size + 1) * 4 ≤ (rehash _ _ _ _ _).length * 3
      rw [r1, hrl]
      have : 8 ≤ s.manager.mActiveConnectionsLookup.length := by
        rw [hlen]
        have : 2 ^ 3 ≤ 2 ^ e := Nat.pow_le_pow_right (by norm_num) he
        norm_num at this
        exact this
      omega
  · have hgl : growLookup s.manager s.connections = s.manager := by
      unfold growLookup
      rw [if_neg hg]
    rw [hgl]
    refine ⟨h, rfl, ?_⟩
    unfold grows at hg
    omega

theorem index_eq_mod (x e : Nat) :
    (x &&& ((2 ^ e - 1) % 65536)) % 65536 = x % 2 ^ (min e 16) := by
  rw [mask_of_pow, Nat.and_pow_two_sub_one_eq_mod]
  apply Nat.mod_eq_of_lt
  have h1 : 2 ^ (min e 16) ≤ 2 ^ 16 := Nat.pow_le_pow_right (by norm_num) (Nat.min_le_right _ _)
  have h2 : x % 2 ^ (min e 16) < 2 ^ (min e 16) := Nat.mod_lt _ (Nat.two_pow_pos _)
  norm_num at h1
  omega

theorem index_lt_length (s : System) (h : TableInv s) (x : Nat) :
    (x &&& s.manager.mBitmaskForActiveConnectionsLookup) % 65536 <
      s.manager.mActiveConnectionsLookup.length := by
  obtain ⟨e, he, hlen⟩ := h.size_pow
  rw [h.mask_eq, hlen, index_eq_mod]
  have h1 : 2 ^ (min e 16) ≤ 2 ^ e := Nat.pow_le_pow_right (by norm_num) (Nat.min_le_left _ _)
  have h2 : x % 2 ^ (min e 16) < 2 ^ (min e 16) := Nat.mod_lt _ (Nat.two_pow_pos _)
  omega

theorem probe_spec (l : List (Option Nat)) (mask : Nat) :
    ∀ n id, id < 65536 → probe l mask n id ≠ 0 →
      probe l mask n id < 65536 ∧ slot l ((probe l mask n id &&& mask) % 65536) = none := by
  intro n
  induction n with
  | zero => intro id _ h; simp [probe] at h
  | succ n ih =>
    intro id hid h
    by_cases hc : id ≠ 0 ∧ slot l ((id &&& mask) % 65536) = none
    · have e1 : probe l mask (n + 1) id = id := by
        unfold probe
        rw [if_pos hc]
      rw [e1]
      exact ⟨hid, hc.2⟩
    · have e1 : probe l mask (n + 1) id = probe l mask n ((id + 1) % 65536) := by
        conv_lhs => unfold probe
        rw [if_neg hc]
      rw [e1] at h ⊢
      exact ih _ (Nat.mod_lt _ (by norm_num)) h

theorem candidate_lt (r1 r2 : Nat) : candidate r1 r2 < 65536 :=
  Nat.mod_lt _ (by norm_num)

theorem not_find_of_isActiveB_false (m : ConnectionManager) (c : Nat)
    (h : isActiveB m c = false) (k : Nat) : m.mActiveConnections.find k ≠ some c := by
  intro hk
  have := isActiveB_of_isActive m c ⟨k, hk⟩
  rw [h] at this
  cases this

/-- A successful or failed `addConnection` of a connection that is not active keeps
the table invariant. -/
theorem addConnection_inv (s : System) (c r1 r2 : Nat) (h : TableInv s)
    (hc : isActiveB s.manager c = false) : TableInv (addConnection s c r1 r2) := by
  obtain ⟨h1, hM, hroom⟩ := growLookup_inv s h
  have hc1 : ∀ k, (growLookup s.manager s.connections).mActiveConnections.find k ≠ some c := by
    intro k
    rw [hM]
    exact not_find_of_isActiveB_false _ c hc k
  generalize hm1 : growLookup s.manager s.connections = m1 at h1 hM hroom hc1
  by_cases hz : probe m1.mActiveConnectionsLookup m1.mBitmaskForActiveConnectionsLookup
      m1.mActiveConnectionsLookup.length (candidate r1 r2) = 0
  · have e1 : addConnection s c r1 r2 = { manager := m1, connections := s.connections } := by
      simp only [addConnection, getFreeLocalConnectionID, hm1, hz, if_true]
    rw [e1]
    exact h1
  · generalize hn : probe m1.mActiveConnectionsLookup m1.mBitmaskForActiveConnectionsLookup
      m1.mActiveConnectionsLookup.length (candidate r1 r2) = n at hz
    have hspec := probe_spec m1.mActiveConnectionsLookup m1.mBitmaskForActiveConnectionsLookup
      m1.mActiveConnectionsLookup.length (candidate r1 r2) (candidate_lt r1 r2) (by rw [hn]; exact hz)
    rw [hn] at hspec
    obtain ⟨hn16, hfree⟩ := hspec
    have e1 : addConnection s c r1 r2 =
        { manager :=
            { m1 with
              mActiveConnections := m1.mActiveConnections.assign n c
              mActiveConnectionsLookup :=
                m1.mActiveConnectionsLookup.set
                  ((n &&& m1.mBitmaskForActiveConnectionsLookup) % 65536) (some c)
              mConnectionsBySender :=
                m1.mConnectionsBySender.assign (s.connections c).mSenderKey c }
          connections := setLocalConnectionID s.connections c n } := by
      simp only [addConnection, getFreeLocalConnectionID, hm1, hn, hz, if_false]
    rw [e1]
    have hidx := index_lt_length _ h1 n
    simp only at hidx
    have hnone : m1.mActiveConnections.find n = none := by
      cases hq : m1.mActiveConnections.find n with
      | none => rfl
      | some c' =>
        exfalso
        have he := (h1.entry n c' hq).1
        simp only at he
        have := (h1.slot_iff (target s.connections m1.mBitmaskForActiveConnectionsLookup c') c').mpr
          ⟨by simp only; rw [he]; exact hq, rfl⟩
        simp only [target, he] at this
        rw [hfree] at this
        cases this
    have hother : ∀ x, x ≠ c →
        (setLocalConnectionID s.connections c n x) = s.connections x := by
      intro x hx
      simp [setLocalConnectionID, hx]
    have hself : (setLocalConnectionID s.connections c n c).mLocalConnectionID = n := by
      simp [setLocalConnectionID]
    have hnotin : ∀ i, slot m1.mActiveConnectionsLookup i ≠ some c := by
      intro i hi
      exact hc1 _ ((h1.slot_iff i c).mp hi).1
    refine ⟨?_, ?_, ?_, ?_, ?_, ?_, ?_⟩
    · obtain ⟨e, he, hlen⟩ := h1.size_pow
      exact ⟨e, he, by simpa using hlen⟩
    · simpa using h1.mask_eq
    · exact UnorderedMap.nodup_assign _ _ _ h1.nodup
    · intro k c' hk
      simp only [UnorderedMap.find_assign] at hk
      by_cases hnk : n = k
      · simp only [hnk, if_true, Option.some.injEq] at hk
        subst hk
        subst hnk
        exact ⟨hself, hz, hn16⟩
      · simp only [hnk, if_false] at hk
        have hne : c' ≠ c := fun hh => hc1 k (hh ▸ hk)
        simp only [hother c' hne]
        exact h1.entry k c' hk
    · intro i x
      simp only [slot_set _ _ _ _ hidx, UnorderedMap.find_assign]
      by_cases hx : x = c
      · subst hx
        simp only [hself, if_true, target, true_and]
        by_cases hi : (n &&& m1.mBitmaskForActiveConnectionsLookup) % 65536 = i
        · simp [hi]
        · simp only [hi, if_false]
          constructor
          · intro hh; exact absurd hh (hnotin i)
          · intro hh; exact absurd hh.symm hi
      · have htx : target (setLocalConnectionID s.connections c n)
            m1.mBitmaskForActiveConnectionsLookup x =
            target s.connections m1.mBitmaskForActiveConnectionsLookup x := by
          simp only [target, hother x hx]
        rw [htx, hother x hx]
        by_cases hi : (n &&& m1.mBitmaskForActiveConnectionsLookup) % 65536 = i
        · simp only [hi, if_true, Option.some.injEq]
          constructor
          · intro hh; exact absurd hh.symm hx
          · rintro ⟨hf, hti⟩
            exfalso
            by_cases hnk : n = (s.connections x).mLocalConnectionID
            · simp only [hnk, if_true, Option.some.injEq] at hf
              exact hx hf.symm
            · simp only [hnk, if_false] at hf
              have := (h1.slot_iff i x).mpr ⟨hf, hti⟩
              rw [← hi, hfree] at this
              cases this
        · simp only [hi, if_false]
          rw [h1.slot_iff i x]
          constructor
          · rintro ⟨hf, hti⟩
            refine ⟨?_, hti⟩
            have hnk : n ≠ (s.connections x).mLocalConnectionID := by
              intro hnk
              simp only at hf
              rw [← hnk, hnone] at hf
              cases hf
            simp only [hnk, if_false]
            exact hf
          · rintro ⟨hf, hti⟩
            refine ⟨?_, hti⟩
            by_cases hnk : n = (s.connections x).mLocalConnectionID
            · simp only [hnk, if_true, Option.some.injEq] at hf
              exact absurd hf.symm hx
            · simp only [hnk, if_false] at hf
              exact hf
    · show occupied (m1.mActiveConnectionsLookup.set _ (some c)) =
        (m1.mActiveConnections.assign n c).size
      rw [occupied_set_some _ _ c hidx hfree, UnorderedMap.size_assign_of_find_none _ _ _ hnone]
      have := h1.count
      simp only at this
      omega
    · show (m1.mActiveConnections.assign n c).size * 4 ≤
        (m1.mActiveConnectionsLookup.set _ (some c)).length * 3
      rw [UnorderedMap.size_assign_of_find_none _ _ _ hnone, List.length_set, hM]
      exact hroom

/-- `removeConnection` of an active connection keeps the table invariant. -/
theorem removeConnection_inv (s : System) (c : Nat) (h : TableInv s)
    (hc : isActiveB s.manager c = true) : TableInv (removeConnection s c) := by
  obtain ⟨k, hk⟩ := isActive_of_isActiveB _ c h.nodup hc
  have hid := (h.entry k c hk).1
  have hidx := index_lt_length s h (s.connections c).mLocalConnectionID
  have hslot : slot s.manager.mActiveConnectionsLookup
      (((s.connections c).mLocalConnectionID &&& s.manager.mBitmaskForActiveConnectionsLookup)
        % 65536) = some c :=
    (h.slot_iff _ c).mpr ⟨by rw [hid]; exact hk, rfl⟩
  refine ⟨?_, ?_, ?_, ?_, ?_, ?_, ?_⟩
  · obtain ⟨e, he, hlen⟩ := h.size_pow
    exact ⟨e, he, by simpa [removeConnection] using hlen⟩
  · simpa [removeConnection] using h.mask_eq
  · exact UnorderedMap.nodup_erase _ _ h.nodup
  · intro k' c' hk'
    simp only [removeConnection, UnorderedMap.find_erase] at hk'
    by_cases hkk : (s.connections c).mLocalConnectionID = k'
    · simp [hkk] at hk'
    · simp only [hkk, if_false] at hk'
      exact h.entry k' c' hk'
  · intro i x
    simp only [removeConnection, slot_set _ _ _ _ hidx, UnorderedMap.find_erase]
    by_cases hi : ((s.connections c).mLocalConnectionID &&&
        s.manager.mBitmaskForActiveConnectionsLookup) % 65536 = i
    · simp only [hi, if_true]
      constructor
      · intro hh; cases hh
      · rintro ⟨hf, hti⟩
        exfalso
        by_cases hkk : (s.connections c).mLocalConnectionID = (s.connections x).mLocalConnectionID
        · simp [hkk] at hf
        · simp only [hkk, if_false] at hf
          have h2 := (h.slot_iff i x).mpr ⟨hf, hti⟩
          rw [← hi, hslot] at h2
          cases h2
          exact hkk rfl
    · simp only [hi, if_false]
      rw [h.slot_iff i x]
      constructor
      · rintro ⟨hf, hti⟩
        refine ⟨?_, hti⟩
        have hkk : (s.connections c).mLocalConnectionID ≠ (s.connections x).mLocalConnectionID := by
          intro hkk
          apply hi
          rw [hti]
          simp only [target, hkk]
        simp only [hkk, if_false]
        exact hf
      · rintro ⟨hf, hti⟩
        refine ⟨?_, hti⟩
        by_cases hkk : (s.connections c).mLocalConnectionID = (s.connections x).mLocalConnectionID
        · simp [hkk] at hf
        · simp only [hkk, if_false] at hf
          exact hf
  · show occupied (s.manager.mActiveConnectionsLookup.set _ none) =
      (s.manager.mActiveConnections.erase _).size
    have o1 := occupied_set_none _ _ c hslot
    have o2 := UnorderedMap.size_erase s.manager.mActiveConnections
      (s.connections c).mLocalConnectionID c h.nodup (by rw [hid]; exact hk)
    have := h.count
    omega
  · show (s.manager.mActiveConnections.erase _).size * 4 ≤
      (s.manager.mActiveConnectionsLookup.set _ none).length * 3
    have o2 := UnorderedMap.size_erase_le s.manager.mActiveConnections
      (s.connections c).mLocalConnectionID
    have := h.load
    rw [List.length_set]
    omega

/-- Every state reached under the calling discipline satisfies the table invariant. -/
theorem run_inv (calls : List TableCall) :
    ∀ s, TableInv s → disciplined s calls = true → TableInv (run s calls) := by
  induction calls with
  | nil => intro s h _; exact h
  | cons call rest ih =>
    intro s h hd
    cases call with
    | add c r1 r2 =>
      simp only [disciplined, Bool.and_eq_true, Bool.not_eq_true'] at hd
      exact ih _ (addConnection_inv s c r1 r2 h hd.1) hd.2
    | remove c =>
      simp only [disciplined, Bool.and_eq_true] at hd
      exact ih _ (removeConnection_inv s c h hd.1) hd.2

/-- The rehash never changes the length of the array. -/
theorem rehash_length (conns : ConnectionHeap) (mask : Nat) :
    ∀ n k l, (rehash conns mask n k l).length = l.length := by
  intro n
  induction n with
  | zero => intro k l; rfl
  | succ n ih =>
    intro k l
    cases hs : slot l k with
    | none => simp only [rehash, hs]; exact ih _ _
    | some c =>
      by_cases ht : ((conns c).mLocalConnectionID &&& mask) % 65536 = k
      · simp only [rehash, hs, ht, ne_eq, not_true_eq_false, if_false]
        exact ih _ _
      · simp only [rehash, hs, ht, ne_eq, not_false_eq_true, if_true]
        rw [ih]; simp

/-! ## Claims on the connection table -/

/-- C1: after any sequence of `addConnection` / `removeConnection` calls on a freshly
constructed manager (`addConnection` only for inactive, `removeConnection` only for
active connections), whatever the random draws, two distinct active connections
have different local connection ids and every active connection has a non-zero
local connection id. -/
theorem active_ids_distinct_nonzero (conns : ConnectionHeap) (calls : List TableCall)
    (h : disciplined (start conns) calls = true) :
    (∀ c d, isActive (run (start conns) calls).manager c →
      isActive (run (start conns) calls).manager d → c ≠ d →
      ((run (start conns) calls).connections c).mLocalConnectionID ≠
        ((run (start conns) calls).connections d).mLocalConnectionID) ∧
    (∀ c, isActive (run (start conns) calls).manager c →
      ((run (start conns) calls).connections c).mLocalConnectionID ≠ 0) := by
  have inv := run_inv calls (start conns) (tableInv_start conns) h
  constructor
  · rintro c d ⟨k, hk⟩ ⟨k', hk'⟩ hcd heq
    have e1 := (inv.entry k c hk).1
    have e2 := (inv.entry k' d hk').1
    have : k = k' := by rw [← e1, ← e2, heq]
    subst this
    rw [hk] at hk'
    exact hcd (Option.some.inj hk')
  · rintro c ⟨k, hk⟩
    have e1 := inv.entry k c hk
    rw [e1.1]
    exact e1.2.1

/-- C1, at a concrete call sequence. -/
theorem active_ids_distinct_nonzero_witness :
    disciplined (start idleConnections) sampleCalls = true ∧
    ((∀ c d, isActive (run (start idleConnections) sampleCalls).manager c →
      isActive (run (start idleConnections) sampleCalls).manager d → c ≠ d →
      ((run (start idleConnections) sampleCalls).connections c).mLocalConnectionID ≠
        ((run (start idleConnections) sampleCalls).connections d).mLocalConnectionID) ∧
    (∀ c, isActive (run (start idleConnections) sampleCalls).manager c →
      ((run (start idleConnections) sampleCalls).connections c).mLocalConnectionID ≠ 0)) :=
  ⟨by decide, active_ids_distinct_nonzero idleConnections sampleCalls (by decide)⟩

set_option maxRecDepth 100000

/-- C2 as stated fails.  After `staleCalls` (connection 1 registered twice and removed
once) connection 2 is active and found under its id 2; the next
`getFreeLocalConnectionID` grows the array, the rehash moves the entry that connection 1
left behind in slot 1 to the slot of its current id 2, and the lookup of id 2 gives
connection 1.  After `strayRemoveCalls` (a connection that was never registered is
removed) connection 1 is in the exact map under its id 8, and the lookup of id 8 after
the growth gives null. -/
theorem stale_entry_overwrites_on_growth :
    removesActive (start idleConnections) staleCalls = true ∧
    grows (run (start idleConnections) staleCalls).manager ∧
    isActiveB (run (start idleConnections) staleCalls).manager 2 = true ∧
    ((run (start idleConnections) staleCalls).connections 2).mLocalConnectionID = 2 ∧
    lookupConnection (run (start idleConnections) staleCalls).manager 2 = some 2 ∧
    lookupConnection
      (getFreeLocalConnectionID (run (start idleConnections) staleCalls).manager
        (run (start idleConnections) staleCalls).connections 6 0).2 2 = some 1 ∧
    grows (run (start idleConnections) strayRemoveCalls).manager ∧
    isActiveB (run (start idleConnections) strayRemoveCalls).manager 1 = true ∧
    ((run (start idleConnections) strayRemoveCalls).connections 1).mLocalConnectionID = 8 ∧
    (run (start idleConnections) strayRemoveCalls).manager.mActiveConnections.find 8 = some 1 ∧
    lookupConnection
      (getFreeLocalConnectionID (run (start idleConnections) strayRemoveCalls).manager
        (run (start idleConnections) strayRemoveCalls).connections 6 0).2 8 = none := by
  refine ⟨by decide, by decide, by decide, by decide, by decide, by decide, by decide,
    by decide, by decide, by decide, by decide⟩

/-- C2, amended: in a state reached from a freshly constructed manager under the
calling discipline (`addConnection` only for a connection that is not active,
`removeConnection` only for an active one) in which `getFreeLocalConnectionID` grows
the lookup array, every connection that is active before the call is found under its
local id before the call and, with the new bitmask, after it; and the array has indeed
become larger. -/
theorem grow_keeps_lookup (conns : ConnectionHeap) (calls : List TableCall) (r1 r2 c : Nat)
    (h : disciplined (start conns) calls = true)
    (hg : grows (run (start conns) calls).manager)
    (hc : isActive (run (start conns) calls).manager c) :
    lookupConnection (run (start conns) calls).manager
      ((run (start conns) calls).connections c).mLocalConnectionID = some c ∧
    lookupConnection
      (getFreeLocalConnectionID (run (start conns) calls).manager
        (run (start conns) calls).connections r1 r2).2
      ((run (start conns) calls).connections c).mLocalConnectionID = some c ∧
    (run (start conns) calls).manager.mActiveConnectionsLookup.length <
      (getFreeLocalConnectionID (run (start conns) calls).manager
        (run (start conns) calls).connections r1 r2).2.mActiveConnectionsLookup.length := by
  have inv := run_inv calls (start conns) (tableInv_start conns) h
  generalize run (start conns) calls = s at inv hg hc
  obtain ⟨k, hk⟩ := hc
  have hid := (inv.entry k c hk).1
  have hf : s.manager.mActiveConnections.find (s.connections c).mLocalConnectionID = some c := by
    rw [hid]; exact hk
  obtain ⟨inv1, hM, _⟩ := growLookup_inv s inv
  refine ⟨(inv.slot_iff _ c).mpr ⟨hf, rfl⟩, ?_, ?_⟩
  · show slot (growLookup s.manager s.connections).mActiveConnectionsLookup _ = some c
    exact (inv1.slot_iff _ c).mpr ⟨by simp only; rw [hM]; exact hf, rfl⟩
  · show _ < (growLookup s.manager s.connections).mActiveConnectionsLookup.length
    obtain ⟨e, he, hlen⟩ := inv.size_pow
    have hpos : 0 < 2 ^ e := Nat.two_pow_pos _
    obtain ⟨e', hee', hnew⟩ := newSize_pow e he
    have hle : s.manager.mActiveConnectionsLookup.length ≤
        max (s.manager.mActiveConnectionsLookup.length * 2) 32 := by omega
    have hlen1 := inv1.size_pow
    have hmask1 := inv1.mask_eq
    unfold growLookup at hlen1 hmask1 ⊢
    rw [if_pos hg] at hlen1 hmask1 ⊢
    simp only at hlen1 hmask1 ⊢
    obtain ⟨e1, _, hl1⟩ := hlen1
    have H := rehash_length s.connections
      (((resize s.manager.mActiveConnectionsLookup
        (max (s.manager.mActiveConnectionsLookup.length * 2) 32)).length - 1) % 65536)
      s.manager.mActiveConnectionsLookup.length 0
      (resize s.manager.mActiveConnectionsLookup
        (max (s.manager.mActiveConnectionsLookup.length * 2) 32))
    rw [H, length_resize _ _ hle]
    omega

/-- C2 (amended), at a concrete state: five registered connections, the sixth call
grows the array from 8 to 32 slots; connection 1 with the id 9 moves from slot 1 to
slot 9 and is still found under its id. -/
theorem grow_keeps_lookup_witness :
    disciplined (start idleConnections) movingAdds = true ∧
    grows (run (start idleConnections) movingAdds).manager ∧
    isActive (run (start idleConnections) movingAdds).manager 1 ∧
    ((run (start idleConnections) movingAdds).connections 1).mLocalConnectionID = 9 ∧
    slot (run (start idleConnections) movingAdds).manager.mActiveConnectionsLookup 1 = some 1 ∧
    slot (getFreeLocalConnectionID (run (start idleConnections) movingAdds).manager
      (run (start idleConnections) movingAdds).connections 6 0).2.mActiveConnectionsLookup 1
        = none ∧
    slot (getFreeLocalConnectionID (run (start idleConnections) movingAdds).manager
      (run (start idleConnections) movingAdds).connections 6 0).2.mActiveConnectionsLookup 9
        = some 1 ∧
    (lookupConnection (run (start idleConnections) movingAdds).manager
      ((run (start idleConnections) movingAdds).connections 1).mLocalConnectionID = some 1 ∧
    lookupConnection
      (getFreeLocalConnectionID (run (start idleConnections) movingAdds).manager
        (run (start idleConnections) movingAdds).connections 6 0).2
      ((run (start idleConnections) movingAdds).connections 1).mLocalConnectionID = some 1 ∧
    (run (start idleConnections) movingAdds).manager.mActiveConnectionsLookup.length <
      (getFreeLocalConnectionID (run (start idleConnections) movingAdds).manager
        (run (start idleConnections) movingAdds).connections 6 0).2.mActiveConnectionsLookup.length) :=
  ⟨by decide, by decide, ⟨9, by decide⟩, by decide, by decide, by decide, by decide,
    grow_keeps_lookup idleConnections movingAdds 6 0 1 (by decide) (by decide) ⟨9, by decide⟩⟩

/-- C3 as stated fails: the sequence `occupancyCalls` followed by one more
`addConnection` applies `removeConnection` only to active connections, its last
`addConnection` succeeds, and right after it 25 of the 32 slots are occupied, which
is more than 75%. -/
theorem occupancy_exceeds_three_quarters :
    removesActive (start idleConnections) (occupancyCalls ++ [.add 25 25 0]) = true ∧
    (getFreeLocalConnectionID (run (start idleConnections) occupancyCalls).manager
      (run (start idleConnections) occupancyCalls).connections 25 0).1 ≠ 0 ∧
    ¬ (occupied (run (start idleConnections)
          (occupancyCalls ++ [.add 25 25 0])).manager.mActiveConnectionsLookup * 4 ≤
        (run (start idleConnections)
          (occupancyCalls ++ [.add 25 25 0])).manager.mActiveConnectionsLookup.length * 3) := by
  decide

/-- C3, amended: when moreover `addConnection` is only applied to connections that
are not active, then immediately after each successful `addConnection` the number of
occupied slots of the lookup array is at most 75% of the array's size. -/
theorem occupancy_after_add (conns : ConnectionHeap) (calls : List TableCall) (c r1 r2 : Nat)
    (h : disciplined (start conns) (calls ++ [.add c r1 r2]) = true)
    (_hs : (getFreeLocalConnectionID (run (start conns) calls).manager
      (run (start conns) calls).connections r1 r2).1 ≠ 0) :
    occupied (run (start conns) (calls ++ [.add c r1 r2])).manager.mActiveConnectionsLookup * 4 ≤
      (run (start conns) (calls ++ [.add c r1 r2])).manager.mActiveConnectionsLookup.length * 3 := by
  have inv := run_inv _ (start conns) (tableInv_start conns) h
  rw [inv.count]
  exact inv.load

/-- C3 amended, at a concrete call sequence. -/
theorem occupancy_after_add_witness :
    disciplined (start idleConnections) (fiveAdds ++ [.add 6 6 0]) = true ∧
    (getFreeLocalConnectionID (run (start idleConnections) fiveAdds).manager
      (run (start idleConnections) fiveAdds).connections 6 0).1 ≠ 0 ∧
    occupied (run (start idleConnections)
        (fiveAdds ++ [.add 6 6 0])).manager.mActiveConnectionsLookup * 4 ≤
      (run (start idleConnections)
        (fiveAdds ++ [.add 6 6 0])).manager.mActiveConnectionsLookup.length * 3 :=
  ⟨by decide, by decide,
    occupancy_after_add idleConnections fiveAdds 6 6 0 (by decide) (by decide)⟩

/-- C4: after any sequence of calls under the calling discipline, slot `i` of the
lookup array holds connection `c` exactly when `mActiveConnections` maps the local
id of `c` to `c` and `i` is that id masked with the bitmask; and the number of
non-null slots equals `mActiveConnections.size()`. -/
theorem lookup_matches_map (conns : ConnectionHeap) (calls : List TableCall)
    (h : disciplined (start conns) calls = true) :
    (∀ i c, slot (run (start conns) calls).manager.mActiveConnectionsLookup i = some c ↔
      ((run (start conns) calls).manager.mActiveConnections.find
          ((run (start conns) calls).connections c).mLocalConnectionID = some c ∧
        i = (((run (start conns) calls).connections c).mLocalConnectionID &&&
              (run (start conns) calls).manager.mBitmaskForActiveConnectionsLookup) % 65536)) ∧
    occupied (run (start conns) calls).manager.mActiveConnectionsLookup =
      (run (start conns) calls).manager.mActiveConnections.size := by
  have inv := run_inv calls (start conns) (tableInv_start conns) h
  exact ⟨inv.slot_iff, inv.count⟩

/-- C4, at a concrete call sequence. -/
theorem lookup_matches_map_witness :
    disciplined (start idleConnections) sampleCalls = true ∧
    ((∀ i c, slot (run (start idleConnections) sampleCalls).manager.mActiveConnectionsLookup i
        = some c ↔
      ((run (start idleConnections) sampleCalls).manager.mActiveConnections.find
          ((run (start idleConnections) sampleCalls).connections c).mLocalConnectionID = some c ∧
        i = (((run (start idleConnections) sampleCalls).connections c).mLocalConnectionID &&&
              (run (start idleConnections) sampleCalls).manager.mBitmaskForActiveConnectionsLookup)
            % 65536)) ∧
    occupied (run (start idleConnections) sampleCalls).manager.mActiveConnectionsLookup =
      (run (start idleConnections) sampleCalls).manager.mActiveConnections.size) :=
  ⟨by decide, lookup_matches_map idleConnections sampleCalls (by decide)⟩

/-! ## Lemmas on the receive pipeline and the queues -/

theorem storeReceivedPacket_queue (m : ConnectionManager) (received : ReceiveResult)
    (s : Nat) (connection : Option Nat) :
    (storeReceivedPacket m received s connection).mReceivedPackets.mWorkerQueue =
      m.mReceivedPackets.mWorkerQueue ++ [m.mReceivedPacketPool.rentObject.1] ∧
    (storeReceivedPacket m received s connection).mReceivedPackets.mSyncedQueue =
      m.mReceivedPackets.mSyncedQueue ∧
    (storeReceivedPacket m received s connection).mReceivedPackets.mToBeReturned =
      m.mReceivedPackets.mToBeReturned :=
  ⟨rfl, rfl, rfl⟩

theorem storeReceivedPacket_object (m : ConnectionManager) (received : ReceiveResult)
    (s : Nat) (connection : Option Nat) :
    ((storeReceivedPacket m received s connection).mReceivedPacketPool.mObjects
        m.mReceivedPacketPool.rentObject.1).mContent = received.mBuffer ∧
    ((storeReceivedPacket m received s connection).mReceivedPacketPool.mObjects
        m.mReceivedPacketPool.rentObject.1).mLowLevelSignature = s ∧
    ((storeReceivedPacket m received s connection).mReceivedPacketPool.mObjects
        m.mReceivedPacketPool.rentObject.1).mSenderAddress = received.mSenderAddress ∧
    ((storeReceivedPacket m received s connection).mReceivedPacketPool.mObjects
        m.mReceivedPacketPool.rentObject.1).mConnection = connection := by
  simp [storeReceivedPacket, ObjectPool.write]

theorem dispatchReceived_queue (sig : Signatures) (order : ByteOrder) (conns : ConnectionHeap)
    (m : ConnectionManager) (received : ReceiveResult) :
    (∃ new, (dispatchReceived sig order conns m received).mReceivedPackets.mWorkerQueue =
      m.mReceivedPackets.mWorkerQueue ++ new) ∧
    (dispatchReceived sig order conns m received).mReceivedPackets.mSyncedQueue =
      m.mReceivedPackets.mSyncedQueue := by
  unfold dispatchReceived
  simp only
  split
  · exact ⟨⟨_, (storeReceivedPacket_queue m received _ _).1⟩, rfl⟩
  · split
    · exact ⟨⟨[], by simp⟩, rfl⟩
    · split
      · exact ⟨⟨[], by simp⟩, rfl⟩
      · split
        · exact ⟨⟨[], by simp⟩, rfl⟩
        · exact ⟨⟨_, (storeReceivedPacket_queue m received _ _).1⟩, rfl⟩

theorem processDatagram_queue (sig : Signatures) (order : ByteOrder) (conns : ConnectionHeap)
    (m : ConnectionManager) (a : ReceiveAttempt) :
    (∃ new, (processDatagram sig order conns m a).mReceivedPackets.mWorkerQueue =
      m.mReceivedPackets.mWorkerQueue ++ new) ∧
    (processDatagram sig order conns m a).mReceivedPackets.mSyncedQueue =
      m.mReceivedPackets.mSyncedQueue := by
  unfold processDatagram
  split
  · exact ⟨⟨[], by simp⟩, rfl⟩
  · split
    · exact ⟨⟨[], by simp⟩, rfl⟩
    · exact dispatchReceived_queue sig order conns m a.received

theorem loop_queue (sig : Signatures) (order : ByteOrder) (conns : ConnectionHeap) :
    ∀ n runs m socket,
      (∃ new, (updateReceivePacketsLoop sig order conns n runs m socket).2.1.mReceivedPackets.mWorkerQueue
        = m.mReceivedPackets.mWorkerQueue ++ new) ∧
      (updateReceivePacketsLoop sig order conns n runs m socket).2.1.mReceivedPackets.mSyncedQueue
        = m.mReceivedPackets.mSyncedQueue := by
  intro n
  induction n with
  | zero => intro runs m socket; exact ⟨⟨[], by simp [updateReceivePacketsLoop]⟩, rfl⟩
  | succ n ih =>
    intro runs m socket
    unfold updateReceivePacketsLoop
    simp only
    split
    · exact ⟨⟨[], by simp⟩, rfl⟩
    · split
      · exact ⟨⟨[], by simp⟩, rfl⟩
      · obtain ⟨⟨new1, h1⟩, h2⟩ := processDatagram_queue sig order conns m
          (receiveNonBlocking socket).1
        obtain ⟨⟨new2, h3⟩, h4⟩ := ih (runs + 1)
          (processDatagram sig order conns m (receiveNonBlocking socket).1)
          (receiveNonBlocking socket).2
        refine ⟨⟨new1 ++ new2, ?_⟩, ?_⟩
        · rw [h3, h1, List.append_assoc]
        · rw [h4, h2]

/-- A received datagram with data moves the loop on by one iteration with the manager
that `processDatagram` leaves. -/
theorem loop_step (sig : Signatures) (order : ByteOrder) (conns : ConnectionHeap)
    (n runs : Nat) (m : ConnectionManager) (a : ReceiveAttempt) (rest : Socket)
    (hs : a.success = true) (hne : 1 ≤ a.received.mBuffer.length) :
    updateReceivePacketsLoop sig order conns (n + 1) runs m (a :: rest) =
      updateReceivePacketsLoop sig order conns n (runs + 1)
        (processDatagram sig order conns m a) rest := by
  have h1 : a.received.mBuffer.isEmpty = false := by
    cases hb : a.received.mBuffer with
    | nil => rw [hb] at hne; simp at hne
    | cons x xs => rfl
  conv_lhs => unfold updateReceivePacketsLoop
  simp [receiveNonBlocking, hs, h1]

theorem syncLoop_eq (worker synced : List Nat) :
    syncLoop worker synced = ([], synced ++ worker) := by
  induction worker generalizing synced with
  | nil => simp [syncLoop]
  | cons p rest ih => simp [syncLoop, ih]

/-- The bookkeeping behind C9: what was accepted is what was returned, followed by
the synced queue, followed by the worker queue. -/
theorem runQueue_inv (sig : Signatures) (order : ByteOrder) (conns : ConnectionHeap)
    (calls : List QueueCall) :
    ∀ st : ConnectionManager × QueueTrace,
      st.2.accepted = st.2.returned ++ st.1.mReceivedPackets.mSyncedQueue ++
        st.1.mReceivedPackets.mWorkerQueue →
      (runQueue sig order conns st calls).2.accepted =
        (runQueue sig order conns st calls).2.returned ++
          (runQueue sig order conns st calls).1.mReceivedPackets.mSyncedQueue ++
          (runQueue sig order conns st calls).1.mReceivedPackets.mWorkerQueue := by
  induction calls with
  | nil => intro st h; exact h
  | cons call rest ih =>
    intro st h
    apply ih
    cases call with
    | receive socket =>
      obtain ⟨⟨new, h1⟩, h2⟩ := loop_queue sig order conns 10 0 st.1 socket
      simp only [queueStep, updateReceivePackets]
      rw [h1, h2, h]
      simp [List.append_assoc]
    | sync =>
      simp only [queueStep, syncPacketQueues, syncLoop_eq]
      rw [h]
      simp [List.append_assoc]
    | getNext =>
      simp only [queueStep, getNextReceivedPacket]
      cases hq : st.1.mReceivedPackets.mSyncedQueue with
      | nil =>
        simp only
        rw [h, hq]
      | cons p tl =>
        simp only
        rw [h, hq]
        simp [List.append_assoc]

/-! ## Claims on the receive pipeline and the queues -/

/-- C5 fails on the code: with connection 1 registered under local id 5, a 6-byte
datagram whose signature is neither start-connection nor error and whose
local-connection-id field is 13, the local id of no active connection, is looked up
in slot `13 & 7 = 5`, finds connection 1 and is appended to the worker queue as a
packet of connection 1.  The function takes whatever connection the masked slot holds
for "the connection in our list of active connections" and never compares the
datagram's local id with the id of that connection. -/
theorem aliased_id_is_delivered :
    6 ≤ aliasedDatagram.received.mBuffer.length ∧
    read16 .littleEndian aliasedDatagram.received.mBuffer 0 ≠ sampleSignatures.startConnection ∧
    read16 .littleEndian aliasedDatagram.received.mBuffer 0 ≠ sampleSignatures.error ∧
    read16 .littleEndian aliasedDatagram.received.mBuffer 4 = 13 ∧
    oneConnection.manager.mActiveConnections.find 13 = none ∧
    (∀ e ∈ oneConnection.manager.mActiveConnections,
      (oneConnection.connections e.2).mLocalConnectionID ≠ 13) ∧
    oneConnection.manager.mReceivedPackets.mWorkerQueue = [] ∧
    (updateReceivePackets sampleSignatures .littleEndian oneConnection.connections
      oneConnection.manager [aliasedDatagram]).2.1.mReceivedPackets.mWorkerQueue = [0] ∧
    ((updateReceivePackets sampleSignatures .littleEndian oneConnection.connections
      oneConnection.manager [aliasedDatagram]).2.1.mReceivedPacketPool.mObjects 0).mConnection
      = some 1 := by
  decide

/-- The case of an unknown connection that the code does recognise: for every table
state and every datagram of at least 6 bytes whose signature is neither
start-connection nor error and whose non-zero local-connection-id field selects an
empty slot of the lookup array (`field & bitmask`), `updateReceivePackets` delivers
nothing: the manager, with its worker queue, synced queue and packet pool, is left as
it was, in whatever loop iteration the datagram arrives. -/
theorem unknown_slot_not_delivered (sig : Signatures) (order : ByteOrder)
    (conns : ConnectionHeap) (m : ConnectionManager) (a : ReceiveAttempt)
    (hlen : 6 ≤ a.received.mBuffer.length)
    (hstart : read16 order a.received.mBuffer 0 ≠ sig.startConnection)
    (_herr : read16 order a.received.mBuffer 0 ≠ sig.error)
    (_hnz : read16 order a.received.mBuffer 4 ≠ 0)
    (hfree : lookupConnection m (read16 order a.received.mBuffer 4) = none) :
    processDatagram sig order conns m a = m ∧
    (∀ n runs rest, a.success = true →
      updateReceivePacketsLoop sig order conns (n + 1) runs m (a :: rest) =
        updateReceivePacketsLoop sig order conns n (runs + 1) m rest) := by
  have h1 : processDatagram sig order conns m a = m := by
    unfold processDatagram dispatchReceived
    simp only [hfree, hstart, if_false]
    split_ifs <;> rfl
  refine ⟨h1, ?_⟩
  intro n runs rest hs
  rw [loop_step sig order conns n runs m a rest hs (by omega), h1]

/-- The empty-slot case at a concrete datagram. -/
theorem unknown_slot_not_delivered_witness :
    6 ≤ strayDatagram.received.mBuffer.length ∧
    read16 .littleEndian strayDatagram.received.mBuffer 0 ≠ sampleSignatures.startConnection ∧
    read16 .littleEndian strayDatagram.received.mBuffer 0 ≠ sampleSignatures.error ∧
    read16 .littleEndian strayDatagram.received.mBuffer 4 ≠ 0 ∧
    lookupConnection oneConnection.manager
      (read16 .littleEndian strayDatagram.received.mBuffer 4) = none ∧
    (processDatagram sampleSignatures .littleEndian oneConnection.connections
        oneConnection.manager strayDatagram = oneConnection.manager ∧
      (∀ n runs rest, strayDatagram.success = true →
        updateReceivePacketsLoop sampleSignatures .littleEndian oneConnection.connections
            (n + 1) runs oneConnection.manager (strayDatagram :: rest) =
          updateReceivePacketsLoop sampleSignatures .littleEndian oneConnection.connections
            n (runs + 1) oneConnection.manager rest)) :=
  ⟨by decide, by decide, by decide, by decide, by decide,
    unknown_slot_not_delivered sampleSignatures .littleEndian oneConnection.connections
      oneConnection.manager strayDatagram (by decide) (by decide) (by decide) (by decide)
      (by decide)⟩

/-- C6 as stated fails in a `DEBUG` build with receive-loss simulation: the datagram
`lostDatagram` has 6 bytes, a signature other than start-connection, the local id 5
of the active connection 1 and that connection's remote id 0, and yet the call
appends nothing to the worker queue. -/
theorem matching_datagram_lost :
    6 ≤ lostDatagram.received.mBuffer.length ∧
    read16 .littleEndian lostDatagram.received.mBuffer 0 ≠ sampleSignatures.startConnection ∧
    read16 .littleEndian lostDatagram.received.mBuffer 4 ≠ 0 ∧
    lookupConnection oneConnection.manager
      (read16 .littleEndian lostDatagram.received.mBuffer 4) = some 1 ∧
    read16 .littleEndian lostDatagram.received.mBuffer 2 =
      (oneConnection.connections 1).mRemoteConnectionID ∧
    (updateReceivePackets sampleSignatures .littleEndian oneConnection.connections
      oneConnection.manager [lostDatagram]).2.1.mReceivedPackets.mWorkerQueue =
      oneConnection.manager.mReceivedPackets.mWorkerQueue := by
  decide

/-- C6, amended: for every datagram of at least 6 bytes that the receive-loss
simulation does not discard, with a signature other than start-connection, whose
non-zero local-connection-id field resolves to connection `c`: if its
remote-connection-id field equals the remote id recorded in `c` or its signature is
accept-connection, exactly one packet is appended to the worker queue, holding the
datagram and tagged with `c`; otherwise the manager is left as it was. -/
theorem known_connection_delivery (sig : Signatures) (order : ByteOrder)
    (conns : ConnectionHeap) (m : ConnectionManager) (a : ReceiveAttempt) (c : Nat)
    (hlen : 6 ≤ a.received.mBuffer.length)
    (hloss : a.simulatedLoss = false)
    (hstart : read16 order a.received.mBuffer 0 ≠ sig.startConnection)
    (hnz : read16 order a.received.mBuffer 4 ≠ 0)
    (hc : lookupConnection m (read16 order a.received.mBuffer 4) = some c) :
    (((conns c).mRemoteConnectionID = read16 order a.received.mBuffer 2 ∨
        read16 order a.received.mBuffer 0 = sig.acceptConnection) →
      (processDatagram sig order conns m a).mReceivedPackets.mWorkerQueue =
        m.mReceivedPackets.mWorkerQueue ++ [m.mReceivedPacketPool.rentObject.1] ∧
      ((processDatagram sig order conns m a).mReceivedPacketPool.mObjects
        m.mReceivedPacketPool.rentObject.1).mConnection = some c ∧
      ((processDatagram sig order conns m a).mReceivedPacketPool.mObjects
        m.mReceivedPacketPool.rentObject.1).mContent = a.received.mBuffer) ∧
    (¬ ((conns c).mRemoteConnectionID = read16 order a.received.mBuffer 2 ∨
        read16 order a.received.mBuffer 0 = sig.acceptConnection) →
      processDatagram sig order conns m a = m) := by
  have hl : ¬ a.received.mBuffer.length < 6 := by omega
  constructor
  · intro hcond
    have e1 : processDatagram sig order conns m a =
        storeReceivedPacket m a.received (read16 order a.received.mBuffer 0) (some c) := by
      unfold processDatagram dispatchReceived
      simp only [hl, hloss, hstart, hnz, hc, if_false, Bool.false_eq_true]
      rw [if_neg]
      rintro ⟨h1, h2⟩
      rcases hcond with h | h
      · exact h1 h
      · exact h2 h
    rw [e1]
    exact ⟨(storeReceivedPacket_queue _ _ _ _).1, (storeReceivedPacket_object _ _ _ _).2.2.2,
      (storeReceivedPacket_object _ _ _ _).1⟩
  · intro hcond
    unfold processDatagram dispatchReceived
    simp only [hl, hloss, hstart, hnz, hc, if_false, Bool.false_eq_true]
    rw [if_pos]
    exact ⟨fun h => hcond (Or.inl h), fun h => hcond (Or.inr h)⟩

/-- C6 amended, at a concrete datagram for the registered connection. -/
theorem known_connection_delivery_witness :
    6 ≤ matchingDatagram.received.mBuffer.length ∧
    matchingDatagram.simulatedLoss = false ∧
    read16 .littleEndian matchingDatagram.received.mBuffer 0 ≠
      sampleSignatures.startConnection ∧
    read16 .littleEndian matchingDatagram.received.mBuffer 4 ≠ 0 ∧
    lookupConnection oneConnection.manager
      (read16 .littleEndian matchingDatagram.received.mBuffer 4) = some 1 ∧
    ((((oneConnection.connections 1).mRemoteConnectionID =
          read16 .littleEndian matchingDatagram.received.mBuffer 2 ∨
        read16 .littleEndian matchingDatagram.received.mBuffer 0 =
          sampleSignatures.acceptConnection) →
      (processDatagram sampleSignatures .littleEndian oneConnection.connections
          oneConnection.manager matchingDatagram).mReceivedPackets.mWorkerQueue =
        oneConnection.manager.mReceivedPackets.mWorkerQueue ++
          [oneConnection.manager.mReceivedPacketPool.rentObject.1] ∧
      ((processDatagram sampleSignatures .littleEndian oneConnection.connections
          oneConnection.manager matchingDatagram).mReceivedPacketPool.mObjects
        oneConnection.manager.mReceivedPacketPool.rentObject.1).mConnection = some 1 ∧
      ((processDatagram sampleSignatures .littleEndian oneConnection.connections
          oneConnection.manager matchingDatagram).mReceivedPacketPool.mObjects
        oneConnection.manager.mReceivedPacketPool.rentObject.1).mContent =
          matchingDatagram.received.mBuffer) ∧
    (¬ ((oneConnection.connections 1).mRemoteConnectionID =
          read16 .littleEndian matchingDatagram.received.mBuffer 2 ∨
        read16 .littleEndian matchingDatagram.received.mBuffer 0 =
          sampleSignatures.acceptConnection) →
      processDatagram sampleSignatures .littleEndian oneConnection.connections
        oneConnection.manager matchingDatagram = oneConnection.manager)) :=
  ⟨by decide, by decide, by decide, by decide, by decide,
    known_connection_delivery sampleSignatures .littleEndian oneConnection.connections
      oneConnection.manager matchingDatagram 1 (by decide) (by decide) (by decide) (by decide)
      (by decide)⟩

/-- C7: a received datagram of 1 to 5 bytes, whatever its content, is dropped: the
manager after the iteration is the manager before it (worker queue, synced queue,
to-be-returned list and packet pool included, so nothing is rented), and the loop
goes on to its next iteration with that manager. -/
theorem short_datagram_dropped (sig : Signatures) (order : ByteOrder)
    (conns : ConnectionHeap) (m : ConnectionManager) (a : ReceiveAttempt)
    (h1 : 1 ≤ a.received.mBuffer.length) (h5 : a.received.mBuffer.length ≤ 5) :
    processDatagram sig order conns m a = m ∧
    (∀ n runs rest, a.success = true →
      updateReceivePacketsLoop sig order conns (n + 1) runs m (a :: rest) =
        updateReceivePacketsLoop sig order conns n (runs + 1) m rest) ∧
    (updateReceivePackets sig order conns m [a]).2.1 = m := by
  have hp : processDatagram sig order conns m a = m := by
    unfold processDatagram
    rw [if_pos (by omega)]
  refine ⟨hp, ?_, ?_⟩
  · intro n runs rest hs
    rw [loop_step sig order conns n runs m a rest hs h1, hp]
  · cases hs : a.success with
    | false =>
      simp [updateReceivePackets, updateReceivePacketsLoop, receiveNonBlocking, hs]
    | true =>
      unfold updateReceivePackets
      rw [loop_step sig order conns 9 0 m a [] hs h1, hp]
      simp [updateReceivePacketsLoop, receiveNonBlocking]

/-- C7, at a concrete 4-byte datagram. -/
theorem short_datagram_dropped_witness :
    1 ≤ shortDatagram.received.mBuffer.length ∧
    shortDatagram.received.mBuffer.length ≤ 5 ∧
    (processDatagram sampleSignatures .littleEndian oneConnection.connections
        oneConnection.manager shortDatagram = oneConnection.manager ∧
    (∀ n runs rest, shortDatagram.success = true →
      updateReceivePacketsLoop sampleSignatures .littleEndian oneConnection.connections
          (n + 1) runs oneConnection.manager (shortDatagram :: rest) =
        updateReceivePacketsLoop sampleSignatures .littleEndian oneConnection.connections
          n (runs + 1) oneConnection.manager rest) ∧
    (updateReceivePackets sampleSignatures .littleEndian oneConnection.connections
        oneConnection.manager [shortDatagram]).2.1 = oneConnection.manager) :=
  ⟨by decide, by decide,
    short_datagram_dropped sampleSignatures .littleEndian oneConnection.connections
      oneConnection.manager shortDatagram (by decide) (by decide)⟩

/-- C8: for every manager state, a received datagram of at least 6 bytes whose first
16-bit field is the start-connection signature and which the receive-loss simulation
does not discard makes the iteration append exactly one packet to the worker queue;
that packet holds the datagram, has no owning connection, and the connection-id
fields of the datagram play no part. -/
theorem start_connection_enqueued (sig : Signatures) (order : ByteOrder)
    (conns : ConnectionHeap) (m : ConnectionManager) (a : ReceiveAttempt)
    (hlen : 6 ≤ a.received.mBuffer.length)
    (hloss : a.simulatedLoss = false)
    (hsig : read16 order a.received.mBuffer 0 = sig.startConnection) :
    (processDatagram sig order conns m a).mReceivedPackets.mWorkerQueue =
      m.mReceivedPackets.mWorkerQueue ++ [m.mReceivedPacketPool.rentObject.1] ∧
    ((processDatagram sig order conns m a).mReceivedPacketPool.mObjects
      m.mReceivedPacketPool.rentObject.1).mConnection = none ∧
    ((processDatagram sig order conns m a).mReceivedPacketPool.mObjects
      m.mReceivedPacketPool.rentObject.1).mContent = a.received.mBuffer ∧
    (∀ n runs rest, a.success = true →
      updateReceivePacketsLoop sig order conns (n + 1) runs m (a :: rest) =
        updateReceivePacketsLoop sig order conns n (runs + 1)
          (storeReceivedPacket m a.received sig.startConnection none) rest) := by
  have hl : ¬ a.received.mBuffer.length < 6 := by omega
  have e1 : processDatagram sig order conns m a =
      storeReceivedPacket m a.received sig.startConnection none := by
    unfold processDatagram dispatchReceived
    simp only [hl, hloss, hsig, if_false, if_true, Bool.false_eq_true]
  rw [e1]
  refine ⟨(storeReceivedPacket_queue _ _ _ _).1, (storeReceivedPacket_object _ _ _ _).2.2.2,
    (storeReceivedPacket_object _ _ _ _).1, ?_⟩
  intro n runs rest hs
  rw [loop_step sig order conns n runs m a rest hs (by omega), e1]

/-- C8, at a concrete 10-byte start-connection datagram. -/
theorem start_connection_enqueued_witness :
    6 ≤ startDatagram.received.mBuffer.length ∧
    startDatagram.simulatedLoss = false ∧
    read16 .littleEndian startDatagram.received.mBuffer 0 = sampleSignatures.startConnection ∧
    ((processDatagram sampleSignatures .littleEndian oneConnection.connections
        oneConnection.manager startDatagram).mReceivedPackets.mWorkerQueue =
      oneConnection.manager.mReceivedPackets.mWorkerQueue ++
        [oneConnection.manager.mReceivedPacketPool.rentObject.1] ∧
    ((processDatagram sampleSignatures .littleEndian oneConnection.connections
        oneConnection.manager startDatagram).mReceivedPacketPool.mObjects
      oneConnection.manager.mReceivedPacketPool.rentObject.1).mConnection = none ∧
    ((processDatagram sampleSignatures .littleEndian oneConnection.connections
        oneConnection.manager startDatagram).mReceivedPacketPool.mObjects
      oneConnection.manager.mReceivedPacketPool.rentObject.1).mContent =
        startDatagram.received.mBuffer ∧
    (∀ n runs rest, startDatagram.success = true →
      updateReceivePacketsLoop sampleSignatures .littleEndian oneConnection.connections
          (n + 1) runs oneConnection.manager (startDatagram :: rest) =
        updateReceivePacketsLoop sampleSignatures .littleEndian oneConnection.connections
          n (runs + 1)
          (storeReceivedPacket oneConnection.manager startDatagram.received
            sampleSignatures.startConnection none) rest)) :=
  ⟨by decide, by decide, by decide,
    start_connection_enqueued sampleSignatures .littleEndian oneConnection.connections
      oneConnection.manager startDatagram (by decide) (by decide) (by decide)⟩

/-- C9: starting with empty worker and synced queues, after any interleaving of
`updateReceivePackets`, `syncPacketQueues` and `getNextReceivedPacket` calls the
packets returned by `getNextReceivedPacket` are, in order, an initial segment of the
packets accepted by `updateReceivePackets`; the accepted packets not yet returned are
exactly the synced queue followed by the worker queue. -/
theorem returned_is_initial_segment_of_accepted (sig : Signatures) (order : ByteOrder)
    (conns : ConnectionHeap) (m : ConnectionManager) (calls : List QueueCall)
    (hw : m.mReceivedPackets.mWorkerQueue = []) (hs : m.mReceivedPackets.mSyncedQueue = []) :
    (runQueue sig order conns (m, { accepted := [], returned := [] }) calls).2.returned <+:
      (runQueue sig order conns (m, { accepted := [], returned := [] }) calls).2.accepted ∧
    (runQueue sig order conns (m, { accepted := [], returned := [] }) calls).2.accepted =
      (runQueue sig order conns (m, { accepted := [], returned := [] }) calls).2.returned ++
        (runQueue sig order conns (m, { accepted := [], returned := [] })
          calls).1.mReceivedPackets.mSyncedQueue ++
        (runQueue sig order conns (m, { accepted := [], returned := [] })
          calls).1.mReceivedPackets.mWorkerQueue := by
  have h := runQueue_inv sig order conns calls (m, { accepted := [], returned := [] })
    (by simp [hw, hs])
  refine ⟨?_, h⟩
  rw [h, List.append_assoc]
  exact List.prefix_append _ _

/-- C9, at a concrete interleaving. -/
theorem returned_is_initial_segment_of_accepted_witness :
    oneConnection.manager.mReceivedPackets.mWorkerQueue = [] ∧
    oneConnection.manager.mReceivedPackets.mSyncedQueue = [] ∧
    ((runQueue sampleSignatures .littleEndian oneConnection.connections
        (oneConnection.manager, { accepted := [], returned := [] })
        sampleQueueCalls).2.returned <+:
      (runQueue sampleSignatures .littleEndian oneConnection.connections
        (oneConnection.manager, { accepted := [], returned := [] })
        sampleQueueCalls).2.accepted ∧
    (runQueue sampleSignatures .littleEndian oneConnection.connections
        (oneConnection.manager, { accepted := [], returned := [] })
        sampleQueueCalls).2.accepted =
      (runQueue sampleSignatures .littleEndian oneConnection.connections
        (oneConnection.manager, { accepted := [], returned := [] })
        sampleQueueCalls).2.returned ++
        (runQueue sampleSignatures .littleEndian oneConnection.connections
          (oneConnection.manager, { accepted := [], returned := [] })
          sampleQueueCalls).1.mReceivedPackets.mSyncedQueue ++
        (runQueue sampleSignatures .littleEndian oneConnection.connections
          (oneConnection.manager, { accepted := [], returned := [] })
          sampleQueueCalls).1.mReceivedPackets.mWorkerQueue) :=
  ⟨by decide, by decide,
    returned_is_initial_segment_of_accepted sampleSignatures .littleEndian
      oneConnection.connections oneConnection.manager sampleQueueCalls (by decide) (by decide)⟩

/-- C10: after `syncPacketQueues` the worker queue is empty and the synced queue is
its previous content followed by the previous content of the worker queue, in the
same order. -/
theorem sync_moves_worker_to_synced (m : ConnectionManager) :
    (syncPacketQueues m).mReceivedPackets.mWorkerQueue = [] ∧
    (syncPacketQueues m).mReceivedPackets.mSyncedQueue =
      m.mReceivedPackets.mSyncedQueue ++ m.mReceivedPackets.mWorkerQueue := by
  simp [syncPacketQueues, syncLoop_eq]

/-! ## More lemmas on the receive loop -/

theorem storeAll_append (items more : List Accepted) :
    ∀ m, storeAll m (items ++ more) = storeAll (storeAll m items) more := by
  induction items with
  | nil => intro m; rfl
  | cons item rest ih => intro m; exact ih _

theorem storeAll_queue (items : List Accepted) :
    ∀ m, ∃ new, new.length = items.length ∧
      (storeAll m items).mReceivedPackets.mWorkerQueue =
        m.mReceivedPackets.mWorkerQueue ++ new := by
  induction items with
  | nil => intro m; exact ⟨[], rfl, by simp [storeAll]⟩
  | cons item rest ih =>
    intro m
    obtain ⟨new, h1, h2⟩ := ih (storeReceivedPacket m item.received item.signature item.connection)
    refine ⟨m.mReceivedPacketPool.rentObject.1 :: new, by simp [h1], ?_⟩
    simp only [storeAll]
    rw [h2, (storeReceivedPacket_queue _ _ _ _).1]
    simp

theorem dispatchReceived_stores (sig : Signatures) (order : ByteOrder) (conns : ConnectionHeap)
    (m : ConnectionManager) (received : ReceiveResult) :
    ∃ items, items.length ≤ 1 ∧ dispatchReceived sig order conns m received = storeAll m items := by
  unfold dispatchReceived
  simp only
  split
  · exact ⟨[⟨received, _, none⟩], le_refl _, rfl⟩
  · split
    · exact ⟨[], by simp, rfl⟩
    · split
      · exact ⟨[], by simp, rfl⟩
      · split
        · exact ⟨[], by simp, rfl⟩
        · exact ⟨[⟨received, _, some _⟩], le_refl _, rfl⟩

theorem processDatagram_stores (sig : Signatures) (order : ByteOrder) (conns : ConnectionHeap)
    (m : ConnectionManager) (a : ReceiveAttempt) :
    ∃ items, items.length ≤ 1 ∧ processDatagram sig order conns m a = storeAll m items := by
  unfold processDatagram
  split
  · exact ⟨[], by simp, rfl⟩
  · split
    · exact ⟨[], by simp, rfl⟩
    · exact dispatchReceived_stores sig order conns m a.received

/-- The manager after the loop is the manager before it with at most one
`storeReceivedPacket` step for each iteration. -/
theorem loop_stores (sig : Signatures) (order : ByteOrder) (conns : ConnectionHeap) :
    ∀ n runs m socket, ∃ items, items.length ≤ n ∧
      (updateReceivePacketsLoop sig order conns n runs m socket).2.1 = storeAll m items := by
  intro n
  induction n with
  | zero => intro runs m socket; exact ⟨[], le_refl _, rfl⟩
  | succ n ih =>
    intro runs m socket
    unfold updateReceivePacketsLoop
    simp only
    split
    · exact ⟨[], by simp, rfl⟩
    · split
      · exact ⟨[], by simp, rfl⟩
      · obtain ⟨items1, h1, e1⟩ := processDatagram_stores sig order conns m
          (receiveNonBlocking socket).1
        obtain ⟨items2, h2, e2⟩ := ih (runs + 1)
          (processDatagram sig order conns m (receiveNonBlocking socket).1)
          (receiveNonBlocking socket).2
        refine ⟨items1 ++ items2, by simp; omega, ?_⟩
        rw [e2, e1, storeAll_append]

/-- The loop reads at most one socket result for each iteration and leaves the
others in the socket. -/
theorem loop_socket (sig : Signatures) (order : ByteOrder) (conns : ConnectionHeap) :
    ∀ n runs m socket, ∃ consumed, consumed.length ≤ n ∧
      socket = consumed ++ (updateReceivePacketsLoop sig order conns n runs m socket).2.2 := by
  intro n
  induction n with
  | zero => intro runs m socket; exact ⟨[], le_refl _, rfl⟩
  | succ n ih =>
    intro runs m socket
    cases socket with
    | nil =>
      refine ⟨[], by simp, ?_⟩
      simp [updateReceivePacketsLoop, receiveNonBlocking]
    | cons a rest =>
      unfold updateReceivePacketsLoop
      simp only [receiveNonBlocking]
      split
      · exact ⟨[a], by simp, rfl⟩
      · split
        · exact ⟨[a], by simp, rfl⟩
        · obtain ⟨consumed, h1, h2⟩ := ih (runs + 1) (processDatagram sig order conns m a) rest
          refine ⟨a :: consumed, by simp; omega, ?_⟩
          rw [List.cons_append, ← h2]

/-- Only the first `n` socket results matter to a loop of `n` iterations. -/
theorem loop_take (sig : Signatures) (order : ByteOrder) (conns : ConnectionHeap) :
    ∀ n runs m socket,
      (updateReceivePacketsLoop sig order conns n runs m (socket.take n)).1 =
        (updateReceivePacketsLoop sig order conns n runs m socket).1 ∧
      (updateReceivePacketsLoop sig order conns n runs m (socket.take n)).2.1 =
        (updateReceivePacketsLoop sig order conns n runs m socket).2.1 := by
  intro n
  induction n with
  | zero => intro runs m socket; exact ⟨rfl, rfl⟩
  | succ n ih =>
    intro runs m socket
    cases socket with
    | nil => exact ⟨rfl, rfl⟩
    | cons a rest =>
      rw [List.take_succ_cons]
      unfold updateReceivePacketsLoop
      simp only [receiveNonBlocking]
      split
      · exact ⟨rfl, rfl⟩
      · split
        · exact ⟨rfl, rfl⟩
        · exact ih (runs + 1) (processDatagram sig order conns m a) rest

theorem isDatagram_iff (a : ReceiveAttempt) :
    isDatagram a = true ↔ a.success = true ∧ 1 ≤ a.received.mBuffer.length := by
  unfold isDatagram
  cases hb : a.received.mBuffer with
  | nil => simp
  | cons x xs => simp

/-- The flag returned when the socket runs out of data after the datagrams `pre`. -/
theorem loop_flag_no_data (sig : Signatures) (order : ByteOrder) (conns : ConnectionHeap)
    (pre : List ReceiveAttempt) :
    ∀ n runs m (noData : ReceiveAttempt) (rest : Socket),
      (∀ a ∈ pre, isDatagram a = true) → pre.length < n → isNoData noData = true →
      (updateReceivePacketsLoop sig order conns n runs m (pre ++ noData :: rest)).1 =
        decide (runs + pre.length > 0) ∧
      (updateReceivePacketsLoop sig order conns n runs m pre).1 =
        decide (runs + pre.length > 0) := by
  induction pre with
  | nil =>
    intro n runs m noData rest _ hn hnd
    obtain ⟨n, rfl⟩ : ∃ k, n = k + 1 := ⟨n - 1, by simp at hn; omega⟩
    unfold isNoData at hnd
    simp only [Bool.and_eq_true] at hnd
    simp [updateReceivePacketsLoop, receiveNonBlocking, hnd.1, hnd.2]
  | cons a pre ih =>
    intro n runs m noData rest hpre hn hnd
    obtain ⟨n, rfl⟩ : ∃ k, n = k + 1 := ⟨n - 1, by simp at hn; omega⟩
    have ha := (isDatagram_iff a).mp (hpre a (List.mem_cons_self _ _))
    have hpre' : ∀ b ∈ pre, isDatagram b = true :=
      fun b hb => hpre b (List.mem_cons_of_mem _ hb)
    have hn' : pre.length < n := by simp at hn; omega
    obtain ⟨i1, i2⟩ := ih n (runs + 1) (processDatagram sig order conns m a) noData rest
      hpre' hn' hnd
    rw [List.cons_append, loop_step sig order conns n runs m a _ ha.1 ha.2,
      loop_step sig order conns n runs m a _ ha.1 ha.2, i1, i2]
    simp only [List.length_cons]
    constructor <;> congr 1 <;> simp

/-- The flag returned when every iteration of the loop receives a datagram. -/
theorem loop_flag_saturated (sig : Signatures) (order : ByteOrder) (conns : ConnectionHeap)
    (pre : List ReceiveAttempt) :
    ∀ n runs m (rest : Socket),
      (∀ a ∈ pre, isDatagram a = true) → pre.length = n →
      (updateReceivePacketsLoop sig order conns n runs m (pre ++ rest)).1 = true := by
  induction pre with
  | nil =>
    intro n runs m rest _ hn
    simp at hn
    subst hn
    rfl
  | cons a pre ih =>
    intro n runs m rest hpre hn
    obtain ⟨n, rfl⟩ : ∃ k, n = k + 1 := ⟨n - 1, by simp at hn; omega⟩
    have ha := (isDatagram_iff a).mp (hpre a (List.mem_cons_self _ _))
    have hpre' : ∀ b ∈ pre, isDatagram b = true :=
      fun b hb => hpre b (List.mem_cons_of_mem _ hb)
    rw [List.cons_append, loop_step sig order conns n runs m a _ ha.1 ha.2]
    exact ih n (runs + 1) _ rest hpre' (by simp at hn; omega)

/-! ## Claims on `getNextReceivedPacket` and the receive loop -/

/-- C12: `getNextReceivedPacket` returns null exactly when the synced queue is empty,
and then leaves the manager as it is; otherwise it returns the head of the synced
queue, the synced queue becomes its tail, the other two lists stay, and the returned
packet gets reference count 1 and the manager's to-be-returned list as its dump while
its four data fields and all other packets stay as they are. -/
theorem getNextReceivedPacket_spec (m : ConnectionManager) :
    ((getNextReceivedPacket m).1 = none ↔ m.mReceivedPackets.mSyncedQueue = []) ∧
    (m.mReceivedPackets.mSyncedQueue = [] → (getNextReceivedPacket m).2 = m) ∧
    (∀ p rest, m.mReceivedPackets.mSyncedQueue = p :: rest →
      (getNextReceivedPacket m).1 = some p ∧
      (getNextReceivedPacket m).2.mReceivedPackets.mSyncedQueue = rest ∧
      (getNextReceivedPacket m).2.mReceivedPackets.mWorkerQueue =
        m.mReceivedPackets.mWorkerQueue ∧
      (getNextReceivedPacket m).2.mReceivedPackets.mToBeReturned =
        m.mReceivedPackets.mToBeReturned ∧
      ((getNextReceivedPacket m).2.mReceivedPacketPool.mObjects p).mReferenceCounter = 1 ∧
      ((getNextReceivedPacket m).2.mReceivedPacketPool.mObjects p).mDump = true ∧
      ((getNextReceivedPacket m).2.mReceivedPacketPool.mObjects p).mContent =
        (m.mReceivedPacketPool.mObjects p).mContent ∧
      ((getNextReceivedPacket m).2.mReceivedPacketPool.mObjects p).mLowLevelSignature =
        (m.mReceivedPacketPool.mObjects p).mLowLevelSignature ∧
      ((getNextReceivedPacket m).2.mReceivedPacketPool.mObjects p).mSenderAddress =
        (m.mReceivedPacketPool.mObjects p).mSenderAddress ∧
      ((getNextReceivedPacket m).2.mReceivedPacketPool.mObjects p).mConnection =
        (m.mReceivedPacketPool.mObjects p).mConnection ∧
      (∀ q, q ≠ p → (getNextReceivedPacket m).2.mReceivedPacketPool.mObjects q =
        m.mReceivedPacketPool.mObjects q)) := by
  refine ⟨?_, ?_, ?_⟩
  · cases h : m.mReceivedPackets.mSyncedQueue <;> simp [getNextReceivedPacket, h]
  · intro h
    simp [getNextReceivedPacket, h]
  · intro p rest h
    simp only [getNextReceivedPacket, h, ObjectPool.write, initializeWithDump, if_true,
      true_and]
    intro q hq
    simp [hq]

/-- C13 as stated fails in a `DEBUG` build with receive-loss simulation: a 10-byte
start-connection datagram and a 4-byte datagram followed by no data leave the worker
queue as it was, with no enqueued packet, when the simulated loss hits the first
one. -/
theorem handshake_scenario_lost :
    lostStartDatagram.success = true ∧
    lostStartDatagram.received.mBuffer.length = 10 ∧
    read16 .littleEndian lostStartDatagram.received.mBuffer 0 =
      sampleSignatures.startConnection ∧
    shortDatagram.success = true ∧
    shortDatagram.received.mBuffer.length = 4 ∧
    isNoData noDataAttempt = true ∧
    oneConnection.manager.mReceivedPackets.mWorkerQueue = [] ∧
    (updateReceivePackets sampleSignatures .littleEndian oneConnection.connections
      oneConnection.manager
      [lostStartDatagram, shortDatagram, noDataAttempt]).2.1.mReceivedPackets.mWorkerQueue
      = [] := by
  decide

/-- C13, amended: when the socket reports no more data on the attempt that follows
the datagrams `pre` (fewer than 10, so this is attempt `pre.length + 1`), the call
returns true exactly when `pre` is not empty, dropped datagrams included; when the
first ten attempts all yield datagrams it returns true.  And a 10-byte
start-connection datagram that the receive-loss simulation does not discard, a 4-byte
datagram and then no data give exactly one enqueued packet, the handshake one without
owning connection, and the result true. -/
theorem receive_flag_and_handshake_scenario (sig : Signatures) (order : ByteOrder)
    (conns : ConnectionHeap) (m : ConnectionManager)
    (pre ten : List ReceiveAttempt) (noData a1 a2 : ReceiveAttempt) (rest : Socket)
    (hpre : ∀ a ∈ pre, isDatagram a = true) (hk : pre.length < 10)
    (hnd : isNoData noData = true)
    (hten : ∀ a ∈ ten, isDatagram a = true) (hlen : ten.length = 10)
    (h1s : a1.success = true) (h1l : a1.received.mBuffer.length = 10)
    (h1sig : read16 order a1.received.mBuffer 0 = sig.startConnection)
    (h1loss : a1.simulatedLoss = false)
    (h2s : a2.success = true) (h2l : a2.received.mBuffer.length = 4) :
    ((updateReceivePackets sig order conns m (pre ++ noData :: rest)).1 = true ↔
      pre.length + 1 > 1) ∧
    ((updateReceivePackets sig order conns m pre).1 = true ↔ pre.length + 1 > 1) ∧
    (updateReceivePackets sig order conns m (ten ++ rest)).1 = true ∧
    (updateReceivePackets sig order conns m (a1 :: a2 :: noData :: rest)).1 = true ∧
    (updateReceivePackets sig order conns m
        (a1 :: a2 :: noData :: rest)).2.1.mReceivedPackets.mWorkerQueue =
      m.mReceivedPackets.mWorkerQueue ++ [m.mReceivedPacketPool.rentObject.1] ∧
    ((updateReceivePackets sig order conns m
        (a1 :: a2 :: noData :: rest)).2.1.mReceivedPacketPool.mObjects
      m.mReceivedPacketPool.rentObject.1).mConnection = none ∧
    ((updateReceivePackets sig order conns m
        (a1 :: a2 :: noData :: rest)).2.1.mReceivedPacketPool.mObjects
      m.mReceivedPacketPool.rentObject.1).mContent = a1.received.mBuffer := by
  obtain ⟨f1, f2⟩ := loop_flag_no_data sig order conns pre 10 0 m noData rest hpre hk hnd
  have f3 := loop_flag_saturated sig order conns ten 10 0 m rest hten hlen
  have e1 : processDatagram sig order conns m a1 =
      storeReceivedPacket m a1.received sig.startConnection none := by
    unfold processDatagram dispatchReceived
    simp [h1l, h1loss, h1sig]
  have e2 : ∀ m', processDatagram sig order conns m' a2 = m' := by
    intro m'
    unfold processDatagram
    simp [h2l]
  have hnd' := hnd
  unfold isNoData at hnd'
  simp only [Bool.and_eq_true] at hnd'
  have e3 : updateReceivePackets sig order conns m (a1 :: a2 :: noData :: rest) =
      (true, storeReceivedPacket m a1.received sig.startConnection none, rest) := by
    unfold updateReceivePackets
    rw [loop_step sig order conns 9 0 m a1 _ h1s (by omega), e1,
      loop_step sig order conns 8 1 _ a2 _ h2s (by omega), e2]
    simp [updateReceivePacketsLoop, receiveNonBlocking, hnd'.1, hnd'.2]
  refine ⟨?_, ?_, f3, ?_, ?_, ?_, ?_⟩
  · unfold updateReceivePackets
    rw [f1]
    simp
  · unfold updateReceivePackets
    rw [f2]
    simp
  · rw [e3]
  · rw [e3]
    exact (storeReceivedPacket_queue _ _ _ _).1
  · rw [e3]
    exact (storeReceivedPacket_object _ _ _ _).2.2.2
  · rw [e3]
    exact (storeReceivedPacket_object _ _ _ _).1

/-- C13 amended, at concrete datagrams. -/
theorem receive_flag_and_handshake_scenario_witness :
    (∀ a ∈ [shortDatagram, matchingDatagram], isDatagram a = true) ∧
    [shortDatagram, matchingDatagram].length < 10 ∧
    isNoData noDataAttempt = true ∧
    (∀ a ∈ List.replicate 10 strayDatagram, isDatagram a = true) ∧
    (List.replicate 10 strayDatagram).length = 10 ∧
    startDatagram.success = true ∧
    startDatagram.received.mBuffer.length = 10 ∧
    read16 .littleEndian startDatagram.received.mBuffer 0 = sampleSignatures.startConnection ∧
    startDatagram.simulatedLoss = false ∧
    shortDatagram.success = true ∧
    shortDatagram.received.mBuffer.length = 4 ∧
    (((updateReceivePackets sampleSignatures .littleEndian oneConnection.connections
        oneConnection.manager ([shortDatagram, matchingDatagram] ++ noDataAttempt :: [])).1 = true ↔
      [shortDatagram, matchingDatagram].length + 1 > 1) ∧
    ((updateReceivePackets sampleSignatures .littleEndian oneConnection.connections
        oneConnection.manager [shortDatagram, matchingDatagram]).1 = true ↔
      [shortDatagram, matchingDatagram].length + 1 > 1) ∧
    (updateReceivePackets sampleSignatures .littleEndian oneConnection.connections
        oneConnection.manager (List.replicate 10 strayDatagram ++ [])).1 = true ∧
    (updateReceivePackets sampleSignatures .littleEndian oneConnection.connections
        oneConnection.manager (startDatagram :: shortDatagram :: noDataAttempt :: [])).1 = true ∧
    (updateReceivePackets sampleSignatures .littleEndian oneConnection.connections
        oneConnection.manager
        (startDatagram :: shortDatagram :: noDataAttempt :: [])).2.1.mReceivedPackets.mWorkerQueue =
      oneConnection.manager.mReceivedPackets.mWorkerQueue ++
        [oneConnection.manager.mReceivedPacketPool.rentObject.1] ∧
    ((updateReceivePackets sampleSignatures .littleEndian oneConnection.connections
        oneConnection.manager
        (startDatagram :: shortDatagram :: noDataAttempt :: [])).2.1.mReceivedPacketPool.mObjects
      oneConnection.manager.mReceivedPacketPool.rentObject.1).mConnection = none ∧
    ((updateReceivePackets sampleSignatures .littleEndian oneConnection.connections
        oneConnection.manager
        (startDatagram :: shortDatagram :: noDataAttempt :: [])).2.1.mReceivedPacketPool.mObjects
      oneConnection.manager.mReceivedPacketPool.rentObject.1).mContent =
        startDatagram.received.mBuffer) :=
  ⟨by decide, by decide, by decide, by decide, by decide, by decide, by decide, by decide,
    by decide, by decide, by decide,
    receive_flag_and_handshake_scenario sampleSignatures .littleEndian
      oneConnection.connections oneConnection.manager [shortDatagram, matchingDatagram]
      (List.replicate 10 strayDatagram) noDataAttempt startDatagram shortDatagram []
      (by decide) (by decide) (by decide) (by decide) (by decide) (by decide) (by decide)
      (by decide) (by decide) (by decide) (by decide)⟩

/-- C14: whatever the socket holds, also when it never runs out of datagrams, one
`updateReceivePackets` call reads at most 10 results from the socket and leaves the
others there, its outcome is the outcome on the first 10 results alone, and it appends
at most 10 packets to the worker queue. -/
theorem receive_call_bounded (sig : Signatures) (order : ByteOrder) (conns : ConnectionHeap)
    (m : ConnectionManager) (socket : Socket) :
    (∃ consumed, consumed.length ≤ 10 ∧
      socket = consumed ++ (updateReceivePackets sig order conns m socket).2.2) ∧
    (updateReceivePackets sig order conns m (socket.take 10)).1 =
      (updateReceivePackets sig order conns m socket).1 ∧
    (updateReceivePackets sig order conns m (socket.take 10)).2.1 =
      (updateReceivePackets sig order conns m socket).2.1 ∧
    (∃ new, new.length ≤ 10 ∧
      (updateReceivePackets sig order conns m socket).2.1.mReceivedPackets.mWorkerQueue =
        m.mReceivedPackets.mWorkerQueue ++ new) := by
  unfold updateReceivePackets
  refine ⟨loop_socket sig order conns 10 0 m socket, (loop_take sig order conns 10 0 m socket).1,
    (loop_take sig order conns 10 0 m socket).2, ?_⟩
  obtain ⟨items, h1, h2⟩ := loop_stores sig order conns 10 0 m socket
  obtain ⟨new, h3, h4⟩ := storeAll_queue items m
  exact ⟨new, by omega, by rw [h2, h4]⟩

/-! ## The pool under the consumer's cycle -/

theorem foldl_returnObject (l : List Nat) :
    ∀ p : ObjectPool,
      (l.foldl ObjectPool.returnObject p).mFree = l.reverse ++ p.mFree ∧
      (l.foldl ObjectPool.returnObject p).mNumObjects = p.mNumObjects ∧
      (l.foldl ObjectPool.returnObject p).mObjects = p.mObjects := by
  induction l with
  | nil => intro p; exact ⟨rfl, rfl, rfl⟩
  | cons h rest ih =>
    intro p
    obtain ⟨h1, h2, h3⟩ := ih (p.returnObject h)
    simp only [List.foldl_cons]
    refine ⟨?_, ?_, ?_⟩
    · rw [h1]; simp [ObjectPool.returnObject]
    · rw [h2]; rfl
    · rw [h3]; rfl

/-- One cycle from a manager with empty queues and an empty to-be-returned list, when
the receive call accepts at most one packet. -/
theorem packetCycle_pool (sig : Signatures) (order : ByteOrder) (conns : ConnectionHeap)
    (m : ConnectionManager) (socket : Socket)
    (hw : m.mReceivedPackets.mWorkerQueue = []) (hs : m.mReceivedPackets.mSyncedQueue = [])
    (ht : m.mReceivedPackets.mToBeReturned = [])
    (h1 : (updateReceivePackets sig order conns m socket).2.1.mReceivedPackets.mWorkerQueue.length
      ≤ m.mReceivedPackets.mWorkerQueue.length + 1) :
    (packetCycle sig order conns m socket).mReceivedPackets.mWorkerQueue = [] ∧
    (packetCycle sig order conns m socket).mReceivedPackets.mSyncedQueue = [] ∧
    (packetCycle sig order conns m socket).mReceivedPackets.mToBeReturned = [] ∧
    (((packetCycle sig order conns m socket).mReceivedPacketPool.mNumObjects =
          m.mReceivedPacketPool.mNumObjects ∧
        (packetCycle sig order conns m socket).mReceivedPacketPool.mFree =
          m.mReceivedPacketPool.mFree) ∨
      (m.mReceivedPacketPool.mFree = [] ∧
        (packetCycle sig order conns m socket).mReceivedPacketPool.mNumObjects =
          m.mReceivedPacketPool.mNumObjects + 1 ∧
        (packetCycle sig order conns m socket).mReceivedPacketPool.mFree =
          [m.mReceivedPacketPool.mNumObjects])) ∧
    ((updateReceivePackets sig order conns m socket).2.1.mReceivedPackets.mWorkerQueue.length
        = m.mReceivedPackets.mWorkerQueue.length + 1 →
      (packetCycle sig order conns m socket).mReceivedPacketPool.rentObject.1 =
        m.mReceivedPacketPool.rentObject.1) := by
  obtain ⟨items, _, hitems⟩ := loop_stores sig order conns 10 0 m socket
  obtain ⟨new, hnew, hq⟩ := storeAll_queue items m
  have hm1 : (updateReceivePackets sig order conns m socket).2.1 = storeAll m items := hitems
  rw [hm1, hq] at h1
  rw [hm1, hq]
  simp only [List.length_append] at h1 ⊢
  unfold packetCycle
  rw [hm1]
  match items, hnew, h1 with
  | [], _, _ =>
    simp [storeAll, syncPacketQueues, syncLoop_eq, getNextReceivedPacket, hw, hs, ht]
  | [item], _, _ =>
    cases hf : m.mReceivedPacketPool.mFree with
    | nil =>
      simp [storeAll, storeReceivedPacket, syncPacketQueues, syncLoop_eq, getNextReceivedPacket,
        releasePacket, ObjectPool.rentObject, ObjectPool.write, ObjectPool.returnObject,
        initializeWithDump, hw, hs, ht, hf]
    | cons h rest =>
      simp [storeAll, storeReceivedPacket, syncPacketQueues, syncLoop_eq, getNextReceivedPacket,
        releasePacket, ObjectPool.rentObject, ObjectPool.write, ObjectPool.returnObject,
        initializeWithDump, hw, hs, ht, hf]
  | _ :: _ :: _, hn, h1 =>
    exfalso
    simp only [List.length_cons] at hn
    omega

/-- The invariant of the repeated cycle: the queues stay empty, the number of rented
objects stays, and the pool creates at most one object. -/
theorem runCycles_pool (sig : Signatures) (order : ByteOrder) (conns : ConnectionHeap)
    (n0 r0 : Nat) (sockets : List Socket) :
    ∀ m : ConnectionManager,
      m.mReceivedPackets.mWorkerQueue = [] → m.mReceivedPackets.mSyncedQueue = [] →
      m.mReceivedPackets.mToBeReturned = [] →
      m.mReceivedPacketPool.rentedCount = r0 →
      (m.mReceivedPacketPool.mNumObjects = n0 ∨
        (m.mReceivedPacketPool.mNumObjects = n0 + 1 ∧ m.mReceivedPacketPool.mFree ≠ [])) →
      oneAtATime sig order conns m sockets = true →
      (runCycles sig order conns m sockets).mReceivedPackets.mWorkerQueue = [] ∧
      (runCycles sig order conns m sockets).mReceivedPackets.mSyncedQueue = [] ∧
      (runCycles sig order conns m sockets).mReceivedPackets.mToBeReturned = [] ∧
      (runCycles sig order conns m sockets).mReceivedPacketPool.rentedCount = r0 ∧
      (runCycles sig order conns m sockets).mReceivedPacketPool.mNumObjects ≤ n0 + 1 := by
  induction sockets with
  | nil =>
    intro m hw hs ht hr hn _
    refine ⟨hw, hs, ht, hr, ?_⟩
    simp only [runCycles]
    omega
  | cons socket rest ih =>
    intro m hw hs ht hr hn hone
    simp only [oneAtATime, Bool.and_eq_true, decide_eq_true_eq] at hone
    obtain ⟨c1, c2, c3, c4, _⟩ := packetCycle_pool sig order conns m socket hw hs ht hone.1
    simp only [runCycles]
    apply ih _ c1 c2 c3 _ _ hone.2
    · unfold ObjectPool.rentedCount at hr ⊢
      rcases c4 with ⟨e1, e2⟩ | ⟨e0, e1, e2⟩
      · rw [e1, e2]; exact hr
      · rw [e1, e2]
        rw [e0] at hr
        simp at hr ⊢
        exact hr
    · rcases c4 with ⟨e1, e2⟩ | ⟨e0, e1, e2⟩
      · rw [e1, e2]; exact hn
      · rcases hn with hn | ⟨_, hn⟩
        · right
          rw [e1, e2, hn]
          simp
        · exact absurd e0 hn

/-- One cycle whose receive call accepts at most one packet does not raise the number
of rented objects, whatever the queues hold. -/
theorem packetCycle_rented_le (sig : Signatures) (order : ByteOrder) (conns : ConnectionHeap)
    (m : ConnectionManager) (socket : Socket)
    (h1 : (updateReceivePackets sig order conns m socket).2.1.mReceivedPackets.mWorkerQueue.length
      ≤ m.mReceivedPackets.mWorkerQueue.length + 1) :
    (packetCycle sig order conns m socket).mReceivedPacketPool.rentedCount ≤
      m.mReceivedPacketPool.rentedCount := by
  obtain ⟨items, _, hitems⟩ := loop_stores sig order conns 10 0 m socket
  obtain ⟨new, hnew, hq⟩ := storeAll_queue items m
  have hm1 : (updateReceivePackets sig order conns m socket).2.1 = storeAll m items := hitems
  rw [hm1, hq] at h1
  simp only [List.length_append] at h1
  unfold packetCycle
  rw [hm1]
  obtain ⟨f1, f2, f3⟩ := foldl_returnObject m.mReceivedPackets.mToBeReturned
    m.mReceivedPacketPool
  match items, hnew, h1 with
  | [], _, _ =>
    cases hS : m.mReceivedPackets.mSyncedQueue ++ m.mReceivedPackets.mWorkerQueue with
    | nil =>
      simp [storeAll, syncPacketQueues, syncLoop_eq, getNextReceivedPacket, hS,
        ObjectPool.rentedCount, f1, f2]
      omega
    | cons p rest =>
      simp [storeAll, syncPacketQueues, syncLoop_eq, getNextReceivedPacket, hS,
        releasePacket, ObjectPool.write, ObjectPool.returnObject,
        ObjectPool.rentedCount, initializeWithDump, f1, f2]
      omega
  | [item], _, _ =>
    cases hF : m.mReceivedPacketPool.mFree with
    | nil =>
      cases hS : m.mReceivedPackets.mSyncedQueue ++ m.mReceivedPackets.mWorkerQueue with
      | nil =>
        simp only [List.append_eq_nil] at hS
        simp [storeAll, storeReceivedPacket, syncPacketQueues, syncLoop_eq,
          getNextReceivedPacket, hS, releasePacket, ObjectPool.rentObject, ObjectPool.write,
          ObjectPool.returnObject, ObjectPool.rentedCount, initializeWithDump, hF,
          foldl_returnObject]
      | cons p rest =>
        have hS2 : m.mReceivedPackets.mSyncedQueue ++
            (m.mReceivedPackets.mWorkerQueue ++ [m.mReceivedPacketPool.mNumObjects]) =
            p :: (rest ++ [m.mReceivedPacketPool.mNumObjects]) := by
          rw [← List.append_assoc, hS]
          rfl
        simp [storeAll, storeReceivedPacket, syncPacketQueues, syncLoop_eq,
          getNextReceivedPacket, hS2, releasePacket, ObjectPool.rentObject, ObjectPool.write,
          ObjectPool.returnObject, ObjectPool.rentedCount, initializeWithDump, hF,
          foldl_returnObject]
    | cons a free =>
      cases hS : m.mReceivedPackets.mSyncedQueue ++ m.mReceivedPackets.mWorkerQueue with
      | nil =>
        simp only [List.append_eq_nil] at hS
        simp [storeAll, storeReceivedPacket, syncPacketQueues, syncLoop_eq,
          getNextReceivedPacket, hS, releasePacket, ObjectPool.rentObject, ObjectPool.write,
          ObjectPool.returnObject, ObjectPool.rentedCount, initializeWithDump, hF,
          foldl_returnObject]
        omega
      | cons p rest =>
        have hS2 : m.mReceivedPackets.mSyncedQueue ++
            (m.mReceivedPackets.mWorkerQueue ++ [a]) = p :: (rest ++ [a]) := by
          rw [← List.append_assoc, hS]
          rfl
        simp [storeAll, storeReceivedPacket, syncPacketQueues, syncLoop_eq,
          getNextReceivedPacket, hS2, releasePacket, ObjectPool.rentObject, ObjectPool.write,
          ObjectPool.returnObject, ObjectPool.rentedCount, initializeWithDump, hF,
          foldl_returnObject]
        omega
  | _ :: _ :: _, hn, h1 =>
    exfalso
    simp only [List.length_cons] at hn
    omega

/-- Repeated cycles whose receive calls accept at most one packet each do not raise the
number of rented objects. -/
theorem runCycles_rented_le (sig : Signatures) (order : ByteOrder) (conns : ConnectionHeap)
    (sockets : List Socket) :
    ∀ m : ConnectionManager, oneAtATime sig order conns m sockets = true →
      (runCycles sig order conns m sockets).mReceivedPacketPool.rentedCount ≤
        m.mReceivedPacketPool.rentedCount := by
  induction sockets with
  | nil => intro m _; exact Nat.le_refl _
  | cons socket rest ih =>
    intro m hone
    simp only [oneAtATime, Bool.and_eq_true, decide_eq_true_eq] at hone
    simp only [runCycles]
    exact Nat.le_trans (ih _ hone.2) (packetCycle_rented_le sig order conns m socket hone.1)

/-! ## Cycles whose receive call accepts two packets -/

theorem receive_two_handshakes (conns : ConnectionHeap) (m : ConnectionManager) :
    (updateReceivePackets sampleSignatures .littleEndian conns m
      [startDatagram, startDatagram]).2.1 =
      storeReceivedPacket
        (storeReceivedPacket m startDatagram.received 0x87a1 none)
        startDatagram.received 0x87a1 none := rfl

/-- One cycle whose receive call accepts two handshake packets hands one packet back
and keeps the other: the number of rented objects goes up by one. -/
theorem twoPacketCycle_pool (conns : ConnectionHeap) (m : ConnectionManager)
    (hw : m.mReceivedPackets.mWorkerQueue = []) (ht : m.mReceivedPackets.mToBeReturned = [])
    (hf : m.mReceivedPacketPool.mFree.length ≤ m.mReceivedPacketPool.mNumObjects) :
    (packetCycle sampleSignatures .littleEndian conns m
      [startDatagram, startDatagram]).mReceivedPackets.mWorkerQueue = [] ∧
    (packetCycle sampleSignatures .littleEndian conns m
      [startDatagram, startDatagram]).mReceivedPackets.mToBeReturned = [] ∧
    (packetCycle sampleSignatures .littleEndian conns m
        [startDatagram, startDatagram]).mReceivedPacketPool.mFree.length ≤
      (packetCycle sampleSignatures .littleEndian conns m
        [startDatagram, startDatagram]).mReceivedPacketPool.mNumObjects ∧
    (packetCycle sampleSignatures .littleEndian conns m
        [startDatagram, startDatagram]).mReceivedPacketPool.rentedCount =
      m.mReceivedPacketPool.rentedCount + 1 := by
  unfold packetCycle
  rw [receive_two_handshakes]
  cases hS : m.mReceivedPackets.mSyncedQueue with
  | nil =>
    cases hF : m.mReceivedPacketPool.mFree with
    | nil =>
      simp [storeReceivedPacket, syncPacketQueues, syncLoop_eq, getNextReceivedPacket,
        releasePacket, ObjectPool.rentObject, ObjectPool.write, ObjectPool.returnObject,
        ObjectPool.rentedCount, initializeWithDump, hw, hS, ht, hF]
    | cons a rest =>
      cases rest with
      | nil =>
        rw [hF] at hf
        simp at hf
        simp [storeReceivedPacket, syncPacketQueues, syncLoop_eq, getNextReceivedPacket,
          releasePacket, ObjectPool.rentObject, ObjectPool.write, ObjectPool.returnObject,
          ObjectPool.rentedCount, initializeWithDump, hw, hS, ht, hF]
        omega
      | cons b rest =>
        rw [hF] at hf
        simp at hf
        simp [storeReceivedPacket, syncPacketQueues, syncLoop_eq, getNextReceivedPacket,
          releasePacket, ObjectPool.rentObject, ObjectPool.write, ObjectPool.returnObject,
          ObjectPool.rentedCount, initializeWithDump, hw, hS, ht, hF]
        omega
  | cons s S =>
    cases hF : m.mReceivedPacketPool.mFree with
    | nil =>
      simp [storeReceivedPacket, syncPacketQueues, syncLoop_eq, getNextReceivedPacket,
        releasePacket, ObjectPool.rentObject, ObjectPool.write, ObjectPool.returnObject,
        ObjectPool.rentedCount, initializeWithDump, hw, hS, ht, hF]
    | cons a rest =>
      cases rest with
      | nil =>
        rw [hF] at hf
        simp at hf
        simp [storeReceivedPacket, syncPacketQueues, syncLoop_eq, getNextReceivedPacket,
          releasePacket, ObjectPool.rentObject, ObjectPool.write, ObjectPool.returnObject,
          ObjectPool.rentedCount, initializeWithDump, hw, hS, ht, hF]
        omega
      | cons b rest =>
        rw [hF] at hf
        simp at hf
        simp [storeReceivedPacket, syncPacketQueues, syncLoop_eq, getNextReceivedPacket,
          releasePacket, ObjectPool.rentObject, ObjectPool.write, ObjectPool.returnObject,
          ObjectPool.rentedCount, initializeWithDump, hw, hS, ht, hF]
        omega

/-- After `n` such cycles the number of rented objects has gone up by `n`. -/
theorem twoPacketCycles_pool (conns : ConnectionHeap) (n : Nat) :
    ∀ m : ConnectionManager, m.mReceivedPackets.mWorkerQueue = [] →
      m.mReceivedPackets.mToBeReturned = [] →
      m.mReceivedPacketPool.mFree.length ≤ m.mReceivedPacketPool.mNumObjects →
      (runCycles sampleSignatures .littleEndian conns m
        (twoPacketCycles n)).mReceivedPacketPool.rentedCount =
        m.mReceivedPacketPool.rentedCount + n := by
  induction n with
  | zero => intro m _ _ _; rfl
  | succ k ih =>
    intro m hw ht hf
    obtain ⟨c1, c2, c3, c4⟩ := twoPacketCycle_pool conns m hw ht hf
    show (runCycles sampleSignatures .littleEndian conns
      (packetCycle sampleSignatures .littleEndian conns m [startDatagram, startDatagram])
      (twoPacketCycles k)).mReceivedPacketPool.rentedCount = _
    rw [ih _ c1 c2 c3, c4]
    omega

/-! ## Claim on the return of packets to the pool -/

/-- C11 as stated fails in its second half: one `updateReceivePackets` call rents an
object for each of up to 10 datagrams, and the cycle hands back one.  With two
handshake datagrams on the socket at every receive call, the number of rented objects
of a freshly constructed manager is `n` after `n` cycles, for every `n`: no bound holds.
The first six values and the number of objects created are evaluated. -/
theorem rented_count_grows_each_cycle :
    (start idleConnections).manager.mReceivedPackets.mWorkerQueue = [] ∧
    (start idleConnections).manager.mReceivedPackets.mSyncedQueue = [] ∧
    (start idleConnections).manager.mReceivedPackets.mToBeReturned = [] ∧
    (runCycles sampleSignatures .littleEndian idleConnections
      (start idleConnections).manager (twoPacketCycles 5)).mReceivedPacketPool.rentedCount = 5 ∧
    (List.range 6).map (fun n =>
      (runCycles sampleSignatures .littleEndian idleConnections
        (start idleConnections).manager (twoPacketCycles n)).mReceivedPacketPool.rentedCount)
      = [0, 1, 2, 3, 4, 5] ∧
    (List.range 6).map (fun n =>
      (runCycles sampleSignatures .littleEndian idleConnections
        (start idleConnections).manager (twoPacketCycles n)).mReceivedPacketPool.mNumObjects)
      = [0, 2, 3, 4, 5, 6] ∧
    (∀ n, (runCycles sampleSignatures .littleEndian idleConnections
      (start idleConnections).manager (twoPacketCycles n)).mReceivedPacketPool.rentedCount = n) := by
  refine ⟨by decide, by decide, by decide, by decide, by decide, by decide, ?_⟩
  intro n
  rw [twoPacketCycles_pool idleConnections n (start idleConnections).manager rfl rfl
    (Nat.le_refl _)]
  exact Nat.zero_add n

/-- C11, amended: after `syncPacketQueues` (on any manager `m0`) the to-be-returned list
is empty and the pool's free list has gained exactly the packets of that list, each as
often as it was on it, no object being created.  Hence, repeating the cycle receive,
sync, `getNextReceivedPacket`, release, sync from any manager `m`, with each receive
call accepting at most one packet, never raises the number of rented objects above what
it was.  When the cycles start with empty queues and an empty to-be-returned list, the
number of rented objects stays what it was, the pool creates at most one object, and
after a cycle that accepted a packet the next rent hands out the object the cycle
used. -/
theorem sync_returns_and_cycle_bounded (sig : Signatures) (order : ByteOrder)
    (conns : ConnectionHeap) (m0 m : ConnectionManager) (sockets : List Socket)
    (hone : oneAtATime sig order conns m sockets = true) :
    ((syncPacketQueues m0).mReceivedPackets.mToBeReturned = [] ∧
      (syncPacketQueues m0).mReceivedPacketPool.mFree =
        m0.mReceivedPackets.mToBeReturned.reverse ++ m0.mReceivedPacketPool.mFree ∧
      (syncPacketQueues m0).mReceivedPacketPool.mNumObjects =
        m0.mReceivedPacketPool.mNumObjects) ∧
    (runCycles sig order conns m sockets).mReceivedPacketPool.rentedCount ≤
      m.mReceivedPacketPool.rentedCount ∧
    (m.mReceivedPackets.mWorkerQueue = [] → m.mReceivedPackets.mSyncedQueue = [] →
      m.mReceivedPackets.mToBeReturned = [] →
      (runCycles sig order conns m sockets).mReceivedPacketPool.rentedCount =
        m.mReceivedPacketPool.rentedCount ∧
      (runCycles sig order conns m sockets).mReceivedPacketPool.mNumObjects ≤
        m.mReceivedPacketPool.mNumObjects + 1 ∧
      (∀ socket,
        (updateReceivePackets sig order conns m socket).2.1.mReceivedPackets.mWorkerQueue.length
          = m.mReceivedPackets.mWorkerQueue.length + 1 →
        (packetCycle sig order conns m socket).mReceivedPacketPool.rentObject.1 =
          m.mReceivedPacketPool.rentObject.1)) := by
  obtain ⟨f1, f2, _⟩ := foldl_returnObject m0.mReceivedPackets.mToBeReturned
    m0.mReceivedPacketPool
  refine ⟨⟨rfl, f1, f2⟩, runCycles_rented_le sig order conns sockets m hone, ?_⟩
  intro hw hs ht
  obtain ⟨_, _, _, c4, c5⟩ := runCycles_pool sig order conns m.mReceivedPacketPool.mNumObjects
    m.mReceivedPacketPool.rentedCount sockets m hw hs ht rfl (Or.inl rfl) hone
  refine ⟨c4, c5, ?_⟩
  intro socket hacc
  exact (packetCycle_pool sig order conns m socket hw hs ht (by omega)).2.2.2.2 hacc

/-- C11 (amended), at three concrete cycles from the manager of `oneConnection`, with
the manager `releasedPacket` for the `syncPacketQueues` part: its packet 0 goes from
the to-be-returned list to the free list.  Started from `releasedPacket`, where two
objects are rented, the same three cycles end with no object rented. -/
theorem sync_returns_and_cycle_bounded_witness :
    oneAtATime sampleSignatures .littleEndian oneConnection.connections
      oneConnection.manager sampleCycles = true ∧
    releasedPacket.mReceivedPackets.mToBeReturned = [0] ∧
    releasedPacket.mReceivedPacketPool.mFree = [] ∧
    (syncPacketQueues releasedPacket).mReceivedPacketPool.mFree = [0] ∧
    oneAtATime sampleSignatures .littleEndian oneConnection.connections releasedPacket
      sampleCycles = true ∧
    releasedPacket.mReceivedPacketPool.rentedCount = 2 ∧
    (runCycles sampleSignatures .littleEndian oneConnection.connections releasedPacket
      sampleCycles).mReceivedPacketPool.rentedCount = 0 ∧
    (((syncPacketQueues releasedPacket).mReceivedPackets.mToBeReturned = [] ∧
      (syncPacketQueues releasedPacket).mReceivedPacketPool.mFree =
        releasedPacket.mReceivedPackets.mToBeReturned.reverse ++
          releasedPacket.mReceivedPacketPool.mFree ∧
      (syncPacketQueues releasedPacket).mReceivedPacketPool.mNumObjects =
        releasedPacket.mReceivedPacketPool.mNumObjects) ∧
    (runCycles sampleSignatures .littleEndian oneConnection.connections
        oneConnection.manager sampleCycles).mReceivedPacketPool.rentedCount ≤
      oneConnection.manager.mReceivedPacketPool.rentedCount ∧
    (oneConnection.manager.mReceivedPackets.mWorkerQueue = [] →
      oneConnection.manager.mReceivedPackets.mSyncedQueue = [] →
      oneConnection.manager.mReceivedPackets.mToBeReturned = [] →
      (runCycles sampleSignatures .littleEndian oneConnection.connections
          oneConnection.manager sampleCycles).mReceivedPacketPool.rentedCount =
        oneConnection.manager.mReceivedPacketPool.rentedCount ∧
      (runCycles sampleSignatures .littleEndian oneConnection.connections
          oneConnection.manager sampleCycles).mReceivedPacketPool.mNumObjects ≤
        oneConnection.manager.mReceivedPacketPool.mNumObjects + 1 ∧
      (∀ socket,
        (updateReceivePackets sampleSignatures .littleEndian oneConnection.connections
            oneConnection.manager socket).2.1.mReceivedPackets.mWorkerQueue.length
          = oneConnection.manager.mReceivedPackets.mWorkerQueue.length + 1 →
        (packetCycle sampleSignatures .littleEndian oneConnection.connections
            oneConnection.manager socket).mReceivedPacketPool.rentObject.1 =
          oneConnection.manager.mReceivedPacketPool.rentObject.1))) :=
  ⟨by decide, by decide, by decide, by decide, by decide, by decide, by decide,
    sync_returns_and_cycle_bounded sampleSignatures .littleEndian oneConnection.connections
      releasedPacket oneConnection.manager sampleCycles (by decide)⟩

/-! ## Claims on the send path -/

/-- C19: the buffer that `sendConnectionlessLowLevelPacket` hands to `sendPacketData`
consists of the two bytes of the packet's signature, the two bytes of the local
connection id, the two bytes of the remote connection id and the body the packet
serialises for the minimum low-level protocol version, whatever the static buffer held
from an earlier call; and the function returns what `sendPacketData` returns for that
buffer and the remote address. -/
theorem connectionless_buffer_layout (order : ByteOrder) (minVersion : Nat)
    (sendData : List Nat → Nat → Bool) (simulatedLoss : Bool) (stale : List Nat)
    (p : PacketBase) (remoteAddress localConnectionID remoteConnectionID : Nat) :
    connectionlessBuffer order minVersion stale p localConnectionID remoteConnectionID =
      bytes16 order p.signature ++ bytes16 order localConnectionID ++
        bytes16 order remoteConnectionID ++ p.body minVersion ∧
    sendConnectionlessLowLevelPacket order minVersion sendData simulatedLoss stale p
        remoteAddress localConnectionID remoteConnectionID =
      sendPacketData sendData simulatedLoss
        (bytes16 order p.signature ++ bytes16 order localConnectionID ++
          bytes16 order remoteConnectionID ++ p.body minVersion) remoteAddress := by
  have h : connectionlessBuffer order minVersion stale p localConnectionID remoteConnectionID =
      bytes16 order p.signature ++ bytes16 order localConnectionID ++
        bytes16 order remoteConnectionID ++ p.body minVersion := by
    simp [connectionlessBuffer, write16, serializePacket]
  exact ⟨h, by unfold sendConnectionlessLowLevelPacket; rw [h]⟩

/-- C20: the datagram built by `sendConnectionlessLowLevelPacket` for packet `p` and
the ids `L`, `R` has at least 6 bytes, and the three `read<uint16>` calls of
`updateReceivePackets` on a peer with the same byte order yield the signature of `p`
as signature, `L` as remote connection id and `R` as local connection id (each as a
16-bit value); so the peer routes the datagram by exactly these three values. -/
theorem header_round_trip (order : ByteOrder) (minVersion : Nat) (stale : List Nat)
    (p : PacketBase) (L R : Nat) (sig : Signatures) (conns : ConnectionHeap)
    (m : ConnectionManager) (senderAddress : Nat) :
    6 ≤ (connectionlessBuffer order minVersion stale p L R).length ∧
    read16 order (connectionlessBuffer order minVersion stale p L R) 0 = p.signature % 65536 ∧
    read16 order (connectionlessBuffer order minVersion stale p L R) 2 = L % 65536 ∧
    read16 order (connectionlessBuffer order minVersion stale p L R) 4 = R % 65536 ∧
    dispatchReceived sig order conns m
        { mBuffer := connectionlessBuffer order minVersion stale p L R,
          mSenderAddress := senderAddress } =
      (if p.signature % 65536 = sig.startConnection then
        storeReceivedPacket m
          { mBuffer := connectionlessBuffer order minVersion stale p L R,
            mSenderAddress := senderAddress } (p.signature % 65536) none
      else if R % 65536 = 0 then m
      else
        match lookupConnection m (R % 65536) with
        | none => m
        | some connection =>
          if (conns connection).mRemoteConnectionID ≠ L % 65536 ∧
              p.signature % 65536 ≠ sig.acceptConnection then m
          else
            storeReceivedPacket m
              { mBuffer := connectionlessBuffer order minVersion stale p L R,
                mSenderAddress := senderAddress } (p.signature % 65536) (some connection)) := by
  have h0 : read16 order (connectionlessBuffer order minVersion stale p L R) 0 =
      p.signature % 65536 := by
    cases order <;>
      simp [connectionlessBuffer, write16, serializePacket, bytes16, read16] <;> omega
  have h2 : read16 order (connectionlessBuffer order minVersion stale p L R) 2 = L % 65536 := by
    cases order <;>
      simp [connectionlessBuffer, write16, serializePacket, bytes16, read16] <;> omega
  have h4 : read16 order (connectionlessBuffer order minVersion stale p L R) 4 = R % 65536 := by
    cases order <;>
      simp [connectionlessBuffer, write16, serializePacket, bytes16, read16] <;> omega
  refine ⟨?_, h0, h2, h4, ?_⟩
  · cases order <;> simp [connectionlessBuffer, write16, serializePacket, bytes16]
  · unfold dispatchReceived
    simp only [h0, h2, h4]

/-! ## More lemmas on `addConnection` and `removeConnection` -/

theorem growLookup_maps (m : ConnectionManager) (conns : ConnectionHeap) :
    (growLookup m conns).mActiveConnections = m.mActiveConnections ∧
    (growLookup m conns).mConnectionsBySender = m.mConnectionsBySender ∧
    (growLookup m conns).mReceivedPackets = m.mReceivedPackets ∧
    (growLookup m conns).mReceivedPacketPool = m.mReceivedPacketPool := by
  unfold growLookup
  split <;> exact ⟨rfl, rfl, rfl, rfl⟩

/-- What `addConnection` does when `getFreeLocalConnectionID` returns 0. -/
theorem addConnection_failed (s : System) (c r1 r2 : Nat)
    (h0 : (getFreeLocalConnectionID s.manager s.connections r1 r2).1 = 0) :
    addConnection s c r1 r2 =
      { manager := growLookup s.manager s.connections, connections := s.connections } := by
  unfold getFreeLocalConnectionID at h0
  simp only at h0
  simp only [addConnection, getFreeLocalConnectionID, h0, if_true]

/-- What `addConnection` does when `getFreeLocalConnectionID` returns the non-zero id
`n`. -/
theorem addConnection_succeeded (s : System) (c r1 r2 n : Nat)
    (hn : (getFreeLocalConnectionID s.manager s.connections r1 r2).1 = n) (hz : n ≠ 0) :
    addConnection s c r1 r2 =
      { manager :=
          { growLookup s.manager s.connections with
            mActiveConnections := s.manager.mActiveConnections.assign n c
            mActiveConnectionsLookup :=
              (growLookup s.manager s.connections).mActiveConnectionsLookup.set
                ((n &&& (growLookup s.manager
                  s.connections).mBitmaskForActiveConnectionsLookup) % 65536) (some c)
            mConnectionsBySender :=
              s.manager.mConnectionsBySender.assign (s.connections c).mSenderKey c }
        connections := setLocalConnectionID s.connections c n } := by
  unfold getFreeLocalConnectionID at hn
  simp only at hn
  obtain ⟨g1, g2, _, _⟩ := growLookup_maps s.manager s.connections
  simp only [addConnection, getFreeLocalConnectionID, hn, hz, if_false, g1, g2]

/-- In a state with the table invariant, the id that `getFreeLocalConnectionID`
returns is not a key of `mActiveConnections`. -/
theorem fresh_id_not_in_map (s : System) (r1 r2 : Nat) (h : TableInv s)
    (hz : (getFreeLocalConnectionID s.manager s.connections r1 r2).1 ≠ 0) :
    s.manager.mActiveConnections.find
      (getFreeLocalConnectionID s.manager s.connections r1 r2).1 = none := by
  obtain ⟨h1, hM, _⟩ := growLookup_inv s h
  unfold getFreeLocalConnectionID at hz ⊢
  simp only at hz ⊢
  obtain ⟨_, hfree⟩ := probe_spec _ _ _ _ (candidate_lt r1 r2) hz
  generalize probe (growLookup s.manager s.connections).mActiveConnectionsLookup
    (growLookup s.manager s.connections).mBitmaskForActiveConnectionsLookup
    (growLookup s.manager s.connections).mActiveConnectionsLookup.length (candidate r1 r2) = n
    at hz hfree ⊢
  cases hq : s.manager.mActiveConnections.find n with
  | none => rfl
  | some c' =>
    exfalso
    have hq1 : (growLookup s.manager s.connections).mActiveConnections.find n = some c' := by
      rw [hM]; exact hq
    have he := (h1.entry n c' hq1).1
    simp only at he
    have := (h1.slot_iff (target s.connections
      (growLookup s.manager s.connections).mBitmaskForActiveConnectionsLookup c') c').mpr
      ⟨by simp only; rw [he]; exact hq1, rfl⟩
    simp only [target, he] at this
    rw [hfree] at this
    cases this

/-! ## Claims on `removeConnection` and `findConnectionTo` -/

/-- C17 as stated fails.  After `staleRemoveCalls` (connection 1 registered twice and
removed once, then connection 2 registered under the id 2) connections 1 and 2 are both
in the exact map, connection 1 through the entry its first registration left behind,
and the connection object 1 still has the id 2.  `removeConnection` of connection 1
erases the key 2 and clears the slot of 2: connection 2 is found in neither structure
any more, and the entry of connection 1 is still there.  After `strayRemoveTwo` (a
connection that was never registered is removed) the active connection 1 has lost its
slot, so that after `removeConnection` of connection 2 the other active connection 1
is in the exact map under its id 8 and is not found in the lookup array. -/
theorem stale_id_removes_other_connection :
    removesActive (start idleConnections) staleRemoveCalls = true ∧
    isActiveB (run (start idleConnections) staleRemoveCalls).manager 1 = true ∧
    isActiveB (run (start idleConnections) staleRemoveCalls).manager 2 = true ∧
    ((run (start idleConnections) staleRemoveCalls).connections 1).mLocalConnectionID = 2 ∧
    ((run (start idleConnections) staleRemoveCalls).connections 2).mLocalConnectionID = 2 ∧
    (run (start idleConnections) staleRemoveCalls).manager.mActiveConnections.find 2 = some 2 ∧
    lookupConnection (run (start idleConnections) staleRemoveCalls).manager 2 = some 2 ∧
    (removeConnection (run (start idleConnections) staleRemoveCalls) 1).manager.mActiveConnections.find
      2 = none ∧
    lookupConnection (removeConnection (run (start idleConnections) staleRemoveCalls) 1).manager
      2 = none ∧
    (removeConnection (run (start idleConnections) staleRemoveCalls) 1).manager.mActiveConnections
      = [(1, 1)] ∧
    isActiveB (run (start idleConnections) strayRemoveTwo).manager 1 = true ∧
    isActiveB (run (start idleConnections) strayRemoveTwo).manager 2 = true ∧
    ((run (start idleConnections) strayRemoveTwo).connections 1).mLocalConnectionID = 8 ∧
    (removeConnection (run (start idleConnections) strayRemoveTwo) 2).manager.mActiveConnections.find
      8 = some 1 ∧
    lookupConnection (removeConnection (run (start idleConnections) strayRemoveTwo) 2).manager
      8 = none := by
  refine ⟨by decide, by decide, by decide, by decide, by decide, by decide, by decide,
    by decide, by decide, by decide, by decide, by decide, by decide, by decide, by decide⟩

/-- C17, amended: in a state reached from a freshly constructed manager under the
calling discipline (`addConnection` only for a connection that is not active,
`removeConnection` only for an active one), `removeConnection(c)` of an active
connection `c` removes exactly `c`: afterwards the local id of `c` resolves to no
connection in the exact map and in the lookup array, and every other active connection
is still found under its own local id in both. -/
theorem remove_removes_exactly (conns : ConnectionHeap) (calls : List TableCall) (c : Nat)
    (h : disciplined (start conns) calls = true)
    (hc : isActive (run (start conns) calls).manager c) :
    (removeConnection (run (start conns) calls) c).manager.mActiveConnections.find
      ((run (start conns) calls).connections c).mLocalConnectionID = none ∧
    lookupConnection (removeConnection (run (start conns) calls) c).manager
      ((run (start conns) calls).connections c).mLocalConnectionID = none ∧
    (∀ d, d ≠ c → isActive (run (start conns) calls).manager d →
      (removeConnection (run (start conns) calls) c).manager.mActiveConnections.find
        ((run (start conns) calls).connections d).mLocalConnectionID = some d ∧
      lookupConnection (removeConnection (run (start conns) calls) c).manager
        ((run (start conns) calls).connections d).mLocalConnectionID = some d) := by
  have inv := run_inv calls (start conns) (tableInv_start conns) h
  generalize run (start conns) calls = s at inv hc
  obtain ⟨k, hk⟩ := hc
  have hid := (inv.entry k c hk).1
  have hfc : s.manager.mActiveConnections.find (s.connections c).mLocalConnectionID = some c := by
    rw [hid]; exact hk
  have hidx := index_lt_length s inv (s.connections c).mLocalConnectionID
  refine ⟨?_, ?_, ?_⟩
  · simp [removeConnection, UnorderedMap.find_erase]
  · simp only [removeConnection, lookupConnection]
    rw [slot_set _ _ _ _ hidx, if_pos rfl]
  · rintro d hdc ⟨k', hk'⟩
    have hid' := (inv.entry k' d hk').1
    have hfd : s.manager.mActiveConnections.find (s.connections d).mLocalConnectionID = some d := by
      rw [hid']; exact hk'
    have hne : (s.connections c).mLocalConnectionID ≠ (s.connections d).mLocalConnectionID := by
      intro heq
      rw [heq, hfd] at hfc
      exact hdc (Option.some.inj hfc)
    have hsc := (inv.slot_iff _ c).mpr ⟨hfc, rfl⟩
    have hsd := (inv.slot_iff _ d).mpr ⟨hfd, rfl⟩
    simp only [target] at hsc hsd
    constructor
    · simp only [removeConnection, UnorderedMap.find_erase, hne, if_false]
      exact hfd
    · simp only [removeConnection, lookupConnection]
      rw [slot_set _ _ _ _ hidx]
      split
      · rename_i heq
        rw [heq, hsd] at hsc
        exact absurd (Option.some.inj hsc) hdc
      · exact hsd

/-- C17 (amended), at a concrete state with five active connections. -/
theorem remove_removes_exactly_witness :
    disciplined (start idleConnections) fiveAdds = true ∧
    isActive (run (start idleConnections) fiveAdds).manager 2 ∧
    ((removeConnection (run (start idleConnections) fiveAdds) 2).manager.mActiveConnections.find
      ((run (start idleConnections) fiveAdds).connections 2).mLocalConnectionID = none ∧
    lookupConnection (removeConnection (run (start idleConnections) fiveAdds) 2).manager
      ((run (start idleConnections) fiveAdds).connections 2).mLocalConnectionID = none ∧
    (∀ d, d ≠ 2 → isActive (run (start idleConnections) fiveAdds).manager d →
      (removeConnection (run (start idleConnections) fiveAdds) 2).manager.mActiveConnections.find
        ((run (start idleConnections) fiveAdds).connections d).mLocalConnectionID = some d ∧
      lookupConnection (removeConnection (run (start idleConnections) fiveAdds) 2).manager
        ((run (start idleConnections) fiveAdds).connections d).mLocalConnectionID = some d)) :=
  ⟨by decide, ⟨2, by decide⟩,
    remove_removes_exactly idleConnections fiveAdds 2 (by decide) ⟨2, by decide⟩⟩

theorem senderKey_setLocalConnectionID (conns : ConnectionHeap) (c n x : Nat) :
    (setLocalConnectionID conns c n x).mSenderKey = (conns x).mSenderKey := by
  unfold setLocalConnectionID
  split <;> rename_i hx
  · rw [hx]
  · rfl

/-- Distinct sender keys, read off the list `activeSenderKeys`. -/
theorem distinct_of_nodup (s : System) (hn : (activeSenderKeys s).Nodup) (c d : Nat)
    (hc : isActive s.manager c) (hd : isActive s.manager d)
    (hk : (s.connections c).mSenderKey = (s.connections d).mSenderKey) : c = d := by
  obtain ⟨i, hi⟩ := hc
  obtain ⟨j, hj⟩ := hd
  have m1 := UnorderedMap.mem_of_find _ i c hi
  have m2 := UnorderedMap.mem_of_find _ j d hj
  have := List.inj_on_of_nodup_map hn m1 m2 hk
  exact congrArg Prod.snd this

theorem addConnection_senderInv (s : System) (c r1 r2 : Nat) (h : TableInv s)
    (hs : SenderInv s)
    (hn : (activeSenderKeys (addConnection s c r1 r2)).Nodup) :
    SenderInv (addConnection s c r1 r2) := by
  by_cases hz : (getFreeLocalConnectionID s.manager s.connections r1 r2).1 = 0
  · rw [addConnection_failed s c r1 r2 hz]
    obtain ⟨g1, g2, _, _⟩ := growLookup_maps s.manager s.connections
    intro k x
    simp only [isActive, g1, g2]
    exact hs k x
  · have hnone := fresh_id_not_in_map s r1 r2 h hz
    have hdist := distinct_of_nodup _ hn
    rw [addConnection_succeeded s c r1 r2 _ rfl hz] at hn hdist ⊢
    generalize (getFreeLocalConnectionID s.manager s.connections r1 r2).1 = n at hz hnone hn hdist
    have hact : ∀ x, isActive
        { growLookup s.manager s.connections with
          mActiveConnections := s.manager.mActiveConnections.assign n c
          mActiveConnectionsLookup :=
            (growLookup s.manager s.connections).mActiveConnectionsLookup.set
              ((n &&& (growLookup s.manager
                s.connections).mBitmaskForActiveConnectionsLookup) % 65536) (some c)
          mConnectionsBySender :=
            s.manager.mConnectionsBySender.assign (s.connections c).mSenderKey c } x ↔
        (x = c ∨ isActive s.manager x) := by
      intro x
      simp only [isActive, UnorderedMap.find_assign]
      constructor
      · rintro ⟨i, hi⟩
        by_cases hni : n = i
        · simp only [hni, if_true, Option.some.injEq] at hi
          exact Or.inl hi.symm
        · simp only [hni, if_false] at hi
          exact Or.inr ⟨i, hi⟩
      · rintro (hx | ⟨i, hi⟩)
        · exact ⟨n, by simp [hx]⟩
        · refine ⟨i, ?_⟩
          have hni : n ≠ i := by
            intro hni
            rw [hni, hi] at hnone
            cases hnone
          simp only [hni, if_false]
          exact hi
    intro k x
    simp only at hdist
    simp only [senderKey_setLocalConnectionID] at hdist ⊢
    rw [hact x]
    simp only [UnorderedMap.find_assign]
    by_cases hk : (s.connections c).mSenderKey = k
    · simp only [hk, if_true, Option.some.injEq]
      constructor
      · intro hx
        rw [← hx, hk]
        exact ⟨Or.inl rfl, rfl⟩
      · rintro ⟨hx, hkx⟩
        exact hdist c x ((hact c).mpr (Or.inl rfl)) ((hact x).mpr hx) (by rw [hk, hkx])
    · simp only [hk, if_false]
      rw [hs k x]
      constructor
      · rintro ⟨hx, hkx⟩
        exact ⟨Or.inr hx, hkx⟩
      · rintro ⟨hx | hx, hkx⟩
        · rw [hx] at hkx
          exact absurd hkx hk
        · exact ⟨hx, hkx⟩

theorem removeConnection_senderInv (s : System) (c : Nat) (h : TableInv s)
    (hs : SenderInv s) (hc : isActiveB s.manager c = true)
    (hn : (activeSenderKeys s).Nodup) : SenderInv (removeConnection s c) := by
  obtain ⟨k0, hk0⟩ := isActive_of_isActiveB _ c h.nodup hc
  have hid := (h.entry k0 c hk0).1
  have hfc : s.manager.mActiveConnections.find (s.connections c).mLocalConnectionID = some c := by
    rw [hid]; exact hk0
  have hdist := distinct_of_nodup s hn
  have hact : ∀ x, isActive (removeConnection s c).manager x ↔
      (isActive s.manager x ∧ x ≠ c) := by
    intro x
    simp only [isActive, removeConnection, UnorderedMap.find_erase]
    constructor
    · rintro ⟨i, hi⟩
      by_cases hci : (s.connections c).mLocalConnectionID = i
      · simp [hci] at hi
      · simp only [hci, if_false] at hi
        refine ⟨⟨i, hi⟩, ?_⟩
        intro hxc
        rw [hxc] at hi
        exact hci (h.entry i c hi).1
    · rintro ⟨⟨i, hi⟩, hxc⟩
      refine ⟨i, ?_⟩
      have hci : (s.connections c).mLocalConnectionID ≠ i := by
        intro hci
        rw [← hci, hfc] at hi
        exact hxc (Option.some.inj hi).symm
      simp only [hci, if_false]
      exact hi
  intro k x
  rw [hact x]
  simp only [removeConnection, UnorderedMap.find_erase]
  by_cases hk : (s.connections c).mSenderKey = k
  · simp only [hk, if_true]
    constructor
    · intro hx; cases hx
    · rintro ⟨⟨hx, hxc⟩, hkx⟩
      exact absurd (hdist x c hx ⟨k0, hk0⟩ (by rw [hkx, hk])) hxc
  · simp only [hk, if_false]
    rw [hs k x]
    constructor
    · rintro ⟨hx, hkx⟩
      refine ⟨⟨hx, ?_⟩, hkx⟩
      intro hxc
      rw [hxc] at hkx
      exact hk hkx
    · rintro ⟨⟨hx, _⟩, hkx⟩
      exact ⟨hx, hkx⟩

theorem run_senderInv (calls : List TableCall) :
    ∀ s, TableInv s → SenderInv s → (activeSenderKeys s).Nodup →
      disciplined s calls = true → distinctKeysAlong s calls = true →
      SenderInv (run s calls) := by
  induction calls with
  | nil => intro s _ hs _ _ _; exact hs
  | cons call rest ih =>
    intro s h hs hn hd hk
    simp only [distinctKeysAlong, Bool.and_eq_true, decide_eq_true_eq] at hk
    cases call with
    | add c r1 r2 =>
      simp only [disciplined, Bool.and_eq_true, Bool.not_eq_true'] at hd
      exact ih _ (addConnection_inv s c r1 r2 h hd.1)
        (addConnection_senderInv s c r1 r2 h hs hk.1) hk.1 hd.2 hk.2
    | remove c =>
      simp only [disciplined, Bool.and_eq_true] at hd
      exact ih _ (removeConnection_inv s c h hd.1)
        (removeConnection_senderInv s c h hs hd.1 hn) hk.1 hd.2 hk.2

/-- C18 as stated fails: the claim does not restrict the calls.  With connection 1
registered, `removeConnection` of connection 2, which was never registered and has
the same sender key 0, erases the sender entry of connection 1: connection 1 is the
only active connection, its sender key is 0, and `findConnectionTo(0)` returns
null. -/
theorem sender_entry_erased_by_stranger :
    distinctKeysAlong (start idleConnections) [.add 1 5 0, .remove 2] = true ∧
    isActiveB (run (start idleConnections) [.add 1 5 0, .remove 2]).manager 1 = true ∧
    ((run (start idleConnections) [.add 1 5 0, .remove 2]).connections 1).mSenderKey = 0 ∧
    findConnectionTo (run (start idleConnections) [.add 1 5 0, .remove 2]).manager 0 = none := by
  decide

/-- C18, amended: for every sequence of calls under the calling discipline
(`addConnection` only for inactive, `removeConnection` only for active connections)
after each of which the active connections have pairwise distinct sender keys,
`findConnectionTo(k)` returns connection `c` exactly when `c` is active and has sender
key `k`, and it returns null for every key that no active connection has. -/
theorem findConnectionTo_spec (conns : ConnectionHeap) (calls : List TableCall)
    (h : disciplined (start conns) calls = true)
    (hk : distinctKeysAlong (start conns) calls = true) :
    (∀ k c, findConnectionTo (run (start conns) calls).manager k = some c ↔
      (isActive (run (start conns) calls).manager c ∧
        ((run (start conns) calls).connections c).mSenderKey = k)) ∧
    (∀ k, (∀ c, isActive (run (start conns) calls).manager c →
        ((run (start conns) calls).connections c).mSenderKey ≠ k) →
      findConnectionTo (run (start conns) calls).manager k = none) := by
  have hs0 : SenderInv (start conns) := by
    intro k c
    constructor
    · intro hh; cases hh
    · rintro ⟨⟨i, hi⟩, _⟩; cases hi
  have inv := run_senderInv calls (start conns) (tableInv_start conns) hs0 List.nodup_nil h hk
  refine ⟨inv, ?_⟩
  intro k hno
  cases hf : findConnectionTo (run (start conns) calls).manager k with
  | none => rfl
  | some c =>
    exfalso
    have := (inv k c).mp hf
    exact hno c this.1 this.2

/-- C18 amended, at a concrete call sequence. -/
theorem findConnectionTo_spec_witness :
    disciplined (start keyedConnections) sampleCalls = true ∧
    distinctKeysAlong (start keyedConnections) sampleCalls = true ∧
    ((∀ k c, findConnectionTo (run (start keyedConnections) sampleCalls).manager k = some c ↔
      (isActive (run (start keyedConnections) sampleCalls).manager c ∧
        ((run (start keyedConnections) sampleCalls).connections c).mSenderKey = k)) ∧
    (∀ k, (∀ c, isActive (run (start keyedConnections) sampleCalls).manager c →
        ((run (start keyedConnections) sampleCalls).connections c).mSenderKey ≠ k) →
      findConnectionTo (run (start keyedConnections) sampleCalls).manager k = none)) :=
  ⟨by decide, by decide,
    findConnectionTo_spec keyedConnections sampleCalls (by decide) (by decide)⟩

/-! ## Completeness of the probing loop -/

theorem shape_fresh : Shape fresh := ⟨3, le_refl _, rfl, rfl⟩

theorem growLookup_shape (m : ConnectionManager) (conns : ConnectionHeap) (h : Shape m) :
    Shape (growLookup m conns) ∧
    m.mActiveConnectionsLookup.length ≤ (growLookup m conns).mActiveConnectionsLookup.length := by
  obtain ⟨e, he, hlen, hmask⟩ := h
  unfold growLookup
  split
  · obtain ⟨e', hee', hnew⟩ := newSize_pow e he
    have hpos : 0 < 2 ^ e := Nat.two_pow_pos _
    have hle : m.mActiveConnectionsLookup.length ≤
        max (m.mActiveConnectionsLookup.length * 2) 32 := by omega
    have hrl := length_resize _ _ hle
    simp only
    refine ⟨⟨e', by omega, ?_, ?_⟩, ?_⟩
    · rw [rehash_length, hrl, hlen, hnew]
    · rw [hrl, hlen, hnew]
    · rw [rehash_length, hrl]; exact hle
  · exact ⟨⟨e, he, hlen, hmask⟩, le_refl _⟩

theorem addConnection_shape (s : System) (c r1 r2 : Nat) (h : Shape s.manager) :
    Shape (addConnection s c r1 r2).manager := by
  obtain ⟨e, he, hlen, hmask⟩ := (growLookup_shape s.manager s.connections h).1
  by_cases hz : (getFreeLocalConnectionID s.manager s.connections r1 r2).1 = 0
  · rw [addConnection_failed s c r1 r2 hz]
    exact ⟨e, he, hlen, hmask⟩
  · rw [addConnection_succeeded s c r1 r2 _ rfl hz]
    exact ⟨e, he, by simpa using hlen, hmask⟩

theorem removeConnection_shape (s : System) (c : Nat) (h : Shape s.manager) :
    Shape (removeConnection s c).manager := by
  obtain ⟨e, he, hlen, hmask⟩ := h
  exact ⟨e, he, by simpa [removeConnection] using hlen, hmask⟩

/-- The array keeps its shape under every sequence of calls. -/
theorem run_shape (calls : List TableCall) :
    ∀ s, Shape s.manager → Shape (run s calls).manager := by
  induction calls with
  | nil => intro s h; exact h
  | cons call rest ih =>
    intro s h
    cases call with
    | add c r1 r2 => exact ih _ (addConnection_shape s c r1 r2 h)
    | remove c => exact ih _ (removeConnection_shape s c h)

theorem occupied_set_some_le (l : List (Option Nat)) (i c : Nat) :
    occupied (l.set i (some c)) ≤ occupied l + 1 := by
  by_cases h : i < l.length
  · unfold occupied
    rw [List.countP_set _ _ _ _ h]
    simp
  · rw [List.set_eq_of_length_le (by omega)]
    omega

/-- The rehash never increases the number of occupied slots, whatever the array
holds. -/
theorem rehash_occupied_le (conns : ConnectionHeap) (mask : Nat) :
    ∀ n k l, occupied (rehash conns mask n k l) ≤ occupied l := by
  intro n
  induction n with
  | zero => intro k l; exact le_refl _
  | succ n ih =>
    intro k l
    cases hs : slot l k with
    | none => simp only [rehash, hs]; exact ih _ _
    | some c =>
      by_cases ht : ((conns c).mLocalConnectionID &&& mask) % 65536 = k
      · simp only [rehash, hs, ht, ne_eq, not_true_eq_false, if_false]
        exact ih _ _
      · simp only [rehash, hs, ht, ne_eq, not_false_eq_true, if_true]
        refine le_trans (ih _ _) ?_
        have hk := lt_length_of_slot l k c hs
        have h1 := occupied_set_some_le l (((conns c).mLocalConnectionID &&& mask) % 65536) c
        have h2 : slot (l.set (((conns c).mLocalConnectionID &&& mask) % 65536) (some c)) k
            = some c := by
          by_cases hb : ((conns c).mLocalConnectionID &&& mask) % 65536 < l.length
          · rw [slot_set _ _ _ _ hb, if_neg ht]; exact hs
          · rw [List.set_eq_of_length_le (by omega)]; exact hs
        have h3 := occupied_set_none _ k c h2
        omega

theorem growLookup_occupied_le (m : ConnectionManager) (conns : ConnectionHeap) :
    occupied (growLookup m conns).mActiveConnectionsLookup ≤
      occupied m.mActiveConnectionsLookup := by
  unfold growLookup
  split
  · simp only
    refine le_trans (rehash_occupied_le _ _ _ _ _) ?_
    rw [occupied_resize _ _ (by omega)]
  · exact le_refl _

/-- A failed probing loop has rejected every candidate it tried. -/
theorem probe_zero (l : List (Option Nat)) (mask : Nat) :
    ∀ n c0, c0 < 65536 → probe l mask n c0 = 0 →
      ∀ t, t < n → (c0 + t) % 65536 = 0 ∨
        slot l ((((c0 + t) % 65536) &&& mask) % 65536) ≠ none := by
  intro n
  induction n with
  | zero => intro c0 _ _ t ht; omega
  | succ n ih =>
    intro c0 hc0 hp t ht
    by_cases hc : c0 ≠ 0 ∧ slot l ((c0 &&& mask) % 65536) = none
    · exfalso
      have e1 : probe l mask (n + 1) c0 = c0 := by
        unfold probe
        rw [if_pos hc]
      rw [e1] at hp
      exact hc.1 hp
    · have e1 : probe l mask (n + 1) c0 = probe l mask n ((c0 + 1) % 65536) := by
        conv_lhs => unfold probe
        rw [if_neg hc]
      rw [e1] at hp
      cases t with
      | zero =>
        simp only [Nat.add_zero, Nat.mod_eq_of_lt hc0]
        by_cases h0 : c0 = 0
        · exact Or.inl h0
        · right
          intro hs
          exact hc ⟨h0, hs⟩
      | succ t =>
        have := ih ((c0 + 1) % 65536) (Nat.mod_lt _ (by norm_num)) hp t (by omega)
        have e2 : ((c0 + 1) % 65536 + t) % 65536 = (c0 + (t + 1)) % 65536 := by omega
        rw [e2] at this
        exact this

/-- A probing loop that finds every non-zero id occupied returns 0. -/
theorem probe_all_fail (l : List (Option Nat)) (mask : Nat)
    (h : ∀ x, x ≠ 0 → x < 65536 → slot l ((x &&& mask) % 65536) ≠ none) :
    ∀ n c0, c0 < 65536 → probe l mask n c0 = 0 := by
  intro n
  induction n with
  | zero => intro c0 _; rfl
  | succ n ih =>
    intro c0 hc0
    have hc : ¬ (c0 ≠ 0 ∧ slot l ((c0 &&& mask) % 65536) = none) := by
      rintro ⟨h1, h2⟩
      exact h c0 h1 hc0 h2
    conv_lhs => unfold probe
    rw [if_neg hc]
    exact ih _ (Nat.mod_lt _ (by norm_num))

/-- Slots that are all occupied are counted by `occupied`. -/
theorem occupied_ge_of_all (l : List (Option Nat)) :
    ∀ K, K ≤ l.length → (∀ i, i < K → slot l i ≠ none) → K ≤ occupied l := by
  induction l with
  | nil =>
    intro K hK _
    simp at hK
    subst hK
    exact Nat.zero_le _
  | cons x tl ih =>
    intro K hK h
    cases K with
    | zero => omega
    | succ K =>
      have h0 := h 0 (by omega)
      have hx : x.isSome = true := by
        cases x with
        | none => exact absurd rfl h0
        | some v => rfl
      have := ih K (by simpa using hK) (fun i hi => h (i + 1) (by omega))
      have hcons : occupied (x :: tl) = occupied tl + 1 := by
        unfold occupied
        rw [List.countP_cons_of_pos _ _ hx]
      omega

theorem occupied_ge_of_all_but_first (l : List (Option Nat)) (K : Nat) (hK : K ≤ l.length)
    (h : ∀ i, 1 ≤ i → i < K → slot l i ≠ none) : K ≤ occupied l + 1 := by
  cases l with
  | nil => simp at hK; omega
  | cons x tl =>
    cases K with
    | zero => omega
    | succ K =>
      have := occupied_ge_of_all tl K (by simpa using hK)
        (fun i hi => h (i + 1) (by omega) (by omega))
      have hle : occupied tl ≤ occupied (x :: tl) := by
        unfold occupied
        rw [List.countP_cons]
        omega
      omega

/-- Residues: `B` consecutive candidates reach every slot `i` below `B`. -/
theorem reach_slot (c0 i B : Nat) (hi : i < B) :
    (c0 + (i + B - c0 % B) % B) % B = i := by
  have hr : c0 % B < B := Nat.mod_lt _ (by omega)
  have h1 : (c0 + (i + B - c0 % B) % B) % B = (c0 % B + (i + B - c0 % B)) % B := by
    rw [Nat.add_mod_mod, Nat.mod_add_mod]
  rw [h1, show c0 % B + (i + B - c0 % B) = i + B by omega, Nat.add_mod_right,
    Nat.mod_eq_of_lt hi]

/-- The probing loop succeeds in an array of the right shape that is filled to at most
75% and has fewer than 65535 occupied slots. -/
theorem probe_nonzero (l : List (Option Nat)) (e c0 : Nat) (he : 3 ≤ e)
    (hlen : l.length = 2 ^ e) (hc0 : c0 < 65536)
    (hload : occupied l * 4 ≤ l.length * 3) (hsat : occupied l < 65535) :
    probe l ((2 ^ e - 1) % 65536) l.length c0 ≠ 0 := by
  intro hp
  have hB : 2 ^ (min e 16) ≤ 2 ^ e := Nat.pow_le_pow_right (by norm_num) (Nat.min_le_left _ _)
  have hBpos : 0 < 2 ^ (min e 16) := Nat.two_pow_pos _
  have hdvd : 2 ^ (min e 16) ∣ 65536 := by
    have : (65536 : Nat) = 2 ^ 16 := by norm_num
    rw [this]
    exact pow_dvd_pow 2 (Nat.min_le_right _ _)
  have hall : ∀ i, 1 ≤ i → i < 2 ^ (min e 16) → slot l i ≠ none := by
    intro i hi1 hiB
    have ht : (i + 2 ^ (min e 16) - c0 % 2 ^ (min e 16)) % 2 ^ (min e 16) < l.length := by
      have := Nat.mod_lt (i + 2 ^ (min e 16) - c0 % 2 ^ (min e 16)) hBpos
      omega
    have hx : ((c0 + (i + 2 ^ (min e 16) - c0 % 2 ^ (min e 16)) % 2 ^ (min e 16)) % 65536)
        % 2 ^ (min e 16) = i := by
      rw [Nat.mod_mod_of_dvd _ hdvd]
      exact reach_slot c0 i _ hiB
    rcases probe_zero l _ l.length c0 hc0 hp _ ht with h0 | hs
    · rw [h0] at hx
      simp at hx
      omega
    · rw [index_eq_mod, hx] at hs
      exact hs
  have hcount := occupied_ge_of_all_but_first l (2 ^ (min e 16)) (by omega) hall
  by_cases h16 : e ≤ 16
  · rw [Nat.min_eq_left h16] at hcount
    have : 2 ^ 3 ≤ 2 ^ e := Nat.pow_le_pow_right (by norm_num) he
    norm_num at this
    omega
  · rw [Nat.min_eq_right (by omega)] at hcount
    norm_num at hcount
    omega

/-- C15, amended: in every state reached from a freshly constructed manager by
`addConnection` / `removeConnection` calls (`removeConnection` only on active
connections) in which at most 75% of the lookup array is occupied and fewer than
65535 slots are occupied, `getFreeLocalConnectionID` returns a non-zero id for every
value of the random start candidate. -/
theorem free_id_found (conns : ConnectionHeap) (calls : List TableCall) (r1 r2 : Nat)
    (_h : removesActive (start conns) calls = true)
    (hload : occupied (run (start conns) calls).manager.mActiveConnectionsLookup * 4 ≤
      (run (start conns) calls).manager.mActiveConnectionsLookup.length * 3)
    (hsat : occupied (run (start conns) calls).manager.mActiveConnectionsLookup < 65535) :
    (getFreeLocalConnectionID (run (start conns) calls).manager
      (run (start conns) calls).connections r1 r2).1 ≠ 0 := by
  have hshape := run_shape calls (start conns) shape_fresh
  generalize run (start conns) calls = s at hload hsat hshape
  obtain ⟨⟨e, he, hlen, hmask⟩, hle⟩ := growLookup_shape s.manager s.connections hshape
  have hocc := growLookup_occupied_le s.manager s.connections
  unfold getFreeLocalConnectionID
  simp only
  rw [hmask]
  exact probe_nonzero _ e _ he hlen (candidate_lt r1 r2) (by omega) (by omega)

/-- C15 amended, at a concrete call sequence. -/
theorem free_id_found_witness :
    removesActive (start idleConnections) sampleCalls = true ∧
    occupied (run (start idleConnections) sampleCalls).manager.mActiveConnectionsLookup * 4 ≤
      (run (start idleConnections) sampleCalls).manager.mActiveConnectionsLookup.length * 3 ∧
    occupied (run (start idleConnections) sampleCalls).manager.mActiveConnectionsLookup
      < 65535 ∧
    (getFreeLocalConnectionID (run (start idleConnections) sampleCalls).manager
      (run (start idleConnections) sampleCalls).connections 7 0).1 ≠ 0 :=
  ⟨by decide, by decide, by decide,
    free_id_found idleConnections sampleCalls 7 0 (by decide) (by decide) (by decide)⟩

/-! ## The exhausted id space -/

theorem candidate_split (x : Nat) (hx : x < 65536) : candidate (x % 256) (x / 256) = x := by
  unfold candidate
  have h255 : (0xff : Nat) = 2 ^ 8 - 1 := by norm_num
  rw [h255, Nat.and_pow_two_sub_one_eq_mod, Nat.and_pow_two_sub_one_eq_mod, Nat.shiftLeft_eq]
  norm_num
  omega

theorem firstIds_start (conns : ConnectionHeap) : FirstIds 0 (start conns) := by
  refine ⟨tableInv_start conns, rfl, ?_⟩
  intro i
  have : ¬ (1 ≤ i ∧ i ≤ 0) := by omega
  simp only [this, if_false]
  rfl

theorem firstIds_not_active (k : Nat) (s : System) (h : FirstIds k s) (c : Nat) (hc : k < c) :
    isActiveB s.manager c = false := by
  obtain ⟨inv, _, hfind⟩ := h
  cases hb : isActiveB s.manager c with
  | false => rfl
  | true =>
    exfalso
    obtain ⟨i, hi⟩ := isActive_of_isActiveB _ c inv.nodup hb
    rw [hfind i] at hi
    split at hi
    · have := Option.some.inj hi
      omega
    · cases hi

/-- With the connections `1`, ..., `k` registered under their own handles,
`getFreeLocalConnectionID` accepts the start candidate `k + 1` at once. -/
theorem firstIds_next_id (k : Nat) (s : System) (h : FirstIds k s) (hk : k + 1 ≤ 65535) :
    (getFreeLocalConnectionID s.manager s.connections ((k + 1) % 256) ((k + 1) / 256)).1
      = k + 1 := by
  obtain ⟨inv, hsize, hfind⟩ := h
  obtain ⟨inv1, hM, hroom⟩ := growLookup_inv s inv
  obtain ⟨e, he, hlen⟩ := inv1.size_pow
  have hmask := inv1.mask_eq
  simp only at hlen hmask
  rw [hlen] at hmask
  unfold getFreeLocalConnectionID
  simp only
  rw [candidate_split _ (by omega), hlen]
  have hpos : 0 < 2 ^ e := Nat.two_pow_pos _
  obtain ⟨n, hn⟩ : ∃ n, 2 ^ e = n + 1 := ⟨2 ^ e - 1, by omega⟩
  rw [hn]
  unfold probe
  rw [if_pos]
  refine ⟨by omega, ?_⟩
  cases hq : slot (growLookup s.manager s.connections).mActiveConnectionsLookup
      (((k + 1) &&& (growLookup s.manager s.connections).mBitmaskForActiveConnectionsLookup)
        % 65536) with
  | none => rfl
  | some c =>
    exfalso
    obtain ⟨hf, hidx⟩ := (inv1.slot_iff _ c).mp hq
    simp only at hf hidx
    rw [hM, hfind] at hf
    have hB : k + 1 < 2 ^ (min e 16) := by
      by_cases h16 : e ≤ 16
      · rw [Nat.min_eq_left h16]
        rw [hsize, hlen] at hroom
        omega
      · rw [Nat.min_eq_right (by omega)]
        norm_num
        omega
    rw [hmask, index_eq_mod, target_eq_mod] at hidx
    split at hf
    · rename_i hrange
      have hc := Option.some.inj hf
      rw [hc] at hidx hrange
      rw [Nat.mod_eq_of_lt hB, Nat.mod_eq_of_lt (by omega)] at hidx
      omega
    · cases hf

/-- Registering connection `k + 1` with start candidate `k + 1`. -/
theorem firstIds_step (k : Nat) (s : System) (h : FirstIds k s) (hk : k + 1 ≤ 65535) :
    FirstIds (k + 1) (addConnection s (k + 1) ((k + 1) % 256) ((k + 1) / 256)) := by
  have hid := firstIds_next_id k s h hk
  have hna := firstIds_not_active k s h (k + 1) (by omega)
  obtain ⟨inv, hsize, hfind⟩ := h
  have inv' := addConnection_inv s (k + 1) ((k + 1) % 256) ((k + 1) / 256) inv hna
  refine ⟨inv', ?_, ?_⟩
  · rw [addConnection_succeeded s (k + 1) _ _ (k + 1) hid (by omega)]
    simp only
    rw [UnorderedMap.size_assign_of_find_none, hsize]
    rw [hfind]
    have : ¬ (1 ≤ k + 1 ∧ k + 1 ≤ k) := by omega
    simp only [this, if_false]
  · intro i
    rw [addConnection_succeeded s (k + 1) _ _ (k + 1) hid (by omega)]
    simp only [UnorderedMap.find_assign]
    by_cases hi : k + 1 = i
    · subst hi
      simp
    · simp only [hi, if_false]
      rw [hfind]
      by_cases hr : 1 ≤ i ∧ i ≤ k
      · have : 1 ≤ i ∧ i ≤ k + 1 := by omega
        simp only [hr, this, and_self, if_true]
      · have : ¬ (1 ≤ i ∧ i ≤ k + 1) := by omega
        simp only [hr, this, if_false]

theorem firstIds_run (n : Nat) :
    ∀ k s, FirstIds k s → k + n ≤ 65535 →
      disciplined s (addsFrom k n) = true ∧ FirstIds (k + n) (run s (addsFrom k n)) := by
  induction n with
  | zero => intro k s h _; exact ⟨rfl, h⟩
  | succ n ih =>
    intro k s h hk
    have hna := firstIds_not_active k s h (k + 1) (by omega)
    obtain ⟨d, f⟩ := ih (k + 1) _ (firstIds_step k s h (by omega)) (by omega)
    refine ⟨?_, ?_⟩
    · simp only [addsFrom, disciplined, hna, Bool.not_false, Bool.true_and]
      exact d
    · have e : k + (n + 1) = k + 1 + n := by omega
      rw [e]
      exact f

theorem removesActive_of_disciplined (calls : List TableCall) :
    ∀ s, disciplined s calls = true → removesActive s calls = true := by
  induction calls with
  | nil => intro s _; rfl
  | cons call rest ih =>
    intro s h
    cases call with
    | add c r1 r2 =>
      simp only [disciplined, Bool.and_eq_true] at h
      simp only [removesActive]
      exact ih _ h.2
    | remove c =>
      simp only [disciplined, Bool.and_eq_true] at h
      simp only [removesActive, Bool.and_eq_true]
      exact ⟨h.1, ih _ h.2⟩

/-- With all 65535 valid ids in use the array is at most 75% full, is not grown, and
`getFreeLocalConnectionID` returns 0 for every start candidate. -/
theorem firstIds_saturated (s : System) (h : FirstIds 65535 s) (r1 r2 : Nat) :
    occupied s.manager.mActiveConnectionsLookup = 65535 ∧
    occupied s.manager.mActiveConnectionsLookup * 4 ≤
      s.manager.mActiveConnectionsLookup.length * 3 ∧
    (getFreeLocalConnectionID s.manager s.connections r1 r2).1 = 0 := by
  obtain ⟨inv, hsize, hfind⟩ := h
  obtain ⟨inv1, hM, _⟩ := growLookup_inv s inv
  refine ⟨by rw [inv.count, hsize], by rw [inv.count]; exact inv.load, ?_⟩
  unfold getFreeLocalConnectionID
  simp only
  apply probe_all_fail _ _ _ _ _ (candidate_lt r1 r2)
  intro x hx0 hx hs
  have hfx : s.manager.mActiveConnections.find x = some x := by
    rw [hfind]
    have : 1 ≤ x ∧ x ≤ 65535 := by omega
    simp only [this, and_self, if_true]
  have hidx := (inv.entry x x hfx).1
  have := (inv1.slot_iff (target s.connections
    (growLookup s.manager s.connections).mBitmaskForActiveConnectionsLookup x) x).mpr
    ⟨by simp only; rw [hM, hidx]; exact hfx, rfl⟩
  simp only [target, hidx] at this
  rw [hs] at this
  cases this

/-- The state after `saturatingCalls`: the calls obey the discipline and the
connections 1 to 65535 are registered under their own handles. -/
theorem saturated_firstIds :
    disciplined (start idleConnections) saturatingCalls = true ∧
    FirstIds 65535 (run (start idleConnections) saturatingCalls) := by
  unfold saturatingCalls
  have h := firstIds_run 65535 0 (start idleConnections) (firstIds_start idleConnections)
    (by norm_num)
  rw [Nat.zero_add] at h
  exact h

/-- C15 as stated fails: after the 65535 registrations of `saturatingCalls` (no
`removeConnection` at all) the lookup array is filled to less than 75%, it is not
fully occupied, and `getFreeLocalConnectionID` still returns 0, because every
non-zero 16-bit id is in use. -/
theorem id_space_exhausted :
    removesActive (start idleConnections) saturatingCalls = true ∧
    occupied (run (start idleConnections) saturatingCalls).manager.mActiveConnectionsLookup * 4
      ≤ (run (start idleConnections) saturatingCalls).manager.mActiveConnectionsLookup.length * 3 ∧
    occupied (run (start idleConnections) saturatingCalls).manager.mActiveConnectionsLookup <
      (run (start idleConnections) saturatingCalls).manager.mActiveConnectionsLookup.length ∧
    (getFreeLocalConnectionID (run (start idleConnections) saturatingCalls).manager
      (run (start idleConnections) saturatingCalls).connections 1 0).1 = 0 := by
  obtain ⟨hd, hf⟩ := saturated_firstIds
  have hsat := firstIds_saturated (run (start idleConnections) saturatingCalls) hf 1 0
  have hra := removesActive_of_disciplined saturatingCalls (start idleConnections) hd
  refine ⟨hra, hsat.2.1, ?_, hsat.2.2⟩
  have h1 := hsat.1
  have h2 := hsat.2.1
  omega

/-- The exact map of a table with the invariant has at most 65536 entries. -/
theorem size_le_of_inv (s : System) (h : TableInv s) :
    s.manager.mActiveConnections.size ≤ 65536 := by
  have hsub : s.manager.mActiveConnections.keys.toFinset ⊆ Finset.range 65536 := by
    intro k hk
    rw [List.mem_toFinset] at hk
    obtain ⟨⟨k', v⟩, hmem, hkv⟩ := List.mem_map.mp hk
    simp only at hkv
    subst hkv
    have := UnorderedMap.find_of_mem _ k' v h.nodup hmem
    exact Finset.mem_range.mpr (h.entry k' v this).2.2
  have hcard := Finset.card_le_card hsub
  rw [List.toFinset_card_of_nodup h.nodup, Finset.card_range] at hcard
  simpa [UnorderedMap.size, UnorderedMap.keys] using hcard

/-- In a state with the table invariant, a `getFreeLocalConnectionID` call that returns
0 has not grown the array. -/
theorem no_growth_on_failure (s : System) (r1 r2 : Nat) (h : TableInv s)
    (h0 : (getFreeLocalConnectionID s.manager s.connections r1 r2).1 = 0) :
    growLookup s.manager s.connections = s.manager := by
  obtain ⟨inv1, hM, hroom⟩ := growLookup_inv s h
  obtain ⟨e1, he1, hlen1⟩ := inv1.size_pow
  have hmask1 := inv1.mask_eq
  have hcount1 := inv1.count
  simp only at hlen1 hmask1 hcount1
  rw [hM] at hcount1
  unfold getFreeLocalConnectionID at h0
  simp only at h0
  rw [hmask1, hlen1] at h0
  rw [← hlen1] at h0
  have hsat : ¬ occupied (growLookup s.manager s.connections).mActiveConnectionsLookup
      < 65535 := by
    intro hlt
    rw [hlen1] at h0
    have := probe_nonzero _ e1 (candidate r1 r2) he1 hlen1 (candidate_lt r1 r2)
      (by rw [hcount1]; omega) hlt
    rw [hlen1] at this
    exact this h0
  have hbig : 65535 ≤ s.manager.mActiveConnections.size := by omega
  have hle := size_le_of_inv s h
  obtain ⟨e, he, hlen⟩ := h.size_pow
  have hload := h.load
  rw [hlen] at hload
  have he17 : 17 ≤ e := by
    by_contra hlt
    have : 2 ^ e ≤ 2 ^ 16 := Nat.pow_le_pow_right (by norm_num) (by omega)
    norm_num at this
    omega
  have h17 : 2 ^ 17 ≤ 2 ^ e := Nat.pow_le_pow_right (by norm_num) he17
  norm_num at h17
  have hng : ¬ grows s.manager := by
    unfold grows
    rw [hlen]
    omega
  unfold growLookup
  rw [if_neg hng]

/-- C16: whenever `getFreeLocalConnectionID` returns 0, `addConnection` leaves
`mActiveConnections`, `mConnectionsBySender` and every connection object as they were,
so the connection keeps the local id it had (0 for a fresh one); and in every state
reached under the calling discipline the whole manager, the lookup array and its
bitmask included, is the same as before the call. -/
theorem failed_add_registers_nothing (s : System) (c r1 r2 : Nat)
    (h0 : (getFreeLocalConnectionID s.manager s.connections r1 r2).1 = 0) :
    (addConnection s c r1 r2).manager.mActiveConnections = s.manager.mActiveConnections ∧
    (addConnection s c r1 r2).manager.mConnectionsBySender = s.manager.mConnectionsBySender ∧
    (addConnection s c r1 r2).connections = s.connections ∧
    ((addConnection s c r1 r2).connections c).mLocalConnectionID =
      (s.connections c).mLocalConnectionID ∧
    (∀ conns calls, disciplined (start conns) calls = true → s = run (start conns) calls →
      (addConnection s c r1 r2).manager = s.manager) := by
  obtain ⟨g1, g2, _, _⟩ := growLookup_maps s.manager s.connections
  rw [addConnection_failed s c r1 r2 h0]
  refine ⟨g1, g2, rfl, rfl, ?_⟩
  intro conns calls hd hs
  have inv : TableInv s := by
    rw [hs]
    exact run_inv calls (start conns) (tableInv_start conns) hd
  exact no_growth_on_failure s r1 r2 inv h0

/-- C16, at the state in which all 65535 ids are in use and one more connection asks
for an id. -/
theorem failed_add_registers_nothing_witness :
    (getFreeLocalConnectionID (run (start idleConnections) saturatingCalls).manager
      (run (start idleConnections) saturatingCalls).connections 1 0).1 = 0 ∧
    ((addConnection (run (start idleConnections) saturatingCalls) 70000 1 0).manager.mActiveConnections
        = (run (start idleConnections) saturatingCalls).manager.mActiveConnections ∧
    (addConnection (run (start idleConnections) saturatingCalls) 70000 1 0).manager.mConnectionsBySender
        = (run (start idleConnections) saturatingCalls).manager.mConnectionsBySender ∧
    (addConnection (run (start idleConnections) saturatingCalls) 70000 1 0).connections =
      (run (start idleConnections) saturatingCalls).connections ∧
    ((addConnection (run (start idleConnections) saturatingCalls) 70000 1 0).connections
        70000).mLocalConnectionID =
      ((run (start idleConnections) saturatingCalls).connections 70000).mLocalConnectionID ∧
    (∀ conns calls, disciplined (start conns) calls = true →
      run (start idleConnections) saturatingCalls = run (start conns) calls →
      (addConnection (run (start idleConnections) saturatingCalls) 70000 1 0).manager =
        (run (start idleConnections) saturatingCalls).manager)) :=
  have hsat := (firstIds_saturated (run (start idleConnections) saturatingCalls)
    saturated_firstIds.2 1 0).2.2
  ⟨hsat, failed_add_registers_nothing (run (start idleConnections) saturatingCalls)
    70000 1 0 hsat⟩

/-! ## Lemmas on whole receive calls -/

theorem storeReceivedPacket_frame (m : ConnectionManager) (received : ReceiveResult)
    (s : Nat) (connection : Option Nat) :
    (storeReceivedPacket m received s connection).mActiveConnections = m.mActiveConnections ∧
    (storeReceivedPacket m received s connection).mActiveConnectionsLookup =
      m.mActiveConnectionsLookup ∧
    (storeReceivedPacket m received s connection).mBitmaskForActiveConnectionsLookup =
      m.mBitmaskForActiveConnectionsLookup ∧
    (storeReceivedPacket m received s connection).mConnectionsBySender =
      m.mConnectionsBySender ∧
    (storeReceivedPacket m received s connection).mReceivedPackets.mSyncedQueue =
      m.mReceivedPackets.mSyncedQueue ∧
    (storeReceivedPacket m received s connection).mReceivedPackets.mToBeReturned =
      m.mReceivedPackets.mToBeReturned :=
  ⟨rfl, rfl, rfl, rfl, rfl, rfl⟩

theorem storeAll_frame (items : List Accepted) :
    ∀ m, (storeAll m items).mActiveConnections = m.mActiveConnections ∧
      (storeAll m items).mActiveConnectionsLookup = m.mActiveConnectionsLookup ∧
      (storeAll m items).mBitmaskForActiveConnectionsLookup =
        m.mBitmaskForActiveConnectionsLookup ∧
      (storeAll m items).mConnectionsBySender = m.mConnectionsBySender ∧
      (storeAll m items).mReceivedPackets.mSyncedQueue = m.mReceivedPackets.mSyncedQueue ∧
      (storeAll m items).mReceivedPackets.mToBeReturned = m.mReceivedPackets.mToBeReturned := by
  induction items with
  | nil => intro m; exact ⟨rfl, rfl, rfl, rfl, rfl, rfl⟩
  | cons item rest ih =>
    intro m
    exact ih (storeReceivedPacket m item.received item.signature item.connection)

/-- A run of datagrams at the head of the socket is processed one by one. -/
theorem loop_datagrams (sig : Signatures) (order : ByteOrder) (conns : ConnectionHeap)
    (pre : List ReceiveAttempt) :
    ∀ n runs m (rest : Socket), (∀ a ∈ pre, isDatagram a = true) →
      updateReceivePacketsLoop sig order conns (pre.length + n) runs m (pre ++ rest) =
        updateReceivePacketsLoop sig order conns n (runs + pre.length)
          (pre.foldl (processDatagram sig order conns) m) rest := by
  induction pre with
  | nil => intro n runs m rest _; simp
  | cons a tl ih =>
    intro n runs m rest h
    have ha := (isDatagram_iff a).mp (h a (List.mem_cons_self _ _))
    have htl : ∀ b ∈ tl, isDatagram b = true := fun b hb => h b (List.mem_cons_of_mem _ hb)
    have e1 : (a :: tl).length + n = (tl.length + n) + 1 := by simp; omega
    rw [e1, List.cons_append, loop_step sig order conns _ runs m a (tl ++ rest) ha.1 ha.2,
      ih n (runs + 1) (processDatagram sig order conns m a) rest htl]
    simp only [List.foldl_cons, List.length_cons]
    congr 1
    omega

theorem loop_failure (sig : Signatures) (order : ByteOrder) (conns : ConnectionHeap)
    (n runs : Nat) (m : ConnectionManager) (a : ReceiveAttempt) (rest : Socket)
    (hf : a.success = false) :
    updateReceivePacketsLoop sig order conns (n + 1) runs m (a :: rest) = (false, m, rest) := by
  simp [updateReceivePacketsLoop, receiveNonBlocking, hf]

theorem foldl_processDatagram_queue (sig : Signatures) (order : ByteOrder)
    (conns : ConnectionHeap) (pre : List ReceiveAttempt) :
    ∀ m, ∃ new, (pre.foldl (processDatagram sig order conns) m).mReceivedPackets.mWorkerQueue =
      m.mReceivedPackets.mWorkerQueue ++ new := by
  induction pre with
  | nil => intro m; exact ⟨[], by simp⟩
  | cons a tl ih =>
    intro m
    obtain ⟨new1, h1⟩ := (processDatagram_queue sig order conns m a).1
    obtain ⟨new2, h2⟩ := ih (processDatagram sig order conns m a)
    exact ⟨new1 ++ new2, by simp only [List.foldl_cons, h2, h1, List.append_assoc]⟩

/-! ## Claims on a whole receive call: id 0, socket failure, frame -/

/-- C22: a datagram of at least 6 bytes whose signature is not start-connection and
whose local-connection-id field is 0 changes nothing: the manager after the iteration
is the manager before it (nothing is enqueued, the pool is untouched), the loop goes on
with the next receive attempt, and nothing is handed to the socket's send primitive.
The signature is arbitrary otherwise, so the error signature is included. -/
theorem zero_local_id_dropped (sig : Signatures) (order : ByteOrder)
    (conns : ConnectionHeap) (m : ConnectionManager) (a : ReceiveAttempt)
    (hlen : 6 ≤ a.received.mBuffer.length)
    (hstart : read16 order a.received.mBuffer 0 ≠ sig.startConnection)
    (hzero : read16 order a.received.mBuffer 4 = 0) :
    processDatagram sig order conns m a = m ∧
    (∀ n runs rest, a.success = true →
      updateReceivePacketsLoop sig order conns (n + 1) runs m (a :: rest) =
        updateReceivePacketsLoop sig order conns n (runs + 1) m rest) ∧
    (a.success = true → (updateReceivePackets sig order conns m [a]).2.1 = m) ∧
    (∀ sent, (updateReceivePacketsOn sig order conns m
      { pending := [a], sent := sent }).2.2.sent = sent) := by
  have hp : processDatagram sig order conns m a = m := by
    unfold processDatagram
    rw [if_neg (by omega)]
    unfold dispatchReceived
    simp only [hstart, hzero, if_true, if_false]
    split_ifs <;> rfl
  have hstep : ∀ n runs rest, a.success = true →
      updateReceivePacketsLoop sig order conns (n + 1) runs m (a :: rest) =
        updateReceivePacketsLoop sig order conns n (runs + 1) m rest := by
    intro n runs rest hs
    rw [loop_step sig order conns n runs m a rest hs (by omega), hp]
  refine ⟨hp, hstep, ?_, fun sent => rfl⟩
  intro hs
  unfold updateReceivePackets
  rw [hstep 9 0 [] hs]
  simp [updateReceivePacketsLoop, receiveNonBlocking]

/-- C22, applied to a datagram with the error signature and local connection id 0 that
arrives at the manager with one registered connection. -/
theorem zero_local_id_dropped_witness :
    6 ≤ zeroIdErrorDatagram.received.mBuffer.length ∧
    read16 .littleEndian zeroIdErrorDatagram.received.mBuffer 0 = sampleSignatures.error ∧
    read16 .littleEndian zeroIdErrorDatagram.received.mBuffer 0 ≠
      sampleSignatures.startConnection ∧
    read16 .littleEndian zeroIdErrorDatagram.received.mBuffer 4 = 0 ∧
    (processDatagram sampleSignatures .littleEndian oneConnection.connections
        oneConnection.manager zeroIdErrorDatagram = oneConnection.manager ∧
    (∀ n runs rest, zeroIdErrorDatagram.success = true →
      updateReceivePacketsLoop sampleSignatures .littleEndian oneConnection.connections
          (n + 1) runs oneConnection.manager (zeroIdErrorDatagram :: rest) =
        updateReceivePacketsLoop sampleSignatures .littleEndian oneConnection.connections
          n (runs + 1) oneConnection.manager rest) ∧
    (zeroIdErrorDatagram.success = true →
      (updateReceivePackets sampleSignatures .littleEndian oneConnection.connections
        oneConnection.manager [zeroIdErrorDatagram]).2.1 = oneConnection.manager) ∧
    (∀ sent, (updateReceivePacketsOn sampleSignatures .littleEndian oneConnection.connections
      oneConnection.manager { pending := [zeroIdErrorDatagram], sent := sent }).2.2.sent
        = sent)) :=
  ⟨by decide, by decide, by decide, by decide,
    zero_local_id_dropped sampleSignatures .littleEndian oneConnection.connections
      oneConnection.manager zeroIdErrorDatagram (by decide) (by decide) (by decide)⟩

/-- C23: when the receive primitive reports failure after `pre.length < 10` attempts of
the call that each delivered a datagram, the call returns `false`, the socket is left
with everything behind the failed attempt (no further attempt is made), and the manager
is the one the earlier attempts produced: the worker queue is the queue before the call
followed by the packets those attempts appended. -/
theorem socket_failure_ends_call (sig : Signatures) (order : ByteOrder)
    (conns : ConnectionHeap) (m : ConnectionManager) (pre : List ReceiveAttempt)
    (failed : ReceiveAttempt) (rest : Socket)
    (hpre : ∀ a ∈ pre, isDatagram a = true) (hk : pre.length < 10)
    (hf : failed.success = false) :
    updateReceivePackets sig order conns m (pre ++ failed :: rest) =
      (false, pre.foldl (processDatagram sig order conns) m, rest) ∧
    (updateReceivePackets sig order conns m (pre ++ failed :: rest)).2.1 =
      (updateReceivePackets sig order conns m pre).2.1 ∧
    (∃ new, (updateReceivePackets sig order conns m
        (pre ++ failed :: rest)).2.1.mReceivedPackets.mWorkerQueue =
      m.mReceivedPackets.mWorkerQueue ++ new) := by
  have e : (10 : Nat) = pre.length + ((9 - pre.length) + 1) := by omega
  have h1 : updateReceivePackets sig order conns m (pre ++ failed :: rest) =
      (false, pre.foldl (processDatagram sig order conns) m, rest) := by
    unfold updateReceivePackets
    rw [e, loop_datagrams sig order conns pre _ 0 m (failed :: rest) hpre,
      loop_failure sig order conns _ _ _ failed rest hf]
  have h2 : (updateReceivePackets sig order conns m pre).2.1 =
      pre.foldl (processDatagram sig order conns) m := by
    unfold updateReceivePackets
    have h3 := loop_datagrams sig order conns pre ((9 - pre.length) + 1) 0 m [] hpre
    rw [List.append_nil] at h3
    rw [e, h3]
    simp [updateReceivePacketsLoop, receiveNonBlocking]
  refine ⟨h1, ?_, ?_⟩
  · rw [h1, h2]
  · rw [h1]
    exact foldl_processDatagram_queue sig order conns pre m

/-- C23, applied to a call whose third receive attempt fails after a handshake datagram
and a datagram for the registered connection. -/
theorem socket_failure_ends_call_witness :
    (∀ a ∈ [startDatagram, matchingDatagram], isDatagram a = true) ∧
    [startDatagram, matchingDatagram].length < 10 ∧
    failedAttempt.success = false ∧
    (updateReceivePackets sampleSignatures .littleEndian oneConnection.connections
        oneConnection.manager ([startDatagram, matchingDatagram] ++ failedAttempt :: [strayDatagram]) =
      (false, [startDatagram, matchingDatagram].foldl
        (processDatagram sampleSignatures .littleEndian oneConnection.connections)
        oneConnection.manager, [strayDatagram]) ∧
    (updateReceivePackets sampleSignatures .littleEndian oneConnection.connections
        oneConnection.manager
        ([startDatagram, matchingDatagram] ++ failedAttempt :: [strayDatagram])).2.1 =
      (updateReceivePackets sampleSignatures .littleEndian oneConnection.connections
        oneConnection.manager [startDatagram, matchingDatagram]).2.1 ∧
    (∃ new, (updateReceivePackets sampleSignatures .littleEndian oneConnection.connections
        oneConnection.manager
        ([startDatagram, matchingDatagram] ++
          failedAttempt :: [strayDatagram])).2.1.mReceivedPackets.mWorkerQueue =
      oneConnection.manager.mReceivedPackets.mWorkerQueue ++ new)) :=
  ⟨by decide, by decide, by decide,
    socket_failure_ends_call sampleSignatures .littleEndian oneConnection.connections
      oneConnection.manager [startDatagram, matchingDatagram] failedAttempt [strayDatagram]
      (by decide) (by decide) (by decide)⟩

/-- C29: for every manager state and every socket, `updateReceivePackets` leaves the
synced queue, the to-be-returned list, `mActiveConnections`, the lookup array, its
bitmask and `mConnectionsBySender` as they were, and the record of datagrams handed to
the socket's send primitive is the one before the call. -/
theorem receive_call_frame (sig : Signatures) (order : ByteOrder) (conns : ConnectionHeap)
    (m : ConnectionManager) (socket : UDPSocket) :
    (updateReceivePacketsOn sig order conns m socket).2.1.mReceivedPackets.mSyncedQueue =
      m.mReceivedPackets.mSyncedQueue ∧
    (updateReceivePacketsOn sig order conns m socket).2.1.mReceivedPackets.mToBeReturned =
      m.mReceivedPackets.mToBeReturned ∧
    (updateReceivePacketsOn sig order conns m socket).2.1.mActiveConnections =
      m.mActiveConnections ∧
    (updateReceivePacketsOn sig order conns m socket).2.1.mActiveConnectionsLookup =
      m.mActiveConnectionsLookup ∧
    (updateReceivePacketsOn sig order conns m socket).2.1.mBitmaskForActiveConnectionsLookup =
      m.mBitmaskForActiveConnectionsLookup ∧
    (updateReceivePacketsOn sig order conns m socket).2.1.mConnectionsBySender =
      m.mConnectionsBySender ∧
    (updateReceivePacketsOn sig order conns m socket).2.2.sent = socket.sent ∧
    (updateReceivePacketsOn sig order conns m socket).2.1 =
      (updateReceivePackets sig order conns m socket.pending).2.1 := by
  obtain ⟨items, _, hitems⟩ := loop_stores sig order conns 10 0 m socket.pending
  have hm : (updateReceivePacketsOn sig order conns m socket).2.1 = storeAll m items := hitems
  obtain ⟨h1, h2, h3, h4, h5, h6⟩ := storeAll_frame items m
  rw [hm]
  exact ⟨h5, h6, h1, h2, h3, h4, rfl, hitems.symm⟩

/-! ## Lemmas on the probing order and on the growth test -/

theorem probe_first (l : List (Option Nat)) (mask : Nat) :
    ∀ n c, c < 65536 →
      (∃ i, i < n ∧ probe l mask n c = (c + i) % 65536 ∧
        ((c + i) % 65536 ≠ 0 ∧ slot l ((((c + i) % 65536) &&& mask) % 65536) = none) ∧
        ∀ j, j < i →
          ¬ ((c + j) % 65536 ≠ 0 ∧ slot l ((((c + j) % 65536) &&& mask) % 65536) = none)) ∨
      (probe l mask n c = 0 ∧
        ∀ i, i < n →
          ¬ ((c + i) % 65536 ≠ 0 ∧ slot l ((((c + i) % 65536) &&& mask) % 65536) = none)) := by
  intro n
  induction n with
  | zero =>
    intro c _
    right
    exact ⟨rfl, fun i hi => absurd hi (Nat.not_lt_zero _)⟩
  | succ n ih =>
    intro c hc
    have hc0 : (c + 0) % 65536 = c := by rw [Nat.add_zero]; exact Nat.mod_eq_of_lt hc
    by_cases hq : c ≠ 0 ∧ slot l ((c &&& mask) % 65536) = none
    · left
      have e1 : probe l mask (n + 1) c = c := by
        unfold probe
        rw [if_pos hq]
      refine ⟨0, Nat.succ_pos _, ?_, ?_, fun j hj => absurd hj (Nat.not_lt_zero _)⟩
      · rw [e1, hc0]
      · rw [hc0]; exact hq
    · have e1 : probe l mask (n + 1) c = probe l mask n ((c + 1) % 65536) := by
        conv_lhs => unfold probe
        rw [if_neg hq]
      have shift : ∀ i, ((c + 1) % 65536 + i) % 65536 = (c + (i + 1)) % 65536 := by
        intro i
        rw [Nat.mod_add_mod]
        congr 1
        omega
      rcases ih ((c + 1) % 65536) (Nat.mod_lt _ (by norm_num)) with
        ⟨i, hi, hp, hqi, hbefore⟩ | ⟨hp, hnone⟩
      · left
        refine ⟨i + 1, by omega, ?_, ?_, ?_⟩
        · rw [e1, hp, shift]
        · rw [← shift]; exact hqi
        · intro j hj
          cases j with
          | zero => rw [hc0]; exact hq
          | succ j =>
            rw [← shift]
            exact hbefore j (by omega)
      · right
        refine ⟨by rw [e1, hp], ?_⟩
        intro i hi
        cases i with
        | zero => rw [hc0]; exact hq
        | succ i =>
          rw [← shift]
          exact hnone i (by omega)

theorem growLookup_grown (m : ConnectionManager) (conns : ConnectionHeap) (hg : grows m) :
    (growLookup m conns).mActiveConnectionsLookup.length =
      max (m.mActiveConnectionsLookup.length * 2) 32 ∧
    (growLookup m conns).mBitmaskForActiveConnectionsLookup =
      (max (m.mActiveConnectionsLookup.length * 2) 32 - 1) % 65536 := by
  have hle : m.mActiveConnectionsLookup.length ≤
      max (m.mActiveConnectionsLookup.length * 2) 32 := by omega
  unfold growLookup
  rw [if_pos hg]
  simp only [rehash_length, length_resize _ _ hle, and_self]

theorem growLookup_idle (m : ConnectionManager) (conns : ConnectionHeap) (hg : ¬ grows m) :
    growLookup m conns = m := by
  unfold growLookup
  rw [if_neg hg]

/-! ## Claims on the probing order and on the growth of the lookup array -/

/-- C26: for every manager state and both `rand()` values, `getFreeLocalConnectionID`
returns the first of the values `c`, `c + 1`, ... (taken modulo 2^16, `c` the start
candidate), among the first `N` of them, that is not 0 and whose masked slot is empty,
where `N` is the size of the lookup array after the growth step; it returns 0 when none
of the `N` values passes the test.  A non-zero result has an empty masked slot, and every
16-bit value occurs as a start candidate. -/
theorem free_id_is_first_free_candidate (m : ConnectionManager) (conns : ConnectionHeap)
    (r1 r2 : Nat) :
    (getFreeLocalConnectionID m conns r1 r2).2 = growLookup m conns ∧
    ((∃ i, i < (growLookup m conns).mActiveConnectionsLookup.length ∧
        (getFreeLocalConnectionID m conns r1 r2).1 = probeValue (candidate r1 r2) i ∧
        qualifies (growLookup m conns) (probeValue (candidate r1 r2) i) ∧
        ∀ j, j < i → ¬ qualifies (growLookup m conns) (probeValue (candidate r1 r2) j)) ∨
      ((getFreeLocalConnectionID m conns r1 r2).1 = 0 ∧
        ∀ i, i < (growLookup m conns).mActiveConnectionsLookup.length →
          ¬ qualifies (growLookup m conns) (probeValue (candidate r1 r2) i))) ∧
    ((getFreeLocalConnectionID m conns r1 r2).1 ≠ 0 →
      lookupConnection (getFreeLocalConnectionID m conns r1 r2).2
        (getFreeLocalConnectionID m conns r1 r2).1 = none) ∧
    probeValue (candidate r1 r2) 0 = candidate r1 r2 ∧
    (∀ c, c < 65536 → ∃ a b, candidate a b = c) := by
  refine ⟨rfl, ?_, ?_, ?_, ?_⟩
  · exact probe_first (growLookup m conns).mActiveConnectionsLookup
      (growLookup m conns).mBitmaskForActiveConnectionsLookup
      (growLookup m conns).mActiveConnectionsLookup.length (candidate r1 r2)
      (candidate_lt r1 r2)
  · intro h
    exact (probe_spec _ _ _ _ (candidate_lt r1 r2) h).2
  · unfold probeValue
    rw [Nat.add_zero]
    exact Nat.mod_eq_of_lt (candidate_lt r1 r2)
  · intro c hc
    exact ⟨c % 256, c / 256, candidate_split c hc⟩

/-- C27 as stated fails: with five registered connections in the 8-slot array the
number of active connections plus one is 6, which is 75% of 8 and does not exceed it,
and `getFreeLocalConnectionID` grows the array to 32 slots all the same. -/
theorem growth_at_exactly_three_quarters :
    (run (start idleConnections) fiveAdds).manager.mActiveConnections.size = 5 ∧
    (run (start idleConnections) fiveAdds).manager.mActiveConnectionsLookup.length = 8 ∧
    ¬ (4 * ((run (start idleConnections) fiveAdds).manager.mActiveConnections.size + 1) >
        3 * (run (start idleConnections) fiveAdds).manager.mActiveConnectionsLookup.length) ∧
    (getFreeLocalConnectionID (run (start idleConnections) fiveAdds).manager
      (run (start idleConnections) fiveAdds).connections 6 0).2.mActiveConnectionsLookup.length
      = 32 := by
  refine ⟨by decide, by decide, by decide, by decide⟩

/-- C27, amended: `getFreeLocalConnectionID` grows the lookup array exactly when the
number of active connections plus one is at least three quarters of the array's size
(`size * 3 / 4` in integer arithmetic, which is 75% of the size whenever the size is a
multiple of 4): then the array gets `max (2 * size) 32` slots, more than before, and the
bitmask of that size; otherwise the call leaves the whole manager, array size and
bitmask included, as it was. -/
theorem grows_iff_at_least_three_quarters (m : ConnectionManager) (conns : ConnectionHeap)
    (r1 r2 : Nat) :
    (m.mActiveConnections.size + 1 ≥ m.mActiveConnectionsLookup.length * 3 / 4 →
      (getFreeLocalConnectionID m conns r1 r2).2.mActiveConnectionsLookup.length =
        max (m.mActiveConnectionsLookup.length * 2) 32 ∧
      m.mActiveConnectionsLookup.length <
        (getFreeLocalConnectionID m conns r1 r2).2.mActiveConnectionsLookup.length ∧
      (getFreeLocalConnectionID m conns r1 r2).2.mBitmaskForActiveConnectionsLookup =
        (max (m.mActiveConnectionsLookup.length * 2) 32 - 1) % 65536) ∧
    (¬ (m.mActiveConnections.size + 1 ≥ m.mActiveConnectionsLookup.length * 3 / 4) →
      (getFreeLocalConnectionID m conns r1 r2).2 = m) ∧
    (m.mActiveConnectionsLookup.length % 4 = 0 →
      (m.mActiveConnections.size + 1 ≥ m.mActiveConnectionsLookup.length * 3 / 4 ↔
        4 * (m.mActiveConnections.size + 1) ≥ 3 * m.mActiveConnectionsLookup.length)) := by
  refine ⟨?_, ?_, ?_⟩
  · intro hg
    obtain ⟨h1, h2⟩ := growLookup_grown m conns hg
    refine ⟨h1, ?_, h2⟩
    show _ < (growLookup m conns).mActiveConnectionsLookup.length
    rw [h1]
    omega
  · intro hg
    exact growLookup_idle m conns hg
  · intro h4
    omega

/-- C28 as stated fails.  After `staleCalls` the array grows to 32 slots, and slot
`2 & 31 = 2` of the active connection 2 holds connection 1, whose entry the rehash moved
there from slot 1.  After `strayRemoveCalls` the array grows to 32 slots, and slot
`8 & 31 = 8` of the active connection 1 is empty, because the removal of a connection
that was never registered had cleared its slot before. -/
theorem rehash_misplaces_connection :
    removesActive (start idleConnections) staleCalls = true ∧
    grows (run (start idleConnections) staleCalls).manager ∧
    (getFreeLocalConnectionID (run (start idleConnections) staleCalls).manager
      (run (start idleConnections) staleCalls).connections 6 0).2.mActiveConnectionsLookup.length
        = 32 ∧
    isActiveB (run (start idleConnections) staleCalls).manager 2 = true ∧
    ((run (start idleConnections) staleCalls).connections 2).mLocalConnectionID &&& (32 - 1) = 2 ∧
    slot (getFreeLocalConnectionID (run (start idleConnections) staleCalls).manager
      (run (start idleConnections) staleCalls).connections 6 0).2.mActiveConnectionsLookup 2
        = some 1 ∧
    grows (run (start idleConnections) strayRemoveCalls).manager ∧
    isActiveB (run (start idleConnections) strayRemoveCalls).manager 1 = true ∧
    ((run (start idleConnections) strayRemoveCalls).connections 1).mLocalConnectionID
      &&& (32 - 1) = 8 ∧
    slot (getFreeLocalConnectionID (run (start idleConnections) strayRemoveCalls).manager
      (run (start idleConnections) strayRemoveCalls).connections 6 0).2.mActiveConnectionsLookup 8
        = none := by
  refine ⟨by decide, by decide, by decide, by decide, by decide, by decide, by decide,
    by decide, by decide, by decide⟩

/-- C28, amended: in a state reached from a freshly constructed manager under the
calling discipline (`addConnection` only for a connection that is not active,
`removeConnection` only for an active one) in which `getFreeLocalConnectionID` grows
the lookup array, the new size is `max (2 * size) 32` and a power of two, and after the
rehash a slot holds connection `c` exactly when `c` is active and the slot's index is
`localId & (newSize - 1)`; so every active connection is in that slot and every other
slot is empty. -/
theorem growth_rehashes_every_connection (conns : ConnectionHeap) (calls : List TableCall)
    (r1 r2 : Nat)
    (h : disciplined (start conns) calls = true)
    (hg : grows (run (start conns) calls).manager) :
    (getFreeLocalConnectionID (run (start conns) calls).manager
        (run (start conns) calls).connections r1 r2).2.mActiveConnectionsLookup.length =
      max ((run (start conns) calls).manager.mActiveConnectionsLookup.length * 2) 32 ∧
    (∃ e, (getFreeLocalConnectionID (run (start conns) calls).manager
        (run (start conns) calls).connections r1 r2).2.mActiveConnectionsLookup.length = 2 ^ e) ∧
    (∀ i c, slot (getFreeLocalConnectionID (run (start conns) calls).manager
        (run (start conns) calls).connections r1 r2).2.mActiveConnectionsLookup i = some c ↔
      (isActive (run (start conns) calls).manager c ∧
        i = ((run (start conns) calls).connections c).mLocalConnectionID &&&
          ((getFreeLocalConnectionID (run (start conns) calls).manager
            (run (start conns) calls).connections r1 r2).2.mActiveConnectionsLookup.length - 1))) ∧
    (∀ i, (∀ c, isActive (run (start conns) calls).manager c →
        i ≠ ((run (start conns) calls).connections c).mLocalConnectionID &&&
          ((getFreeLocalConnectionID (run (start conns) calls).manager
            (run (start conns) calls).connections r1 r2).2.mActiveConnectionsLookup.length - 1)) →
      slot (getFreeLocalConnectionID (run (start conns) calls).manager
        (run (start conns) calls).connections r1 r2).2.mActiveConnectionsLookup i = none) := by
  have inv := run_inv calls (start conns) (tableInv_start conns) h
  generalize run (start conns) calls = s at inv hg
  obtain ⟨inv1, hM, _⟩ := growLookup_inv s inv
  obtain ⟨hlen, _⟩ := growLookup_grown s.manager s.connections hg
  obtain ⟨e1, _, hl1⟩ := inv1.size_pow
  have hmask1 := inv1.mask_eq
  simp only at hl1 hmask1
  have key : ∀ i c, slot (growLookup s.manager s.connections).mActiveConnectionsLookup i
      = some c ↔ (isActive s.manager c ∧ i = (s.connections c).mLocalConnectionID &&&
        ((growLookup s.manager s.connections).mActiveConnectionsLookup.length - 1)) := by
    intro i c
    have hs := inv1.slot_iff i c
    simp only at hs
    rw [hs, hM]
    have htarget : ∀ k, s.manager.mActiveConnections.find k = some c →
        target s.connections (growLookup s.manager s.connections).mBitmaskForActiveConnectionsLookup c
          = (s.connections c).mLocalConnectionID &&&
            ((growLookup s.manager s.connections).mActiveConnectionsLookup.length - 1) := by
      intro k hk
      obtain ⟨hid, _, hlt⟩ := inv.entry k c hk
      rw [hmask1, hl1, target_eq_mod, Nat.and_pow_two_sub_one_eq_mod, hid]
      rcases Nat.le_total e1 16 with he | he
      · rw [Nat.min_eq_left he]
      · rw [Nat.min_eq_right he]
        have h16 : (2 : Nat) ^ 16 ≤ 2 ^ e1 := Nat.pow_le_pow_right (by norm_num) he
        norm_num at h16
        rw [Nat.mod_eq_of_lt (by norm_num; omega), Nat.mod_eq_of_lt (by omega)]
    constructor
    · rintro ⟨hf, hi⟩
      exact ⟨⟨_, hf⟩, by rw [hi]; exact htarget _ hf⟩
    · rintro ⟨⟨k, hk⟩, hi⟩
      have hid := (inv.entry k c hk).1
      exact ⟨by rw [hid]; exact hk, by rw [hi]; exact (htarget k hk).symm⟩
  refine ⟨hlen, ⟨e1, hl1⟩, key, ?_⟩
  intro i hi
  show slot (growLookup s.manager s.connections).mActiveConnectionsLookup i = none
  cases hs : slot (growLookup s.manager s.connections).mActiveConnectionsLookup i with
  | none => rfl
  | some c =>
    obtain ⟨hc, hic⟩ := (key i c).mp hs
    exact absurd hic (hi c hc)

/-- C28 (amended), at the state with five connections registered under the ids 9, 10,
3, 12 and 21 in the slots 1 to 5, where the sixth call grows the array from 8 to 32
slots and the rehash moves four of the five entries. -/
theorem growth_rehashes_every_connection_witness :
    disciplined (start idleConnections) movingAdds = true ∧
    grows (run (start idleConnections) movingAdds).manager ∧
    (run (start idleConnections) movingAdds).manager.mActiveConnectionsLookup =
      [none, some 1, some 2, some 3, some 4, some 5, none, none] ∧
    (getFreeLocalConnectionID (run (start idleConnections) movingAdds).manager
      (run (start idleConnections) movingAdds).connections 6 0).2.mActiveConnectionsLookup =
      [none, none, none, some 3, none, none, none, none, none, some 1, some 2, none, some 4,
       none, none, none, none, none, none, none, none, some 5, none, none, none, none, none,
       none, none, none, none, none] ∧
    ((getFreeLocalConnectionID (run (start idleConnections) movingAdds).manager
        (run (start idleConnections) movingAdds).connections 6 0).2.mActiveConnectionsLookup.length =
      max ((run (start idleConnections) movingAdds).manager.mActiveConnectionsLookup.length * 2) 32 ∧
    (∃ e, (getFreeLocalConnectionID (run (start idleConnections) movingAdds).manager
        (run (start idleConnections) movingAdds).connections 6 0).2.mActiveConnectionsLookup.length
          = 2 ^ e) ∧
    (∀ i c, slot (getFreeLocalConnectionID (run (start idleConnections) movingAdds).manager
        (run (start idleConnections) movingAdds).connections 6 0).2.mActiveConnectionsLookup i
          = some c ↔
      (isActive (run (start idleConnections) movingAdds).manager c ∧
        i = ((run (start idleConnections) movingAdds).connections c).mLocalConnectionID &&&
          ((getFreeLocalConnectionID (run (start idleConnections) movingAdds).manager
            (run (start idleConnections) movingAdds).connections 6 0).2.mActiveConnectionsLookup.length
              - 1))) ∧
    (∀ i, (∀ c, isActive (run (start idleConnections) movingAdds).manager c →
        i ≠ ((run (start idleConnections) movingAdds).connections c).mLocalConnectionID &&&
          ((getFreeLocalConnectionID (run (start idleConnections) movingAdds).manager
            (run (start idleConnections) movingAdds).connections 6 0).2.mActiveConnectionsLookup.length
              - 1)) →
      slot (getFreeLocalConnectionID (run (start idleConnections) movingAdds).manager
        (run (start idleConnections) movingAdds).connections 6 0).2.mActiveConnectionsLookup i
          = none)) :=
  ⟨by decide, by decide, by decide, by decide,
    growth_rehashes_every_connection idleConnections movingAdds 6 0 (by decide) (by decide)⟩

/-! ## Lemmas on the fields of stored packets -/

theorem processDatagram_cases (sig : Signatures) (order : ByteOrder) (conns : ConnectionHeap)
    (m : ConnectionManager) (a : ReceiveAttempt) :
    processDatagram sig order conns m a = m ∨
    (processDatagram sig order conns m a =
      storeReceivedPacket m a.received (read16 order a.received.mBuffer 0)
        (if read16 order a.received.mBuffer 0 = sig.startConnection then none
         else lookupConnection m (read16 order a.received.mBuffer 4)) ∧
      (read16 order a.received.mBuffer 0 ≠ sig.startConnection →
        ∃ c, lookupConnection m (read16 order a.received.mBuffer 4) = some c)) := by
  unfold processDatagram
  split
  · left; rfl
  · split
    · left; rfl
    · unfold dispatchReceived
      simp only
      split
      · rename_i hs
        right
        exact ⟨rfl, fun hn => absurd hs hn⟩
      · rename_i hs
        split
        · left; rfl
        · split
          · left; rfl
          · rename_i connection hl
            split
            · left; rfl
            · right
              exact ⟨by rw [hl], fun _ => ⟨connection, hl⟩⟩

theorem storeReceivedPacket_others (m : ConnectionManager) (received : ReceiveResult)
    (s : Nat) (connection : Option Nat) (x : Nat) (hx : x ≠ m.mReceivedPacketPool.rentObject.1) :
    (storeReceivedPacket m received s connection).mReceivedPacketPool.mObjects x =
      m.mReceivedPacketPool.mObjects x := by
  cases hf : m.mReceivedPacketPool.mFree with
  | nil =>
    have hr : m.mReceivedPacketPool.rentObject.1 = m.mReceivedPacketPool.mNumObjects := by
      simp [ObjectPool.rentObject, hf]
    rw [hr] at hx
    simp [storeReceivedPacket, ObjectPool.write, ObjectPool.rentObject, hf, hx]
  | cons h rest =>
    have hr : m.mReceivedPacketPool.rentObject.1 = h := by
      simp [ObjectPool.rentObject, hf]
    rw [hr] at hx
    simp [storeReceivedPacket, ObjectPool.write, ObjectPool.rentObject, hf, hx]

theorem storeReceivedPacket_unused (m : ConnectionManager) (received : ReceiveResult)
    (s : Nat) (connection : Option Nat) :
    ((storeReceivedPacket m received s connection).mReceivedPacketPool.mObjects
        m.mReceivedPacketPool.rentObject.1).mReferenceCounter =
      (m.mReceivedPacketPool.mObjects m.mReceivedPacketPool.rentObject.1).mReferenceCounter ∧
    ((storeReceivedPacket m received s connection).mReceivedPacketPool.mObjects
        m.mReceivedPacketPool.rentObject.1).mDump =
      (m.mReceivedPacketPool.mObjects m.mReceivedPacketPool.rentObject.1).mDump := by
  cases hf : m.mReceivedPacketPool.mFree with
  | nil => simp [storeReceivedPacket, ObjectPool.write, ObjectPool.rentObject, hf]
  | cons h rest => simp [storeReceivedPacket, ObjectPool.write, ObjectPool.rentObject, hf]

theorem storeReceivedPacket_pool (m : ConnectionManager) (received : ReceiveResult)
    (s : Nat) (connection : Option Nat) (hwf : PoolWF m.mReceivedPacketPool) :
    PoolWF (storeReceivedPacket m received s connection).mReceivedPacketPool ∧
    (m.mReceivedPacketPool.rentObject.1 ∈ m.mReceivedPacketPool.mFree ∨
      m.mReceivedPacketPool.mNumObjects ≤ m.mReceivedPacketPool.rentObject.1) ∧
    m.mReceivedPacketPool.rentObject.1 ∉
      (storeReceivedPacket m received s connection).mReceivedPacketPool.mFree ∧
    m.mReceivedPacketPool.rentObject.1 <
      (storeReceivedPacket m received s connection).mReceivedPacketPool.mNumObjects ∧
    (∀ x ∈ (storeReceivedPacket m received s connection).mReceivedPacketPool.mFree,
      x ∈ m.mReceivedPacketPool.mFree) ∧
    m.mReceivedPacketPool.mNumObjects ≤
      (storeReceivedPacket m received s connection).mReceivedPacketPool.mNumObjects := by
  obtain ⟨hnd, hlt⟩ := hwf
  cases hf : m.mReceivedPacketPool.mFree with
  | nil =>
    rw [hf] at hnd hlt
    have hr : m.mReceivedPacketPool.rentObject.1 = m.mReceivedPacketPool.mNumObjects := by
      simp [ObjectPool.rentObject, hf]
    have h1 : (storeReceivedPacket m received s connection).mReceivedPacketPool.mFree = [] := by
      simp [storeReceivedPacket, ObjectPool.write, ObjectPool.rentObject, hf]
    have h2 : (storeReceivedPacket m received s connection).mReceivedPacketPool.mNumObjects =
        m.mReceivedPacketPool.mNumObjects + 1 := by
      simp [storeReceivedPacket, ObjectPool.write, ObjectPool.rentObject, hf]
    rw [hr]
    refine ⟨⟨by rw [h1]; exact List.nodup_nil, by rw [h1]; intro x hx; cases hx⟩,
      Or.inr (le_refl _), by rw [h1]; exact List.not_mem_nil _, by rw [h2]; omega, ?_, ?_⟩
    · rw [h1]
      intro x hx
      cases hx
    · rw [h2]
      omega
  | cons h rest =>
    rw [hf] at hnd hlt
    have hr : m.mReceivedPacketPool.rentObject.1 = h := by
      simp [ObjectPool.rentObject, hf]
    have h1 : (storeReceivedPacket m received s connection).mReceivedPacketPool.mFree = rest := by
      simp [storeReceivedPacket, ObjectPool.write, ObjectPool.rentObject, hf]
    have h2 : (storeReceivedPacket m received s connection).mReceivedPacketPool.mNumObjects =
        m.mReceivedPacketPool.mNumObjects := by
      simp [storeReceivedPacket, ObjectPool.write, ObjectPool.rentObject, hf]
    rw [hr]
    have hnd' := List.nodup_cons.mp hnd
    refine ⟨⟨by rw [h1]; exact hnd'.2, ?_⟩, Or.inl (List.mem_cons_self _ _),
      by rw [h1]; exact hnd'.1, by rw [h2]; exact hlt h (List.mem_cons_self _ _),
      by rw [h1]; intro x hx; exact List.mem_cons_of_mem _ hx, by rw [h2]⟩
    rw [h1, h2]
    intro x hx
    exact hlt x (List.mem_cons_of_mem _ hx)

theorem carries_of_lookup (sig : Signatures) (order : ByteOrder) (m m1 : ConnectionManager)
    (h1 : m1.mActiveConnectionsLookup = m.mActiveConnectionsLookup)
    (h2 : m1.mBitmaskForActiveConnectionsLookup = m.mBitmaskForActiveConnectionsLookup)
    (obj : ReceivedPacket) (a : ReceiveAttempt) (hc : carries sig order m1 obj a) :
    carries sig order m obj a := by
  unfold carries at hc ⊢
  unfold lookupConnection at hc ⊢
  rw [h1, h2] at hc
  exact hc

/-- The packets that a receive loop appends, in a pool whose free list is in order:
they match a subsequence of the socket's datagrams one to one, each appended object is
one that was free or did not exist before, and no other object is written. -/
theorem loop_packets (sig : Signatures) (order : ByteOrder) (conns : ConnectionHeap) :
    ∀ n runs m socket, PoolWF m.mReceivedPacketPool →
      ∃ new accepted,
        (updateReceivePacketsLoop sig order conns n runs m socket).2.1.mReceivedPackets.mWorkerQueue
          = m.mReceivedPackets.mWorkerQueue ++ new ∧
        accepted.Sublist (socket.take n) ∧
        List.Forall₂ (fun h a => carries sig order m
          ((updateReceivePacketsLoop sig order conns n runs m
            socket).2.1.mReceivedPacketPool.mObjects h) a) new accepted ∧
        (∀ h ∈ new, h ∈ m.mReceivedPacketPool.mFree ∨ m.mReceivedPacketPool.mNumObjects ≤ h) ∧
        (∀ x, x ∉ new →
          (updateReceivePacketsLoop sig order conns n runs m
            socket).2.1.mReceivedPacketPool.mObjects x = m.mReceivedPacketPool.mObjects x) := by
  intro n
  induction n with
  | zero =>
    intro runs m socket _
    exact ⟨[], [], by simp [updateReceivePacketsLoop], List.nil_sublist _, List.Forall₂.nil,
      fun h hh => absurd hh (List.not_mem_nil _), fun x _ => rfl⟩
  | succ n ih =>
    intro runs m socket hwf
    have trivialCase : ∀ R : ConnectionManager, R = m →
        ∃ new accepted,
          R.mReceivedPackets.mWorkerQueue = m.mReceivedPackets.mWorkerQueue ++ new ∧
          accepted.Sublist (socket.take (n + 1)) ∧
          List.Forall₂ (fun h a => carries sig order m (R.mReceivedPacketPool.mObjects h) a)
            new accepted ∧
          (∀ h ∈ new, h ∈ m.mReceivedPacketPool.mFree ∨ m.mReceivedPacketPool.mNumObjects ≤ h) ∧
          (∀ x, x ∉ new → R.mReceivedPacketPool.mObjects x = m.mReceivedPacketPool.mObjects x) := by
      intro R hR
      subst hR
      exact ⟨[], [], by simp, List.nil_sublist _, List.Forall₂.nil,
        fun h hh => absurd hh (List.not_mem_nil _), fun x _ => rfl⟩
    cases socket with
    | nil =>
      apply trivialCase
      simp [updateReceivePacketsLoop, receiveNonBlocking]
    | cons a rest =>
      by_cases hs : a.success = false
      · apply trivialCase
        simp [updateReceivePacketsLoop, receiveNonBlocking, hs]
      · by_cases he : a.received.mBuffer.isEmpty = true
        · apply trivialCase
          simp [updateReceivePacketsLoop, receiveNonBlocking, hs, he]
        · have hstep : updateReceivePacketsLoop sig order conns (n + 1) runs m (a :: rest) =
              updateReceivePacketsLoop sig order conns n (runs + 1)
                (processDatagram sig order conns m a) rest := by
            conv_lhs => unfold updateReceivePacketsLoop
            simp only [receiveNonBlocking, hs, he, if_false]
            simp
          rw [hstep]
          rcases processDatagram_cases sig order conns m a with hp | ⟨hp, _⟩
          · rw [hp]
            obtain ⟨new, accepted, q, sub, fa, fr, ot⟩ := ih (runs + 1) m rest hwf
            refine ⟨new, accepted, q, ?_, fa, fr, ot⟩
            rw [List.take_succ_cons]
            exact List.Sublist.cons a sub
          · rw [hp]
            obtain ⟨wf1, hfresh, hnf, hlt, hsub, hnum⟩ := storeReceivedPacket_pool m a.received
              (read16 order a.received.mBuffer 0)
              (if read16 order a.received.mBuffer 0 = sig.startConnection then none
               else lookupConnection m (read16 order a.received.mBuffer 4)) hwf
            obtain ⟨f1, f2, f3, _⟩ := storeReceivedPacket_frame m a.received
              (read16 order a.received.mBuffer 0)
              (if read16 order a.received.mBuffer 0 = sig.startConnection then none
               else lookupConnection m (read16 order a.received.mBuffer 4))
            obtain ⟨new, accepted, q, sub, fa, fr, ot⟩ := ih (runs + 1) _ rest wf1
            have hnot : m.mReceivedPacketPool.rentObject.1 ∉ new := by
              intro hin
              rcases fr _ hin with h1 | h1
              · exact hnf h1
              · omega
            refine ⟨m.mReceivedPacketPool.rentObject.1 :: new, a :: accepted, ?_, ?_, ?_, ?_, ?_⟩
            · rw [q, (storeReceivedPacket_queue _ _ _ _).1]
              simp
            · rw [List.take_succ_cons]
              exact List.Sublist.cons₂ a sub
            · refine List.Forall₂.cons ?_ ?_
              · rw [ot _ hnot]
                exact storeReceivedPacket_object m a.received _ _
              · exact List.Forall₂.imp (fun _ b hc => carries_of_lookup sig order m _ f2 f3 _ b hc) fa
            · intro h hh
              rcases List.mem_cons.mp hh with h1 | h1
              · rw [h1]; exact hfresh
              · rcases fr h h1 with h2 | h2
                · exact Or.inl (hsub h h2)
                · exact Or.inr (le_trans hnum h2)
            · intro x hx
              rw [List.mem_cons, not_or] at hx
              rw [ot x hx.2]
              exact storeReceivedPacket_others m a.received _ _ x hx.1

theorem poolWF_fresh : PoolWF fresh.mReceivedPacketPool :=
  ⟨List.nodup_nil, fun _ hh => absurd hh (List.not_mem_nil _)⟩

/-! ## Claim on the fields of stored packets -/

/-- C24: whatever the pool's objects held before, an iteration of `updateReceivePackets`
either leaves the manager as it is or appends exactly one packet, the rented object,
whose `mContent`, `mLowLevelSignature`, `mSenderAddress` and `mConnection` are the
complete datagram, its first 16-bit field, its sender address and the resolved
connection (null for the start-connection signature, an entry of the lookup array
otherwise); no other object is written.  For a whole call on a pool whose free list is
in order, the appended packets correspond one to one, in order, to datagrams among the
first ten socket results, and after the call each still holds these four values. -/
theorem stored_packet_fields (sig : Signatures) (order : ByteOrder) (conns : ConnectionHeap)
    (m : ConnectionManager) (a : ReceiveAttempt) (socket : Socket) :
    (processDatagram sig order conns m a = m ∨
      ((processDatagram sig order conns m a).mReceivedPackets.mWorkerQueue =
          m.mReceivedPackets.mWorkerQueue ++ [m.mReceivedPacketPool.rentObject.1] ∧
        carries sig order m
          ((processDatagram sig order conns m a).mReceivedPacketPool.mObjects
            m.mReceivedPacketPool.rentObject.1) a ∧
        (read16 order a.received.mBuffer 0 ≠ sig.startConnection →
          ∃ c, lookupConnection m (read16 order a.received.mBuffer 4) = some c) ∧
        (∀ x, x ≠ m.mReceivedPacketPool.rentObject.1 →
          (processDatagram sig order conns m a).mReceivedPacketPool.mObjects x =
            m.mReceivedPacketPool.mObjects x))) ∧
    (PoolWF m.mReceivedPacketPool →
      ∃ new accepted,
        (updateReceivePackets sig order conns m socket).2.1.mReceivedPackets.mWorkerQueue =
          m.mReceivedPackets.mWorkerQueue ++ new ∧
        accepted.Sublist (socket.take 10) ∧
        List.Forall₂ (fun h b => carries sig order m
          ((updateReceivePackets sig order conns m socket).2.1.mReceivedPacketPool.mObjects h) b)
          new accepted ∧
        (∀ x, x ∉ new →
          (updateReceivePackets sig order conns m socket).2.1.mReceivedPacketPool.mObjects x =
            m.mReceivedPacketPool.mObjects x)) := by
  constructor
  · rcases processDatagram_cases sig order conns m a with hp | ⟨hp, hl⟩
    · exact Or.inl hp
    · right
      rw [hp]
      exact ⟨(storeReceivedPacket_queue _ _ _ _).1, storeReceivedPacket_object _ _ _ _, hl,
        fun x hx => storeReceivedPacket_others _ _ _ _ x hx⟩
  · intro hwf
    obtain ⟨new, accepted, q, sub, fa, _, ot⟩ := loop_packets sig order conns 10 0 m socket hwf
    exact ⟨new, accepted, q, sub, fa, ot⟩

end ConnectionManager

/-! ## Lemmas on registrations in the 8-slot array -/

namespace UnorderedMap

theorem mem_of_mem_erase (m : UnorderedMap) (k : Nat) (e : Nat × Nat) (h : e ∈ erase m k) :
    e ∈ m := by
  induction m with
  | nil => cases h
  | cons x rest ih =>
    obtain ⟨a, v⟩ := x
    by_cases hk : a = k
    · simp only [erase, hk, if_true] at h
      exact List.mem_cons_of_mem _ (ih h)
    · simp only [erase, hk, if_false] at h
      rcases List.mem_cons.mp h with h1 | h1
      · rw [h1]; exact List.mem_cons_self _ _
      · exact List.mem_cons_of_mem _ (ih h1)

end UnorderedMap

namespace ConnectionManager

theorem isActiveB_addConnection (s : System) (c r1 r2 d : Nat)
    (h : isActiveB (addConnection s c r1 r2).manager d = true) :
    d = c ∨ isActiveB s.manager d = true := by
  by_cases h0 : (getFreeLocalConnectionID s.manager s.connections r1 r2).1 = 0
  · rw [addConnection_failed s c r1 r2 h0] at h
    right
    unfold isActiveB at h ⊢
    simp only at h
    rw [(growLookup_maps s.manager s.connections).1] at h
    exact h
  · rw [addConnection_succeeded s c r1 r2 _ rfl h0] at h
    unfold isActiveB at h ⊢
    simp only [UnorderedMap.assign, List.any_cons, Bool.or_eq_true, beq_iff_eq] at h
    rcases h with h | h
    · exact Or.inl h.symm
    · right
      rw [List.any_eq_true] at h ⊢
      obtain ⟨e, he, hp⟩ := h
      exact ⟨e, UnorderedMap.mem_of_mem_erase _ _ e he, hp⟩

/-- An `addConnection` call in the 8-slot array with at most four entries succeeds and
does not grow the array. -/
theorem small_add (s : System) (c r1 r2 : Nat) (inv : TableInv s)
    (hlen : s.manager.mActiveConnectionsLookup.length = 8)
    (hsize : s.manager.mActiveConnections.size ≤ 4)
    (hc : isActiveB s.manager c = false) :
    (getFreeLocalConnectionID s.manager s.connections r1 r2).1 ≠ 0 ∧
    TableInv (addConnection s c r1 r2) ∧
    (addConnection s c r1 r2).manager.mActiveConnectionsLookup.length = 8 ∧
    (addConnection s c r1 r2).manager.mActiveConnections.size =
      s.manager.mActiveConnections.size + 1 ∧
    (addConnection s c r1 r2).manager.mActiveConnections.find
      (getFreeLocalConnectionID s.manager s.connections r1 r2).1 = some c ∧
    (∀ k d, s.manager.mActiveConnections.find k = some d →
      (addConnection s c r1 r2).manager.mActiveConnections.find k = some d) := by
  have hng : ¬ grows s.manager := by
    unfold grows
    rw [hlen]
    omega
  have hgl := growLookup_idle s.manager s.connections hng
  have hmask : s.manager.mBitmaskForActiveConnectionsLookup = (2 ^ 3 - 1) % 65536 := by
    rw [inv.mask_eq, hlen]
    norm_num
  have hocc := inv.count
  have hz : (getFreeLocalConnectionID s.manager s.connections r1 r2).1 ≠ 0 := by
    unfold getFreeLocalConnectionID
    simp only [hgl]
    rw [hmask]
    exact probe_nonzero _ 3 _ (le_refl _) (by rw [hlen]; norm_num) (candidate_lt r1 r2)
      (by rw [hocc, hlen]; omega) (by rw [hocc]; omega)
  have hnone := fresh_id_not_in_map s r1 r2 inv hz
  have hadd := addConnection_succeeded s c r1 r2 _ rfl hz
  refine ⟨hz, addConnection_inv s c r1 r2 inv hc, ?_, ?_, ?_, ?_⟩
  · rw [hadd, hgl]
    simp only [List.length_set]
    exact hlen
  · rw [hadd]
    exact UnorderedMap.size_assign_of_find_none _ _ _ hnone
  · rw [hadd]
    simp only [UnorderedMap.find_assign, if_true]
  · intro k d hk
    rw [hadd]
    simp only [UnorderedMap.find_assign]
    by_cases hkn : (getFreeLocalConnectionID s.manager s.connections r1 r2).1 = k
    · rw [hkn, hk] at hnone
      cases hnone
    · rw [if_neg hkn]
      exact hk

/-- Up to five registrations of distinct connections in the 8-slot array: every call
succeeds, the array keeps its 8 slots, and every id found stays in the exact map. -/
theorem registrations_small (adds : List (Nat × Nat × Nat)) :
    ∀ s : System, TableInv s → s.manager.mActiveConnectionsLookup.length = 8 →
      s.manager.mActiveConnections.size + adds.length ≤ 5 →
      (adds.map (fun t => t.1)).Nodup →
      (∀ c ∈ adds.map (fun t => t.1), isActiveB s.manager c = false) →
      TableInv (run s (registrations adds)) ∧
      (run s (registrations adds)).manager.mActiveConnectionsLookup.length = 8 ∧
      (run s (registrations adds)).manager.mActiveConnections.size =
        s.manager.mActiveConnections.size + adds.length ∧
      (∀ id ∈ assignedIds s (registrations adds), id ≠ 0) ∧
      (∀ p ∈ (assignedIds s (registrations adds)).zip (adds.map (fun t => t.1)),
        (run s (registrations adds)).manager.mActiveConnections.find p.1 = some p.2) ∧
      (∀ k d, s.manager.mActiveConnections.find k = some d →
        (run s (registrations adds)).manager.mActiveConnections.find k = some d) := by
  induction adds with
  | nil =>
    intro s inv hlen _ _ _
    exact ⟨inv, hlen, rfl, fun id hid => absurd hid (List.not_mem_nil _),
      fun p hp => absurd hp (List.not_mem_nil _), fun k d hk => hk⟩
  | cons t rest ih =>
    intro s inv hlen hsize hnd hna
    obtain ⟨c, r1, r2⟩ := t
    simp only [List.map_cons, List.nodup_cons, List.length_cons] at hnd hsize
    have hc : isActiveB s.manager c = false := hna c (by simp)
    obtain ⟨hz, inv1, hlen1, hsize1, hfind1, hkeep1⟩ :=
      small_add s c r1 r2 inv hlen (by omega) hc
    have hna1 : ∀ d ∈ rest.map (fun t => t.1),
        isActiveB (addConnection s c r1 r2).manager d = false := by
      intro d hd
      cases hb : isActiveB (addConnection s c r1 r2).manager d with
      | false => rfl
      | true =>
        exfalso
        rcases isActiveB_addConnection s c r1 r2 d hb with h1 | h1
        · rw [h1] at hd
          exact hnd.1 hd
        · rw [hna d (by simp only [List.map_cons]; exact List.mem_cons_of_mem _ hd)] at h1
          cases h1
    obtain ⟨inv2, hlen2, hsize2, hids2, hzip2, hkeep2⟩ :=
      ih (addConnection s c r1 r2) inv1 hlen1 (by omega) hnd.2 hna1
    have hrun : run s (registrations ((c, r1, r2) :: rest)) =
        run (addConnection s c r1 r2) (registrations rest) := rfl
    have hids : assignedIds s (registrations ((c, r1, r2) :: rest)) =
        (getFreeLocalConnectionID s.manager s.connections r1 r2).1 ::
          assignedIds (addConnection s c r1 r2) (registrations rest) := rfl
    rw [hrun, hids]
    refine ⟨inv2, hlen2, by rw [hsize2, hsize1, List.length_cons]; omega, ?_, ?_, ?_⟩
    · intro id hid
      rcases List.mem_cons.mp hid with h1 | h1
      · rw [h1]; exact hz
      · exact hids2 id h1
    · intro p hp
      simp only [List.map_cons, List.zip_cons_cons] at hp
      rcases List.mem_cons.mp hp with h1 | h1
      · rw [h1]
        exact hkeep2 _ _ hfind1
      · exact hzip2 p h1
    · intro k d hk
      exact hkeep2 k d (hkeep1 k d hk)

/-- A connection found in the exact map is still found under its id in the lookup
array after any further `addConnection` call, growth included. -/
theorem addConnection_keeps_lookup (s : System) (c r1 r2 k d : Nat) (inv : TableInv s)
    (hk : s.manager.mActiveConnections.find k = some d) :
    lookupConnection (addConnection s c r1 r2).manager k = some d := by
  obtain ⟨inv1, hM, _⟩ := growLookup_inv s inv
  have hid := (inv.entry k d hk).1
  have hgrown : slot (growLookup s.manager s.connections).mActiveConnectionsLookup
      ((k &&& (growLookup s.manager s.connections).mBitmaskForActiveConnectionsLookup) % 65536)
        = some d := by
    have := (inv1.slot_iff (target s.connections
      (growLookup s.manager s.connections).mBitmaskForActiveConnectionsLookup d) d).mpr
      ⟨by simp only; rw [hM, hid]; exact hk, rfl⟩
    simp only [target, hid] at this
    exact this
  by_cases h0 : (getFreeLocalConnectionID s.manager s.connections r1 r2).1 = 0
  · rw [addConnection_failed s c r1 r2 h0]
    exact hgrown
  · rw [addConnection_succeeded s c r1 r2 _ rfl h0]
    unfold lookupConnection
    simp only
    have hfree := (probe_spec _ _ _ _ (candidate_lt r1 r2) h0).2
    have hidx := index_lt_length _ inv1 (getFreeLocalConnectionID s.manager s.connections r1 r2).1
    simp only at hidx
    rw [slot_set _ _ _ _ hidx]
    by_cases he : ((getFreeLocalConnectionID s.manager s.connections r1 r2).1 &&&
        (growLookup s.manager s.connections).mBitmaskForActiveConnectionsLookup) % 65536 =
        (k &&& (growLookup s.manager s.connections).mBitmaskForActiveConnectionsLookup) % 65536
    · exfalso
      have hfree' : slot (growLookup s.manager s.connections).mActiveConnectionsLookup
          (((getFreeLocalConnectionID s.manager s.connections r1 r2).1 &&&
            (growLookup s.manager s.connections).mBitmaskForActiveConnectionsLookup) % 65536)
            = none := hfree
      rw [he, hgrown] at hfree'
      cases hfree'
    · rw [if_neg he]
      exact hgrown

/-! ## Claim on the first growth of the lookup array -/

/-- C21: from a freshly constructed manager, for any five pairwise distinct connections
and any values of the `rand()` draws, each of the first five `addConnection` calls
obtains a non-zero id and after each of them the lookup array has 8 slots and the exact
map one entry per call; the sixth call takes the growth branch, the array it probes in
has 32 slots, at least 16, and after the sixth call each of the five ids resolves, in
the lookup array, to the connection it was given to. -/
theorem first_growth_at_sixth_add (conns : ConnectionHeap) (adds : List (Nat × Nat × Nat))
    (c6 r1 r2 : Nat)
    (hfive : adds.length = 5)
    (hd : (adds.map (fun t => t.1)).Nodup) :
    (∀ k, k ≤ 5 →
      (run (start conns) (registrations (adds.take k))).manager.mActiveConnectionsLookup.length
        = 8 ∧
      (run (start conns) (registrations (adds.take k))).manager.mActiveConnections.size = k) ∧
    (∀ id ∈ assignedIds (start conns) (registrations adds), id ≠ 0) ∧
    grows (run (start conns) (registrations adds)).manager ∧
    (getFreeLocalConnectionID (run (start conns) (registrations adds)).manager
      (run (start conns) (registrations adds)).connections r1 r2).2.mActiveConnectionsLookup.length
      = 32 ∧
    16 ≤ (getFreeLocalConnectionID (run (start conns) (registrations adds)).manager
      (run (start conns) (registrations adds)).connections
        r1 r2).2.mActiveConnectionsLookup.length ∧
    (getFreeLocalConnectionID (run (start conns) (registrations adds)).manager
        (run (start conns) (registrations adds)).connections r1 r2).1 =
      probe
        (getFreeLocalConnectionID (run (start conns) (registrations adds)).manager
          (run (start conns) (registrations adds)).connections r1 r2).2.mActiveConnectionsLookup
        (getFreeLocalConnectionID (run (start conns) (registrations adds)).manager
          (run (start conns) (registrations adds)).connections
            r1 r2).2.mBitmaskForActiveConnectionsLookup
        32 (candidate r1 r2) ∧
    (∀ p ∈ (assignedIds (start conns) (registrations adds)).zip (adds.map (fun t => t.1)),
      lookupConnection
        (addConnection (run (start conns) (registrations adds)) c6 r1 r2).manager p.1
          = some p.2) := by
  have hfresh : ∀ c, isActiveB (start conns).manager c = false := fun c => rfl
  have hearly : ∀ k, k ≤ 5 →
      (run (start conns) (registrations (adds.take k))).manager.mActiveConnectionsLookup.length
        = 8 ∧
      (run (start conns) (registrations (adds.take k))).manager.mActiveConnections.size = k := by
    intro k hk
    have hl : (adds.take k).length = k := by
      rw [List.length_take, hfive]
      omega
    have hnd : ((adds.take k).map (fun t => t.1)).Nodup := by
      rw [List.map_take]
      exact List.Nodup.sublist (List.take_sublist _ _) hd
    obtain ⟨_, h2, h3, _⟩ := registrations_small (adds.take k) (start conns)
      (tableInv_start conns) rfl (by rw [hl]; show 0 + k ≤ 5; omega) hnd (fun c _ => hfresh c)
    refine ⟨h2, ?_⟩
    rw [h3, hl]
    exact Nat.zero_add k
  obtain ⟨inv, hlen, hsize, hids, hzip, _⟩ := registrations_small adds (start conns)
    (tableInv_start conns) rfl (by rw [hfive]; show 0 + 5 ≤ 5; omega) hd (fun c _ => hfresh c)
  have hsize5 : (run (start conns) (registrations adds)).manager.mActiveConnections.size = 5 := by
    rw [hsize, hfive]
    rfl
  have hg : grows (run (start conns) (registrations adds)).manager := by
    unfold grows
    rw [hsize5, hlen]
  have hnew := (growLookup_grown _ (run (start conns) (registrations adds)).connections hg).1
  rw [hlen] at hnew
  have h32 : (getFreeLocalConnectionID (run (start conns) (registrations adds)).manager
      (run (start conns) (registrations adds)).connections
        r1 r2).2.mActiveConnectionsLookup.length = 32 := hnew
  refine ⟨hearly, hids, hg, h32, by rw [h32]; norm_num, ?_, ?_⟩
  · show probe _ _ _ _ = probe _ _ _ _
    rw [show (growLookup (run (start conns) (registrations adds)).manager
      (run (start conns) (registrations adds)).connections).mActiveConnectionsLookup.length = 32
      from hnew]
    rfl
  · intro p hp
    exact addConnection_keeps_lookup _ c6 r1 r2 p.1 p.2 inv (hzip p hp)

/-- C21, applied to the connections 1 to 5 and a sixth connection 6. -/
theorem first_growth_at_sixth_add_witness :
    fiveConnections.length = 5 ∧
    (fiveConnections.map (fun t => t.1)).Nodup ∧
    ((∀ k, k ≤ 5 →
      (run (start idleConnections)
        (registrations (fiveConnections.take k))).manager.mActiveConnectionsLookup.length = 8 ∧
      (run (start idleConnections)
        (registrations (fiveConnections.take k))).manager.mActiveConnections.size = k) ∧
    (∀ id ∈ assignedIds (start idleConnections) (registrations fiveConnections), id ≠ 0) ∧
    grows (run (start idleConnections) (registrations fiveConnections)).manager ∧
    (getFreeLocalConnectionID (run (start idleConnections) (registrations fiveConnections)).manager
      (run (start idleConnections) (registrations fiveConnections)).connections
        6 0).2.mActiveConnectionsLookup.length = 32 ∧
    16 ≤ (getFreeLocalConnectionID
      (run (start idleConnections) (registrations fiveConnections)).manager
      (run (start idleConnections) (registrations fiveConnections)).connections
        6 0).2.mActiveConnectionsLookup.length ∧
    (getFreeLocalConnectionID (run (start idleConnections) (registrations fiveConnections)).manager
        (run (start idleConnections) (registrations fiveConnections)).connections 6 0).1 =
      probe
        (getFreeLocalConnectionID
          (run (start idleConnections) (registrations fiveConnections)).manager
          (run (start idleConnections) (registrations fiveConnections)).connections
            6 0).2.mActiveConnectionsLookup
        (getFreeLocalConnectionID
          (run (start idleConnections) (registrations fiveConnections)).manager
          (run (start idleConnections) (registrations fiveConnections)).connections
            6 0).2.mBitmaskForActiveConnectionsLookup
        32 (candidate 6 0) ∧
    (∀ p ∈ (assignedIds (start idleConnections) (registrations fiveConnections)).zip
        (fiveConnections.map (fun t => t.1)),
      lookupConnection
        (addConnection (run (start idleConnections) (registrations fiveConnections))
          6 6 0).manager p.1 = some p.2)) :=
  ⟨by decide, by decide,
    first_growth_at_sixth_add idleConnections fiveConnections 6 6 0 (by decide) (by decide)⟩

/-! ## `removeConnection` of a connection that was never registered -/

/-- C30 fails on the code: connection 1 is registered under local id 8 and sits in
slot `8 & 7 = 0` of the 8-slot array; connection 2 was never registered and its local
id is 0.  `removeConnection` of connection 2 leaves `mActiveConnections` as it is but
writes null to slot `0 & 7 = 0`: the lookup array has changed, and id 8 no longer
resolves to connection 1, which the exact map still holds. -/
theorem remove_unregistered_clears_slot_zero :
    disciplined (start idleConnections) slotZeroCalls = true ∧
    (run (start idleConnections) slotZeroCalls).manager.mActiveConnections.find 8 = some 1 ∧
    ((run (start idleConnections) slotZeroCalls).connections 1).mLocalConnectionID = 8 ∧
    lookupConnection (run (start idleConnections) slotZeroCalls).manager 8 = some 1 ∧
    isActiveB (run (start idleConnections) slotZeroCalls).manager 2 = false ∧
    ((run (start idleConnections) slotZeroCalls).connections 2).mLocalConnectionID = 0 ∧
    (removeConnection (run (start idleConnections) slotZeroCalls) 2).manager.mActiveConnections =
      (run (start idleConnections) slotZeroCalls).manager.mActiveConnections ∧
    (removeConnection (run (start idleConnections) slotZeroCalls) 2).manager.mActiveConnectionsLookup
      ≠ (run (start idleConnections) slotZeroCalls).manager.mActiveConnectionsLookup ∧
    lookupConnection (removeConnection (run (start idleConnections) slotZeroCalls) 2).manager 8
      = none := by
  refine ⟨by decide, by decide, by decide, by decide, by decide, by decide, by decide,
    by decide, by decide⟩

end ConnectionManager

set_option maxRecDepth 100000

/-! ## Claim on the sender map under `removeConnection` -/

namespace ConnectionManager

/-- C31 as stated fails: connections 1 and 2 are registered with the same sender key 0,
both are active and the calls obey the discipline; `findConnectionTo(0)` gives
connection 2, and after `removeConnection` of connection 1 it gives null. -/
theorem same_key_entry_erased :
    disciplined (start idleConnections) sameKeyCalls = true ∧
    isActiveB (run (start idleConnections) sameKeyCalls).manager 1 = true ∧
    isActiveB (run (start idleConnections) sameKeyCalls).manager 2 = true ∧
    ((run (start idleConnections) sameKeyCalls).connections 1).mSenderKey =
      ((run (start idleConnections) sameKeyCalls).connections 2).mSenderKey ∧
    findConnectionTo (run (start idleConnections) sameKeyCalls).manager
      ((run (start idleConnections) sameKeyCalls).connections 2).mSenderKey = some 2 ∧
    findConnectionTo (removeConnection (run (start idleConnections) sameKeyCalls) 1).manager
      ((run (start idleConnections) sameKeyCalls).connections 2).mSenderKey = none := by
  refine ⟨by decide, by decide, by decide, by decide, by decide, by decide⟩

/-- C31, amended: in every table state, `removeConnection(a)` leaves the result of
`findConnectionTo(b.senderKey)` unchanged for every connection `b` whose sender key
differs from that of `a`; for a connection `b` with the sender key of `a` the result
becomes null, because the key has one entry and the call erases it. -/
theorem remove_keeps_other_sender_keys (s : System) (a : Nat) :
    (∀ b, (s.connections a).mSenderKey ≠ (s.connections b).mSenderKey →
      findConnectionTo (removeConnection s a).manager (s.connections b).mSenderKey =
        findConnectionTo s.manager (s.connections b).mSenderKey) ∧
    (∀ b, (s.connections a).mSenderKey = (s.connections b).mSenderKey →
      findConnectionTo (removeConnection s a).manager (s.connections b).mSenderKey = none) ∧
    (removeConnection s a).connections = s.connections := by
  refine ⟨?_, ?_, rfl⟩
  · intro b hb
    show UnorderedMap.find (UnorderedMap.erase _ _) _ = UnorderedMap.find _ _
    rw [UnorderedMap.find_erase, if_neg hb]
  · intro b hb
    show UnorderedMap.find (UnorderedMap.erase _ _) _ = none
    rw [UnorderedMap.find_erase, if_pos hb]

end ConnectionManager

/-! ## Lemmas on the owners of queued packets -/

namespace ConnectionManager

theorem slot_set_entry (l : List (Option Nat)) (i j c : Nat) (v : Option Nat)
    (h : slot (l.set i v) j = some c) : v = some c ∨ slot l j = some c := by
  by_cases hi : i < l.length
  · rw [slot_set _ _ _ _ hi] at h
    by_cases hij : i = j
    · rw [if_pos hij] at h
      exact Or.inl h
    · rw [if_neg hij] at h
      exact Or.inr h
  · rw [List.set_eq_of_length_le (by omega)] at h
    exact Or.inr h

theorem rehash_entries (conns : ConnectionHeap) (mask : Nat) :
    ∀ n k l j c, slot (rehash conns mask n k l) j = some c → ∃ i, slot l i = some c := by
  intro n
  induction n with
  | zero => intro k l j c h; exact ⟨j, h⟩
  | succ n ih =>
    intro k l j c h
    cases hs : slot l k with
    | none =>
      simp only [rehash, hs] at h
      exact ih _ _ _ _ h
    | some d =>
      by_cases ht : ((conns d).mLocalConnectionID &&& mask) % 65536 = k
      · simp only [rehash, hs, ht, ne_eq, not_true_eq_false, if_false] at h
        exact ih _ _ _ _ h
      · simp only [rehash, hs, ht, ne_eq, not_false_eq_true, if_true] at h
        obtain ⟨i, hi⟩ := ih _ _ _ _ h
        rcases slot_set_entry _ _ _ _ _ hi with h1 | h1
        · cases h1
        · rcases slot_set_entry _ _ _ _ _ h1 with h2 | h2
          · cases h2
            exact ⟨k, hs⟩
          · exact ⟨i, h2⟩

theorem growLookup_entries (m : ConnectionManager) (conns : ConnectionHeap) (j c : Nat)
    (h : slot (growLookup m conns).mActiveConnectionsLookup j = some c) :
    ∃ i, slot m.mActiveConnectionsLookup i = some c := by
  unfold growLookup at h
  split at h
  · simp only at h
    obtain ⟨i, hi⟩ := rehash_entries _ _ _ _ _ _ _ h
    rw [slot_resize _ _ _ (by omega)] at hi
    exact ⟨i, hi⟩
  · exact ⟨j, h⟩

theorem addConnection_queues (s : System) (c r1 r2 : Nat) :
    (addConnection s c r1 r2).manager.mReceivedPackets = s.manager.mReceivedPackets ∧
    (addConnection s c r1 r2).manager.mReceivedPacketPool = s.manager.mReceivedPacketPool := by
  obtain ⟨_, _, g3, g4⟩ := growLookup_maps s.manager s.connections
  by_cases h0 : (getFreeLocalConnectionID s.manager s.connections r1 r2).1 = 0
  · rw [addConnection_failed s c r1 r2 h0]
    exact ⟨g3, g4⟩
  · rw [addConnection_succeeded s c r1 r2 _ rfl h0]
    exact ⟨g3, g4⟩

theorem addConnection_entries (s : System) (c r1 r2 j d : Nat)
    (h : slot (addConnection s c r1 r2).manager.mActiveConnectionsLookup j = some d) :
    (d = c ∧ (getFreeLocalConnectionID s.manager s.connections r1 r2).1 ≠ 0) ∨
      ∃ i, slot s.manager.mActiveConnectionsLookup i = some d := by
  by_cases h0 : (getFreeLocalConnectionID s.manager s.connections r1 r2).1 = 0
  · rw [addConnection_failed s c r1 r2 h0] at h
    exact Or.inr (growLookup_entries _ _ _ _ h)
  · rw [addConnection_succeeded s c r1 r2 _ rfl h0] at h
    rcases slot_set_entry _ _ _ _ _ h with h1 | h1
    · cases h1
      exact Or.inl ⟨rfl, h0⟩
    · exact Or.inr (growLookup_entries _ _ _ _ h1)

/-- One loop iteration keeps the facts about pool, queues and owners; the lookup array
is the one of the state before. -/
theorem processDatagram_owners (sig : Signatures) (order : ByteOrder) (conns : ConnectionHeap)
    (registered extra : List Nat) (m : ConnectionManager) (a : ReceiveAttempt)
    (hl : ∀ i c, slot m.mActiveConnectionsLookup i = some c → c ∈ registered)
    (hf : m.mReceivedPacketPool.mFree = [])
    (hq : ∀ p, p ∈ m.mReceivedPackets.mWorkerQueue ++ m.mReceivedPackets.mSyncedQueue ++ extra →
      p < m.mReceivedPacketPool.mNumObjects ∧
      (owner m p = none ∨ ∃ c, c ∈ registered ∧ owner m p = some c)) :
    (processDatagram sig order conns m a).mActiveConnectionsLookup = m.mActiveConnectionsLookup ∧
    (processDatagram sig order conns m a).mReceivedPacketPool.mFree = [] ∧
    (processDatagram sig order conns m a).mReceivedPackets.mToBeReturned =
      m.mReceivedPackets.mToBeReturned ∧
    (∀ p, p ∈ (processDatagram sig order conns m a).mReceivedPackets.mWorkerQueue ++
        (processDatagram sig order conns m a).mReceivedPackets.mSyncedQueue ++ extra →
      p < (processDatagram sig order conns m a).mReceivedPacketPool.mNumObjects ∧
      (owner (processDatagram sig order conns m a) p = none ∨
        ∃ c, c ∈ registered ∧ owner (processDatagram sig order conns m a) p = some c)) := by
  rcases processDatagram_cases sig order conns m a with hp | ⟨hp, hex⟩
  · rw [hp]
    exact ⟨rfl, hf, rfl, hq⟩
  · rw [hp]
    have hwf : PoolWF m.mReceivedPacketPool := by
      unfold PoolWF
      rw [hf]
      exact ⟨List.nodup_nil, fun h hh => absurd hh (List.not_mem_nil _)⟩
    obtain ⟨_, hfresh, _, hlt, hsub, hnum⟩ := storeReceivedPacket_pool m a.received
      (read16 order a.received.mBuffer 0)
      (if read16 order a.received.mBuffer 0 = sig.startConnection then none
       else lookupConnection m (read16 order a.received.mBuffer 4)) hwf
    obtain ⟨_, f2, _, _, f5, f6⟩ := storeReceivedPacket_frame m a.received
      (read16 order a.received.mBuffer 0)
      (if read16 order a.received.mBuffer 0 = sig.startConnection then none
       else lookupConnection m (read16 order a.received.mBuffer 4))
    have hge : m.mReceivedPacketPool.mNumObjects ≤ m.mReceivedPacketPool.rentObject.1 := by
      rcases hfresh with h1 | h1
      · rw [hf] at h1
        cases h1
      · exact h1
    have hobj := (storeReceivedPacket_object m a.received
      (read16 order a.received.mBuffer 0)
      (if read16 order a.received.mBuffer 0 = sig.startConnection then none
       else lookupConnection m (read16 order a.received.mBuffer 4))).2.2.2
    refine ⟨f2, ?_, f6, ?_⟩
    · apply List.eq_nil_iff_forall_not_mem.mpr
      intro x hx
      have := hsub x hx
      rw [hf] at this
      cases this
    · intro p hp1
      rw [(storeReceivedPacket_queue _ _ _ _).1, f5] at hp1
      by_cases hpe : p = m.mReceivedPacketPool.rentObject.1
      · rw [hpe]
        refine ⟨hlt, ?_⟩
        unfold owner
        rw [hobj]
        by_cases hs : read16 order a.received.mBuffer 0 = sig.startConnection
        · left
          rw [if_pos hs]
        · right
          rw [if_neg hs]
          obtain ⟨c, hc⟩ := hex hs
          exact ⟨c, hl _ c hc, hc⟩
      · have hold : p ∈ m.mReceivedPackets.mWorkerQueue ++ m.mReceivedPackets.mSyncedQueue ++
            extra := by
          simp only [List.mem_append, List.mem_singleton] at hp1 ⊢
          tauto
        obtain ⟨h1, h2⟩ := hq p hold
        refine ⟨lt_of_lt_of_le h1 hnum, ?_⟩
        unfold owner at h2 ⊢
        rw [storeReceivedPacket_others _ _ _ _ p hpe]
        exact h2

theorem loop_owners (sig : Signatures) (order : ByteOrder) (conns : ConnectionHeap)
    (registered extra : List Nat) :
    ∀ n runs m socket,
      (∀ i c, slot m.mActiveConnectionsLookup i = some c → c ∈ registered) →
      m.mReceivedPacketPool.mFree = [] →
      (∀ p, p ∈ m.mReceivedPackets.mWorkerQueue ++ m.mReceivedPackets.mSyncedQueue ++ extra →
        p < m.mReceivedPacketPool.mNumObjects ∧
        (owner m p = none ∨ ∃ c, c ∈ registered ∧ owner m p = some c)) →
      (updateReceivePacketsLoop sig order conns n runs m socket).2.1.mActiveConnectionsLookup =
        m.mActiveConnectionsLookup ∧
      (updateReceivePacketsLoop sig order conns n runs m socket).2.1.mReceivedPacketPool.mFree
        = [] ∧
      (updateReceivePacketsLoop sig order conns n runs m
        socket).2.1.mReceivedPackets.mToBeReturned = m.mReceivedPackets.mToBeReturned ∧
      (∀ p, p ∈ (updateReceivePacketsLoop sig order conns n runs m
            socket).2.1.mReceivedPackets.mWorkerQueue ++
          (updateReceivePacketsLoop sig order conns n runs m
            socket).2.1.mReceivedPackets.mSyncedQueue ++ extra →
        p < (updateReceivePacketsLoop sig order conns n runs m
            socket).2.1.mReceivedPacketPool.mNumObjects ∧
        (owner (updateReceivePacketsLoop sig order conns n runs m socket).2.1 p = none ∨
          ∃ c, c ∈ registered ∧
            owner (updateReceivePacketsLoop sig order conns n runs m socket).2.1 p = some c)) := by
  intro n
  induction n with
  | zero =>
    intro runs m socket _ hf hq
    exact ⟨rfl, hf, rfl, hq⟩
  | succ n ih =>
    intro runs m socket hl hf hq
    cases socket with
    | nil =>
      have e : (updateReceivePacketsLoop sig order conns (n + 1) runs m []).2.1 = m := by
        simp [updateReceivePacketsLoop, receiveNonBlocking]
      rw [e]
      exact ⟨rfl, hf, rfl, hq⟩
    | cons a rest =>
      by_cases hs : a.success = false
      · have e : (updateReceivePacketsLoop sig order conns (n + 1) runs m (a :: rest)).2.1 = m := by
          simp [updateReceivePacketsLoop, receiveNonBlocking, hs]
        rw [e]
        exact ⟨rfl, hf, rfl, hq⟩
      · by_cases he : a.received.mBuffer.isEmpty = true
        · have e : (updateReceivePacketsLoop sig order conns (n + 1) runs m (a :: rest)).2.1
              = m := by
            simp [updateReceivePacketsLoop, receiveNonBlocking, hs, he]
          rw [e]
          exact ⟨rfl, hf, rfl, hq⟩
        · have hstep : updateReceivePacketsLoop sig order conns (n + 1) runs m (a :: rest) =
              updateReceivePacketsLoop sig order conns n (runs + 1)
                (processDatagram sig order conns m a) rest := by
            conv_lhs => unfold updateReceivePacketsLoop
            simp only [receiveNonBlocking, hs, he, if_false]
            simp
          rw [hstep]
          obtain ⟨p1, p2, p3, p4⟩ := processDatagram_owners sig order conns registered extra
            m a hl hf hq
          obtain ⟨q1, q2, q3, q4⟩ := ih (runs + 1) (processDatagram sig order conns m a) rest
            (by rw [p1]; exact hl) p2 p4
          exact ⟨by rw [q1, p1], q2, by rw [q3, p3], q4⟩


theorem ownersInv_start (conns : ConnectionHeap) :
    OwnersInv (start conns, { registered := [], returned := [] }) := by
  refine ⟨?_, rfl, rfl, ?_⟩
  · intro i c h
    have hn : slot (List.replicate 8 (none : Option Nat)) i = none := by
      unfold slot
      rw [List.getD_eq_getElem?_getD]
      by_cases hi : i < 8
      · rw [List.getElem?_replicate_of_lt hi]
        rfl
      · rw [List.getElem?_eq_none (by simp; omega)]
        rfl
    have h' : slot (List.replicate 8 (none : Option Nat)) i = some c := h
    rw [hn] at h'
    cases h'
  · intro p hp
    cases hp

theorem managerStep_owners (sig : Signatures) (order : ByteOrder)
    (st : System × ManagerTrace) (call : ManagerCall) (h : OwnersInv st) :
    OwnersInv (managerStep sig order st call) := by
  obtain ⟨hl, hf, ht, hq⟩ := h
  cases call with
  | add c r1 r2 =>
    obtain ⟨g1, g2⟩ := addConnection_queues st.1 c r1 r2
    have hreg : ∀ d, d ∈ st.2.registered → d ∈ (managerStep sig order st (.add c r1 r2)).2.registered := by
      intro d hd
      simp only [managerStep]
      split
      · exact hd
      · exact List.mem_append_left _ hd
    have hret : (managerStep sig order st (.add c r1 r2)).2.returned = st.2.returned := by
      simp only [managerStep]
      split <;> rfl
    refine ⟨?_, ?_, ?_, ?_⟩
    · intro i d hd
      have hd' : slot (addConnection st.1 c r1 r2).manager.mActiveConnectionsLookup i = some d := hd
      rcases addConnection_entries st.1 c r1 r2 i d hd' with ⟨h1, h2⟩ | ⟨j, hj⟩
      · simp only [managerStep]
        rw [if_neg h2, h1]
        exact List.mem_append_right _ (List.mem_singleton_self _)
      · exact hreg d (hl j d hj)
    · show (addConnection st.1 c r1 r2).manager.mReceivedPacketPool.mFree = []
      rw [g2]; exact hf
    · show (addConnection st.1 c r1 r2).manager.mReceivedPackets.mToBeReturned = []
      rw [g1]; exact ht
    · intro p hp
      have hp' : p ∈ (addConnection st.1 c r1 r2).manager.mReceivedPackets.mWorkerQueue ++
          (addConnection st.1 c r1 r2).manager.mReceivedPackets.mSyncedQueue ++
          (managerStep sig order st (.add c r1 r2)).2.returned := hp
      rw [g1, hret] at hp'
      obtain ⟨h1, h2⟩ := hq p hp'
      show p < (addConnection st.1 c r1 r2).manager.mReceivedPacketPool.mNumObjects ∧
        (owner (addConnection st.1 c r1 r2).manager p = none ∨
          ∃ d, d ∈ (managerStep sig order st (.add c r1 r2)).2.registered ∧
            owner (addConnection st.1 c r1 r2).manager p = some d)
      unfold owner at h2 ⊢
      rw [g2]
      refine ⟨h1, ?_⟩
      rcases h2 with h2 | ⟨d, hd, h2⟩
      · exact Or.inl h2
      · exact Or.inr ⟨d, hreg d hd, h2⟩
  | remove c =>
    refine ⟨?_, hf, ht, hq⟩
    intro i d hd
    have hd' : slot (removeConnection st.1 c).manager.mActiveConnectionsLookup i = some d := hd
    rcases slot_set_entry _ _ _ _ _ hd' with h1 | h1
    · cases h1
    · exact hl i d h1
  | receive socket =>
    obtain ⟨q1, q2, q3, q4⟩ := loop_owners sig order st.1.connections st.2.registered
      st.2.returned 10 0 st.1.manager socket hl hf hq
    refine ⟨?_, q2, ?_, q4⟩
    · intro i d hd
      have hd' : slot (updateReceivePacketsLoop sig order st.1.connections 10 0 st.1.manager
          socket).2.1.mActiveConnectionsLookup i = some d := hd
      rw [q1] at hd'
      exact hl i d hd'
    · show (updateReceivePacketsLoop sig order st.1.connections 10 0 st.1.manager
          socket).2.1.mReceivedPackets.mToBeReturned = []
      rw [q3]; exact ht
  | sync =>
    have hpool : (syncPacketQueues st.1.manager).mReceivedPacketPool =
        st.1.manager.mReceivedPacketPool := by
      simp only [syncPacketQueues, ht, List.foldl_nil]
    have hw : (syncPacketQueues st.1.manager).mReceivedPackets.mWorkerQueue = [] := by
      simp only [syncPacketQueues, syncLoop_eq]
    have hs : (syncPacketQueues st.1.manager).mReceivedPackets.mSyncedQueue =
        st.1.manager.mReceivedPackets.mSyncedQueue ++ st.1.manager.mReceivedPackets.mWorkerQueue := by
      simp only [syncPacketQueues, syncLoop_eq]
    refine ⟨hl, ?_, rfl, ?_⟩
    · show (syncPacketQueues st.1.manager).mReceivedPacketPool.mFree = []
      rw [hpool]; exact hf
    · intro p hp
      have hp' : p ∈ (syncPacketQueues st.1.manager).mReceivedPackets.mWorkerQueue ++
          (syncPacketQueues st.1.manager).mReceivedPackets.mSyncedQueue ++ st.2.returned := hp
      rw [hw, hs] at hp'
      have hold : p ∈ st.1.manager.mReceivedPackets.mWorkerQueue ++
          st.1.manager.mReceivedPackets.mSyncedQueue ++ st.2.returned := by
        simp only [List.mem_append, List.nil_append] at hp' ⊢
        tauto
      obtain ⟨h1, h2⟩ := hq p hold
      show p < (syncPacketQueues st.1.manager).mReceivedPacketPool.mNumObjects ∧
        (owner (syncPacketQueues st.1.manager) p = none ∨
          ∃ d, d ∈ st.2.registered ∧ owner (syncPacketQueues st.1.manager) p = some d)
      unfold owner at h2 ⊢
      rw [hpool]
      exact ⟨h1, h2⟩
  | getNext =>
    cases hsq : st.1.manager.mReceivedPackets.mSyncedQueue with
    | nil =>
      have e : managerStep sig order st .getNext = (st.1, st.2) := by
        simp only [managerStep, getNextReceivedPacket, hsq]
      rw [e]
      exact ⟨hl, hf, ht, hq⟩
    | cons x rest =>
      have e : managerStep sig order st .getNext =
          ({ st.1 with manager :=
              { st.1.manager with
                mReceivedPackets := { st.1.manager.mReceivedPackets with mSyncedQueue := rest }
                mReceivedPacketPool :=
                  st.1.manager.mReceivedPacketPool.write x
                    (initializeWithDump (st.1.manager.mReceivedPacketPool.mObjects x)) } },
            { st.2 with returned := st.2.returned ++ [x] }) := by
        simp only [managerStep, getNextReceivedPacket, hsq]
      rw [e]
      refine ⟨hl, hf, ht, ?_⟩
      intro p hp
      simp only at hp
      have hold : p ∈ st.1.manager.mReceivedPackets.mWorkerQueue ++
          st.1.manager.mReceivedPackets.mSyncedQueue ++ st.2.returned := by
        rw [hsq]
        simp only [List.mem_append, List.mem_cons, List.mem_singleton] at hp ⊢
        tauto
      obtain ⟨h1, h2⟩ := hq p hold
      refine ⟨h1, ?_⟩
      have hown : ∀ q, owner { st.1.manager with
            mReceivedPackets := { st.1.manager.mReceivedPackets with mSyncedQueue := rest }
            mReceivedPacketPool :=
              st.1.manager.mReceivedPacketPool.write x
                (initializeWithDump (st.1.manager.mReceivedPacketPool.mObjects x)) } q =
          owner st.1.manager q := by
        intro q
        unfold owner ObjectPool.write initializeWithDump
        simp only
        split
        · rename_i hqx
          rw [hqx]
        · rfl
      simp only [hown]
      exact h2

theorem runManager_owners (sig : Signatures) (order : ByteOrder) (calls : List ManagerCall) :
    ∀ st, OwnersInv st → OwnersInv (runManager sig order st calls) := by
  induction calls with
  | nil => intro st h; exact h
  | cons call rest ih =>
    intro st h
    exact ih _ (managerStep_owners sig order st call h)

end ConnectionManager

/-! ## Claim on the owners of queued packets -/

namespace ConnectionManager

/-- C32 as stated fails: connection 1 is registered, a datagram for it is accepted and
waits in the worker queue, and connection 1 is removed.  The queued packet still names
connection 1 as its owner, and connection 1 is not active any more. -/
theorem queued_packet_outlives_connection :
    (runManager sampleSignatures .littleEndian
      (start idleConnections, { registered := [], returned := [] })
      orphaningCalls).1.manager.mReceivedPackets.mWorkerQueue = [0] ∧
    owner (runManager sampleSignatures .littleEndian
      (start idleConnections, { registered := [], returned := [] })
      orphaningCalls).1.manager 0 = some 1 ∧
    isActiveB (runManager sampleSignatures .littleEndian
      (start idleConnections, { registered := [], returned := [] })
      orphaningCalls).1.manager 1 = false ∧
    lookupConnection (runManager sampleSignatures .littleEndian
      (start idleConnections, { registered := [], returned := [] })
      orphaningCalls).1.manager 5 = none := by
  refine ⟨by decide, by decide, by decide, by decide⟩

/-- C32, amended: after every sequence of `addConnection`, `removeConnection`,
`updateReceivePackets`, `syncPacketQueues` and `getNextReceivedPacket` calls on a
freshly constructed manager, every packet in the worker queue or the synced queue and
every packet that `getNextReceivedPacket` has returned is owned by nobody (null) or by
a connection that a successful `addConnection` call registered before; whether that
connection is still active is not said. -/
theorem queued_packet_owner_was_registered (sig : Signatures) (order : ByteOrder)
    (conns : ConnectionHeap) (calls : List ManagerCall) :
    ∀ p, p ∈ (runManager sig order (start conns, { registered := [], returned := [] })
          calls).1.manager.mReceivedPackets.mWorkerQueue ++
        (runManager sig order (start conns, { registered := [], returned := [] })
          calls).1.manager.mReceivedPackets.mSyncedQueue ++
        (runManager sig order (start conns, { registered := [], returned := [] })
          calls).2.returned →
      owner (runManager sig order (start conns, { registered := [], returned := [] })
          calls).1.manager p = none ∨
      ∃ c, c ∈ (runManager sig order (start conns, { registered := [], returned := [] })
          calls).2.registered ∧
        owner (runManager sig order (start conns, { registered := [], returned := [] })
          calls).1.manager p = some c := by
  intro p hp
  exact ((runManager_owners sig order calls _ (ownersInv_start conns)).2.2.2 p hp).2

/-- C32 (amended), applied to a sequence in which a handshake packet and a packet for
connection 1 pass through both queues and connection 1 is removed before its packet is
handed out: packet 1 has been returned and is owned by the registered connection 1. -/
theorem queued_packet_owner_was_registered_witness :
    1 ∈ (runManager sampleSignatures .littleEndian
          (start idleConnections, { registered := [], returned := [] })
          sampleManagerCalls).1.manager.mReceivedPackets.mWorkerQueue ++
        (runManager sampleSignatures .littleEndian
          (start idleConnections, { registered := [], returned := [] })
          sampleManagerCalls).1.manager.mReceivedPackets.mSyncedQueue ++
        (runManager sampleSignatures .littleEndian
          (start idleConnections, { registered := [], returned := [] })
          sampleManagerCalls).2.returned ∧
    (owner (runManager sampleSignatures .littleEndian
          (start idleConnections, { registered := [], returned := [] })
          sampleManagerCalls).1.manager 1 = none ∨
      ∃ c, c ∈ (runManager sampleSignatures .littleEndian
          (start idleConnections, { registered := [], returned := [] })
          sampleManagerCalls).2.registered ∧
        owner (runManager sampleSignatures .littleEndian
          (start idleConnections, { registered := [], returned := [] })
          sampleManagerCalls).1.manager 1 = some c) :=
  ⟨by decide,
    queued_packet_owner_was_registered sampleSignatures .littleEndian idleConnections
      sampleManagerCalls 1 (by decide)⟩

end ConnectionManager

/-! ## `UpdateCheck`: queries are at least a minute apart -/

namespace UpdateCheck

theorem step_sends (build : Build) (u : UpdateCheck) (call : Call)
    (h : (step build u call).2 ≠ []) :
    u.mState = State.SEND_QUERY ∧
    ∃ now hasResponse hasError, call = .performUpdate now hasResponse hasError ∧
      (step build u call).2 =
        [{ timestamp := now
           query :=
            { mAppName := "sonic3air"
              mPlatform := build.platformName
              mReleaseChannel := "test"
              mInstalledAppVersion := build.buildNumber
              mInstalledContentVersion := build.buildNumber } }] ∧
      (step build u call).1.mState = State.WAITING_FOR_RESPONSE ∧
      (step build u call).1.mLastUpdateCheckTimestamp = now := by
  cases call with
  | startUpdateCheck now => exact absurd rfl h
  | evaluateServerFeaturesResponse features => exact absurd rfl h
  | performUpdate now hasResponse hasError =>
    cases hs : u.mState
    case SEND_QUERY =>
      refine ⟨rfl, now, hasResponse, hasError, rfl, ?_, ?_, ?_⟩ <;>
        simp [step, performUpdate, hs]
    all_goals
      exfalso
      apply h
      simp only [step, performUpdate, hs]
      simp
      try split_ifs <;> rfl

theorem step_silent (build : Build) (u : UpdateCheck) (call : Call)
    (h : (step build u call).2 = []) :
    (step build u call).1.mLastUpdateCheckTimestamp = u.mLastUpdateCheckTimestamp ∧
    ((step build u call).1.mState = State.SEND_QUERY →
      u.mState = State.SEND_QUERY ∨
      ∃ now, call = .startUpdateCheck now ∧
        (u.mLastUpdateCheckTimestamp + 60000) % 2 ^ 64 ≤ now) := by
  cases call with
  | startUpdateCheck now =>
    simp only [step, startUpdateCheck]
    split_ifs with h1 h2
    · exact ⟨rfl, fun hs => Or.inl hs⟩
    · exact ⟨rfl, fun hs => Or.inl hs⟩
    · exact ⟨rfl, fun _ => Or.inr ⟨now, rfl, by omega⟩⟩
  | evaluateServerFeaturesResponse features =>
    simp only [step, evaluateServerFeaturesResponse]
    split_ifs with h1 h2
    · exact ⟨rfl, fun hs => by cases hs⟩
    · exact ⟨rfl, fun hs => Or.inl hs⟩
    · exact ⟨rfl, fun hs => by cases hs⟩
  | performUpdate now hasResponse hasError =>
    cases hs : u.mState
    case SEND_QUERY =>
      exfalso
      simp [step, performUpdate, hs] at h
    all_goals
      simp only [step, performUpdate, hs]
      split_ifs <;> simp [hs]

/-- One call keeps the invariant; `lo'` is the clock value of the call when it reads
the clock, and the old bound otherwise; it is more than 60000 below `2 ^ 64`. -/
theorem step_spaced (build : Build) (u : UpdateCheck) (sent : List SentQuery) (lo lo' : Nat)
    (call : Call) (h : Spaced u sent lo) (hle : lo ≤ lo') (hb : lo' + 60000 < 2 ^ 64)
    (hts : ∀ t ∈ timestamps [call], t = lo') :
    Spaced (step build u call).1 (sent ++ (step build u call).2) lo' := by
  obtain ⟨hchain, hlast⟩ := h
  by_cases hsend : (step build u call).2 = []
  · obtain ⟨s1, s2⟩ := step_silent build u call hsend
    rw [hsend, List.append_nil]
    refine ⟨hchain, ?_⟩
    intro q hq
    obtain ⟨l1, l2, l3⟩ := hlast q hq
    refine ⟨by rw [s1]; exact l1, by omega, ?_⟩
    intro hs
    rcases s2 hs with h1 | ⟨now, h1, h2⟩
    · have := l3 h1
      omega
    · subst h1
      have hnow : now = lo' := hts now (by simp [timestamps])
      have hfit : q.timestamp + 60000 < 2 ^ 64 := by omega
      rw [l1, Nat.mod_eq_of_lt hfit] at h2
      omega
  · obtain ⟨hstate, now, hasResponse, hasError, hcall, hsent, hnew, hnewts⟩ :=
      step_sends build u call hsend
    subst hcall
    have hnow : now = lo' := hts now (by simp [timestamps])
    rw [hsent]
    refine ⟨?_, ?_⟩
    · rw [List.map_append]
      refine List.Chain'.append hchain (List.chain'_singleton _) ?_
      intro x hx y hy
      rw [List.getLast?_map] at hx
      simp only [List.map_cons, List.map_nil, List.head?_cons, Option.mem_def,
        Option.some.injEq] at hy
      cases hq : sent.getLast? with
      | none => rw [hq] at hx; cases hx
      | some q =>
        rw [hq] at hx
        simp only [Option.map_some', Option.mem_def, Option.some.injEq] at hx
        obtain ⟨_, _, l3⟩ := hlast q hq
        have := l3 hstate
        omega
    · intro q hq
      rw [List.getLast?_append, List.getLast?_singleton] at hq
      simp at hq
      subst hq
      refine ⟨hnewts, by simp only; omega, ?_⟩
      intro hs
      rw [hnew] at hs
      cases hs

theorem run_spaced (build : Build) (calls : List Call) :
    ∀ u sent lo, Spaced u sent lo → lo + 60000 < 2 ^ 64 →
      (timestamps calls).Pairwise (fun a b => a ≤ b) →
      (∀ t ∈ timestamps calls, lo ≤ t) → (∀ t ∈ timestamps calls, t + 60000 < 2 ^ 64) →
      ∃ lo', Spaced (run build u calls).1 (sent ++ (run build u calls).2) lo' := by
  induction calls with
  | nil =>
    intro u sent lo h _ _ _ _
    exact ⟨lo, by simpa [run] using h⟩
  | cons call rest ih =>
    intro u sent lo h hlob hmono hlo hbound
    have hsplit : timestamps (call :: rest) = timestamps [call] ++ timestamps rest := by
      cases call <;> rfl
    rw [hsplit] at hmono hlo hbound
    obtain ⟨_, hm2, hm3⟩ := List.pairwise_append.mp hmono
    have hpick : ∃ lo', lo ≤ lo' ∧ lo' + 60000 < 2 ^ 64 ∧
        (∀ t ∈ timestamps [call], t = lo') ∧ ∀ t ∈ timestamps rest, lo' ≤ t := by
      cases call with
      | evaluateServerFeaturesResponse features =>
        exact ⟨lo, le_refl _, hlob, fun t ht => (by cases ht),
          fun t ht => hlo t (List.mem_append_right _ ht)⟩
      | startUpdateCheck now =>
        exact ⟨now, hlo now (by simp [timestamps]), hbound now (by simp [timestamps]),
          fun t ht => by simpa [timestamps] using ht,
          fun t ht => hm3 now (by simp [timestamps]) t ht⟩
      | performUpdate now hasResponse hasError =>
        exact ⟨now, hlo now (by simp [timestamps]), hbound now (by simp [timestamps]),
          fun t ht => by simpa [timestamps] using ht,
          fun t ht => hm3 now (by simp [timestamps]) t ht⟩
    obtain ⟨lo', hle, hb, hts, hrest⟩ := hpick
    have hsp := step_spaced build u sent lo lo' call h hle hb hts
    obtain ⟨lo2, h2⟩ := ih (step build u call).1 (sent ++ (step build u call).2) lo' hsp hb hm2
      hrest (fun t ht => hbound t (List.mem_append_right _ ht))
    refine ⟨lo2, ?_⟩
    simp only [run]
    rw [← List.append_assoc]
    exact h2

/-- C38 as stated fails: timestamps are `uint64` values and `startUpdateCheck` compares
the clock with the `uint64` sum `mLastUpdateCheckTimestamp + 60 * 1000`.  After a query
at `2 ^ 64 - 616` that sum is 59384, so that the check started one millisecond later is
granted and the second query is sent one millisecond after the first.  The clock
values of the calls are non-decreasing. -/
theorem second_query_after_one_millisecond :
    (timestamps wrappingUpdateCalls).Pairwise (fun a b => a ≤ b) ∧
    (∀ t ∈ timestamps wrappingUpdateCalls, t < 2 ^ 64) ∧
    (18446744073709551000 + 60 * 1000) % 2 ^ 64 = 59384 ∧
    (run sampleBuild idle wrappingUpdateCalls).2.map (fun q => q.timestamp) =
      [18446744073709551000, 18446744073709551001] ∧
    ¬ ((run sampleBuild idle wrappingUpdateCalls).2.map (fun q => q.timestamp)).Chain'
      (fun a b => a + 60000 ≤ b) := by
  have hrun : (run sampleBuild idle wrappingUpdateCalls).2.map (fun q => q.timestamp) =
      [18446744073709551000, 18446744073709551001] := by decide
  refine ⟨by decide, by decide, by decide, hrun, ?_⟩
  rw [hrun]
  intro hc
  exact absurd (List.chain'_pair.mp hc) (by decide)

/-- C38, amended: a call hands a query to `sendRequest` only if it is `performUpdate` and
the state before it is `SEND_QUERY`, and then exactly one query with the clock value of
that call; and for every sequence of `startUpdateCheck`, `performUpdate` and
`evaluateServerFeaturesResponse` calls whose clock values are non-decreasing and below
`2 ^ 64 - 60000`, from any state, each query is sent at least 60000 ms after the one
before it. -/
theorem queries_a_minute_apart (build : Build) (u : UpdateCheck) (calls : List Call)
    (hmono : (timestamps calls).Pairwise (fun a b => a ≤ b))
    (hbound : ∀ t ∈ timestamps calls, t + 60000 < 2 ^ 64) :
    (∀ v call, (step build v call).2 ≠ [] →
      v.mState = State.SEND_QUERY ∧
      ∃ now hasResponse hasError, call = .performUpdate now hasResponse hasError ∧
        ((step build v call).2.map (fun q => q.timestamp)) = [now]) ∧
    ((run build u calls).2.map (fun q => q.timestamp)).Chain' (fun a b => a + 60000 ≤ b) := by
  constructor
  · intro v call h
    obtain ⟨h1, now, hasResponse, hasError, h2, h3, _⟩ := step_sends build v call h
    exact ⟨h1, now, hasResponse, hasError, h2, by rw [h3]; rfl⟩
  · have h0 : Spaced u [] 0 := ⟨List.chain'_nil, fun q hq => by cases hq⟩
    obtain ⟨lo', h1, _⟩ := run_spaced build calls u [] 0 h0 (by norm_num) hmono
      (fun t _ => Nat.zero_le t) hbound
    rw [List.nil_append] at h1
    exact h1

/-- C38 (amended), applied to two update checks from the constructed state: the second
check is refused 30 seconds after the first query and granted a minute after it; the
queries are sent at 70010 and 130020. -/
theorem queries_a_minute_apart_witness :
    (timestamps sampleUpdateCalls).Pairwise (fun a b => a ≤ b) ∧
    (∀ t ∈ timestamps sampleUpdateCalls, t + 60000 < 2 ^ 64) ∧
    (run sampleBuild idle sampleUpdateCalls).2.map (fun q => q.timestamp) = [70010, 130020] ∧
    ((∀ v call, (step sampleBuild v call).2 ≠ [] →
      v.mState = State.SEND_QUERY ∧
      ∃ now hasResponse hasError, call = .performUpdate now hasResponse hasError ∧
        ((step sampleBuild v call).2.map (fun q => q.timestamp)) = [now]) ∧
    ((run sampleBuild idle sampleUpdateCalls).2.map (fun q => q.timestamp)).Chain'
      (fun a b => a + 60000 ≤ b)) :=
  ⟨by decide, by decide, by decide,
    queries_a_minute_apart sampleBuild idle sampleUpdateCalls (by decide) (by decide)⟩

end UpdateCheck

/-! ## `FastStringStream`: what the calls append -/

namespace FastStringStream

theorem getStdString_addChar (s : FastStringStream) (ch : Nat) :
    getStdString (addChar s ch) = getStdString s ++ [ch] := by
  unfold getStdString addChar
  simp only [List.range_succ, List.map_append, List.map_cons, List.map_nil, if_true]
  congr 1
  apply List.map_congr_left
  intro i hi
  have : i < s.mLength := List.mem_range.mp hi
  rw [if_neg (by omega)]

theorem mLength_addChar (s : FastStringStream) (ch : Nat) :
    (addChar s ch).mLength = s.mLength + 1 := rfl

/-- The characters that the `for` loop of `addHex` appends in `count` iterations. -/
theorem hexLoop_spec (value : Nat) :
    ∀ count s, getStdString (hexLoop value count s) =
        getStdString s ++
          (List.range count).reverse.map (fun k => hexChar ((value >>> (4 * k)) &&& 0x0f)) ∧
      (hexLoop value count s).mLength = s.mLength + count := by
  intro count
  induction count with
  | zero => intro s; simp [hexLoop]
  | succ k ih =>
    intro s
    obtain ⟨h1, h2⟩ := ih (addChar s (hexChar ((value >>> (4 * k)) &&& 0x0f)))
    simp only [hexLoop]
    rw [h1, h2, getStdString_addChar, mLength_addChar]
    constructor
    · simp [List.range_succ]
    · omega

theorem binaryLoop_length (value : Nat) :
    ∀ count s, (binaryLoop value count s).mLength = s.mLength + count := by
  intro count
  induction count with
  | zero => intro s; rfl
  | succ k ih =>
    intro s
    simp only [binaryLoop]
    rw [ih, mLength_addChar]
    omega

theorem decimalLoop_length (value : Int) :
    ∀ fuel digitBase s, s.mLength ≤ (decimalLoop value fuel digitBase s).mLength ∧
      (decimalLoop value fuel digitBase s).mLength ≤ s.mLength + fuel := by
  intro fuel
  induction fuel with
  | zero => intro digitBase s; exact ⟨le_refl _, le_refl _⟩
  | succ k ih =>
    intro digitBase s
    simp only [decimalLoop]
    split
    · obtain ⟨h1, h2⟩ := ih (digitBase.tdiv 10)
        (addChar s (toChar (48 + (value.tdiv digitBase).tmod 10)))
      rw [mLength_addChar] at h1 h2
      exact ⟨by omega, by omega⟩
    · exact ⟨le_refl _, by omega⟩

/-- More fuel than 19 does not change the `for` loop of `addDecimal` for an `int64`
value of `digitBase`. -/
theorem decimalLoop_fuel (value : Int) :
    ∀ fuel digitBase s, digitBase < 10 ^ fuel → ∀ extra,
      decimalLoop value (fuel + extra) digitBase s = decimalLoop value fuel digitBase s := by
  intro fuel
  induction fuel with
  | zero =>
    intro digitBase s h extra
    have hle : ¬ digitBase > 0 := by
      norm_num at h
      omega
    cases extra with
    | zero => rfl
    | succ e =>
      rw [Nat.zero_add]
      simp only [decimalLoop, if_neg hle]
  | succ k ih =>
    intro digitBase s h extra
    have e1 : k + 1 + extra = (k + extra) + 1 := by omega
    rw [e1]
    simp only [decimalLoop]
    split
    · rename_i hpos
      apply ih
      rw [Int.tdiv_eq_ediv (by omega) (by norm_num)]
      have h10 : (10 : Int) ^ (k + 1) = 10 ^ k * 10 := pow_succ _ _
      rw [h10] at h
      omega
    · rfl

end FastStringStream

/-! ## `addHex` -/

namespace FastStringStream

theorem wrap32_of_small (x : Int) (h1 : -2147483648 ≤ x) (h2 : x < 2147483648) :
    wrap32 x = x := by
  unfold wrap32
  norm_num
  omega

theorem shiftRight_eq_zero_iff (value j : Nat) : value >>> (4 * j) = 0 ↔ value < 16 ^ j := by
  rw [Nat.shiftRight_eq_div_pow, pow_mul]
  norm_num
  exact Nat.div_eq_zero_iff (Nat.pos_pow_of_pos _ (by norm_num))

theorem significant_le_iff (value j : Nat) : significantHexDigits value ≤ j ↔ value < 16 ^ j := by
  unfold significantHexDigits
  by_cases hv : value = 0
  · subst hv
    simp
  · rw [Nat.digits_len 16 value (by norm_num) hv, Nat.lt_pow_iff_log_lt (by norm_num) hv]
    omega

/-- The `while` loop of `addHex` stops at the first digit count from `k` on that is 16
or covers the value and the bound `m` on the shift. -/
theorem hexShift_spec (value : Nat) (minDigits : Int) :
    ∀ left k, k + left = 16 → 1 ≤ k →
      ∃ n, hexShift value minDigits left (4 * k) = 4 * n ∧ k ≤ n ∧ n ≤ 16 ∧
        (n = 16 ∨ (value >>> (4 * n) = 0 ∧ ¬ (((4 * n : Nat) : Int) < wrap32 (minDigits * 4)))) ∧
        ∀ j, k ≤ j → j < n →
          (value >>> (4 * j) ≠ 0 ∨ (((4 * j : Nat) : Int) < wrap32 (minDigits * 4))) := by
  intro left
  induction left with
  | zero =>
    intro k hk _
    refine ⟨k, rfl, le_refl _, by omega, Or.inl (by omega), fun j h1 h2 => by omega⟩
  | succ left ih =>
    intro k hk h1
    by_cases hc : value >>> (4 * k) ≠ 0 ∨ (((4 * k : Nat) : Int) < wrap32 (minDigits * 4))
    · obtain ⟨n, e, hkn, hn, hstop, hbefore⟩ := ih (k + 1) (by omega) (by omega)
      refine ⟨n, ?_, by omega, hn, hstop, ?_⟩
      · simp only [hexShift]
        rw [if_pos hc]
        exact e
      · intro j hj1 hj2
        by_cases hjk : j = k
        · rw [hjk]; exact hc
        · exact hbefore j (by omega) hj2
    · refine ⟨k, ?_, le_refl _, by omega, Or.inr ?_, fun j h1 h2 => by omega⟩
      · simp only [hexShift]
        rw [if_neg hc]
      · rw [not_or, not_not] at hc
        exact hc

theorem hexDigitValue_hexChar (v : Nat) (hv : v ≤ 15) :
    hexDigitValue (hexChar v) = v ∧ isLowerHexDigit (hexChar v) := by
  unfold hexDigitValue hexChar isLowerHexDigit
  by_cases h9 : v ≤ 9
  · rw [if_pos h9, if_pos (by omega)]
    exact ⟨by omega, Or.inl (by omega)⟩
  · rw [if_neg h9, if_neg (by omega)]
    exact ⟨by omega, Or.inr (by omega)⟩

theorem nibble_eq (value k : Nat) : (value >>> (4 * k)) &&& 0x0f = value / 16 ^ k % 16 := by
  rw [Nat.shiftRight_eq_div_pow, pow_mul]
  have h := Nat.and_pow_two_sub_one_eq_mod (value / (2 ^ 4) ^ k) 4
  norm_num at h ⊢
  exact h

theorem hexText_value (value : Nat) :
    ∀ count acc,
      ((List.range count).reverse.map
          (fun k => hexChar ((value >>> (4 * k)) &&& 0x0f))).foldl
        (fun acc ch => 16 * acc + hexDigitValue ch) acc =
      acc * 16 ^ count + value % 16 ^ count := by
  intro count
  induction count with
  | zero => intro acc; simp [Nat.mod_one]
  | succ k ih =>
    intro acc
    have hd : (value >>> (4 * k)) &&& 0x0f ≤ 15 := by
      rw [nibble_eq]
      have := Nat.mod_lt (value / 16 ^ k) (by norm_num : 0 < 16)
      omega
    rw [List.range_succ, List.reverse_append, List.reverse_singleton, List.singleton_append,
      List.map_cons, List.foldl_cons, ih, (hexDigitValue_hexChar _ hd).1, nibble_eq,
      Nat.mod_pow_succ, pow_succ]
    ring

end FastStringStream

/-! ## Claim on `addHex` -/

namespace FastStringStream

/-- C35 as stated fails: for `minDigits = 2 ^ 29` the `int` product `minDigits * 4`
leaves the range of `int`; taken modulo `2 ^ 32` it is negative, the test
`shift < minDigits * 4` never holds, and `addHex(5, 2 ^ 29)` appends the single digit
`5` where the claim asks for `max(1, 1, min(2 ^ 29, 16)) = 16` digits. -/
theorem addHex_large_minDigits :
    wrap32 (536870912 * 4) = -2147483648 ∧
    getStdString (addHex unused 5 536870912) = [53] ∧
    (addHex unused 5 536870912).mLength = 1 ∧
    max 1 (max (significantHexDigits 5) (min 536870912 16)) = 16 := by
  refine ⟨by decide, by decide, by decide, ?_⟩
  unfold significantHexDigits
  norm_num

/-- C35, amended: for every `value` below `2 ^ 64` and every `minDigits` from 0 to
`2 ^ 29 - 1` (so that `minDigits * 4` is an `int`), `addHex` appends a text of lowercase
hexadecimal digits whose base-16 value is `value`; the number of digits is
`max(1, significant hex digits of value, min(minDigits, 16))`, between 1 and 16. -/
theorem addHex_spec (s : FastStringStream) (value : Nat) (minDigits : Int)
    (hv : value < 2 ^ 64) (h0 : 0 ≤ minDigits) (hmax : minDigits < 2 ^ 29) :
    ∃ text, getStdString (addHex s value minDigits) = getStdString s ++ text ∧
      (addHex s value minDigits).mLength = s.mLength + text.length ∧
      (text.length : Int) = max 1 (max (significantHexDigits value : Int) (min minDigits 16)) ∧
      1 ≤ text.length ∧ text.length ≤ 16 ∧
      (∀ ch ∈ text, isLowerHexDigit ch) ∧
      hexValue text = value := by
  have hM : wrap32 (minDigits * 4) = minDigits * 4 := by
    norm_num at hmax
    exact wrap32_of_small _ (by omega) (by omega)
  obtain ⟨n, e, h1, h16, hstop, hbefore⟩ := hexShift_spec value minDigits 15 1 (by norm_num)
    (le_refl _)
  rw [hM] at hstop hbefore
  have hcount : hexShift value minDigits 15 4 / 4 = n := by
    have e' : hexShift value minDigits 15 4 = 4 * n := e
    rw [e']
    omega
  obtain ⟨t1, t2⟩ := hexLoop_spec value n s
  have hlt : value < 16 ^ n := by
    rcases hstop with h | ⟨h, _⟩
    · rw [h]
      norm_num at hv ⊢
      exact hv
    · exact (shiftRight_eq_zero_iff value n).mp h
  refine ⟨(List.range n).reverse.map (fun k => hexChar ((value >>> (4 * k)) &&& 0x0f)),
    ?_, ?_, ?_, ?_, ?_, ?_, ?_⟩
  · unfold addHex
    rw [hcount]
    exact t1
  · unfold addHex
    rw [hcount, t2]
    simp
  · simp only [List.length_map, List.length_reverse, List.length_range]
    have hL : significantHexDigits value ≤ n := (significant_le_iff value n).mpr hlt
    have hD : n = 16 ∨ minDigits ≤ n := by
      rcases hstop with h | ⟨_, h⟩
      · exact Or.inl h
      · right
        push_cast at h
        omega
    have hlow : n = 1 ∨ n ≤ significantHexDigits value ∨ (n : Int) ≤ minDigits := by
      by_cases hn1 : n = 1
      · exact Or.inl hn1
      · right
        rcases hbefore (n - 1) (by omega) (by omega) with h | h
        · left
          have h' : ¬ (value < 16 ^ (n - 1)) := fun hh =>
            h ((shiftRight_eq_zero_iff value (n - 1)).mpr hh)
          have h'' : ¬ significantHexDigits value ≤ n - 1 := fun hh =>
            h' ((significant_le_iff value (n - 1)).mp hh)
          omega
        · right
          push_cast at h
          omega
    omega
  · simp only [List.length_map, List.length_reverse, List.length_range]
    exact h1
  · simp only [List.length_map, List.length_reverse, List.length_range]
    exact h16
  · intro ch hch
    obtain ⟨k, _, hk⟩ := List.mem_map.mp hch
    rw [← hk]
    refine (hexDigitValue_hexChar _ ?_).2
    rw [nibble_eq]
    have := Nat.mod_lt (value / 16 ^ k) (by norm_num : 0 < 16)
    omega
  · unfold hexValue
    rw [hexText_value value n 0, Nat.zero_mul, Nat.zero_add]
    exact Nat.mod_eq_of_lt hlt

/-- C35 (amended), applied to `addHex(0x2f, 4)` on an unused stream, which appends
`002f`. -/
theorem addHex_spec_witness :
    (47 : Nat) < 2 ^ 64 ∧ (0 : Int) ≤ 4 ∧ (4 : Int) < 2 ^ 29 ∧
    getStdString (addHex unused 47 4) = [48, 48, 50, 102] ∧
    ∃ text, getStdString (addHex unused 47 4) = getStdString unused ++ text ∧
      (addHex unused 47 4).mLength = unused.mLength + text.length ∧
      (text.length : Int) = max 1 (max (significantHexDigits 47 : Int) (min 4 16)) ∧
      1 ≤ text.length ∧ text.length ≤ 16 ∧
      (∀ ch ∈ text, isLowerHexDigit ch) ∧
      hexValue text = 47 :=
  ⟨by norm_num, by norm_num, by norm_num, by decide,
    addHex_spec unused 47 4 (by norm_num) (by norm_num) (by norm_num)⟩

end FastStringStream

/-! ## `addDecimal` and the length of the stream -/

namespace FastStringStream

theorem binaryShift_le (value : Nat) (minDigits : Int) :
    ∀ left shift, binaryShift value minDigits left shift ≤ shift + left := by
  intro left
  induction left with
  | zero => intro shift; exact le_refl _
  | succ left ih =>
    intro shift
    simp only [binaryShift]
    split
    · have := ih (shift + 1)
      omega
    · omega

theorem hexShift_le (value : Nat) (minDigits : Int) :
    ∀ left shift, hexShift value minDigits left shift ≤ shift + 4 * left := by
  intro left
  induction left with
  | zero => intro shift; exact le_refl _
  | succ left ih =>
    intro shift
    simp only [hexShift]
    split
    · have := ih (shift + 4)
      omega
    · omega

/-- A call on the stream never lowers `mLength` and raises it by at most
`maxAppended`. -/
theorem perform_length (s : FastStringStream) (call : StreamCall) :
    s.mLength ≤ (perform s call).mLength ∧
    (perform s call).mLength ≤ s.mLength + maxAppended call := by
  cases call with
  | addChar ch => exact ⟨Nat.le_succ _, le_refl _⟩
  | addString str => exact ⟨Nat.le_add_right _ _, le_refl _⟩
  | addDecimal value minDigits =>
    simp only [perform, addDecimal, maxAppended]
    split
    · obtain ⟨h1, h2⟩ := decimalLoop_length (wrap64 (-value)) 19
        ((decimalDigitMax (wrap64 (-value)) minDigits 18 10).tdiv 10) (addChar s 45)
      rw [mLength_addChar] at h1 h2
      exact ⟨by omega, by omega⟩
    · split
      · rw [mLength_addChar]
        exact ⟨by omega, by omega⟩
      · obtain ⟨h1, h2⟩ := decimalLoop_length value 19
          ((decimalDigitMax value minDigits 18 10).tdiv 10) s
        exact ⟨h1, by omega⟩
  | addBinary value minDigits =>
    simp only [perform, addBinary, maxAppended]
    rw [binaryLoop_length]
    have := binaryShift_le value minDigits 63 1
    exact ⟨by omega, by omega⟩
  | addHex value minDigits =>
    simp only [perform, addHex, maxAppended]
    rw [(hexLoop_spec value _ s).2]
    have := hexShift_le value minDigits 15 4
    exact ⟨by omega, by omega⟩

theorem foldl_perform_length (calls : List StreamCall) :
    ∀ s : FastStringStream, s.mLength ≤ (calls.foldl perform s).mLength := by
  induction calls with
  | nil => intro s; exact le_refl _
  | cons call rest ih =>
    intro s
    exact le_trans (perform_length s call).1 (ih (perform s call))

end FastStringStream

namespace lemon.functions

open FastStringStream

theorem drop_shorter (rest fmt : List Nat) (k : Nat) (hne : rest ≠ [])
    (hle : rest.length ≤ fmt.length) : (rest.drop (k + 1)).length < fmt.length := by
  rw [List.length_drop]
  have : 0 < rest.length := List.length_pos.mpr hne
  omega

/-- An iteration that does not end the loop leaves fewer characters of the format
string than it found. -/
theorem formatIteration_shorter (resolve : Nat → Option (List Nat)) (fmt : List Nat)
    (argv : Int) (args : List Nat) (calls : List StreamCall) (fmt1 : List Nat) (argv1 : Int)
    (args1 : List Nat)
    (h : formatIteration resolve fmt argv args = (calls, some (fmt1, argv1, args1))) :
    fmt1.length < fmt.length := by
  have hle : (fmt.dropWhile (fun ch => decide (ch ≠ 37))).length ≤ fmt.length :=
    List.Sublist.length_le (List.dropWhile_sublist _)
  simp only [formatIteration] at h
  split_ifs at h with h1 h2 h3
  all_goals
    simp only [Prod.mk.injEq, Option.some.injEq, reduceCtorEq, and_false] at h
  all_goals
    obtain ⟨_, hf, _, _⟩ := h
    rw [← hf]
    exact drop_shorter _ _ _ h2 hle

theorem stringformatLoop_fuel (resolve : Nat → Option (List Nat)) :
    ∀ n m fmt argv args, fmt.length ≤ n → fmt.length ≤ m →
      stringformatLoop resolve n fmt argv args = stringformatLoop resolve m fmt argv args := by
  intro n
  induction n with
  | zero =>
    intro m fmt argv args hn _
    have hnil : fmt = [] := List.length_eq_zero.mp (by omega)
    subst hnil
    cases m with
    | zero => rfl
    | succ m => simp [stringformatLoop]
  | succ n ih =>
    intro m fmt argv args hn hm
    by_cases hnil : fmt = []
    · subst hnil
      cases m with
      | zero => simp [stringformatLoop]
      | succ m => simp [stringformatLoop]
    · have hpos : 0 < fmt.length := List.length_pos.mpr hnil
      cases m with
      | zero => omega
      | succ m =>
        simp only [stringformatLoop, if_neg hnil]
        cases hit : formatIteration resolve fmt argv args with
        | mk calls next =>
          cases next with
          | none => rfl
          | some triple =>
            obtain ⟨fmt1, argv1, args1⟩ := triple
            have hs := formatIteration_shorter resolve fmt argv args calls fmt1 argv1 args1 hit
            simp only
            rw [ih m fmt1 argv1 args1 (by omega) (by omega)]

end lemon.functions

/-! ## Claims on `addDecimal` and on the buffer of `stringformat` -/

namespace lemon.functions

open FastStringStream

/-- C33 fails on the code.  For the value 0 the early `return` skips the padding:
`addDecimal(0, 2)`, as `%02d` requests it, appends `0` and not `00`.  For a value of 19
digits or a minimum of 19 digits `digitMax` reaches `10 ^ 19`, which is not an `int64`;
taken modulo `2 ^ 64` it is negative and the `for` loop appends no digit at all:
`addDecimal(10 ^ 18, 0)` and `addDecimal(7, 19)` append nothing, and
`addDecimal(-10 ^ 18, 0)` appends the sign only.  A value in between is written as the
claim says: `addDecimal(-42, 5)` appends `-00042`. -/
theorem addDecimal_misses_digits :
    getStdString (addDecimal unused 0 2) = [48] ∧
    getStdString (stringformat noStrings unused twoDigitFormat 1 [0]) = [48] ∧
    wrap64 (10 ^ 19) = -8446744073709551616 ∧
    getStdString (addDecimal unused 1000000000000000000 0) = [] ∧
    getStdString (addDecimal unused (-1000000000000000000) 0) = [45] ∧
    getStdString (addDecimal unused 7 19) = [] ∧
    getStdString (stringformat noStrings unused nineteenDigitFormat 1 [7]) = [] ∧
    getStdString (addDecimal unused 999999999999999999 0) =
      [57, 57, 57, 57, 57, 57, 57, 57, 57, 57, 57, 57, 57, 57, 57, 57, 57, 57] ∧
    getStdString (addDecimal unused (-42) 5) = [45, 48, 48, 48, 52, 50] := by
  refine ⟨by decide, by decide, by decide, by decide, by decide, by decide, by decide,
    by decide, by decide⟩

/-- C34 as stated fails: for a format string of 257 characters and no arguments,
`stringformat` copies the whole string with one `addString`, and `mLength` is 257
afterwards, more than the `0x100` characters of the buffer. -/
theorem stringformat_overruns_buffer :
    longFormat.length = 257 ∧
    stringformatCalls noStrings longFormat 0 [] = [.addString longFormat] ∧
    (stringformat noStrings unused longFormat 0 []).mLength = 257 ∧
    ¬ ((stringformat noStrings unused longFormat 0 []).mLength ≤ 0x100) := by
  refine ⟨by decide, by decide, by decide, by decide⟩

/-- C34, amended: if the text that `stringformat` builds has at most `0x100` characters
(`mLength` at the end of the call), then `mLength` is at most `0x100` after every call
on the stream during `stringformat`.  Each call leaves `mLength` as it is or raises it,
by at most `maxAppended` characters; the class checks no bound.  The calls are those of
the complete loop: more iterations than the format string has characters add none. -/
theorem stringformat_stays_inside (resolve : Nat → Option (List Nat)) (stale : FastStringStream)
    (format : List Nat) (argv : Int) (args : List Nat)
    (h : (stringformat resolve stale format argv args).mLength ≤ 0x100) :
    (∀ k, (((stringformatCalls resolve format argv args).take k).foldl perform
      (clear stale)).mLength ≤ 0x100) ∧
    (∀ s call, s.mLength ≤ (perform s call).mLength ∧
      (perform s call).mLength ≤ s.mLength + maxAppended call) ∧
    (∀ extra, stringformatLoop resolve (format.length + extra) format argv args =
      stringformatCalls resolve format argv args) := by
  refine ⟨?_, perform_length, ?_⟩
  · intro k
    refine le_trans ?_ h
    unfold stringformat
    have hsplit := List.take_append_drop k (stringformatCalls resolve format argv args)
    conv_rhs => rw [← hsplit, List.foldl_append]
    exact foldl_perform_length _ _
  · intro extra
    exact stringformatLoop_fuel resolve _ _ format argv args (by omega) (le_refl _)

/-- C34 (amended), applied to the format string `id %04x, %d%% of %s` with the arguments
47, 12 and an unknown string key, which gives `id 002f, 12% of <?>`. -/
theorem stringformat_stays_inside_witness :
    (stringformat noStrings unused mixedFormat 3 [47, 12, 9]).mLength ≤ 0x100 ∧
    getStdString (stringformat noStrings unused mixedFormat 3 [47, 12, 9]) =
      [105, 100, 32, 48, 48, 50, 102, 44, 32, 49, 50, 37, 32, 111, 102, 32, 60, 63, 62] ∧
    ((∀ k, (((stringformatCalls noStrings mixedFormat 3 [47, 12, 9]).take k).foldl perform
      (clear unused)).mLength ≤ 0x100) ∧
    (∀ s call, s.mLength ≤ (perform s call).mLength ∧
      (perform s call).mLength ≤ s.mLength + maxAppended call) ∧
    (∀ extra, stringformatLoop noStrings (mixedFormat.length + extra) mixedFormat 3 [47, 12, 9] =
      stringformatCalls noStrings mixedFormat 3 [47, 12, 9])) :=
  ⟨by decide, by decide,
    stringformat_stays_inside noStrings unused mixedFormat 3 [47, 12, 9] (by decide)⟩

end lemon.functions

/-! ## `StringLookup`: lookups after `getOrAddString` calls -/

namespace StringLookup

theorem chainFind_append (chain more : List StoredString) (hash : Nat) :
    chainFind (chain ++ more) hash = (chainFind chain hash).or (chainFind more hash) := by
  induction chain with
  | nil => simp [chainFind]
  | cons e rest ih =>
    simp only [List.cons_append, chainFind]
    split
    · rfl
    · exact ih

theorem chainFind_some (chain : List StoredString) (hash : Nat) (e : StoredString)
    (h : chainFind chain hash = some e) : e ∈ chain ∧ e.mHash = hash := by
  induction chain with
  | nil => cases h
  | cons x rest ih =>
    simp only [chainFind] at h
    split at h
    · rename_i hx
      cases h
      exact ⟨List.mem_cons_self _ _, hx⟩
    · obtain ⟨h1, h2⟩ := ih h
      exact ⟨List.mem_cons_of_mem _ h1, h2⟩

theorem chainFind_none (chain : List StoredString) (hash : Nat) :
    chainFind chain hash = none ↔ ∀ e ∈ chain, e.mHash ≠ hash := by
  induction chain with
  | nil => simp [chainFind]
  | cons x rest ih =>
    simp only [chainFind, List.mem_cons, forall_eq_or_imp]
    split
    · rename_i hx
      simp [hx]
    · rename_i hx
      rw [ih]
      exact ⟨fun h => ⟨hx, h⟩, fun h => h.2⟩

theorem chainFind_eq_find (chain : List StoredString) (hash : Nat) :
    chainFind chain hash = chain.find? (fun e => decide (e.mHash = hash)) := by
  induction chain with
  | nil => rfl
  | cons x rest ih =>
    simp only [chainFind, List.find?_cons]
    by_cases hx : x.mHash = hash
    · simp [hx]
    · simp [hx, ih]

/-- What `getStringByHash` gives after one `getOrAddString(str, hash)`. -/
theorem get_getOrAdd (c : TableConstants) (l : StringLookup) (str : List Nat) (hash h : Nat) :
    getStringByHash c (getOrAddString c l str hash).2 h =
      if h = hash then
        (getStringByHash c l hash).or (some { mString := str, mHash := hash })
      else getStringByHash c l h := by
  unfold getOrAddString
  cases hf : chainFind (l.mTable (hash &&& c.HASH_TABLE_BITMASK)) hash with
  | some e =>
    simp only
    by_cases hh : h = hash
    · subst hh
      rw [if_pos rfl]
      unfold getStringByHash
      rw [hf]
      rfl
    · rw [if_neg hh]
  | none =>
    simp only
    unfold getStringByHash
    simp only
    by_cases hh : h = hash
    · subst hh
      rw [if_pos rfl, if_pos rfl, chainFind_append, hf]
      simp [chainFind]
    · rw [if_neg hh]
      by_cases hk : h &&& c.HASH_TABLE_BITMASK = hash &&& c.HASH_TABLE_BITMASK
      · rw [if_pos hk, chainFind_append, hk]
        have : chainFind [({ mString := str, mHash := hash } : StoredString)] h = none := by
          simp [chainFind, Ne.symm hh]
        rw [this]
        cases chainFind (l.mTable (hash &&& c.HASH_TABLE_BITMASK)) h <;> rfl
      · rw [if_neg hk]

theorem num_getOrAdd (c : TableConstants) (l : StringLookup) (str : List Nat) (hash : Nat) :
    (getOrAddString c l str hash).2.mNumEntries =
      l.mNumEntries + (if getStringByHash c l hash = none then 1 else 0) := by
  unfold getOrAddString getStringByHash
  cases hf : chainFind (l.mTable (hash &&& c.HASH_TABLE_BITMASK)) hash with
  | some e => simp
  | none => simp

theorem addAll_append (c : TableConstants) (calls more : List (List Nat × Nat)) :
    ∀ l, addAll c l (calls ++ more) = addAll c (addAll c l calls) more := by
  induction calls with
  | nil => intro l; rfl
  | cons call rest ih => intro l; exact ih _

/-- The lookup after a sequence of calls: what was there before, else the first call
with the hash. -/
theorem get_addAll (c : TableConstants) (calls : List (List Nat × Nat)) :
    ∀ l h, getStringByHash c (addAll c l calls) h =
      (getStringByHash c l h).or
        ((calls.find? (fun call => decide (call.2 = h))).map
          (fun call => { mString := call.1, mHash := call.2 })) := by
  induction calls with
  | nil =>
    intro l h
    simp only [addAll, List.find?_nil, Option.map_none']
    cases getStringByHash c l h <;> rfl
  | cons call rest ih =>
    intro l h
    simp only [addAll]
    rw [ih, get_getOrAdd, List.find?_cons]
    by_cases hh : call.2 = h
    · subst hh
      simp only [if_true, decide_True, Option.map_some']
      cases getStringByHash c l call.2 <;> rfl
    · have hh' : ¬ h = call.2 := fun e => hh e.symm
      simp only [hh', hh, if_false, decide_False]

theorem get_empty (c : TableConstants) (h : Nat) : getStringByHash c empty h = none := rfl

theorem get_addAll_none (c : TableConstants) (calls : List (List Nat × Nat)) (h : Nat) :
    getStringByHash c (addAll c empty calls) h = none ↔ h ∉ calls.map (fun call => call.2) := by
  rw [get_addAll, get_empty]
  simp only [Option.none_or, Option.map_eq_none', List.find?_eq_none, decide_eq_true_eq,
    List.mem_map, not_exists, not_and]

theorem num_addAll (c : TableConstants) (calls : List (List Nat × Nat)) :
    (addAll c empty calls).mNumEntries = (calls.map (fun call => call.2)).dedup.length := by
  induction calls using List.reverseRecOn with
  | nil => rfl
  | append_singleton calls call ih =>
    rw [addAll_append]
    simp only [addAll]
    rw [num_getOrAdd, ih, ← List.card_toFinset, ← List.card_toFinset, List.map_append,
      List.toFinset_append]
    simp only [List.map_cons, List.map_nil, List.toFinset_cons, List.toFinset_nil,
      insert_emptyc_eq]
    by_cases hm : call.2 ∈ calls.map (fun call => call.2)
    · have hg : ¬ getStringByHash c (addAll c empty calls) call.2 = none :=
        fun hh => (get_addAll_none c calls call.2).mp hh hm
      rw [if_neg hg, Nat.add_zero]
      congr 1
      ext x
      simp only [Finset.mem_union, List.mem_toFinset, Finset.mem_singleton]
      constructor
      · intro hx; exact Or.inl hx
      · rintro (hx | hx)
        · exact hx
        · rw [hx]; exact hm
    · have hg : getStringByHash c (addAll c empty calls) call.2 = none :=
        (get_addAll_none c calls call.2).mpr hm
      rw [if_pos hg, Finset.union_comm, ← Finset.insert_eq,
        Finset.card_insert_of_not_mem (by simpa using hm)]

end StringLookup

/-! ## Claim on `getOrAddString` and `getStringByHash` -/

namespace StringLookup

/-- C36: after any sequence of `getOrAddString(str, hash)` calls on an empty lookup,
`getStringByHash(h)` is null when no call used the hash `h`, and otherwise the entry
with the hash `h` and the string of the first call that used `h`; `mNumEntries` is the
number of distinct hashes among the calls.  A call whose hash is in the lookup already
returns the entry found and changes nothing. -/
theorem lookup_after_calls (c : TableConstants) (calls : List (List Nat × Nat)) :
    (∀ h, getStringByHash c (addAll c empty calls) h =
      (calls.find? (fun call => decide (call.2 = h))).map
        (fun call => { mString := call.1, mHash := call.2 })) ∧
    (∀ h, getStringByHash c (addAll c empty calls) h = none ↔
      h ∉ calls.map (fun call => call.2)) ∧
    (addAll c empty calls).mNumEntries = (calls.map (fun call => call.2)).dedup.length ∧
    (∀ (l : StringLookup) str hash e, getStringByHash c l hash = some e →
      getOrAddString c l str hash = (e, l)) := by
  refine ⟨?_, get_addAll_none c calls, num_addAll c calls, ?_⟩
  · intro h
    rw [get_addAll, get_empty]
    rfl
  · intro l str hash e he
    unfold getStringByHash at he
    unfold getOrAddString
    rw [he]

end StringLookup

/-! ## `StringLookup`: what `serialize` writes and reads -/

namespace StringLookup

theorem chainsInv_empty (c : TableConstants) : ChainsInv c empty :=
  ⟨fun _ _ he => (by cases he), fun _ => List.nodup_nil⟩

theorem chainsInv_getOrAdd (c : TableConstants) (l : StringLookup) (str : List Nat) (hash : Nat)
    (hl : ChainsInv c l) : ChainsInv c (getOrAddString c l str hash).2 := by
  unfold getOrAddString
  cases hf : chainFind (l.mTable (hash &&& c.HASH_TABLE_BITMASK)) hash with
  | some e => exact hl
  | none =>
    refine ⟨?_, ?_⟩
    · intro k e he
      simp only at he
      split at he
      · rename_i hk
        rcases List.mem_append.mp he with h1 | h1
        · exact hl.1 k e h1
        · rw [List.mem_singleton] at h1
          rw [h1, hk]
      · exact hl.1 k e he
    · intro k
      simp only
      split
      · rename_i hk
        rw [List.map_append, List.map_singleton, List.nodup_append]
        refine ⟨hl.2 k, List.nodup_singleton _, ?_⟩
        intro x hx hx'
        rw [List.mem_singleton] at hx'
        obtain ⟨e, he, hxe⟩ := List.mem_map.mp hx
        rw [hk] at he
        exact (chainFind_none _ _).mp hf e he (hxe.trans hx')
      · exact hl.2 k

theorem chainsInv_addAll (c : TableConstants) (calls : List (List Nat × Nat)) :
    ∀ l, ChainsInv c l → ChainsInv c (addAll c l calls) := by
  induction calls with
  | nil => intro l hl; exact hl
  | cons call rest ih => intro l hl; exact ih _ (chainsInv_getOrAdd c l _ _ hl)

theorem mem_getOrAdd (c : TableConstants) (l : StringLookup) (str : List Nat) (hash : Nat)
    (k : Nat) (e : StoredString) (he : e ∈ (getOrAddString c l str hash).2.mTable k) :
    e ∈ l.mTable k ∨ e = { mString := str, mHash := hash } := by
  unfold getOrAddString at he
  cases hf : chainFind (l.mTable (hash &&& c.HASH_TABLE_BITMASK)) hash with
  | some x =>
    rw [hf] at he
    exact Or.inl he
  | none =>
    rw [hf] at he
    simp only at he
    split at he
    · rcases List.mem_append.mp he with h1 | h1
      · exact Or.inl h1
      · exact Or.inr (List.mem_singleton.mp h1)
    · exact Or.inl he

theorem mem_addAll (c : TableConstants) (calls : List (List Nat × Nat)) :
    ∀ l k e, e ∈ (addAll c l calls).mTable k →
      e ∈ l.mTable k ∨ (e.mString, e.mHash) ∈ calls := by
  induction calls with
  | nil => intro l k e he; exact Or.inl he
  | cons call rest ih =>
    intro l k e he
    rcases ih _ k e he with h1 | h1
    · rcases mem_getOrAdd c l _ _ k e h1 with h2 | h2
      · exact Or.inl h2
      · right
        rw [h2]
        exact List.mem_cons_self _ _
    · exact Or.inr (List.mem_cons_of_mem _ h1)

theorem encode_append (f : SerializerFormat) (a b : List StoredString) :
    encode f (a ++ b) = encode f a ++ encode f b := by
  unfold encode
  exact List.flatMap_append _ _ _

theorem writeChain_eq (f : SerializerFormat) (chain : List StoredString) :
    ∀ data, writeChain f chain data = data ++ encode f chain := by
  induction chain with
  | nil => intro data; simp [writeChain, encode]
  | cons e rest ih =>
    intro data
    simp only [writeChain]
    rw [ih]
    simp [encode, List.append_assoc]

theorem writeTable_eq (f : SerializerFormat) (l : StringLookup) (left : Nat) :
    ∀ k data, writeTable f l left k data =
      data ++ encode f ((List.range' k left).flatMap l.mTable) := by
  induction left with
  | zero => intro k data; simp [writeTable, encode]
  | succ n ih =>
    intro k data
    simp only [writeTable]
    rw [ih, writeChain_eq, List.range'_succ, List.flatMap_cons, encode_append,
      List.append_assoc]

/-- What the writing branch of `serialize` produces. -/
theorem serialize_write (f : SerializerFormat) (c : TableConstants) (l : StringLookup)
    (data : List Nat) :
    serialize f c false l data =
      (l, data ++ f.write32 (l.mNumEntries % 2 ^ 32) ++ encode f (entries c l)) := by
  unfold serialize entries
  simp only [Bool.false_eq_true, if_false]
  rw [writeTable_eq, List.range_eq_range']

theorem serialize_reading (f : SerializerFormat) (c : TableConstants) (l : StringLookup)
    (data : List Nat) :
    serialize f c true l data = readEntries f c (f.read32 data).1 l (f.read32 data).2 := rfl

theorem readEntries_succ (f : SerializerFormat) (c : TableConstants) (count : Nat)
    (l : StringLookup) (data : List Nat) :
    readEntries f c (count + 1) l data =
      readEntries f c count
        (getOrAddString c l (f.readString (f.read64 data).2).1 (f.read64 data).1).2
        (f.readString (f.read64 data).2).2 := rfl

theorem readEntries_encode (f : SerializerFormat) (c : TableConstants) (hf : Lawful f)
    (es : List StoredString) :
    ∀ (l : StringLookup) (rest : List Nat), (∀ e ∈ es, e.mHash < 2 ^ 64) →
      readEntries f c es.length l (encode f es ++ rest) =
        (addAll c l (es.map (fun e => (e.mString, e.mHash))), rest) := by
  induction es with
  | nil => intro l rest _; simp [readEntries, encode, addAll]
  | cons e more ih =>
    intro l rest hh
    have he : e.mHash < 2 ^ 64 := hh e (List.mem_cons_self _ _)
    have hmore : ∀ x ∈ more, x.mHash < 2 ^ 64 := fun x hx => hh x (List.mem_cons_of_mem _ hx)
    have hdata : encode f (e :: more) ++ rest =
        f.write64 e.mHash ++ (f.writeString e.mString ++ (encode f more ++ rest)) := by
      simp [encode, List.append_assoc]
    rw [hdata, List.length_cons, readEntries_succ, hf.2.1 _ _ he, hf.2.2]
    exact ih _ _ hmore

/-- Reading what `serialize` wrote for a lookup with fewer than `2 ^ 32` entries, all
of whose hashes are `uint64` values: the reading loop adds the entries in the order
written. -/
theorem serialize_read (f : SerializerFormat) (c : TableConstants) (hf : Lawful f)
    (l target : StringLookup) (hlen : (entries c l).length = l.mNumEntries)
    (hn : l.mNumEntries < 2 ^ 32) (hh : ∀ e ∈ entries c l, e.mHash < 2 ^ 64) :
    serialize f c true target (serialize f c false l []).2 =
      (addAll c target ((entries c l).map (fun e => (e.mString, e.mHash))), []) := by
  rw [serialize_write, serialize_reading, List.nil_append, Nat.mod_eq_of_lt hn, hf.1 _ _ hn]
  have := readEntries_encode f c hf (entries c l) target [] hh
  rw [List.append_nil, hlen] at this
  exact this

/-- A count that is a multiple of `2 ^ 32` is written as 0, and nothing is read back. -/
theorem serialize_wrapped_count (f : SerializerFormat) (c : TableConstants) (hf : Lawful f)
    (l target : StringLookup) (h0 : l.mNumEntries % 2 ^ 32 = 0) :
    (serialize f c true target (serialize f c false l []).2).1 = target := by
  rw [serialize_write, serialize_reading, List.nil_append, h0, hf.1 0 _ (by norm_num)]
  rfl

theorem find_buckets (c : TableConstants) (l : StringLookup) (hl : ChainsInv c l) (h : Nat)
    (ks : List Nat) :
    (ks.flatMap l.mTable).find? (fun e => decide (e.mHash = h)) =
      if h &&& c.HASH_TABLE_BITMASK ∈ ks then getStringByHash c l h else none := by
  induction ks with
  | nil => rfl
  | cons k rest ih =>
    rw [List.flatMap_cons, List.find?_append, ih, ← chainFind_eq_find]
    by_cases hk : h &&& c.HASH_TABLE_BITMASK = k
    · subst hk
      rw [if_pos (List.mem_cons_self _ _)]
      unfold getStringByHash
      cases chainFind (l.mTable (h &&& c.HASH_TABLE_BITMASK)) h with
      | some e => rfl
      | none => split <;> rfl
    · have hnone : chainFind (l.mTable k) h = none := by
        rw [chainFind_none]
        intro e he heq
        apply hk
        rw [← heq]
        exact hl.1 k e he
      rw [hnone, Option.none_or]
      by_cases hm : h &&& c.HASH_TABLE_BITMASK ∈ rest
      · rw [if_pos hm, if_pos (List.mem_cons_of_mem _ hm)]
      · rw [if_neg hm, if_neg]
        intro hx
        rcases List.mem_cons.mp hx with h1 | h1
        · exact hk h1
        · exact hm h1

theorem find_entries (c : TableConstants) (l : StringLookup) (hl : ChainsInv c l)
    (hc : InRange c) (h : Nat) :
    (entries c l).find? (fun e => decide (e.mHash = h)) = getStringByHash c l h := by
  unfold entries
  rw [find_buckets c l hl h, if_pos (List.mem_range.mpr (hc h))]

theorem entries_nodup (c : TableConstants) (l : StringLookup) (hl : ChainsInv c l) :
    ((entries c l).map (fun e => e.mHash)).Nodup := by
  unfold entries
  rw [List.map_flatMap, List.nodup_flatMap]
  refine ⟨fun k _ => hl.2 k, ?_⟩
  apply List.Nodup.pairwise_of_forall_ne (List.nodup_range _)
  intro a _ b _ hab
  show List.Disjoint _ _
  intro x hxa hxb
  obtain ⟨ea, hea, rfl⟩ := List.mem_map.mp hxa
  obtain ⟨eb, heb, hxe⟩ := List.mem_map.mp hxb
  apply hab
  rw [← hl.1 a ea hea, ← hl.1 b eb heb, hxe]

theorem mem_entries_iff (c : TableConstants) (l : StringLookup) (hl : ChainsInv c l)
    (hc : InRange c) (h : Nat) :
    h ∈ (entries c l).map (fun e => e.mHash) ↔ getStringByHash c l h ≠ none := by
  rw [← find_entries c l hl hc h, Ne, List.find?_eq_none]
  simp only [List.mem_map, decide_eq_true_eq, not_forall, not_not]
  constructor
  · rintro ⟨e, he, heq⟩
    exact ⟨e, he, heq⟩
  · rintro ⟨e, he, heq⟩
    exact ⟨e, he, heq⟩

theorem entries_length (c : TableConstants) (hc : InRange c) (calls : List (List Nat × Nat)) :
    (entries c (addAll c empty calls)).length = (addAll c empty calls).mNumEntries := by
  have hl := chainsInv_addAll c calls empty (chainsInv_empty c)
  rw [num_addAll, ← List.card_toFinset, ← List.length_map (entries c (addAll c empty calls))
    (fun e => e.mHash), ← List.toFinset_card_of_nodup (entries_nodup c _ hl)]
  congr 1
  ext h
  rw [List.mem_toFinset, List.mem_toFinset, mem_entries_iff c _ hl hc h, Ne,
    get_addAll_none, not_not]

theorem entries_hashes (c : TableConstants) (calls : List (List Nat × Nat))
    (hh : ∀ call ∈ calls, call.2 < 2 ^ 64) :
    ∀ e ∈ entries c (addAll c empty calls), e.mHash < 2 ^ 64 := by
  intro e he
  unfold entries at he
  obtain ⟨k, _, hek⟩ := List.mem_flatMap.mp he
  rcases mem_addAll c calls empty k e hek with h1 | h1
  · cases h1
  · exact hh _ h1

theorem num_distinctCalls (c : TableConstants) (n : Nat) :
    (addAll c empty (distinctCalls n)).mNumEntries = n := by
  rw [num_addAll]
  unfold distinctCalls
  rw [List.map_map]
  have : ((fun call : List Nat × Nat => call.2) ∘ fun h => (([] : List Nat), h)) = id := rfl
  rw [this, List.map_id, (List.nodup_range n).dedup, List.length_range]

theorem get_distinctCalls (c : TableConstants) (n : Nat) (hn : 0 < n) :
    getStringByHash c (addAll c empty (distinctCalls n)) 0 =
      some { mString := [], mHash := 0 } := by
  rw [get_addAll, get_empty, Option.none_or]
  obtain ⟨m, rfl⟩ : ∃ m, n = m + 1 := ⟨n - 1, by omega⟩
  unfold distinctCalls
  rw [List.range_succ_eq_map, List.map_cons, List.find?_cons]
  rfl

theorem cellFormat_lawful : Lawful cellFormat := by
  refine ⟨fun v rest _ => rfl, fun v rest _ => rfl, fun str rest => ?_⟩
  show ((str ++ rest).take str.length, (str ++ rest).drop str.length) = (str, rest)
  rw [List.take_left, List.drop_left]

theorem smallTable_inRange : InRange smallTable := by
  intro hash
  show hash &&& 3 < 4
  exact Nat.lt_succ_of_le Nat.and_le_right

end StringLookup

/-! ## Claim on the round trip through `serialize` -/

namespace StringLookup

/-- C37, as stated, fails: a lookup with `2 ^ 32` entries (here the hashes 0 to
`2 ^ 32 - 1`) writes the entry count 0, so that reading the bytes into an empty lookup
reads no entry: the lookup read has 0 entries and no entry for the hash 0, which the
lookup written has. -/
theorem round_trip_loses_wrapped_count :
    (addAll smallTable empty (distinctCalls 4294967296)).mNumEntries = 4294967296 ∧
    getStringByHash smallTable (addAll smallTable empty (distinctCalls 4294967296)) 0 =
      some { mString := [], mHash := 0 } ∧
    (serialize cellFormat smallTable true empty
      (serialize cellFormat smallTable false
        (addAll smallTable empty (distinctCalls 4294967296)) []).2).1.mNumEntries = 0 ∧
    getStringByHash smallTable
      (serialize cellFormat smallTable true empty
        (serialize cellFormat smallTable false
          (addAll smallTable empty (distinctCalls 4294967296)) []).2).1 0 = none := by
  have h0 : (addAll smallTable empty (distinctCalls 4294967296)).mNumEntries % 2 ^ 32 = 0 := by
    rw [num_distinctCalls smallTable 4294967296]
    norm_num
  have hb := serialize_wrapped_count cellFormat smallTable cellFormat_lawful
    (addAll smallTable empty (distinctCalls 4294967296)) empty h0
  refine ⟨num_distinctCalls smallTable 4294967296,
    get_distinctCalls smallTable 4294967296 (by norm_num), ?_, ?_⟩
  · rw [hb]
    rfl
  · rw [hb]
    rfl

/-- C37, amended: let `A` be the lookup after any sequence of `getOrAddString(str, hash)`
calls with `uint64` hashes on an empty lookup, holding fewer than `2 ^ 32` entries.
Writing `A` with `serialize` leaves `A` as it is, and reading the bytes written with
`serialize` into an empty lookup `B` consumes all of them and gives `B` the same number
of entries as `A` and, for every hash `h`, the same result of `getStringByHash(h)` (the
same string and hash, null exactly when `A` has none).  The serializer format is any
format that reads back what it wrote; every hash has its bucket inside the table. -/
theorem serialize_round_trip (f : SerializerFormat) (c : TableConstants)
    (calls : List (List Nat × Nat)) (hf : Lawful f) (hc : InRange c)
    (hh : ∀ call ∈ calls, call.2 < 2 ^ 64)
    (hn : (addAll c empty calls).mNumEntries < 2 ^ 32) :
    (serialize f c false (addAll c empty calls) []).1.mNumEntries =
      (addAll c empty calls).mNumEntries ∧
    (∀ h, getStringByHash c (serialize f c false (addAll c empty calls) []).1 h =
      getStringByHash c (addAll c empty calls) h) ∧
    (serialize f c true empty (serialize f c false (addAll c empty calls) []).2).2 = [] ∧
    (serialize f c true empty (serialize f c false (addAll c empty calls) []).2).1.mNumEntries =
      (addAll c empty calls).mNumEntries ∧
    (∀ h, getStringByHash c
        (serialize f c true empty (serialize f c false (addAll c empty calls) []).2).1 h =
      getStringByHash c (addAll c empty calls) h) := by
  have hl := chainsInv_addAll c calls empty (chainsInv_empty c)
  have hlen := entries_length c hc calls
  have hread := serialize_read f c hf (addAll c empty calls) empty hlen hn
    (entries_hashes c calls hh)
  refine ⟨?_, ?_, ?_, ?_, ?_⟩
  · rw [serialize_write]
  · intro h
    rw [serialize_write]
  · rw [hread]
  · rw [hread, num_addAll, List.map_map]
    have hfun : ((fun call : List Nat × Nat => call.2) ∘
        fun e : StoredString => (e.mString, e.mHash)) = fun e => e.mHash := rfl
    rw [hfun, (entries_nodup c _ hl).dedup, List.length_map, hlen]
  · intro h
    rw [hread, get_addAll, get_empty, Option.none_or, List.find?_map]
    have hfun : ((fun call : List Nat × Nat => decide (call.2 = h)) ∘
        fun e : StoredString => (e.mString, e.mHash)) = fun e => decide (e.mHash = h) := rfl
    rw [hfun, find_entries c _ hl hc h, Option.map_map]
    cases getStringByHash c (addAll c empty calls) h <;> rfl

/-- C37, amended, on four calls into a table of 4 buckets, written as cells: the lookup
read back has the 3 entries of the lookup written, and the hash 5 gives the string of
its first call in both. -/
theorem serialize_round_trip_witness :
    (addAll smallTable empty sampleStrings).mNumEntries = 3 ∧
    (serialize cellFormat smallTable false (addAll smallTable empty sampleStrings) []).2 =
      [3, 5, 1, 97, 9, 2, 98, 99, 2, 0] ∧
    getStringByHash smallTable (addAll smallTable empty sampleStrings) 5 =
      some { mString := [97], mHash := 5 } ∧
    ((serialize cellFormat smallTable false
        (addAll smallTable empty sampleStrings) []).1.mNumEntries =
      (addAll smallTable empty sampleStrings).mNumEntries ∧
    (∀ h, getStringByHash smallTable
        (serialize cellFormat smallTable false (addAll smallTable empty sampleStrings) []).1 h =
      getStringByHash smallTable (addAll smallTable empty sampleStrings) h) ∧
    (serialize cellFormat smallTable true empty
      (serialize cellFormat smallTable false
        (addAll smallTable empty sampleStrings) []).2).2 = [] ∧
    (serialize cellFormat smallTable true empty
      (serialize cellFormat smallTable false
        (addAll smallTable empty sampleStrings) []).2).1.mNumEntries =
      (addAll smallTable empty sampleStrings).mNumEntries ∧
    (∀ h, getStringByHash smallTable
        (serialize cellFormat smallTable true empty
          (serialize cellFormat smallTable false
            (addAll smallTable empty sampleStrings) []).2).1 h =
      getStringByHash smallTable (addAll smallTable empty sampleStrings) h)) :=
  ⟨by decide, by decide, by decide,
    serialize_round_trip cellFormat smallTable sampleStrings cellFormat_lawful
      smallTable_inRange (by decide) (by decide)⟩

end StringLookup
